import Mathlib

/-!
# Provisioner job dispatch and lifecycle engine

A shallow embedding of `coderd/provisionerdserver/provisionerdserver.go`.

* Go values become Lean structures with the Go field names.
* The store (`database.Store`) and the notifier (`database.Pubsub`) are Go
  interfaces: they are records of operations over an abstract state, so every
  statement about the server holds for every implementation.
* Each RPC is a function from the world before the call to its result and the
  world after it.  The world carries the store state, the notifier state, the
  package-level `lastAcquire` variable, and the trace of store and notifier
  calls made so far.
* Clock readings, fresh UUIDs and library functions whose code is outside the
  repository are supplied by an environment record.
-/

set_option autoImplicit false
set_option linter.dupNamespace false

/-! ## Errors -/

/-- Go error values: the `sql.ErrNoRows` sentinel, a leaf error carrying a
message (`xerrors.New`, or `Errorf` without `%w`), and an error wrapping a
cause (`xerrors.Errorf("msg: %w", err)`).  A run-time panic, after which the
call does not return, is the outcome `panic`. -/
inductive Error where
  | ErrNoRows : Error
  | new (msg : String) : Error
  | wrap (msg : String) (cause : Error) : Error
  | panic (msg : String) : Error
  deriving DecidableEq, Repr, Inhabited

namespace Error

/-- The `Error()` method: the message of an error. -/
def Error : Error → String
  | .ErrNoRows => "sql: no rows in result set"
  | .new msg => msg
  | .wrap msg cause => msg ++ ": " ++ cause.Error
  | .panic msg => msg

end Error

deriving instance DecidableEq for Except

namespace errors

/-- Go `errors.Is`: the error or one of the errors it wraps is the target. -/
def Is : Error → Error → Bool
  | .wrap msg cause, target => (Error.wrap msg cause == target) || Is cause target
  | err, target => err == target

end errors

/-! ## Time -/

namespace time

/-- Go `time.Time`, in nanoseconds counted from the zero instant
(January 1, year 1, 00:00:00 UTC). -/
abbrev Time := Int

/-- Go `time.Duration`: a count of nanoseconds held in an int64. -/
abbrev Duration := Int

def minDuration : Duration := -(2 ^ 63)

def maxDuration : Duration := 2 ^ 63 - 1

/-- The nanoseconds between the zero instant and the Unix epoch. -/
def unixEpoch : Time := 62135596800 * 1000000000

/-- Go `Time.IsZero`. -/
def IsZero (t : Time) : Bool := t == 0

/-- Go `Time.Sub`: the difference, saturated to the int64 range. -/
def Sub (t u : Time) : Duration :=
  if t - u > maxDuration then maxDuration
  else if t - u < minDuration then minDuration
  else t - u

/-- Go `Time.Add`. -/
def Add (t : Time) (d : Duration) : Time := t + d

/-- Go `Time.UnixMilli`. -/
def UnixMilli (t : Time) : Int := (t - unixEpoch) / 1000000

/-- Go `time.UnixMilli`. -/
def FromUnixMilli (msec : Int) : Time := unixEpoch + msec * 1000000

end time

/-! ## Identifiers and nullable values -/

namespace uuid

/-- A UUID, identified with its canonical text: the value of Go's
`UUID.String`, which determines the UUID. -/
structure UUID where
  String : String
  deriving DecidableEq, Repr, Inhabited

/-- Go `uuid.Nil`, the all-zero UUID; it is the zero value of the type. -/
def Nil : UUID := ⟨"00000000-0000-0000-0000-000000000000"⟩

/-- Go `uuid.NullUUID`. -/
structure NullUUID where
  UUID : UUID := Nil
  Valid : Bool := false
  deriving DecidableEq, Repr, Inhabited

end uuid

namespace sql

/-- Go `sql.NullTime`. -/
structure NullTime where
  Time : time.Time := 0
  Valid : Bool := false
  deriving DecidableEq, Repr, Inhabited

/-- Go `sql.NullString`. -/
structure NullString where
  String : String := ""
  Valid : Bool := false
  deriving DecidableEq, Repr, Inhabited

/-- The value a nullable string holds: none when it is null. -/
def NullString.value (s : NullString) :=
  if s.Valid then some s.String else none

/-- Go `sql.NullInt64`. -/
structure NullInt64 where
  Int64 : Int := 0
  Valid : Bool := false
  deriving DecidableEq, Repr, Inhabited

end sql

/-- Go `[]byte`. -/
abbrev Bytes := List Nat

namespace json

/-- Go `json.RawMessage`: the text of a JSON document. -/
abbrev RawMessage := String

end json

namespace pqtype

/-- Go `pqtype.NullRawMessage`. -/
structure NullRawMessage where
  RawMessage : json.RawMessage := ""
  Valid : Bool := false
  deriving DecidableEq, Repr, Inhabited

end pqtype


/-! ## Storage types (package `database`)

The row and parameter structures are declared in generated files outside the
sources at hand; they carry the fields the server reads and writes.  An
enumeration is a Go string type: its declared constants, and `other s` for a
string that is none of them (the zero value is `other ""`).  A field named
`Type` in Go is `Type_` here. -/

namespace database

inductive ProvisionerType where
  | echo | terraform | other (s : String)
  deriving DecidableEq, Repr, Inhabited

def ProvisionerType.String : ProvisionerType → String
  | .echo => "echo" | .terraform => "terraform" | .other s => s

inductive ProvisionerJobType where
  | TemplateVersionImport | WorkspaceBuild | TemplateVersionDryRun | other (s : String)
  deriving DecidableEq, Repr, Inhabited

inductive ProvisionerStorageMethod where
  | File | other (s : String)
  deriving DecidableEq, Repr, Inhabited

def ProvisionerStorageMethod.String : ProvisionerStorageMethod → String
  | .File => "file" | .other s => s

inductive WorkspaceTransition where
  | Start | Stop | Delete | other (s : String)
  deriving DecidableEq, Repr, Inhabited

def WorkspaceTransition.String : WorkspaceTransition → String
  | .Start => "start" | .Stop => "stop" | .Delete => "delete" | .other s => s

inductive LogLevel where
  | Trace | Debug | Info | Warn | Error | other (s : String)
  deriving DecidableEq, Repr, Inhabited

inductive LogSource where
  | ProvisionerDaemon | Provisioner | other (s : String)
  deriving DecidableEq, Repr, Inhabited

inductive ParameterTypeSystem where
  | None | HCL | other (s : String)
  deriving DecidableEq, Repr, Inhabited

inductive ParameterSourceScheme where
  | None | Data | other (s : String)
  deriving DecidableEq, Repr, Inhabited

inductive ParameterDestinationScheme where
  | None | EnvironmentVariable | ProvisionerVariable | other (s : String)
  deriving DecidableEq, Repr, Inhabited

def ParameterDestinationScheme.String : ParameterDestinationScheme → String
  | .None => "none" | .EnvironmentVariable => "environment_variable"
  | .ProvisionerVariable => "provisioner_variable" | .other s => s

inductive WorkspaceAppHealth where
  | Disabled | Initializing | Healthy | Unhealthy
  deriving DecidableEq, Repr, Inhabited

inductive AppSharingLevel where
  | Owner | Authenticated | Public
  deriving DecidableEq, Repr, Inhabited

structure ProvisionerJob where
  ID : uuid.UUID := uuid.Nil
  CreatedAt : time.Time := 0
  UpdatedAt : time.Time := 0
  StartedAt : sql.NullTime := {}
  CanceledAt : sql.NullTime := {}
  CompletedAt : sql.NullTime := {}
  Error : sql.NullString := {}
  InitiatorID : uuid.UUID := uuid.Nil
  Provisioner : ProvisionerType := .other ""
  StorageMethod : ProvisionerStorageMethod := .other ""
  Type_ : ProvisionerJobType := .other ""
  Input : json.RawMessage := ""
  WorkerID : uuid.NullUUID := {}
  FileID : uuid.UUID := uuid.Nil
  Tags : json.RawMessage := ""
  deriving DecidableEq, Repr, Inhabited

structure User where
  ID : uuid.UUID := uuid.Nil
  Username : String := ""
  Email : String := ""
  deriving DecidableEq, Repr, Inhabited

structure WorkspaceBuild where
  ID : uuid.UUID := uuid.Nil
  UpdatedAt : time.Time := 0
  WorkspaceID : uuid.UUID := uuid.Nil
  TemplateVersionID : uuid.UUID := uuid.Nil
  Transition : WorkspaceTransition := .other ""
  ProvisionerState : Option Bytes := none
  JobID : uuid.UUID := uuid.Nil
  Deadline : time.Time := 0
  deriving DecidableEq, Repr, Inhabited

structure Workspace where
  ID : uuid.UUID := uuid.Nil
  OwnerID : uuid.UUID := uuid.Nil
  Name : String := ""
  Deleted : Bool := false
  Ttl : sql.NullInt64 := {}
  deriving DecidableEq, Repr, Inhabited

structure TemplateVersion where
  ID : uuid.UUID := uuid.Nil
  TemplateID : uuid.NullUUID := {}
  UpdatedAt : time.Time := 0
  Readme : String := ""
  JobID : uuid.UUID := uuid.Nil
  deriving DecidableEq, Repr, Inhabited

structure Template where
  ID : uuid.UUID := uuid.Nil
  deriving DecidableEq, Repr, Inhabited

structure File where
  ID : uuid.UUID := uuid.Nil
  Data : Bytes := []
  deriving DecidableEq, Repr, Inhabited

structure ProvisionerJobLog where
  ID : Int := 0
  JobID : uuid.UUID := uuid.Nil
  CreatedAt : time.Time := 0
  Source : LogSource := .other ""
  Level : LogLevel := .other ""
  Stage : String := ""
  Output : String := ""
  deriving DecidableEq, Repr, Inhabited

structure ParameterValue where
  ID : uuid.UUID := uuid.Nil
  Name : String := ""
  SourceScheme : ParameterSourceScheme := .other ""
  SourceValue : String := ""
  DestinationScheme : ParameterDestinationScheme := .other ""
  deriving DecidableEq, Repr, Inhabited

structure AcquireProvisionerJobParams where
  StartedAt : sql.NullTime := {}
  WorkerID : uuid.NullUUID := {}
  Types : List ProvisionerType := []
  Tags : json.RawMessage := ""
  deriving DecidableEq, Repr, Inhabited

structure UpdateProvisionerJobByIDParams where
  ID : uuid.UUID := uuid.Nil
  UpdatedAt : time.Time := 0
  deriving DecidableEq, Repr, Inhabited

structure UpdateProvisionerJobWithCompleteByIDParams where
  ID : uuid.UUID := uuid.Nil
  UpdatedAt : time.Time := 0
  CompletedAt : sql.NullTime := {}
  Error : sql.NullString := {}
  deriving DecidableEq, Repr, Inhabited

structure InsertProvisionerJobLogsParams where
  JobID : uuid.UUID := uuid.Nil
  CreatedAt : List time.Time := []
  Source : List LogSource := []
  Level : List LogLevel := []
  Stage : List String := []
  Output : List String := []
  deriving DecidableEq, Repr, Inhabited

structure UpdateTemplateVersionDescriptionByJobIDParams where
  JobID : uuid.UUID := uuid.Nil
  Readme : String := ""
  UpdatedAt : time.Time := 0
  deriving DecidableEq, Repr, Inhabited

structure InsertParameterSchemaParams where
  ID : uuid.UUID := uuid.Nil
  CreatedAt : time.Time := 0
  JobID : uuid.UUID := uuid.Nil
  Name : String := ""
  Description : String := ""
  DefaultSourceScheme : ParameterSourceScheme := .other ""
  DefaultSourceValue : String := ""
  AllowOverrideSource : Bool := false
  DefaultDestinationScheme : ParameterDestinationScheme := .other ""
  AllowOverrideDestination : Bool := false
  DefaultRefresh : String := ""
  RedisplayValue : Bool := false
  ValidationError : String := ""
  ValidationCondition : String := ""
  ValidationTypeSystem : ParameterTypeSystem := .other ""
  ValidationValueType : String := ""
  Index : Int := 0
  deriving DecidableEq, Repr, Inhabited

/-- The row `InsertParameterSchema` returns; the server discards it. -/
abbrev ParameterSchema := InsertParameterSchemaParams

structure UpdateWorkspaceBuildByIDParams where
  ID : uuid.UUID := uuid.Nil
  UpdatedAt : time.Time := 0
  ProvisionerState : Option Bytes := none
  Deadline : time.Time := 0
  deriving DecidableEq, Repr, Inhabited

structure UpdateWorkspaceDeletedByIDParams where
  ID : uuid.UUID := uuid.Nil
  Deleted : Bool := false
  deriving DecidableEq, Repr, Inhabited

structure InsertWorkspaceResourceParams where
  ID : uuid.UUID := uuid.Nil
  CreatedAt : time.Time := 0
  JobID : uuid.UUID := uuid.Nil
  Transition : WorkspaceTransition := .other ""
  Type_ : String := ""
  Name : String := ""
  Hide : Bool := false
  Icon : String := ""
  InstanceType : sql.NullString := {}
  DailyCost : Int := 0
  deriving DecidableEq, Repr, Inhabited

/-- The row of a workspace resource: the columns of its insert. -/
abbrev WorkspaceResource := InsertWorkspaceResourceParams

structure InsertWorkspaceAgentParams where
  ID : uuid.UUID := uuid.Nil
  CreatedAt : time.Time := 0
  UpdatedAt : time.Time := 0
  Name : String := ""
  ResourceID : uuid.UUID := uuid.Nil
  AuthToken : uuid.UUID := uuid.Nil
  AuthInstanceID : sql.NullString := {}
  Architecture : String := ""
  EnvironmentVariables : pqtype.NullRawMessage := {}
  OperatingSystem : String := ""
  StartupScript : sql.NullString := {}
  Directory : String := ""
  ConnectionTimeoutSeconds : Int := 0
  TroubleshootingURL : String := ""
  deriving DecidableEq, Repr, Inhabited

/-- The row of a workspace agent: the columns of its insert. -/
abbrev WorkspaceAgent := InsertWorkspaceAgentParams

structure InsertWorkspaceAppParams where
  ID : uuid.UUID := uuid.Nil
  CreatedAt : time.Time := 0
  AgentID : uuid.UUID := uuid.Nil
  Slug : String := ""
  DisplayName : String := ""
  Icon : String := ""
  Command : sql.NullString := {}
  Url : sql.NullString := {}
  Subdomain : Bool := false
  SharingLevel : AppSharingLevel := .Owner
  HealthcheckUrl : String := ""
  HealthcheckInterval : Int := 0
  HealthcheckThreshold : Int := 0
  Health : WorkspaceAppHealth := .Disabled
  deriving DecidableEq, Repr, Inhabited

/-- The row of a workspace app: the columns of its insert. -/
abbrev WorkspaceApp := InsertWorkspaceAppParams

structure InsertWorkspaceResourceMetadataParams where
  WorkspaceResourceID : uuid.UUID := uuid.Nil
  Key : String := ""
  Value : sql.NullString := {}
  Sensitive : Bool := false
  deriving DecidableEq, Repr, Inhabited

/-- The row of a resource metadata item: the columns of its insert. -/
abbrev WorkspaceResourceMetadatum := InsertWorkspaceResourceMetadataParams

end database

namespace parameter

/-- Go `parameter.ComputeScope`. -/
structure ComputeScope where
  TemplateImportJobID : uuid.UUID := uuid.Nil
  TemplateID : uuid.NullUUID := {}
  WorkspaceID : uuid.NullUUID := {}
  AdditionalParameterValues : List database.ParameterValue := []
  deriving DecidableEq, Repr, Inhabited

/-- Go `parameter.ComputedValue`: a parameter value (the server reads its
name, source value and destination scheme). -/
abbrev ComputedValue := database.ParameterValue

end parameter

/-! ## Wire types (packages `provisionersdk/proto` and `provisionerd/proto`)

A wire enumeration is a Go int32 type: its declared constants, and `other n`
for a number that is none of them.  A `oneof` field is an option of a sum. -/

namespace sdkproto

inductive LogLevel where
  | TRACE | DEBUG | INFO | WARN | ERROR | other (n : Int)
  deriving DecidableEq, Repr, Inhabited

inductive ParameterSource_Scheme where
  | DATA | other (n : Int)
  deriving DecidableEq, Repr, Inhabited

inductive ParameterDestination_Scheme where
  | ENVIRONMENT_VARIABLE | PROVISIONER_VARIABLE | other (n : Int)
  deriving DecidableEq, Repr, Inhabited

inductive ParameterSchema_TypeSystem where
  | None | HCL | other (n : Int)
  deriving DecidableEq, Repr, Inhabited

inductive WorkspaceTransition where
  | START | STOP | DESTROY | other (n : Int)
  deriving DecidableEq, Repr, Inhabited

inductive AppSharingLevel where
  | OWNER | AUTHENTICATED | PUBLIC | other (n : Int)
  deriving DecidableEq, Repr, Inhabited

structure ParameterSource where
  Scheme : ParameterSource_Scheme := .DATA
  Value : String := ""
  deriving DecidableEq, Repr, Inhabited

structure ParameterDestination where
  Scheme : ParameterDestination_Scheme := .ENVIRONMENT_VARIABLE
  deriving DecidableEq, Repr, Inhabited

structure ParameterValue where
  DestinationScheme : ParameterDestination_Scheme := .ENVIRONMENT_VARIABLE
  Name : String := ""
  Value : String := ""
  deriving DecidableEq, Repr, Inhabited

structure ParameterSchema where
  Name : String := ""
  Description : String := ""
  DefaultSource : Option ParameterSource := none
  AllowOverrideSource : Bool := false
  DefaultDestination : Option ParameterDestination := none
  AllowOverrideDestination : Bool := false
  RedisplayValue : Bool := false
  ValidationTypeSystem : ParameterSchema_TypeSystem := .None
  ValidationValueType : String := ""
  ValidationError : String := ""
  ValidationCondition : String := ""
  deriving DecidableEq, Repr, Inhabited

structure Provision_Metadata where
  CoderUrl : String := ""
  WorkspaceTransition : WorkspaceTransition := .START
  WorkspaceName : String := ""
  WorkspaceOwner : String := ""
  WorkspaceId : String := ""
  WorkspaceOwnerId : String := ""
  WorkspaceOwnerEmail : String := ""
  deriving DecidableEq, Repr, Inhabited

structure Healthcheck where
  Url : String := ""
  Interval : Int := 0
  Threshold : Int := 0
  deriving DecidableEq, Repr, Inhabited

structure App where
  Slug : String := ""
  DisplayName : String := ""
  Command : String := ""
  Url : String := ""
  Icon : String := ""
  Subdomain : Bool := false
  Healthcheck : Option Healthcheck := none
  SharingLevel : AppSharingLevel := .OWNER
  deriving DecidableEq, Repr, Inhabited

/-- The `auth` oneof of an agent. -/
inductive Agent_Auth where
  | Token (Token : String)
  | InstanceId (InstanceId : String)
  deriving DecidableEq, Repr, Inhabited

structure Agent where
  Id : String := ""
  Name : String := ""
  Env : Option (List (String × String)) := none
  StartupScript : String := ""
  OperatingSystem : String := ""
  Architecture : String := ""
  Directory : String := ""
  Apps : List App := []
  Auth : Option Agent_Auth := none
  ConnectionTimeoutSeconds : Int := 0
  TroubleshootingUrl : String := ""
  deriving DecidableEq, Repr, Inhabited

/-- Go `Agent.GetInstanceId`. -/
def Agent.GetInstanceId (a : Agent) : String :=
  match a.Auth with
  | some (.InstanceId s) => s
  | _ => ""

/-- Go `Agent.GetToken`. -/
def Agent.GetToken (a : Agent) : String :=
  match a.Auth with
  | some (.Token s) => s
  | _ => ""

structure Resource_Metadata where
  Key : String := ""
  Value : String := ""
  Sensitive : Bool := false
  IsNull : Bool := false
  deriving DecidableEq, Repr, Inhabited

structure Resource where
  Name : String := ""
  Type_ : String := ""
  Agents : List Agent := []
  Metadata : List Resource_Metadata := []
  Hide : Bool := false
  Icon : String := ""
  InstanceType : String := ""
  DailyCost : Int := 0
  deriving DecidableEq, Repr, Inhabited

end sdkproto

namespace proto

inductive LogSource where
  | PROVISIONER_DAEMON | PROVISIONER | other (n : Int)
  deriving DecidableEq, Repr, Inhabited

structure Log where
  Source : LogSource := .PROVISIONER_DAEMON
  Level : sdkproto.LogLevel := .TRACE
  CreatedAt : Int := 0
  Stage : String := ""
  Output : String := ""
  deriving DecidableEq, Repr, Inhabited

structure AcquiredJob_WorkspaceBuild where
  WorkspaceBuildId : String := ""
  WorkspaceName : String := ""
  ParameterValues : List sdkproto.ParameterValue := []
  Metadata : Option sdkproto.Provision_Metadata := none
  State : Option Bytes := none
  deriving DecidableEq, Repr, Inhabited

structure AcquiredJob_TemplateImport where
  Metadata : Option sdkproto.Provision_Metadata := none
  deriving DecidableEq, Repr, Inhabited

structure AcquiredJob_TemplateDryRun where
  ParameterValues : List sdkproto.ParameterValue := []
  Metadata : Option sdkproto.Provision_Metadata := none
  deriving DecidableEq, Repr, Inhabited

/-- The `type` oneof of an acquired job. -/
inductive AcquiredJob_Type where
  | WorkspaceBuild_ (WorkspaceBuild : AcquiredJob_WorkspaceBuild)
  | TemplateImport_ (TemplateImport : AcquiredJob_TemplateImport)
  | TemplateDryRun_ (TemplateDryRun : AcquiredJob_TemplateDryRun)
  deriving DecidableEq, Repr, Inhabited

/-- The envelope `AcquireJob` returns; the empty envelope is the zero value. -/
structure AcquiredJob where
  JobId : String := ""
  CreatedAt : Int := 0
  Provisioner : String := ""
  UserName : String := ""
  TemplateSourceArchive : Option Bytes := none
  Type_ : Option AcquiredJob_Type := none
  deriving DecidableEq, Repr, Inhabited

structure CommitQuotaRequest where
  JobId : String := ""
  DailyCost : Int := 0
  deriving DecidableEq, Repr, Inhabited

structure CommitQuotaResponse where
  Ok : Bool := false
  CreditsConsumed : Int := 0
  Budget : Int := 0
  deriving DecidableEq, Repr, Inhabited

structure UpdateJobRequest where
  JobId : String := ""
  Logs : List Log := []
  ParameterSchemas : List sdkproto.ParameterSchema := []
  /-- The readme bytes, as the text `string(request.Readme)`. -/
  Readme : String := ""
  deriving DecidableEq, Repr, Inhabited

structure UpdateJobResponse where
  Canceled : Bool := false
  ParameterValues : List sdkproto.ParameterValue := []
  deriving DecidableEq, Repr, Inhabited

structure FailedJob_WorkspaceBuild where
  State : Option Bytes := none
  deriving DecidableEq, Repr, Inhabited

/-- The `type` oneof of a failed job. -/
inductive FailedJob_Type where
  | WorkspaceBuild_ (WorkspaceBuild : FailedJob_WorkspaceBuild)
  | TemplateImport_
  | TemplateDryRun_
  deriving DecidableEq, Repr, Inhabited

structure FailedJob where
  JobId : String := ""
  Error : String := ""
  Type_ : Option FailedJob_Type := none
  deriving DecidableEq, Repr, Inhabited

structure CompletedJob_WorkspaceBuild where
  State : Option Bytes := none
  Resources : List sdkproto.Resource := []
  deriving DecidableEq, Repr, Inhabited

structure CompletedJob_TemplateImport where
  StartResources : List sdkproto.Resource := []
  StopResources : List sdkproto.Resource := []
  deriving DecidableEq, Repr, Inhabited

structure CompletedJob_TemplateDryRun where
  Resources : List sdkproto.Resource := []
  deriving DecidableEq, Repr, Inhabited

/-- The `type` oneof of a completed job; `other goType` is a value of a Go
type that is none of the three variants. -/
inductive CompletedJob_Type where
  | WorkspaceBuild_ (WorkspaceBuild : CompletedJob_WorkspaceBuild)
  | TemplateImport_ (TemplateImport : CompletedJob_TemplateImport)
  | TemplateDryRun_ (TemplateDryRun : CompletedJob_TemplateDryRun)
  | other (goType : String)
  deriving DecidableEq, Repr, Inhabited

structure CompletedJob where
  JobId : String := ""
  Type_ : Option CompletedJob_Type := none
  deriving DecidableEq, Repr, Inhabited

/-- Go `proto.Empty`. -/
structure Empty where
  deriving DecidableEq, Repr, Inhabited

end proto

/-! ## Types declared by the server package -/

/-- The payload of a workspace-build job (`job.Input`). -/
structure WorkspaceProvisionJob where
  WorkspaceBuildID : uuid.UUID := uuid.Nil
  DryRun : Bool := false
  deriving DecidableEq, Repr, Inhabited

/-- The payload of a template dry-run job (`job.Input`). -/
structure TemplateVersionDryRunJob where
  TemplateVersionID : uuid.UUID := uuid.Nil
  WorkspaceName : String := ""
  ParameterValues : List database.ParameterValue := []
  deriving DecidableEq, Repr, Inhabited

/-- The value of an int64 computation whose exact result is n: Go's signed
integers wrap around, so the value is n brought into the range of int64. -/
def int64.wrap (n : Int) : Int := (n + 2 ^ 63) % 2 ^ 64 - 2 ^ 63

/-- The payload published on the provisioner job logs notify channel. -/
structure ProvisionerJobLogsNotifyMessage where
  CreatedAfter : Int := 0
  EndOfLogs : Bool := false
  deriving DecidableEq, Repr, Inhabited

/-- Go `json.Marshal` of the notify message, after its struct tags:
`created_after` is always written, `end_of_logs` has `omitempty`. -/
def ProvisionerJobLogsNotifyMessage.Marshal (m : ProvisionerJobLogsNotifyMessage) : String :=
  "\x7b\"created_after\":" ++ toString m.CreatedAfter
    ++ (if m.EndOfLogs then ",\"end_of_logs\":true" else "") ++ "\x7d"

/-- The PostgreSQL NOTIFY channel to publish updates to job logs on. -/
def ProvisionerJobLogsNotifyChannel (jobID : uuid.UUID) : String :=
  "provisioner-log-logs:" ++ jobID.String

namespace codersdk

/-- Modelled from the spec: the workspace-notify channel, whose name is opaque
to the core; `codersdk.WorkspaceNotifyChannel` is declared outside the sources
at hand and is rendered as the channel prefix followed by the workspace id. -/
def WorkspaceNotifyChannel (id : uuid.UUID) : String :=
  "workspace:" ++ id.String

end codersdk

/-! ## The store, the notifier and the world -/

/-- One call made by the server on the store or on the notifier, with its
argument.  An acquire also records the row the store handed out, if any. -/
inductive Event where
  | AcquireProvisionerJob (arg : database.AcquireProvisionerJobParams)
      (acquired : Option database.ProvisionerJob)
  | GetProvisionerJobByID (id : uuid.UUID)
  | GetUserByID (id : uuid.UUID)
  | GetWorkspaceBuildByID (id : uuid.UUID)
  | GetWorkspaceByID (id : uuid.UUID)
  | GetTemplateVersionByID (id : uuid.UUID)
  | GetTemplateVersionByJobID (jobID : uuid.UUID)
  | GetTemplateByID (id : uuid.UUID)
  | GetFileByID (id : uuid.UUID)
  | ParameterCompute (scope : parameter.ComputeScope)
  | UpdateProvisionerJobByID (arg : database.UpdateProvisionerJobByIDParams)
  | UpdateProvisionerJobWithCompleteByID (arg : database.UpdateProvisionerJobWithCompleteByIDParams)
  | InsertProvisionerJobLogs (arg : database.InsertProvisionerJobLogsParams)
  | UpdateTemplateVersionDescriptionByJobID
      (arg : database.UpdateTemplateVersionDescriptionByJobIDParams)
  | InsertParameterSchema (arg : database.InsertParameterSchemaParams)
  | UpdateWorkspaceBuildByID (arg : database.UpdateWorkspaceBuildByIDParams)
  | UpdateWorkspaceDeletedByID (arg : database.UpdateWorkspaceDeletedByIDParams)
  | InsertWorkspaceResource (arg : database.InsertWorkspaceResourceParams)
  | InsertWorkspaceAgent (arg : database.InsertWorkspaceAgentParams)
  | InsertWorkspaceApp (arg : database.InsertWorkspaceAppParams)
  | InsertWorkspaceResourceMetadata (arg : database.InsertWorkspaceResourceMetadataParams)
  | InTxBegin
  | InTxCommit
  | InTxRollback
  | Publish (channel : String) (message : String)
  | CommitQuota (request : proto.CommitQuotaRequest)
  deriving DecidableEq, Repr, Inhabited

namespace Event

/-- The event is a store call that may change rows. -/
def isWrite : Event → Bool
  | AcquireProvisionerJob _ _ => true
  | UpdateProvisionerJobByID _ => true
  | UpdateProvisionerJobWithCompleteByID _ => true
  | InsertProvisionerJobLogs _ => true
  | UpdateTemplateVersionDescriptionByJobID _ => true
  | InsertParameterSchema _ => true
  | UpdateWorkspaceBuildByID _ => true
  | UpdateWorkspaceDeletedByID _ => true
  | InsertWorkspaceResource _ => true
  | InsertWorkspaceAgent _ => true
  | InsertWorkspaceApp _ => true
  | InsertWorkspaceResourceMetadata _ => true
  | _ => false

/-- The event is a publication on the notifier. -/
def isPublish : Event → Bool
  | Publish _ _ => true
  | _ => false

/-- The event is a call of the store's `AcquireProvisionerJob`. -/
def isAcquire : Event → Bool
  | AcquireProvisionerJob _ _ => true
  | _ => false

end Event

namespace database

/-- The operations of `database.Store` the server calls, over a store state.
A query (`Get...`) reads the state; every other operation also returns the
state it leaves. -/
structure Store (σ : Type) where
  AcquireProvisionerJob : AcquireProvisionerJobParams → σ → Except Error ProvisionerJob × σ
  GetProvisionerJobByID : uuid.UUID → σ → Except Error ProvisionerJob
  GetUserByID : uuid.UUID → σ → Except Error User
  GetWorkspaceBuildByID : uuid.UUID → σ → Except Error WorkspaceBuild
  GetWorkspaceByID : uuid.UUID → σ → Except Error Workspace
  GetTemplateVersionByID : uuid.UUID → σ → Except Error TemplateVersion
  GetTemplateVersionByJobID : uuid.UUID → σ → Except Error TemplateVersion
  GetTemplateByID : uuid.UUID → σ → Except Error Template
  GetFileByID : uuid.UUID → σ → Except Error File
  UpdateProvisionerJobByID : UpdateProvisionerJobByIDParams → σ → Except Error Unit × σ
  UpdateProvisionerJobWithCompleteByID :
    UpdateProvisionerJobWithCompleteByIDParams → σ → Except Error Unit × σ
  InsertProvisionerJobLogs :
    InsertProvisionerJobLogsParams → σ → Except Error (List ProvisionerJobLog) × σ
  UpdateTemplateVersionDescriptionByJobID :
    UpdateTemplateVersionDescriptionByJobIDParams → σ → Except Error Unit × σ
  InsertParameterSchema : InsertParameterSchemaParams → σ → Except Error ParameterSchema × σ
  UpdateWorkspaceBuildByID : UpdateWorkspaceBuildByIDParams → σ → Except Error WorkspaceBuild × σ
  UpdateWorkspaceDeletedByID : UpdateWorkspaceDeletedByIDParams → σ → Except Error Unit × σ
  InsertWorkspaceResource : InsertWorkspaceResourceParams → σ → Except Error WorkspaceResource × σ
  InsertWorkspaceAgent : InsertWorkspaceAgentParams → σ → Except Error WorkspaceAgent × σ
  InsertWorkspaceApp : InsertWorkspaceAppParams → σ → Except Error WorkspaceApp × σ
  InsertWorkspaceResourceMetadata :
    InsertWorkspaceResourceMetadataParams → σ → Except Error WorkspaceResourceMetadatum × σ

/-- The one operation of `database.Pubsub` the server calls: `Publish`, which
returns an error or nil and the notifier state it leaves. -/
structure Pubsub (π : Type) where
  Publish : String → String → π → Option Error × π

end database

namespace proto

/-- The optional quota plug-in: its `CommitQuota`, over the store state. -/
structure QuotaCommitter (σ : Type) where
  CommitQuota : CommitQuotaRequest → σ → Except Error CommitQuotaResponse × σ

end proto

/-- What lies outside the repository: the clock, the UUID generator and the
library functions the server calls. -/
structure Env (σ : Type) where
  /-- The n-th reading of the clock (`time.Now`, `database.Now`). -/
  clock : Nat → time.Time
  /-- The n-th value of `uuid.New`. -/
  newUUID : Nat → uuid.UUID
  /-- Go `uuid.Parse`. -/
  uuidParse : String → Except Error uuid.UUID
  /-- Go `json.Unmarshal` into a `WorkspaceProvisionJob`. -/
  unmarshalWorkspaceProvisionJob : json.RawMessage → Except Error WorkspaceProvisionJob
  /-- Go `json.Unmarshal` into a `TemplateVersionDryRunJob`. -/
  unmarshalTemplateVersionDryRunJob : json.RawMessage → Except Error TemplateVersionDryRunJob
  /-- Go `json.Marshal` of an agent's environment map. -/
  marshalEnv : List (String × String) → Except Error json.RawMessage
  /-- Go `parameter.Compute` (with nil options), which queries the store. -/
  parameterCompute : parameter.ComputeScope → σ → Except Error (List parameter.ComputedValue)
  /-- Go `protobuf.Size` of an envelope. -/
  protobufSize : proto.AcquiredJob → Int
  /-- Go `provisionersdk.MaxMessageSize`. -/
  MaxMessageSize : Int
  /-- Go `provisioner.AppSlugRegex.MatchString`. -/
  AppSlugRegexMatch : String → Bool
  /-- Go `provisioner.AppSlugRegex.String`. -/
  AppSlugRegexString : String
  /-- Go ranges over a map in an unspecified order: whether the import of a
  template visits the start resources before the stop resources. -/
  rangeStartFirst : Bool

/-- The server: its identity, its configuration and its collaborators.  The
logger and the telemetry reporter touch neither the store nor the notifier
nor any result, and are left out. -/
structure Server (σ π : Type) where
  AccessURL : String
  ID : uuid.UUID
  Provisioners : List database.ProvisionerType
  Tags : json.RawMessage
  Database : database.Store σ
  Pubsub : database.Pubsub π
  QuotaCommitter : Option (proto.QuotaCommitter σ)
  AcquireJobDebounce : time.Duration

/-- The state an RPC runs in and leaves behind. -/
structure World (σ π : Type) where
  /-- The rows of the store. -/
  db : σ
  /-- The state of the notifier. -/
  ps : π
  /-- The package-level variable `lastAcquire`; its zero value is the zero time. -/
  lastAcquire : time.Time := 0
  /-- How many clock readings were taken. -/
  ticks : Nat := 0
  /-- How many UUIDs were generated. -/
  minted : Nat := 0
  /-- The store and notifier calls made so far, oldest first. -/
  trace : List Event := []
  deriving DecidableEq, Repr

namespace World

variable {σ π α : Type}

/-- Append a call to the trace. -/
def record (w : World σ π) (e : Event) : World σ π :=
  { w with trace := w.trace ++ [e] }

/-- The world after one more clock reading. -/
def tick (w : World σ π) : World σ π :=
  { w with ticks := w.ticks + 1 }

/-- The world after one more generated UUID. -/
def mint (w : World σ π) : World σ π :=
  { w with minted := w.minted + 1 }

/-- A store query: it reads the rows and is recorded. -/
def read (w : World σ π) (e : Event) (q : σ → Except Error α) :
    Except Error α × World σ π :=
  (q w.db, w.record e)

/-- A store operation that may change rows: its result, and the world with
the rows it leaves, recorded. -/
def write (w : World σ π) (e : Event) (op : σ → Except Error α × σ) :
    Except Error α × World σ π :=
  ((op w.db).1, { w with db := (op w.db).2, trace := w.trace ++ [e] })

/-- A publication on the notifier. -/
def publish (w : World σ π) (ps : database.Pubsub π) (channel message : String) :
    Option Error × World σ π :=
  ((ps.Publish channel message w.ps).1,
    { w with ps := (ps.Publish channel message w.ps).2,
             trace := w.trace ++ [Event.Publish channel message] })

end World

/-- The current instant as `time.Now` reads it in world w. -/
def timeNow {σ π : Type} (env : Env σ) (w : World σ π) : time.Time :=
  env.clock w.ticks

/-- Modelled from the spec: `database.Now` is declared outside the sources at
hand; the spec writes its value as "now", so it reads the same clock as
`time.Now`. -/
def databaseNow {σ π : Type} (env : Env σ) (w : World σ π) : time.Time :=
  env.clock w.ticks

/-- Go `uuid.New` in world w. -/
def uuidNew {σ π : Type} (env : Env σ) (w : World σ π) : uuid.UUID :=
  env.newUUID w.minted

/-- Modelled from the spec: `Store.InTx` is declared outside the sources at
hand.  It runs fn against a transactional view of the store; when fn returns
an error all its writes are rolled back, otherwise they are kept. -/
def InTx {σ π : Type} (fn : World σ π → Option Error × World σ π) (w : World σ π) :
    Option Error × World σ π :=
  match fn (w.record Event.InTxBegin) with
  | (some err, w') => (some err, ({ w' with db := w.db } : World σ π).record Event.InTxRollback)
  | (none, w') => (none, w'.record Event.InTxCommit)

/-! ## Enumeration converters -/

def convertValidationTypeSystem (typeSystem : sdkproto.ParameterSchema_TypeSystem) :
    Except Error database.ParameterTypeSystem :=
  match typeSystem with
  | .None => .ok .None
  | .HCL => .ok .HCL
  | .other n => .error (.new ("unknown type system: " ++ toString n))

def convertParameterSourceScheme (sourceScheme : sdkproto.ParameterSource_Scheme) :
    Except Error database.ParameterSourceScheme :=
  match sourceScheme with
  | .DATA => .ok .Data
  | .other n => .error (.new ("unknown parameter source scheme: " ++ toString n))

def convertParameterDestinationScheme
    (destinationScheme : sdkproto.ParameterDestination_Scheme) :
    Except Error database.ParameterDestinationScheme :=
  match destinationScheme with
  | .ENVIRONMENT_VARIABLE => .ok .EnvironmentVariable
  | .PROVISIONER_VARIABLE => .ok .ProvisionerVariable
  | .other n => .error (.new ("unknown parameter destination scheme: " ++ toString n))

def convertLogLevel (logLevel : sdkproto.LogLevel) : Except Error database.LogLevel :=
  match logLevel with
  | .TRACE => .ok .Trace
  | .DEBUG => .ok .Debug
  | .INFO => .ok .Info
  | .WARN => .ok .Warn
  | .ERROR => .ok .Error
  | .other n => .error (.new ("unknown log level: " ++ toString n))

def convertLogSource (logSource : proto.LogSource) : Except Error database.LogSource :=
  match logSource with
  | .PROVISIONER_DAEMON => .ok .ProvisionerDaemon
  | .PROVISIONER => .ok .Provisioner
  | .other n => .error (.new ("unknown log source: " ++ toString n))

def convertComputedParameterValue (param : parameter.ComputedValue) :
    Except Error sdkproto.ParameterValue :=
  match param.DestinationScheme with
  | .EnvironmentVariable =>
    .ok { DestinationScheme := .ENVIRONMENT_VARIABLE, Name := param.Name,
          Value := param.SourceValue }
  | .ProvisionerVariable =>
    .ok { DestinationScheme := .PROVISIONER_VARIABLE, Name := param.Name,
          Value := param.SourceValue }
  | scheme => .error (.new ("unrecognized destination scheme: " ++ scheme.String.quote))

def convertComputedParameterValues :
    List parameter.ComputedValue → Except Error (List sdkproto.ParameterValue)
  | [] => .ok []
  | computedParameter :: rest =>
    match convertComputedParameterValue computedParameter with
    | .error err => .error (.wrap "convert parameter" err)
    | .ok converted =>
      match convertComputedParameterValues rest with
      | .error err => .error err
      | .ok protoParameters => .ok (converted :: protoParameters)

def convertWorkspaceTransition (transition : database.WorkspaceTransition) :
    Except Error sdkproto.WorkspaceTransition :=
  match transition with
  | .Start => .ok .START
  | .Stop => .ok .STOP
  | .Delete => .ok .DESTROY
  | .other s => .error (.new ("unrecognized transition: " ++ s.quote))

/-! ## AcquireJob -/

section Server

variable {σ π : Type}

/-- The argument the closure `failJob` of `AcquireJob` passes to the store:
completed-at is now and the error is the message; updated-at is not set. -/
def AcquireJob.failArg (env : Env σ) (job : database.ProvisionerJob)
    (errorMessage : String) (w : World σ π) :
    database.UpdateProvisionerJobWithCompleteByIDParams :=
  { ID := job.ID,
    CompletedAt := { Time := databaseNow env w, Valid := true },
    Error := { String := errorMessage, Valid := true } }

/-- The closure `failJob` of `AcquireJob`: marks the acquired job as failed
with the error message provided, and yields the error to return. -/
def AcquireJob.failJob (env : Env σ) (server : Server σ π) (job : database.ProvisionerJob)
    (errorMessage : String) (w : World σ π) : Error × World σ π :=
  match w.tick.write
      (.UpdateProvisionerJobWithCompleteByID (AcquireJob.failArg env job errorMessage w))
      (server.Database.UpdateProvisionerJobWithCompleteByID
        (AcquireJob.failArg env job errorMessage w)) with
  | (.error err, w) => (.wrap "update provisioner job" err, w)
  | (.ok _, w) => (.new ("request job was invalidated: " ++ errorMessage), w)

/-- The statement `return nil, failJob(errorMessage)`. -/
def AcquireJob.fail {α : Type} (env : Env σ) (server : Server σ π)
    (job : database.ProvisionerJob) (errorMessage : String) (w : World σ π) :
    Except Error α × World σ π :=
  (.error (AcquireJob.failJob env server job errorMessage w).1,
    (AcquireJob.failJob env server job errorMessage w).2)

/-- The case `ProvisionerJobTypeWorkspaceBuild` of the switch on the job type. -/
def AcquireJob.workspaceBuild (env : Env σ) (server : Server σ π)
    (job : database.ProvisionerJob) (w : World σ π) :
    Except Error proto.AcquiredJob_Type × World σ π :=
  match env.unmarshalWorkspaceProvisionJob job.Input with
  | .error err =>
    AcquireJob.fail env server job
      ("unmarshal job input " ++ job.Input.quote ++ ": " ++ err.Error) w
  | .ok input =>
  match w.read (.GetWorkspaceBuildByID input.WorkspaceBuildID)
      (server.Database.GetWorkspaceBuildByID input.WorkspaceBuildID) with
  | (.error err, w) =>
    AcquireJob.fail env server job ("get workspace build: " ++ err.Error) w
  | (.ok workspaceBuild, w) =>
  match w.read (.GetWorkspaceByID workspaceBuild.WorkspaceID)
      (server.Database.GetWorkspaceByID workspaceBuild.WorkspaceID) with
  | (.error err, w) => AcquireJob.fail env server job ("get workspace: " ++ err.Error) w
  | (.ok workspace, w) =>
  match w.read (.GetTemplateVersionByID workspaceBuild.TemplateVersionID)
      (server.Database.GetTemplateVersionByID workspaceBuild.TemplateVersionID) with
  | (.error err, w) =>
    AcquireJob.fail env server job ("get template version: " ++ err.Error) w
  | (.ok templateVersion, w) =>
  match w.read (.GetTemplateByID templateVersion.TemplateID.UUID)
      (server.Database.GetTemplateByID templateVersion.TemplateID.UUID) with
  | (.error err, w) => AcquireJob.fail env server job ("get template: " ++ err.Error) w
  | (.ok template, w) =>
  match w.read (.GetUserByID workspace.OwnerID)
      (server.Database.GetUserByID workspace.OwnerID) with
  | (.error err, w) => AcquireJob.fail env server job ("get owner: " ++ err.Error) w
  | (.ok owner, w) =>
  match w.publish server.Pubsub (codersdk.WorkspaceNotifyChannel workspace.ID) "" with
  | (some err, w) =>
    AcquireJob.fail env server job ("publish workspace update: " ++ err.Error) w
  | (none, w) =>
  -- Compute parameters for the workspace to consume.
  let scope : parameter.ComputeScope :=
    { TemplateImportJobID := templateVersion.JobID,
      TemplateID := { UUID := template.ID, Valid := true },
      WorkspaceID := { UUID := workspace.ID, Valid := true } }
  match w.read (.ParameterCompute scope) (env.parameterCompute scope) with
  | (.error err, w) => AcquireJob.fail env server job ("compute parameters: " ++ err.Error) w
  | (.ok parameters, w) =>
  -- Convert types to their corresponding protobuf types.
  match convertComputedParameterValues parameters with
  | .error err =>
    AcquireJob.fail env server job
      ("convert computed parameters to protobuf: " ++ err.Error) w
  | .ok protoParameters =>
  match convertWorkspaceTransition workspaceBuild.Transition with
  | .error err =>
    AcquireJob.fail env server job ("convert workspace transition: " ++ err.Error) w
  | .ok transition =>
  (.ok (.WorkspaceBuild_
    { WorkspaceBuildId := workspaceBuild.ID.String,
      WorkspaceName := workspace.Name,
      State := workspaceBuild.ProvisionerState,
      ParameterValues := protoParameters,
      Metadata := some
        { CoderUrl := server.AccessURL,
          WorkspaceTransition := transition,
          WorkspaceName := workspace.Name,
          WorkspaceOwner := owner.Username,
          WorkspaceOwnerEmail := owner.Email,
          WorkspaceId := workspace.ID.String,
          WorkspaceOwnerId := owner.ID.String } }), w)

/-- The case `ProvisionerJobTypeTemplateVersionDryRun` of the switch on the
job type. -/
def AcquireJob.templateVersionDryRun (env : Env σ) (server : Server σ π)
    (job : database.ProvisionerJob) (w : World σ π) :
    Except Error proto.AcquiredJob_Type × World σ π :=
  match env.unmarshalTemplateVersionDryRunJob job.Input with
  | .error err =>
    AcquireJob.fail env server job
      ("unmarshal job input " ++ job.Input.quote ++ ": " ++ err.Error) w
  | .ok input =>
  match w.read (.GetTemplateVersionByID input.TemplateVersionID)
      (server.Database.GetTemplateVersionByID input.TemplateVersionID) with
  | (.error err, w) =>
    AcquireJob.fail env server job ("get template version: " ++ err.Error) w
  | (.ok templateVersion, w) =>
  -- Compute parameters for the dry-run to consume.
  let scope : parameter.ComputeScope :=
    { TemplateImportJobID := templateVersion.JobID,
      TemplateID := templateVersion.TemplateID,
      WorkspaceID := {},
      AdditionalParameterValues := input.ParameterValues }
  match w.read (.ParameterCompute scope) (env.parameterCompute scope) with
  | (.error err, w) => AcquireJob.fail env server job ("compute parameters: " ++ err.Error) w
  | (.ok parameters, w) =>
  -- Convert types to their corresponding protobuf types.
  match convertComputedParameterValues parameters with
  | .error err =>
    AcquireJob.fail env server job
      ("convert computed parameters to protobuf: " ++ err.Error) w
  | .ok protoParameters =>
  (.ok (.TemplateDryRun_
    { ParameterValues := protoParameters,
      Metadata := some
        { CoderUrl := server.AccessURL, WorkspaceName := input.WorkspaceName } }), w)

/-- The switch on `job.Type`: the type-specific part of the envelope (none
when the job type is none of the three). -/
def AcquireJob.jobType (env : Env σ) (server : Server σ π)
    (job : database.ProvisionerJob) (w : World σ π) :
    Except Error (Option proto.AcquiredJob_Type) × World σ π :=
  match job.Type_ with
  | .WorkspaceBuild =>
    match AcquireJob.workspaceBuild env server job w with
    | (.error err, w) => (.error err, w)
    | (.ok t, w) => (.ok (some t), w)
  | .TemplateVersionDryRun =>
    match AcquireJob.templateVersionDryRun env server job w with
    | (.error err, w) => (.error err, w)
    | (.ok t, w) => (.ok (some t), w)
  | .TemplateVersionImport =>
    (.ok (some (.TemplateImport_ { Metadata := some { CoderUrl := server.AccessURL } })), w)
  | .other _ => (.ok none, w)

/-- The part of `AcquireJob` after the store handed out a job: load its
context and assemble the envelope, failing the job on any error. -/
def AcquireJob.hydrate (env : Env σ) (server : Server σ π)
    (job : database.ProvisionerJob) (w : World σ π) :
    Except Error proto.AcquiredJob × World σ π :=
  match w.read (.GetUserByID job.InitiatorID) (server.Database.GetUserByID job.InitiatorID) with
  | (.error err, w) => AcquireJob.fail env server job ("get user: " ++ err.Error) w
  | (.ok user, w) =>
  match AcquireJob.jobType env server job w with
  | (.error err, w) => (.error err, w)
  | (.ok type, w) =>
  let protoJob : proto.AcquiredJob :=
    { JobId := job.ID.String,
      CreatedAt := time.UnixMilli job.CreatedAt,
      Provisioner := job.Provisioner.String,
      UserName := user.Username,
      Type_ := type }
  match job.StorageMethod with
  | .File =>
    match w.read (.GetFileByID job.FileID) (server.Database.GetFileByID job.FileID) with
    | (.error err, w) => AcquireJob.fail env server job ("get file by hash: " ++ err.Error) w
    | (.ok file, w) =>
      let protoJob := { protoJob with TemplateSourceArchive := some file.Data }
      if env.protobufSize protoJob > env.MaxMessageSize then
        AcquireJob.fail env server job
          ("payload was too big: " ++ toString (env.protobufSize protoJob) ++ " > "
            ++ toString env.MaxMessageSize) w
      else (.ok protoJob, w)
  | method =>
    AcquireJob.fail env server job ("unsupported storage method: " ++ method.String) w

/-- The debounce test of `AcquireJob`: whether the last empty acquire was
less than the debounce interval ago.  The clock is read only when
`lastAcquire` is not the zero time. -/
def AcquireJob.debounced (env : Env σ) (server : Server σ π) (w : World σ π) : Bool :=
  !time.IsZero w.lastAcquire &&
    decide (time.Sub (timeNow env w) w.lastAcquire < server.AcquireJobDebounce)

/-- The world after the debounce test. -/
def AcquireJob.afterTest (w : World σ π) : World σ π :=
  if !time.IsZero w.lastAcquire then w.tick else w

/-- The argument `AcquireJob` passes to the store's `AcquireProvisionerJob`
when it runs in world w. -/
def AcquireJob.arg (env : Env σ) (server : Server σ π) (w : World σ π) :
    database.AcquireProvisionerJobParams :=
  { StartedAt := { Time := databaseNow env (AcquireJob.afterTest w), Valid := true },
    WorkerID := { UUID := server.ID, Valid := true },
    Types := server.Provisioners,
    Tags := server.Tags }

/-- The instant `AcquireJob`, run in world w, reads with `time.Now` when the
store reports no row. -/
def AcquireJob.emptyInstant (env : Env σ) (w : World σ π) : time.Time :=
  env.clock ((AcquireJob.afterTest w).ticks + 1)

/-- AcquireJob queries the database to lock a job. -/
def AcquireJob (env : Env σ) (server : Server σ π) (w : World σ π) :
    Except Error proto.AcquiredJob × World σ π :=
  if AcquireJob.debounced env server w then
    (.ok {}, AcquireJob.afterTest w)
  else
  -- This marks the job as locked in the database.
  let arg := AcquireJob.arg env server w
  match (AcquireJob.afterTest w).tick.write
      (.AcquireProvisionerJob arg (server.Database.AcquireProvisionerJob arg w.db).1.toOption)
      (server.Database.AcquireProvisionerJob arg) with
  | (.error err, w) =>
    if errors.Is err .ErrNoRows then
      -- The provisioner daemon assumes no jobs are available if
      -- an empty struct is returned.
      (.ok {}, { w.tick with lastAcquire := timeNow env w })
    else (.error (.wrap "acquire job" err), w)
  | (.ok job, w) => AcquireJob.hydrate env server job w

/-! ## CommitQuota -/

def CommitQuota (env : Env σ) (server : Server σ π) (request : proto.CommitQuotaRequest)
    (w : World σ π) : Except Error proto.CommitQuotaResponse × World σ π :=
  match env.uuidParse request.JobId with
  | .error err => (.error (.wrap "parse job id" err), w)
  | .ok jobID =>
  match w.read (.GetProvisionerJobByID jobID) (server.Database.GetProvisionerJobByID jobID) with
  | (.error err, w) => (.error (.wrap "get job" err), w)
  | (.ok job, w) =>
  if !job.WorkerID.Valid then (.error (.new "job isn't running yet"), w)
  else if job.WorkerID.UUID.String != server.ID.String then
    (.error (.new "you don't own this job"), w)
  else
  match server.QuotaCommitter with
  | none =>
    -- We're probably in community edition or a test.
    (.ok { Budget := -1, Ok := true }, w)
  | some q => w.write (.CommitQuota request) (q.CommitQuota request)

/-! ## UpdateJob -/

/-- The loop of `UpdateJob` over the logs of the request: translate each log
and append it to the parallel arrays of the insert. -/
def UpdateJob.logParams (insertParams : database.InsertProvisionerJobLogsParams) :
    List proto.Log → Except Error database.InsertProvisionerJobLogsParams
  | [] => .ok insertParams
  | log :: rest =>
    match convertLogLevel log.Level with
    | .error err => .error (.wrap "convert log level" err)
    | .ok logLevel =>
    match convertLogSource log.Source with
    | .error err => .error (.wrap "convert log source" err)
    | .ok logSource =>
      UpdateJob.logParams
        { insertParams with
          CreatedAt := insertParams.CreatedAt ++ [time.FromUnixMilli log.CreatedAt],
          Level := insertParams.Level ++ [logLevel],
          Stage := insertParams.Stage ++ [log.Stage],
          Source := insertParams.Source ++ [logSource],
          Output := insertParams.Output ++ [log.Output] } rest

/-- The block `if len(request.Logs) > 0` of `UpdateJob`. -/
def UpdateJob.logs (server : Server σ π) (parsedID : uuid.UUID)
    (request : proto.UpdateJobRequest) (w : World σ π) : Option Error × World σ π :=
  if request.Logs.length > 0 then
    match UpdateJob.logParams { JobID := parsedID } request.Logs with
    | .error err => (some err, w)
    | .ok insertParams =>
    match w.write (.InsertProvisionerJobLogs insertParams)
        (server.Database.InsertProvisionerJobLogs insertParams) with
    | (.error err, w) => (some (.wrap "insert job logs" err), w)
    | (.ok logs, w) =>
    -- Publish by the lowest log ID inserted so the
    -- log stream will fetch everything from that point.
    match logs with
    | [] => (some (.panic "runtime error: index out of range [0] with length 0"), w)
    | first :: _ =>
    let lowestID := first.ID
    let data := ProvisionerJobLogsNotifyMessage.Marshal
      { CreatedAfter := int64.wrap (lowestID - 1) }
    match w.publish server.Pubsub (ProvisionerJobLogsNotifyChannel parsedID) data with
    | (some err, w) => (some (.wrap "publish job log" err), w)
    | (none, w) => (none, w)
  else (none, w)

/-- The block `if len(request.Readme) > 0` of `UpdateJob`. -/
def UpdateJob.readme (env : Env σ) (server : Server σ π) (job : database.ProvisionerJob)
    (request : proto.UpdateJobRequest) (w : World σ π) : Option Error × World σ π :=
  if request.Readme.length > 0 then
    let arg : database.UpdateTemplateVersionDescriptionByJobIDParams :=
      { JobID := job.ID, Readme := request.Readme, UpdatedAt := databaseNow env w }
    match w.tick.write (.UpdateTemplateVersionDescriptionByJobID arg)
        (server.Database.UpdateTemplateVersionDescriptionByJobID arg) with
    | (.error err, w) => (some (.wrap "update template version description" err), w)
    | (.ok _, w) => (none, w)
  else (none, w)

/-- The loop of `UpdateJob` over the parameter schemas of the request, from
the given index on. -/
def UpdateJob.insertSchemas (env : Env σ) (server : Server σ π)
    (job : database.ProvisionerJob) :
    Nat → List sdkproto.ParameterSchema → World σ π → Option Error × World σ π
  | _, [], w => (none, w)
  | index, protoParameter :: rest, w =>
    match convertValidationTypeSystem protoParameter.ValidationTypeSystem with
    | .error err =>
      (some (.wrap ("convert validation type system for " ++ protoParameter.Name.quote) err), w)
    | .ok validationTypeSystem =>
    let parameterSchema : database.InsertParameterSchemaParams :=
      { ID := uuidNew env w,
        CreatedAt := databaseNow env w,
        JobID := job.ID,
        Name := protoParameter.Name,
        Description := protoParameter.Description,
        RedisplayValue := protoParameter.RedisplayValue,
        ValidationError := protoParameter.ValidationError,
        ValidationCondition := protoParameter.ValidationCondition,
        ValidationValueType := protoParameter.ValidationValueType,
        ValidationTypeSystem := validationTypeSystem,
        DefaultSourceScheme := .None,
        DefaultDestinationScheme := .None,
        AllowOverrideDestination := protoParameter.AllowOverrideDestination,
        AllowOverrideSource := protoParameter.AllowOverrideSource,
        Index := index }
    let w := w.mint.tick
    -- It's possible a parameter doesn't define a default source!
    match (match protoParameter.DefaultSource with
      | none => Except.ok parameterSchema
      | some defaultSource =>
        match convertParameterSourceScheme defaultSource.Scheme with
        | .error err => .error (Error.wrap "convert parameter source scheme" err)
        | .ok parameterSourceScheme =>
          .ok { parameterSchema with
                DefaultSourceScheme := parameterSourceScheme,
                DefaultSourceValue := defaultSource.Value }) with
    | .error err => (some err, w)
    | .ok parameterSchema =>
    -- It's possible a parameter doesn't define a default destination!
    match (match protoParameter.DefaultDestination with
      | none => Except.ok parameterSchema
      | some defaultDestination =>
        match convertParameterDestinationScheme defaultDestination.Scheme with
        | .error err => .error (Error.wrap "convert parameter destination scheme" err)
        | .ok parameterDestinationScheme =>
          .ok { parameterSchema with
                DefaultDestinationScheme := parameterDestinationScheme }) with
    | .error err => (some err, w)
    | .ok parameterSchema =>
    match w.write (.InsertParameterSchema parameterSchema)
        (server.Database.InsertParameterSchema parameterSchema) with
    | (.error err, w) => (some (.wrap "insert parameter schema" err), w)
    | (.ok _, w) => UpdateJob.insertSchemas env server job (index + 1) rest w

/-- The loop of `UpdateJob` that converts the computed parameters to the
protobuf type. -/
def UpdateJob.convertParameters :
    List parameter.ComputedValue → Except Error (List sdkproto.ParameterValue)
  | [] => .ok []
  | computedParameter :: rest =>
    match convertComputedParameterValue computedParameter with
    | .error err => .error (.new ("convert parameter: " ++ err.Error))
    | .ok converted =>
      match UpdateJob.convertParameters rest with
      | .error err => .error err
      | .ok protoParameters => .ok (converted :: protoParameters)

/-- The template id `UpdateJob` computes parameters for: that of the job's
template version when the job is a template version import, else null. -/
def UpdateJob.templateID (server : Server σ π) (job : database.ProvisionerJob)
    (w : World σ π) : Except Error uuid.NullUUID × World σ π :=
  if job.Type_ = .TemplateVersionImport then
    match w.read (.GetTemplateVersionByJobID job.ID)
        (server.Database.GetTemplateVersionByJobID job.ID) with
    | (.error err, w) => (.error (.wrap "get template version by job id" err), w)
    | (.ok templateVersion, w) => (.ok templateVersion.TemplateID, w)
  else (.ok {}, w)

/-- The block `if len(request.ParameterSchemas) > 0` of `UpdateJob`, which
returns the response itself. -/
def UpdateJob.parameterSchemas (env : Env σ) (server : Server σ π)
    (job : database.ProvisionerJob) (request : proto.UpdateJobRequest) (w : World σ π) :
    Except Error proto.UpdateJobResponse × World σ π :=
  match UpdateJob.insertSchemas env server job 0 request.ParameterSchemas w with
  | (some err, w) => (.error err, w)
  | (none, w) =>
  match UpdateJob.templateID server job w with
  | (.error err, w) => (.error err, w)
  | (.ok templateID, w) =>
  let scope : parameter.ComputeScope :=
    { TemplateImportJobID := job.ID, TemplateID := templateID }
  match w.read (.ParameterCompute scope) (env.parameterCompute scope) with
  | (.error err, w) => (.error (.wrap "compute parameters" err), w)
  | (.ok parameters, w) =>
  -- Convert parameters to the protobuf type.
  match UpdateJob.convertParameters parameters with
  | .error err => (.error err, w)
  | .ok protoParameters =>
    (.ok { Canceled := job.CanceledAt.Valid, ParameterValues := protoParameters }, w)

def UpdateJob (env : Env σ) (server : Server σ π) (request : proto.UpdateJobRequest)
    (w : World σ π) : Except Error proto.UpdateJobResponse × World σ π :=
  match env.uuidParse request.JobId with
  | .error err => (.error (.wrap "parse job id" err), w)
  | .ok parsedID =>
  match w.read (.GetProvisionerJobByID parsedID)
      (server.Database.GetProvisionerJobByID parsedID) with
  | (.error err, w) => (.error (.wrap "get job" err), w)
  | (.ok job, w) =>
  if !job.WorkerID.Valid then (.error (.new "job isn't running yet"), w)
  else if job.WorkerID.UUID.String != server.ID.String then
    (.error (.new "you don't own this job"), w)
  else
  let arg : database.UpdateProvisionerJobByIDParams :=
    { ID := parsedID, UpdatedAt := databaseNow env w }
  match w.tick.write (.UpdateProvisionerJobByID arg)
      (server.Database.UpdateProvisionerJobByID arg) with
  | (.error err, w) => (.error (.wrap "update job" err), w)
  | (.ok _, w) =>
  match UpdateJob.logs server parsedID request w with
  | (some err, w) => (.error err, w)
  | (none, w) =>
  match UpdateJob.readme env server job request w with
  | (some err, w) => (.error err, w)
  | (none, w) =>
  if request.ParameterSchemas.length > 0 then
    UpdateJob.parameterSchemas env server job request w
  else (.ok { Canceled := job.CanceledAt.Valid }, w)

/-! ## FailJob -/

/-- The switch of `FailJob` on the type of the failure payload. -/
def FailJob.jobType (env : Env σ) (server : Server σ π) (job : database.ProvisionerJob)
    (failJob : proto.FailedJob) (w : World σ π) : Option Error × World σ π :=
  match failJob.Type_ with
  | some (.WorkspaceBuild_ workspaceBuild) =>
    match workspaceBuild.State with
    | none => (none, w)
    | some state =>
    match env.unmarshalWorkspaceProvisionJob job.Input with
    | .error err => (some (.wrap "unmarshal workspace provision input" err), w)
    | .ok input =>
    let arg : database.UpdateWorkspaceBuildByIDParams :=
      { ID := input.WorkspaceBuildID,
        UpdatedAt := databaseNow env w,
        ProvisionerState := some state
        -- We are explicitly not updating deadline here.
      }
    match w.tick.write (.UpdateWorkspaceBuildByID arg)
        (server.Database.UpdateWorkspaceBuildByID arg) with
    | (.error err, w) => (some (.wrap "update workspace build state" err), w)
    | (.ok build, w) =>
    match w.publish server.Pubsub (codersdk.WorkspaceNotifyChannel build.WorkspaceID) "" with
    | (some err, w) => (some (.wrap "update workspace" err), w)
    | (none, w) => (none, w)
  | _ => (none, w)

def FailJob (env : Env σ) (server : Server σ π) (failJob : proto.FailedJob)
    (w : World σ π) : Except Error proto.Empty × World σ π :=
  match env.uuidParse failJob.JobId with
  | .error err => (.error (.wrap "parse job id" err), w)
  | .ok jobID =>
  match w.read (.GetProvisionerJobByID jobID) (server.Database.GetProvisionerJobByID jobID) with
  | (.error err, w) => (.error (.wrap "get provisioner job" err), w)
  | (.ok job, w) =>
  if job.WorkerID.UUID.String != server.ID.String then
    (.error (.new "you don't own this job"), w)
  else if job.CompletedAt.Valid then
    (.error (.new "job already completed"), w)
  else
  let job : database.ProvisionerJob :=
    { job with
      CompletedAt := { Time := databaseNow env w, Valid := true },
      Error := { String := failJob.Error, Valid := failJob.Error != "" } }
  let w := w.tick
  let arg : database.UpdateProvisionerJobWithCompleteByIDParams :=
    { ID := jobID,
      CompletedAt := job.CompletedAt,
      UpdatedAt := databaseNow env w,
      Error := job.Error }
  match w.tick.write (.UpdateProvisionerJobWithCompleteByID arg)
      (server.Database.UpdateProvisionerJobWithCompleteByID arg) with
  | (.error err, w) => (.error (.wrap "update provisioner job" err), w)
  | (.ok _, w) =>
  match FailJob.jobType env server job failJob w with
  | (some err, w) => (.error err, w)
  | (none, w) =>
  let data := ProvisionerJobLogsNotifyMessage.Marshal { EndOfLogs := true }
  match w.publish server.Pubsub (ProvisionerJobLogsNotifyChannel jobID) data with
  | (some err, w) => (.error (.wrap "publish end of job logs" err), w)
  | (none, w) => (.ok {}, w)

/-! ## InsertWorkspaceResource -/

/-- The share level of an app row, from the wire share level. -/
def InsertWorkspaceResource.sharingLevel (level : sdkproto.AppSharingLevel) :
    database.AppSharingLevel :=
  match level with
  | .AUTHENTICATED => .Authenticated
  | .PUBLIC => .Public
  | _ => .Owner

/-- The loop of `InsertWorkspaceResource` over the apps of one agent; appSlugs
holds the slugs seen so far and the loop returns it extended. -/
def InsertWorkspaceResource.apps (env : Env σ) (db : database.Store σ)
    (dbAgent : database.WorkspaceAgent) :
    List sdkproto.App → List String → World σ π → Except Error (List String) × World σ π
  | [], appSlugs, w => (.ok appSlugs, w)
  | app :: rest, appSlugs, w =>
    let slug := app.Slug
    if slug = "" then (.error (.new "app must have a slug or name set"), w)
    else if !env.AppSlugRegexMatch slug then
      (.error (.new ("app slug " ++ slug.quote ++ " does not match regex "
        ++ env.AppSlugRegexString.quote)), w)
    else if slug ∈ appSlugs then
      (.error (.new ("duplicate app slug, must be unique per template: " ++ slug.quote)), w)
    else
    let appSlugs := slug :: appSlugs
    let healthcheck : sdkproto.Healthcheck := app.Healthcheck.getD {}
    let health : database.WorkspaceAppHealth :=
      if healthcheck.Url != "" then .Initializing else .Disabled
    let arg : database.InsertWorkspaceAppParams :=
      { ID := uuidNew env w,
        CreatedAt := databaseNow env w,
        AgentID := dbAgent.ID,
        Slug := slug,
        DisplayName := app.DisplayName,
        Icon := app.Icon,
        Command := { String := app.Command, Valid := app.Command != "" },
        Url := { String := app.Url, Valid := app.Url != "" },
        Subdomain := app.Subdomain,
        SharingLevel := InsertWorkspaceResource.sharingLevel app.SharingLevel,
        HealthcheckUrl := healthcheck.Url,
        HealthcheckInterval := healthcheck.Interval,
        HealthcheckThreshold := healthcheck.Threshold,
        Health := health }
    match w.mint.tick.write (.InsertWorkspaceApp arg) (db.InsertWorkspaceApp arg) with
    | (.error err, w) => (.error (.wrap "insert app" err), w)
    | (.ok _, w) => InsertWorkspaceResource.apps env db dbAgent rest appSlugs w

/-- The loop of `InsertWorkspaceResource` over the agents of the resource. -/
def InsertWorkspaceResource.agents (env : Env σ) (db : database.Store σ)
    (resource : database.WorkspaceResource) :
    List sdkproto.Agent → List String → World σ π → Option Error × World σ π
  | [], _, w => (none, w)
  | prAgent :: rest, appSlugs, w =>
    let instanceID : sql.NullString :=
      if prAgent.GetInstanceId != "" then { String := prAgent.GetInstanceId, Valid := true }
      else {}
    match (match prAgent.Env with
      | none => Except.ok ({} : pqtype.NullRawMessage)
      | some vars =>
        match env.marshalEnv vars with
        | .error err => .error (Error.wrap "marshal env" err)
        | .ok data => .ok { RawMessage := data, Valid := true }) with
    | .error err => (some err, w)
    | .ok envVars =>
    let minted := uuidNew env w
    let w := w.mint
    match (if prAgent.GetToken != "" then
        match env.uuidParse prAgent.GetToken with
        | .error err => Except.error (Error.wrap "invalid auth token format; must be uuid" err)
        | .ok token => .ok token
      else .ok minted) with
    | .error err => (some err, w)
    | .ok authToken =>
    let agentID := uuidNew env w
    let w := w.mint
    let arg : database.InsertWorkspaceAgentParams :=
      { ID := agentID,
        CreatedAt := databaseNow env w,
        UpdatedAt := databaseNow env w.tick,
        ResourceID := resource.ID,
        Name := prAgent.Name,
        AuthToken := authToken,
        AuthInstanceID := instanceID,
        Architecture := prAgent.Architecture,
        EnvironmentVariables := envVars,
        Directory := prAgent.Directory,
        OperatingSystem := prAgent.OperatingSystem,
        StartupScript :=
          { String := prAgent.StartupScript, Valid := prAgent.StartupScript != "" },
        ConnectionTimeoutSeconds := prAgent.ConnectionTimeoutSeconds,
        TroubleshootingURL := prAgent.TroubleshootingUrl }
    match w.tick.tick.write (.InsertWorkspaceAgent arg) (db.InsertWorkspaceAgent arg) with
    | (.error err, w) => (some (.wrap "insert agent" err), w)
    | (.ok dbAgent, w) =>
    match InsertWorkspaceResource.apps env db dbAgent prAgent.Apps appSlugs w with
    | (.error err, w) => (some err, w)
    | (.ok appSlugs, w) => InsertWorkspaceResource.agents env db resource rest appSlugs w

/-- The loop of `InsertWorkspaceResource` over the metadata of the resource. -/
def InsertWorkspaceResource.metadata (db : database.Store σ)
    (resource : database.WorkspaceResource) :
    List sdkproto.Resource_Metadata → World σ π → Option Error × World σ π
  | [], w => (none, w)
  | metadatum :: rest, w =>
    let value : sql.NullString :=
      if !metadatum.IsNull then { String := metadatum.Value, Valid := true } else {}
    let arg : database.InsertWorkspaceResourceMetadataParams :=
      { WorkspaceResourceID := resource.ID,
        Key := metadatum.Key,
        Value := value,
        Sensitive := metadatum.Sensitive }
    match w.write (.InsertWorkspaceResourceMetadata arg)
        (db.InsertWorkspaceResourceMetadata arg) with
    | (.error err, w) => (some (.wrap "insert metadata" err), w)
    | (.ok _, w) => InsertWorkspaceResource.metadata db resource rest w

def InsertWorkspaceResource (env : Env σ) (db : database.Store σ) (jobID : uuid.UUID)
    (transition : database.WorkspaceTransition) (protoResource : sdkproto.Resource)
    (w : World σ π) : Option Error × World σ π :=
  let arg : database.InsertWorkspaceResourceParams :=
    { ID := uuidNew env w,
      CreatedAt := databaseNow env w,
      JobID := jobID,
      Transition := transition,
      Type_ := protoResource.Type_,
      Name := protoResource.Name,
      Hide := protoResource.Hide,
      Icon := protoResource.Icon,
      DailyCost := protoResource.DailyCost,
      InstanceType :=
        { String := protoResource.InstanceType, Valid := protoResource.InstanceType != "" } }
  match w.mint.tick.write (.InsertWorkspaceResource arg) (db.InsertWorkspaceResource arg) with
  | (.error err, w) =>
    (some (.wrap ("insert provisioner job resource " ++ protoResource.Name.quote) err), w)
  | (.ok resource, w) =>
  match InsertWorkspaceResource.agents env db resource protoResource.Agents [] w with
  | (some err, w) => (some err, w)
  | (none, w) => InsertWorkspaceResource.metadata db resource protoResource.Metadata w

/-! ## CompleteJob -/

/-- A loop of `CompleteJob` over reported resources: insert each, wrapping an
error with the given message. -/
def CompleteJob.insertResources (env : Env σ) (db : database.Store σ) (jobID : uuid.UUID)
    (transition : database.WorkspaceTransition) (msg : String) :
    List sdkproto.Resource → World σ π → Option Error × World σ π
  | [], w => (none, w)
  | resource :: rest, w =>
    match InsertWorkspaceResource env db jobID transition resource w with
    | (some err, w) => (some (.wrap msg err), w)
    | (none, w) => CompleteJob.insertResources env db jobID transition msg rest w

/-- The statement of `CompleteJob` that marks the job completed. -/
def CompleteJob.markCompleted (env : Env σ) (db : database.Store σ) (jobID : uuid.UUID)
    (w : World σ π) : Option Error × World σ π :=
  let arg : database.UpdateProvisionerJobWithCompleteByIDParams :=
    { ID := jobID,
      UpdatedAt := databaseNow env w,
      CompletedAt := { Time := databaseNow env w.tick, Valid := true } }
  match w.tick.tick.write (.UpdateProvisionerJobWithCompleteByID arg)
      (db.UpdateProvisionerJobWithCompleteByID arg) with
  | (.error err, w) => (some (.wrap "update provisioner job" err), w)
  | (.ok _, w) => (none, w)

/-- The case `CompletedJob_TemplateImport_` of `CompleteJob`. -/
def CompleteJob.templateImport (env : Env σ) (server : Server σ π) (jobID : uuid.UUID)
    (templateImport : proto.CompletedJob_TemplateImport) (w : World σ π) :
    Option Error × World σ π :=
  let passes : List (database.WorkspaceTransition × List sdkproto.Resource) :=
    if env.rangeStartFirst then
      [(.Start, templateImport.StartResources), (.Stop, templateImport.StopResources)]
    else
      [(.Stop, templateImport.StopResources), (.Start, templateImport.StartResources)]
  let rec go : List (database.WorkspaceTransition × List sdkproto.Resource) →
      World σ π → Option Error × World σ π
    | [], w => (none, w)
    | (transition, resources) :: rest, w =>
      match CompleteJob.insertResources env server.Database jobID transition
          "insert resource" resources w with
      | (some err, w) => (some err, w)
      | (none, w) => go rest w
  match go passes w with
  | (some err, w) => (some err, w)
  | (none, w) => CompleteJob.markCompleted env server.Database jobID w

/-- The function `CompleteJob` runs in a transaction for a workspace build. -/
def CompleteJob.workspaceBuildTx (env : Env σ) (server : Server σ π) (jobID : uuid.UUID)
    (job : database.ProvisionerJob) (workspaceBuild : database.WorkspaceBuild)
    (payload : proto.CompletedJob_WorkspaceBuild) (w : World σ π) :
    Option Error × World σ π :=
  let now := databaseNow env w
  let w := w.tick
  let workspaceDeadline : time.Time :=
    match server.Database.GetWorkspaceByID workspaceBuild.WorkspaceID w.db with
    | .ok workspace =>
      if workspace.Ttl.Valid then time.Add now workspace.Ttl.Int64 else 0
    | .error _ =>
      -- Huh? Did the workspace get deleted?
      -- In any case, since this is just for the TTL, try and continue anyway.
      0
  let w := w.record (.GetWorkspaceByID workspaceBuild.WorkspaceID)
  match CompleteJob.markCompleted env server.Database jobID w with
  | (some err, w) => (some err, w)
  | (none, w) =>
  let arg : database.UpdateWorkspaceBuildByIDParams :=
    { ID := workspaceBuild.ID,
      Deadline := workspaceDeadline,
      ProvisionerState := payload.State,
      UpdatedAt := now }
  match w.write (.UpdateWorkspaceBuildByID arg)
      (server.Database.UpdateWorkspaceBuildByID arg) with
  | (.error err, w) => (some (.wrap "update workspace build" err), w)
  | (.ok _, w) =>
  -- This could be a bulk insert to improve performance.
  match CompleteJob.insertResources env server.Database job.ID workspaceBuild.Transition
      "insert provisioner job" payload.Resources w with
  | (some err, w) => (some err, w)
  | (none, w) =>
  if workspaceBuild.Transition != .Delete then
    -- This is for deleting a workspace!
    (none, w)
  else
  let arg : database.UpdateWorkspaceDeletedByIDParams :=
    { ID := workspaceBuild.WorkspaceID, Deleted := true }
  match w.write (.UpdateWorkspaceDeletedByID arg)
      (server.Database.UpdateWorkspaceDeletedByID arg) with
  | (.error err, w) => (some (.wrap "update workspace deleted" err), w)
  | (.ok _, w) => (none, w)

/-- The case `CompletedJob_WorkspaceBuild_` of `CompleteJob`. -/
def CompleteJob.workspaceBuild (env : Env σ) (server : Server σ π) (jobID : uuid.UUID)
    (job : database.ProvisionerJob) (payload : proto.CompletedJob_WorkspaceBuild)
    (w : World σ π) : Option Error × World σ π :=
  match env.unmarshalWorkspaceProvisionJob job.Input with
  | .error err => (some (.wrap "unmarshal job data" err), w)
  | .ok input =>
  match w.read (.GetWorkspaceBuildByID input.WorkspaceBuildID)
      (server.Database.GetWorkspaceBuildByID input.WorkspaceBuildID) with
  | (.error err, w) => (some (.wrap "get workspace build" err), w)
  | (.ok workspaceBuild, w) =>
  match InTx (CompleteJob.workspaceBuildTx env server jobID job workspaceBuild payload) w with
  | (some err, w) => (some (.wrap "complete job" err), w)
  | (none, w) =>
  match w.publish server.Pubsub (codersdk.WorkspaceNotifyChannel workspaceBuild.WorkspaceID) ""
    with
  | (some err, w) => (some (.wrap "update workspace" err), w)
  | (none, w) => (none, w)

/-- The case `CompletedJob_TemplateDryRun_` of `CompleteJob`. -/
def CompleteJob.templateDryRun (env : Env σ) (server : Server σ π) (jobID : uuid.UUID)
    (templateDryRun : proto.CompletedJob_TemplateDryRun) (w : World σ π) :
    Option Error × World σ π :=
  match CompleteJob.insertResources env server.Database jobID .Start "insert resource"
      templateDryRun.Resources w with
  | (some err, w) => (some err, w)
  | (none, w) => CompleteJob.markCompleted env server.Database jobID w

/-- The switch of `CompleteJob` on the type of the payload. -/
def CompleteJob.jobType (env : Env σ) (server : Server σ π) (jobID : uuid.UUID)
    (job : database.ProvisionerJob) (completed : proto.CompletedJob) (w : World σ π) :
    Option Error × World σ π :=
  match completed.Type_ with
  | some (.TemplateImport_ templateImport) =>
    CompleteJob.templateImport env server jobID templateImport w
  | some (.WorkspaceBuild_ payload) =>
    CompleteJob.workspaceBuild env server jobID job payload w
  | some (.TemplateDryRun_ templateDryRun) =>
    CompleteJob.templateDryRun env server jobID templateDryRun w
  | none => (some (.new "type payload must be provided"), w)
  | some (.other goType) =>
    (some (.new ("unknown job type " ++ goType.quote
      ++ "; ensure coderd and provisionerd versions match")), w)

/-- CompleteJob is triggered by a provision daemon to mark a provisioner job
as completed. -/
def CompleteJob (env : Env σ) (server : Server σ π) (completed : proto.CompletedJob)
    (w : World σ π) : Except Error proto.Empty × World σ π :=
  match env.uuidParse completed.JobId with
  | .error err => (.error (.wrap "parse job id" err), w)
  | .ok jobID =>
  match w.read (.GetProvisionerJobByID jobID) (server.Database.GetProvisionerJobByID jobID) with
  | (.error err, w) => (.error (.wrap "get job by id" err), w)
  | (.ok job, w) =>
  if job.WorkerID.UUID.String != server.ID.String then
    (.error (.new "you don't own this job"), w)
  else
  match CompleteJob.jobType env server jobID job completed w with
  | (some err, w) => (.error err, w)
  | (none, w) =>
  let data := ProvisionerJobLogsNotifyMessage.Marshal { EndOfLogs := true }
  match w.publish server.Pubsub (ProvisionerJobLogsNotifyChannel jobID) data with
  | (some err, w) => (.error (.wrap "publish end of job logs" err), w)
  | (none, w) => (.ok {}, w)

end Server

/-! ## An in-memory store and notifier

The implementations of `database.Store` and `database.Pubsub` lie outside the
sources at hand.  The store below follows what the spec says of the store
contract; it decides the statements that depend on what the store does with a
call, and supplies concrete worlds to run the server in. -/

/-- The rows of the in-memory store, one list per table. -/
structure MemDB where
  provisionerJobs : List database.ProvisionerJob := []
  users : List database.User := []
  workspaceBuilds : List database.WorkspaceBuild := []
  workspaces : List database.Workspace := []
  templateVersions : List database.TemplateVersion := []
  templates : List database.Template := []
  files : List database.File := []
  provisionerJobLogs : List database.ProvisionerJobLog := []
  parameterSchemas : List database.ParameterSchema := []
  workspaceResources : List database.WorkspaceResource := []
  workspaceAgents : List database.WorkspaceAgent := []
  workspaceApps : List database.WorkspaceApp := []
  workspaceResourceMetadata : List database.WorkspaceResourceMetadatum := []
  deriving DecidableEq, Repr, Inhabited

namespace MemDB

/-- A single-row query: the first row the predicate selects, or the no-row
error. -/
def getOne {α : Type} (rows : List α) (p : α → Bool) : Except Error α :=
  match rows.find? p with
  | some row => .ok row
  | none => .error .ErrNoRows

/-- The oldest of the rows by creation time (the earlier row on a tie). -/
def oldest : List database.ProvisionerJob → Option database.ProvisionerJob
  | [] => none
  | job :: rest =>
    match oldest rest with
    | none => some job
    | some other => if other.CreatedAt < job.CreatedAt then some other else some job

/-- Modelled from the spec: the jobs `AcquireProvisionerJob` may select.  The
spec says "unowned, non-terminal job matching the worker's provisioner-type set
and tag filter"; the comment on the declaration in `querier.go` says "a single
job that isn't started, completed, canceled, and that matches an array of
provisioner types".  The tag filter is a parameter. -/
def eligible (tagFilter : json.RawMessage → json.RawMessage → Bool)
    (arg : database.AcquireProvisionerJobParams) (job : database.ProvisionerJob) : Bool :=
  !job.StartedAt.Valid && !job.WorkerID.Valid && !job.CanceledAt.Valid
    && !job.CompletedAt.Valid && decide (job.Provisioner ∈ arg.Types)
    && tagFilter job.Tags arg.Tags

/-- The row of a job after `AcquireProvisionerJob` stamped it. -/
def stamp (arg : database.AcquireProvisionerJobParams) (job : database.ProvisionerJob) :
    database.ProvisionerJob :=
  { job with StartedAt := arg.StartedAt, WorkerID := arg.WorkerID }

/-- Modelled from the spec: `AcquireProvisionerJob` "atomically select[s] the
oldest unowned, non-terminal job matching the worker's provisioner-type set and
tag filter, stamp[s] it with worker-id and started-at, return[s] the row; fails
with no-row-available when none match". -/
def AcquireProvisionerJob (tagFilter : json.RawMessage → json.RawMessage → Bool)
    (arg : database.AcquireProvisionerJobParams) (db : MemDB) :
    Except Error database.ProvisionerJob × MemDB :=
  match oldest (db.provisionerJobs.filter (eligible tagFilter arg)) with
  | none => (.error .ErrNoRows, db)
  | some job =>
    (.ok (stamp arg job),
      { db with provisionerJobs :=
          db.provisionerJobs.map fun row => if row.ID = job.ID then stamp arg row else row })

/-- Modelled from the spec: stamp updated-at on the job row. -/
def UpdateProvisionerJobByID (arg : database.UpdateProvisionerJobByIDParams) (db : MemDB) :
    Except Error Unit × MemDB :=
  (.ok (),
    { db with provisionerJobs :=
        db.provisionerJobs.map fun row =>
          if row.ID = arg.ID then { row with UpdatedAt := arg.UpdatedAt } else row })

/-- Modelled from the spec: write updated-at, completed-at and the error on
the job row. -/
def UpdateProvisionerJobWithCompleteByID
    (arg : database.UpdateProvisionerJobWithCompleteByIDParams) (db : MemDB) :
    Except Error Unit × MemDB :=
  (.ok (),
    { db with provisionerJobs :=
        db.provisionerJobs.map fun row =>
          if row.ID = arg.ID then
            { row with UpdatedAt := arg.UpdatedAt, CompletedAt := arg.CompletedAt,
                       Error := arg.Error }
          else row })

/-- The log rows of a bulk insert: one per entry of the parallel arrays, with
consecutive ids from the given one on. -/
def logRows (jobID : uuid.UUID) :
    Int → List time.Time → List database.LogSource → List database.LogLevel →
      List String → List String → List database.ProvisionerJobLog
  | id, createdAt :: cs, source :: ss, level :: ls, stage :: gs, output :: os =>
    { ID := id, JobID := jobID, CreatedAt := createdAt, Source := source, Level := level,
      Stage := stage, Output := output } :: logRows jobID (id + 1) cs ss ls gs os
  | _, _, _, _, _, _ => []

/-- The id the next inserted log row gets: one more than the highest id. -/
def nextLogID (db : MemDB) : Int :=
  (db.provisionerJobLogs.map fun row => row.ID).foldl max 0 + 1

/-- Modelled from the spec: bulk-insert the logs of the parallel arrays and
return the inserted rows. -/
def InsertProvisionerJobLogs (arg : database.InsertProvisionerJobLogsParams) (db : MemDB) :
    Except Error (List database.ProvisionerJobLog) × MemDB :=
  let rows := logRows arg.JobID (nextLogID db) arg.CreatedAt arg.Source arg.Level arg.Stage
    arg.Output
  (.ok rows, { db with provisionerJobLogs := db.provisionerJobLogs ++ rows })

/-- Modelled from the spec: update the description of the template version of
the job. -/
def UpdateTemplateVersionDescriptionByJobID
    (arg : database.UpdateTemplateVersionDescriptionByJobIDParams) (db : MemDB) :
    Except Error Unit × MemDB :=
  (.ok (),
    { db with templateVersions :=
        db.templateVersions.map fun row =>
          if row.JobID = arg.JobID then
            { row with Readme := arg.Readme, UpdatedAt := arg.UpdatedAt }
          else row })

/-- Modelled from the spec: insert the schema row. -/
def InsertParameterSchema (arg : database.InsertParameterSchemaParams) (db : MemDB) :
    Except Error database.ParameterSchema × MemDB :=
  (.ok arg, { db with parameterSchemas := db.parameterSchemas ++ [arg] })

/-- The row of a build after `UpdateWorkspaceBuildByID`. -/
def updatedBuild (arg : database.UpdateWorkspaceBuildByIDParams)
    (row : database.WorkspaceBuild) : database.WorkspaceBuild :=
  { row with UpdatedAt := arg.UpdatedAt, ProvisionerState := arg.ProvisionerState,
             Deadline := arg.Deadline }

/-- Modelled from the spec: update the build's deadline, provisioner state and
updated-at, and return the row; the no-row error when there is no such build. -/
def UpdateWorkspaceBuildByID (arg : database.UpdateWorkspaceBuildByIDParams) (db : MemDB) :
    Except Error database.WorkspaceBuild × MemDB :=
  match db.workspaceBuilds.find? fun row => row.ID = arg.ID with
  | none => (.error .ErrNoRows, db)
  | some build =>
    (.ok (updatedBuild arg build),
      { db with workspaceBuilds :=
          db.workspaceBuilds.map fun row =>
            if row.ID = arg.ID then updatedBuild arg row else row })

/-- Modelled from the spec: mark the workspace row deleted (or not). -/
def UpdateWorkspaceDeletedByID (arg : database.UpdateWorkspaceDeletedByIDParams)
    (db : MemDB) : Except Error Unit × MemDB :=
  (.ok (),
    { db with workspaces :=
        db.workspaces.map fun row =>
          if row.ID = arg.ID then { row with Deleted := arg.Deleted } else row })

/-- Modelled from the spec: insert a resource row. -/
def InsertWorkspaceResource (arg : database.InsertWorkspaceResourceParams) (db : MemDB) :
    Except Error database.WorkspaceResource × MemDB :=
  (.ok arg, { db with workspaceResources := db.workspaceResources ++ [arg] })

/-- Modelled from the spec: insert an agent row. -/
def InsertWorkspaceAgent (arg : database.InsertWorkspaceAgentParams) (db : MemDB) :
    Except Error database.WorkspaceAgent × MemDB :=
  (.ok arg, { db with workspaceAgents := db.workspaceAgents ++ [arg] })

/-- Modelled from the spec: insert an app row. -/
def InsertWorkspaceApp (arg : database.InsertWorkspaceAppParams) (db : MemDB) :
    Except Error database.WorkspaceApp × MemDB :=
  (.ok arg, { db with workspaceApps := db.workspaceApps ++ [arg] })

/-- Modelled from the spec: insert a metadata row. -/
def InsertWorkspaceResourceMetadata (arg : database.InsertWorkspaceResourceMetadataParams)
    (db : MemDB) : Except Error database.WorkspaceResourceMetadatum × MemDB :=
  (.ok arg, { db with workspaceResourceMetadata := db.workspaceResourceMetadata ++ [arg] })

end MemDB

/-- Modelled from the spec: the store contract over in-memory rows, with the
tag filter of the acquire as a parameter. -/
def memStore (tagFilter : json.RawMessage → json.RawMessage → Bool) : database.Store MemDB where
  AcquireProvisionerJob := MemDB.AcquireProvisionerJob tagFilter
  GetProvisionerJobByID := fun id db => MemDB.getOne db.provisionerJobs fun row => row.ID = id
  GetUserByID := fun id db => MemDB.getOne db.users fun row => row.ID = id
  GetWorkspaceBuildByID := fun id db => MemDB.getOne db.workspaceBuilds fun row => row.ID = id
  GetWorkspaceByID := fun id db => MemDB.getOne db.workspaces fun row => row.ID = id
  GetTemplateVersionByID := fun id db =>
    MemDB.getOne db.templateVersions fun row => row.ID = id
  GetTemplateVersionByJobID := fun jobID db =>
    MemDB.getOne db.templateVersions fun row => row.JobID = jobID
  GetTemplateByID := fun id db => MemDB.getOne db.templates fun row => row.ID = id
  GetFileByID := fun id db => MemDB.getOne db.files fun row => row.ID = id
  UpdateProvisionerJobByID := MemDB.UpdateProvisionerJobByID
  UpdateProvisionerJobWithCompleteByID := MemDB.UpdateProvisionerJobWithCompleteByID
  InsertProvisionerJobLogs := MemDB.InsertProvisionerJobLogs
  UpdateTemplateVersionDescriptionByJobID := MemDB.UpdateTemplateVersionDescriptionByJobID
  InsertParameterSchema := MemDB.InsertParameterSchema
  UpdateWorkspaceBuildByID := MemDB.UpdateWorkspaceBuildByID
  UpdateWorkspaceDeletedByID := MemDB.UpdateWorkspaceDeletedByID
  InsertWorkspaceResource := MemDB.InsertWorkspaceResource
  InsertWorkspaceAgent := MemDB.InsertWorkspaceAgent
  InsertWorkspaceApp := MemDB.InsertWorkspaceApp
  InsertWorkspaceResourceMetadata := MemDB.InsertWorkspaceResourceMetadata

/-- Modelled from the spec: the notifier only publishes; its state is the
list of the publications made, oldest first, and a publication succeeds. -/
def memPubsub : database.Pubsub (List (String × String)) where
  Publish := fun channel message published => (none, published ++ [(channel, message)])

/-! ## Sample worlds -/

/-- An environment to run the server in: the given clock, UUIDs numbered in
the order they are generated, a parser that accepts every non-empty text as
the UUID it spells, and decoders that accept nothing. -/
def sampleEnv (clock : Nat → time.Time) : Env MemDB where
  clock := clock
  newUUID := fun n => ⟨String.mk (List.replicate (n + 1) 'f')⟩
  uuidParse := fun s => if s = "" then .error (.new "invalid UUID length: 0") else .ok ⟨s⟩
  unmarshalWorkspaceProvisionJob := fun _ => .error (.new "unexpected end of JSON input")
  unmarshalTemplateVersionDryRunJob := fun _ => .error (.new "unexpected end of JSON input")
  marshalEnv := fun _ => .ok "\x7b\x7d"
  parameterCompute := fun _ _ => .ok []
  protobufSize := fun _ => 0
  MaxMessageSize := 4194304
  AppSlugRegexMatch := fun _ => true
  AppSlugRegexString := ""
  rangeStartFirst := true

/-- A server over the in-memory store and notifier. -/
def sampleServer (id : uuid.UUID) (debounce : time.Duration) :
    Server MemDB (List (String × String)) where
  AccessURL := "https://coder.example"
  ID := id
  Provisioners := [.echo]
  Tags := ""
  Database := memStore fun _ _ => true
  Pubsub := memPubsub
  QuotaCommitter := none
  AcquireJobDebounce := debounce


/-- The in-memory store with an `AcquireProvisionerJob` that fails with the
given error. -/
def failingAcquireStore (err : Error) : database.Store MemDB :=
  { memStore (fun _ _ => true) with AcquireProvisionerJob := fun _ db => (.error err, db) }

/-- A world over the in-memory store holding the given jobs, with nothing
published and no empty acquire recorded. -/
def sampleWorld (jobs : List database.ProvisionerJob) : World MemDB (List (String × String)) :=
  { db := { provisionerJobs := jobs }, ps := [] }

/-- A queued template-import job with id j, created at instant 10. -/
def queuedJob : database.ProvisionerJob :=
  { ID := ⟨"j"⟩, CreatedAt := 10, UpdatedAt := 10, Provisioner := .echo, StorageMethod := .File,
    Type_ := .TemplateVersionImport }

/-- The job j after server a acquired it at instant 20. -/
def runningJob : database.ProvisionerJob :=
  { queuedJob with
    StartedAt := { Time := 20, Valid := true },
    WorkerID := { UUID := ⟨"a"⟩, Valid := true } }

/-- The job j, acquired by server a and completed at instant 50. -/
def terminalJob : database.ProvisionerJob :=
  { runningJob with UpdatedAt := 50, CompletedAt := { Time := 50, Valid := true } }

/-! ## Predicates the statements use -/

section Predicates

variable {σ π : Type}

/-- World w is reached from w0 by queries and publications only: the rows
and `lastAcquire` are those of w0, and the trace of w is that of w0 followed
by calls none of which is a store write. -/
structure World.Quiet (w0 w : World σ π) : Prop where
  db : w.db = w0.db
  lastAcquire : w.lastAcquire = w0.lastAcquire
  trace : ∃ l, w.trace = w0.trace ++ l ∧ ∀ e ∈ l, e.isWrite = false

/-- The outcome r of a part of `AcquireJob` that started in world w0 is a
`return nil, failJob(msg)`, made in a world reached from w0 by queries and
publications only. -/
def AcquireJob.FailedFrom {α : Type} (env : Env σ) (server : Server σ π)
    (job : database.ProvisionerJob) (w0 : World σ π) (r : Except Error α × World σ π) : Prop :=
  ∃ msg w, r = AcquireJob.fail env server job msg w ∧ World.Quiet w0 w

/-- Every step of the workspace-build case of the hydration succeeds on rows
db and notifier state ps: the job input decodes, the build, workspace,
template version, template and owner are found, the workspace publication
succeeds, the parameters are computed and convert, the transition converts. -/
def AcquireJob.WorkspaceBuildLoads (env : Env σ) (server : Server σ π)
    (job : database.ProvisionerJob) (db : σ) (ps : π) : Prop :=
  ∃ input workspaceBuild workspace templateVersion template owner parameters protoParameters
      transition,
    env.unmarshalWorkspaceProvisionJob job.Input = .ok input
    ∧ server.Database.GetWorkspaceBuildByID input.WorkspaceBuildID db = .ok workspaceBuild
    ∧ server.Database.GetWorkspaceByID workspaceBuild.WorkspaceID db = .ok workspace
    ∧ server.Database.GetTemplateVersionByID workspaceBuild.TemplateVersionID db
        = .ok templateVersion
    ∧ server.Database.GetTemplateByID templateVersion.TemplateID.UUID db = .ok template
    ∧ server.Database.GetUserByID workspace.OwnerID db = .ok owner
    ∧ (server.Pubsub.Publish (codersdk.WorkspaceNotifyChannel workspace.ID) "" ps).1 = none
    ∧ env.parameterCompute
        { TemplateImportJobID := templateVersion.JobID,
          TemplateID := { UUID := template.ID, Valid := true },
          WorkspaceID := { UUID := workspace.ID, Valid := true } } db = .ok parameters
    ∧ convertComputedParameterValues parameters = .ok protoParameters
    ∧ convertWorkspaceTransition workspaceBuild.Transition = .ok transition

/-- Every step of the template dry-run case of the hydration succeeds on rows
db: the job input decodes, the template version is found, the parameters are
computed and convert. -/
def AcquireJob.TemplateVersionDryRunLoads (env : Env σ) (server : Server σ π)
    (job : database.ProvisionerJob) (db : σ) : Prop :=
  ∃ input templateVersion parameters protoParameters,
    env.unmarshalTemplateVersionDryRunJob job.Input = .ok input
    ∧ server.Database.GetTemplateVersionByID input.TemplateVersionID db = .ok templateVersion
    ∧ env.parameterCompute
        { TemplateImportJobID := templateVersion.JobID,
          TemplateID := templateVersion.TemplateID,
          WorkspaceID := {},
          AdditionalParameterValues := input.ParameterValues } db = .ok parameters
    ∧ convertComputedParameterValues parameters = .ok protoParameters

/-- Every step of the hydration of the acquired job succeeds on rows db and
notifier state ps, and yields the envelope protoJob: the initiator is found,
the type-specific context loads, the storage method is file, the file is
found, and the envelope is not larger than `MaxMessageSize`. -/
def AcquireJob.Loads (env : Env σ) (server : Server σ π) (job : database.ProvisionerJob)
    (db : σ) (ps : π) (protoJob : proto.AcquiredJob) : Prop :=
  (∃ user, server.Database.GetUserByID job.InitiatorID db = .ok user
    ∧ protoJob.UserName = user.Username)
  ∧ (job.Type_ = .WorkspaceBuild → AcquireJob.WorkspaceBuildLoads env server job db ps)
  ∧ (job.Type_ = .TemplateVersionDryRun → AcquireJob.TemplateVersionDryRunLoads env server job db)
  ∧ job.StorageMethod = .File
  ∧ (∃ file, server.Database.GetFileByID job.FileID db = .ok file
    ∧ protoJob.TemplateSourceArchive = some file.Data)
  ∧ env.protobufSize protoJob ≤ env.MaxMessageSize
  ∧ protoJob.JobId = job.ID.String

end Predicates

section Predicates2

variable {σ π : Type}

/-- The world in which `AcquireJob`, run in world w, goes on after the store
answered its `AcquireProvisionerJob`. -/
def AcquireJob.afterAcquire (env : Env σ) (server : Server σ π) (w : World σ π) : World σ π :=
  ((AcquireJob.afterTest w).tick.write
    (.AcquireProvisionerJob (AcquireJob.arg env server w)
      (server.Database.AcquireProvisionerJob (AcquireJob.arg env server w) w.db).1.toOption)
    (server.Database.AcquireProvisionerJob (AcquireJob.arg env server w))).2

end Predicates2

/-- A world in which an empty acquire was recorded at instant 100. -/
def recordedWorld : World MemDB (List (String × String)) :=
  { db := {}, ps := [], lastAcquire := 100 }

/-- A clock that reads 109, 115, 121, and so on. -/
def slowClock (n : Nat) : time.Time := 109 + 6 * n

section Predicates3

variable {σ π : Type}

/-- The trace of world w is the trace of w0 followed by further calls. -/
def World.Extends (w0 w : World σ π) : Prop :=
  w0.trace <+: w.trace

end Predicates3

/-! ## Runs of `AcquireJob` -/

section Runs

variable {σ π : Type}

/-- The id of the job an event shows the store handing out, if any. -/
def Event.acquiredID : Event → Option uuid.UUID
  | .AcquireProvisionerJob _ (some job) => some job.ID
  | _ => none

/-- The ids of the jobs the store handed out, in the order of the trace:
one entry per acquisition. -/
def acquiredIDs (trace : List Event) : List uuid.UUID :=
  trace.filterMap Event.acquiredID

/-- A sequence of `AcquireJob` calls, one per server of the list in order
(a server may occur more than once), each in the world the previous call left. -/
def acquireRun (env : Env σ) : List (Server σ π) → World σ π → World σ π
  | [], w => w
  | server :: rest, w => acquireRun env rest (AcquireJob env server w).2

/-- The job row carries no stamp of an acquire: started-at and worker-id are
both null. -/
def database.ProvisionerJob.Unstamped (job : database.ProvisionerJob) : Prop :=
  job.StartedAt.Valid = false ∧ job.WorkerID.Valid = false

/-- What holds of a world reached from the rows db0 by `AcquireJob` calls of
servers whose ids are in ids, over the in-memory store. -/
structure AcquireInv (db0 : MemDB) (ids : List uuid.UUID) (w : World MemDB π) : Prop where
  /-- A row without a stamp had none at the start. -/
  unstamped : ∀ row ∈ w.db.provisionerJobs, row.Unstamped →
    ∃ row0 ∈ db0.provisionerJobs, row0.ID = row.ID ∧ row0.Unstamped
  /-- No job was handed out twice. -/
  nodup : (acquiredIDs w.trace).Nodup
  /-- A job that was handed out has started-at set. -/
  started : ∀ row ∈ w.db.provisionerJobs, row.ID ∈ acquiredIDs w.trace →
    row.StartedAt.Valid = true
  /-- Every acquire asked for a non-null stamp with the id of a server. -/
  asked : ∀ arg acquired, Event.AcquireProvisionerJob arg acquired ∈ w.trace →
    arg.WorkerID.Valid = true ∧ arg.StartedAt.Valid = true ∧ arg.WorkerID.UUID ∈ ids
  /-- Every job handed out carries the stamp asked for and had none at the
  start. -/
  handed : ∀ arg job, Event.AcquireProvisionerJob arg (some job) ∈ w.trace →
    job.WorkerID = arg.WorkerID ∧ job.StartedAt = arg.StartedAt
    ∧ ∃ row0 ∈ db0.provisionerJobs, row0.ID = job.ID ∧ row0.Unstamped

end Runs

/-- A queued template-import job with id k, created at instant 5. -/
def olderQueuedJob : database.ProvisionerJob :=
  { queuedJob with ID := ⟨"k"⟩, CreatedAt := 5, UpdatedAt := 5 }

/-! ## Predicates and sample worlds for `FailJob`, `CompleteJob` and `UpdateJob` -/

namespace Event

/-- The event is one of the four inserts `InsertWorkspaceResource` makes. -/
def isResourceInsert : Event → Bool
  | InsertWorkspaceResource _ => true
  | InsertWorkspaceAgent _ => true
  | InsertWorkspaceApp _ => true
  | InsertWorkspaceResourceMetadata _ => true
  | _ => false

/-- The event is a call on the store: not a publication, and not the begin,
the commit or the rollback of a transaction. -/
def isStoreCall : Event → Bool
  | Publish _ _ => false
  | InTxBegin => false
  | InTxCommit => false
  | InTxRollback => false
  | _ => true

end Event

/-- The publication of the end-of-logs sentinel on the log channel of a job,
as `FailJob` and `CompleteJob` make it. -/
def endOfLogs (jobID : uuid.UUID) : Event :=
  .Publish (ProvisionerJobLogsNotifyChannel jobID)
    (ProvisionerJobLogsNotifyMessage.Marshal { EndOfLogs := true })

section Predicates4

variable {σ π : Type}

/-- World w is reached from w0 without a publication: the notifier state and
`lastAcquire` are those of w0, and the trace of w is that of w0 followed by
calls that all satisfy P. -/
structure World.Via (P : Event → Prop) (w0 w : World σ π) : Prop where
  ps : w.ps = w0.ps
  lastAcquire : w.lastAcquire = w0.lastAcquire
  trace : ∃ l, w.trace = w0.trace ++ l ∧ ∀ e ∈ l, P e

end Predicates4

/-- An environment like `sampleEnv` whose decoder of a workspace-build job
input reads the text as the id of the build. -/
def buildEnv (clock : Nat → time.Time) : Env MemDB :=
  { sampleEnv clock with
    unmarshalWorkspaceProvisionJob := fun s => .ok { WorkspaceBuildID := ⟨s⟩ } }

/-- A workspace-build job with id j for the build b, acquired by server a. -/
def buildJob : database.ProvisionerJob :=
  { runningJob with Type_ := .WorkspaceBuild, Input := "b" }

/-- The build b of workspace ws, a start build with deadline 500. -/
def sampleBuild : database.WorkspaceBuild :=
  { ID := ⟨"b"⟩, UpdatedAt := 30, WorkspaceID := ⟨"ws"⟩, Transition := .Start,
    JobID := ⟨"j"⟩, Deadline := 500 }

/-- The workspace ws, with a time-to-live of 3600. -/
def sampleWorkspace : database.Workspace :=
  { ID := ⟨"ws"⟩, Name := "dev", Ttl := { Int64 := 3600, Valid := true } }

/-- A world over the in-memory store holding the job j, the given build and
the given workspace, with nothing published. -/
def buildWorld (build : database.WorkspaceBuild) (workspace : database.Workspace) :
    World MemDB (List (String × String)) :=
  { db := { provisionerJobs := [buildJob], workspaceBuilds := [build],
            workspaces := [workspace] },
    ps := [] }

/-- The in-memory store with an `InsertProvisionerJobLogs` that returns the
inserted rows highest id first. -/
def reversedLogsStore : database.Store MemDB :=
  { memStore (fun _ _ => true) with
    InsertProvisionerJobLogs := fun arg db =>
      ((MemDB.InsertProvisionerJobLogs arg db).1.map List.reverse,
        (MemDB.InsertProvisionerJobLogs arg db).2) }

/-- The in-memory store with an `UpdateWorkspaceDeletedByID` that fails with
the given error. -/
def failingDeleteStore (err : Error) : database.Store MemDB :=
  { memStore (fun _ _ => true) with UpdateWorkspaceDeletedByID := fun _ db => (.error err, db) }

/-- A resource with one agent that has one app with slug ide. -/
def ideResource (name : String) : sdkproto.Resource :=
  { Name := name, Type_ := "docker_container",
    Agents := [{ Name := "main", Apps := [{ Slug := "ide" }] }] }

/-- A resource with one agent that has two apps with slug ide. -/
def twiceIdeResource : sdkproto.Resource :=
  { Name := "dev", Type_ := "docker_container",
    Agents := [{ Name := "main", Apps := [{ Slug := "ide" }, { Slug := "ide" }] }] }

/-! ## Runs of calls and what they keep -/

section Frames

variable {σ π : Type}

/-- Every operation of the store other than the three on the rows of the
provisioner jobs (`AcquireProvisionerJob`, `UpdateProvisionerJobByID`,
`UpdateProvisionerJobWithCompleteByID`) leaves the part f of the rows as it
was. -/
structure database.Store.Keeps {α : Type} (db : database.Store σ) (f : σ → α) : Prop where
  InsertProvisionerJobLogs : ∀ arg s, f (db.InsertProvisionerJobLogs arg s).2 = f s
  UpdateTemplateVersionDescriptionByJobID :
    ∀ arg s, f (db.UpdateTemplateVersionDescriptionByJobID arg s).2 = f s
  InsertParameterSchema : ∀ arg s, f (db.InsertParameterSchema arg s).2 = f s
  UpdateWorkspaceBuildByID : ∀ arg s, f (db.UpdateWorkspaceBuildByID arg s).2 = f s
  UpdateWorkspaceDeletedByID : ∀ arg s, f (db.UpdateWorkspaceDeletedByID arg s).2 = f s
  InsertWorkspaceResource : ∀ arg s, f (db.InsertWorkspaceResource arg s).2 = f s
  InsertWorkspaceAgent : ∀ arg s, f (db.InsertWorkspaceAgent arg s).2 = f s
  InsertWorkspaceApp : ∀ arg s, f (db.InsertWorkspaceApp arg s).2 = f s
  InsertWorkspaceResourceMetadata :
    ∀ arg s, f (db.InsertWorkspaceResourceMetadata arg s).2 = f s

/-- One call of a provisioner daemon on a server: the four RPCs that change
provisioner jobs. -/
inductive Call (σ π : Type) where
  | acquire (server : Server σ π)
  | update (server : Server σ π) (request : proto.UpdateJobRequest)
  | fail (server : Server σ π) (failJob : proto.FailedJob)
  | complete (server : Server σ π) (completed : proto.CompletedJob)

/-- The server a call is made on. -/
def Call.server : Call σ π → Server σ π
  | .acquire server => server
  | .update server _ => server
  | .fail server _ => server
  | .complete server _ => server

/-- The world a call leaves. -/
def Call.run (env : Env σ) : Call σ π → World σ π → World σ π
  | .acquire server, w => (AcquireJob env server w).2
  | .update server request, w => (UpdateJob env server request w).2
  | .fail server failJob, w => (FailJob env server failJob w).2
  | .complete server completed, w => (CompleteJob env server completed w).2

/-- The world a sequence of calls leaves, each call made in the world the
previous one left. -/
def runCalls (env : Env σ) : List (Call σ π) → World σ π → World σ π
  | [], w => w
  | call :: rest, w => runCalls env rest (call.run env w)

end Frames

/-- Every job with completed-at non-null has started-at non-null. -/
def CompletedStarted (jobs : List database.ProvisionerJob) : Prop :=
  ∀ job ∈ jobs, job.CompletedAt.Valid = true → job.StartedAt.Valid = true

instance (jobs : List database.ProvisionerJob) : Decidable (CompletedStarted jobs) := by
  unfold CompletedStarted
  infer_instance

/-- Every job whose worker-id field holds one of the given ids has started-at
non-null. -/
def OwnedStarted (ids : List uuid.UUID) (jobs : List database.ProvisionerJob) : Prop :=
  ∀ job ∈ jobs, ∀ id ∈ ids, job.WorkerID.UUID.String = id.String → job.StartedAt.Valid = true

instance (ids : List uuid.UUID) (jobs : List database.ProvisionerJob) :
    Decidable (OwnedStarted ids jobs) := by
  unfold OwnedStarted
  infer_instance

/-- A job with worker-id a and neither started-at nor completed-at: a row no
acquire leaves. -/
def ownedUnstartedJob : database.ProvisionerJob :=
  { queuedJob with WorkerID := { UUID := ⟨"a"⟩, Valid := true } }

/-- What a sequence of calls by servers with the given ids keeps of the rows
of the jobs: the ids of the jobs are pairwise distinct, every completed job
has started, and every job whose worker-id field holds the id of one of the
servers has started. -/
structure JobsInv (ids : List uuid.UUID) (jobs : List database.ProvisionerJob) : Prop where
  nodup : (jobs.map fun job => job.ID).Nodup
  completed : CompletedStarted jobs
  owned : OwnedStarted ids jobs

/-! ## The Terraform state converter (`provisioner/terraform/resources.go`) -/

namespace strings

/-- Byte-wise lexicographic comparison of two texts, on their characters: on
well-formed UTF-8 the order of the bytes is the order of the code points. -/
def lessChars : List Char → List Char → Bool
  | [], [] => false
  | [], _ :: _ => true
  | _ :: _, [] => false
  | a :: as, b :: bs =>
    if a.toNat < b.toNat then true
    else if b.toNat < a.toNat then false
    else lessChars as bs

/-- Go `a < b` on strings. -/
def Less (a b : String) : Bool :=
  lessChars a.toList b.toList

/-- Go `strings.Trim(s, cutset)`: `s` without the leading and trailing
characters that occur in `cutset`. -/
def Trim (s cutset : String) : String :=
  String.mk (((s.toList.dropWhile (fun c => cutset.toList.contains c)).reverse.dropWhile
    (fun c => cutset.toList.contains c)).reverse)

/-- Go `strings.HasPrefix(s, start)`. -/
def HasPrefix (s start : String) : Bool :=
  start.toList.isPrefixOf s.toList

end strings

namespace gomap

/-- Go maps with string keys are lists of entries with distinct keys;
`m[k] = v` replaces the entry of `k`. -/
def set {β : Type} (m : List (String × β)) (k : String) (v : β) : List (String × β) :=
  m.filter (fun e => e.1 != k) ++ [(k, v)]

end gomap

namespace tfjson

/-- A decoded JSON value, the Go `interface{}` of an attribute. -/
inductive Value where
  | string (s : String)
  | number (n : Int)
  | bool (b : Bool)
  | null
  | list (items : List Value)
  | object (fields : List (String × Value))
  deriving Inhabited

/-- Go `tfjson.ResourceMode`, a string type with two named values. -/
inductive ResourceMode where
  | DataResourceMode
  | ManagedResourceMode
  | other (mode : String)
  deriving DecidableEq, Repr, Inhabited

structure StateResource where
  Address : String := ""
  Mode : ResourceMode := .ManagedResourceMode
  Type_ : String := ""
  Name : String := ""
  AttributeValues : List (String × Value) := []
  deriving Inhabited

inductive StateModule where
  | mk (Resources : List StateResource) (ChildModules : List StateModule)
  deriving Inhabited

end tfjson

namespace gographviz

structure Node where
  Name : String := ""
  Attrs : List (String × String) := []
  deriving DecidableEq, Repr, Inhabited

/-- Go `gographviz.Nodes`; only the `Lookup` map is read. -/
structure Nodes where
  Lookup : List (String × Node) := []
  deriving DecidableEq, Repr, Inhabited

/-- Go `gographviz.Edges`: for each node name the names at the other end of
its edges (the keys of the inner map). -/
structure Edges where
  SrcToDsts : List (String × List String) := []
  DstToSrcs : List (String × List String) := []
  deriving DecidableEq, Repr, Inhabited

structure Graph where
  Nodes : Nodes := {}
  Edges : Edges := {}
  deriving DecidableEq, Repr, Inhabited

end gographviz

namespace terraform

/-- A mapping of attributes on the "coder_agent" resource. -/
structure agentAttributes where
  Auth : String := ""
  OperatingSystem : String := ""
  Architecture : String := ""
  Directory : String := ""
  ID : String := ""
  Token : String := ""
  Env : Option (List (String × String)) := none
  StartupScript : String := ""
  ConnectionTimeoutSeconds : Int := 0
  TroubleshootingURL : String := ""
  deriving DecidableEq, Repr, Inhabited

/-- A mapping of attributes on the "healthcheck" resource. -/
structure appHealthcheckAttributes where
  URL : String := ""
  Interval : Int := 0
  Threshold : Int := 0
  deriving DecidableEq, Repr, Inhabited

/-- A mapping of attributes on the "coder_app" resource. -/
structure agentAppAttributes where
  AgentID : String := ""
  Slug : String := ""
  DisplayName : String := ""
  Name : String := ""
  Icon : String := ""
  URL : String := ""
  Command : String := ""
  Share : String := ""
  Subdomain : Bool := false
  Healthcheck : List appHealthcheckAttributes := []
  deriving DecidableEq, Repr, Inhabited

structure metadataItem where
  Key : String := ""
  Value : String := ""
  Sensitive : Bool := false
  IsNull : Bool := false
  deriving DecidableEq, Repr, Inhabited

/-- A mapping of attributes on the "coder_metadata" resource. -/
structure metadataAttributes where
  ResourceID : String := ""
  Hide : Bool := false
  Icon : String := ""
  DailyCost : Int := 0
  Items : List metadataItem := []
  deriving DecidableEq, Repr, Inhabited

structure graphResource where
  Label : String
  Depth : Nat
  deriving DecidableEq, Repr, Inhabited

/-- What the converter takes from its libraries.  `γ` is the syntax tree of
`gographviz.ParseString`.  Go visits the entries of a map in an unspecified
order: each `range` over a map has a field that gives the order of the
visit. -/
structure Env (γ : Type) where
  /-- Go `gographviz.ParseString`. -/
  ParseString : String → Except Error γ
  /-- Go `gographviz.NewAnalysedGraph`. -/
  NewAnalysedGraph : γ → Except Error gographviz.Graph
  /-- Go `mapstructure.Decode` into `agentAttributes`. -/
  DecodeAgent : List (String × tfjson.Value) → Except Error agentAttributes
  /-- Go `mapstructure.Decode` into `agentAppAttributes`. -/
  DecodeApp : List (String × tfjson.Value) → Except Error agentAppAttributes
  /-- Go `mapstructure.Decode` into `metadataAttributes`. -/
  DecodeMetadata : List (String × tfjson.Value) → Except Error metadataAttributes
  /-- Go `provisioner.AppSlugRegex.MatchString`. -/
  AppSlugRegexMatch : String → Bool
  /-- Go `strings.ToLower`. -/
  ToLower : String → String
  /-- Go `strconv.Quote`: the text the verb `%q` of `fmt` prints for a string. -/
  Quote : String → String
  /-- The order of the n-th `range tfResourceByLabel` of `ConvertResources`. -/
  rangeResources : Nat → List (String × tfjson.StateResource) →
    List (String × tfjson.StateResource)
  /-- The order of `range graph.Nodes.Lookup` in the search for a label. -/
  rangeNodes : String → List (String × gographviz.Node) → List (String × gographviz.Node)
  /-- The order of `range mapping[nodeName]` at a node and depth. -/
  rangeEdges : String → Nat → List String → List String

/-- Function `convertAddressToLabel` returns the Terraform address without the
count specifier: `strings.Split(address, "[")[0]`, the text before the first
`[`. -/
def convertAddressToLabel (address : String) : String :=
  String.mk (address.toList.takeWhile (fun c => c != '['))

/-- The two indexes of `ConvertResources`. -/
structure Index where
  tfResourceByLabel : List (String × tfjson.StateResource) := []
  resourceLabelByID : List (String × String) := []

/-- The body of the loop over `mod.Resources` in `findTerraformResources`. -/
def findTerraformResources.resource (index : Index) (resource : tfjson.StateResource) :
    Index :=
  let label := convertAddressToLabel resource.Address
  let index := { index with
    tfResourceByLabel := gomap.set index.tfResourceByLabel label resource }
  match resource.AttributeValues.lookup "id" with
  | some (.string idString) =>
    { index with resourceLabelByID := gomap.set index.resourceLabelByID idString label }
  | _ => index

mutual
/-- The closure `findTerraformResources`: the child modules first, then the
resources of the module. -/
def findTerraformResources : tfjson.StateModule → Index → Index
  | .mk resources childModules, index =>
    resources.foldl findTerraformResources.resource
      (findTerraformResources.modules childModules index)
/-- The loop over `mod.ChildModules`. -/
def findTerraformResources.modules : List tfjson.StateModule → Index → Index
  | [], index => index
  | module :: rest, index =>
    findTerraformResources.modules rest (findTerraformResources module index)
end

/-- The instance-type attribute of the resource types `applyInstanceType`
tracks. -/
def applyInstanceType.key (type : String) : Option String :=
  [("google_compute_instance", "machine_type"),
   ("aws_instance", "instance_type"),
   ("aws_spot_instance_request", "instance_type"),
   ("azurerm_linux_virtual_machine", "size"),
   ("azurerm_windows_virtual_machine", "size")].lookup type

/-- Function `applyInstanceType`. -/
def applyInstanceType (resource : tfjson.StateResource) : String :=
  match applyInstanceType.key resource.Type_ with
  | none => ""
  | some key =>
    match resource.AttributeValues.lookup key with
    | some (.string instanceType) => instanceType
    | _ => ""

/-- The instance-id attribute of the resource types `applyAutomaticInstanceID`
knows. -/
def applyAutomaticInstanceID.key (type : String) : Option String :=
  [("google_compute_instance", "instance_id"),
   ("aws_instance", "id"),
   ("aws_spot_instance_request", "spot_instance_id"),
   ("azurerm_linux_virtual_machine", "virtual_machine_id"),
   ("azurerm_windows_virtual_machine", "virtual_machine_id")].lookup type

/-- The body of the loop over the agents in `applyAutomaticInstanceID`. -/
def applyAutomaticInstanceID.agent (instanceID : String) (agent : sdkproto.Agent) :
    sdkproto.Agent :=
  if agent.GetToken ≠ "" then agent
  else if agent.GetInstanceId ≠ "" then agent
  else { agent with Auth := some (.InstanceId instanceID) }

/-- Function `applyAutomaticInstanceID`; the agents it updates in place are
its result. -/
def applyAutomaticInstanceID (resource : tfjson.StateResource)
    (agents : List sdkproto.Agent) : List sdkproto.Agent :=
  match applyAutomaticInstanceID.key resource.Type_ with
  | none => agents
  | some key =>
    match resource.AttributeValues.lookup key with
    | some (.string instanceID) => agents.map (applyAutomaticInstanceID.agent instanceID)
    | _ => agents

end terraform
namespace terraform

/-- The loop over `mapping[nodeName]` in `findResourcesInGraph`; `recurse` is
the recursive call at depth `currentDepth + 1`.  A destination absent from
`graph.Nodes.Lookup` is a nil node, whose `Name` is a nil dereference. -/
def findResourcesInGraph.visit (graph : gographviz.Graph)
    (tfResourceByLabel : List (String × tfjson.StateResource))
    (recurse : String → Except Error (List graphResource)) (currentDepth : Nat) :
    List String → List graphResource → Except Error (List graphResource)
  | [], graphResources => .ok graphResources
  | destination :: rest, graphResources =>
    match graph.Nodes.Lookup.lookup destination with
    | none => .error (.panic "invalid memory address or nil pointer dereference")
    | some destinationNode =>
      match recurse destinationNode.Name with
      | .error err => .error err
      | .ok found =>
        let graphResources := graphResources ++ found
        match destinationNode.Attrs.lookup "label" with
        | none => visit graph tfResourceByLabel recurse currentDepth rest graphResources
        | some destinationLabel =>
          let destinationLabel := strings.Trim destinationLabel "\""
          match tfResourceByLabel.lookup destinationLabel with
          | none => visit graph tfResourceByLabel recurse currentDepth rest graphResources
          | some resource =>
            if resource.Mode ≠ .ManagedResourceMode then
              visit graph tfResourceByLabel recurse currentDepth rest graphResources
            else if strings.HasPrefix resource.Type_ "coder_" then
              visit graph tfResourceByLabel recurse currentDepth rest graphResources
            else
              visit graph tfResourceByLabel recurse currentDepth rest
                (graphResources ++ [{ Label := destinationLabel, Depth := currentDepth }])

/-- Function `findResourcesInGraph` traverses directionally in a graph until a
resource is found, then it stores the depth it was found at, and continues
working up the tree.  The recursion of the source has no bound: `fuel` bounds
its depth here, and running out of it is the stack overflow of a traversal
that does not end. -/
def findResourcesInGraph {γ : Type} (env : Env γ) (graph : gographviz.Graph)
    (tfResourceByLabel : List (String × tfjson.StateResource)) :
    Nat → String → Nat → Bool → Except Error (List graphResource)
  | 0, _, _, _ => .error (.panic "stack overflow")
  | fuel + 1, nodeName, currentDepth, up =>
    let mapping := if !up then graph.Edges.SrcToDsts else graph.Edges.DstToSrcs
    findResourcesInGraph.visit graph tfResourceByLabel
      (fun name => findResourcesInGraph env graph tfResourceByLabel fuel name
        (currentDepth + 1) up)
      currentDepth
      (env.rangeEdges nodeName currentDepth ((mapping.lookup nodeName).getD [])) []

/-- The body of the loops that choose `agentResource` and `attachedResource`:
the first resource, then every closer one, then at equal depth every one with
a smaller label. -/
def ConvertResources.closer (chosen : Option graphResource) (resource : graphResource) :
    Option graphResource :=
  match chosen with
  | none => some resource
  | some agentResource =>
    if resource.Depth < agentResource.Depth then some resource
    else if resource.Depth = agentResource.Depth
        ∧ strings.Less resource.Label agentResource.Label = true then some resource
    else some agentResource

/-- The search of `graph.Nodes.Lookup` for the node with a label: the first
one in the order of the visit. -/
def ConvertResources.findNode {γ : Type} (env : Env γ) (graph : gographviz.Graph)
    (label : String) : Option gographviz.Node :=
  ((env.rangeNodes label graph.Nodes.Lookup).find?
    (fun e => strings.Trim ((e.2.Attrs.lookup "label").getD "") "\"" == label)).map
    (fun e => e.2)

/-- The agent built from a "coder_agent" resource and its attributes. -/
def ConvertResources.agent (tfResource : tfjson.StateResource) (attrs : agentAttributes) :
    sdkproto.Agent :=
  { Name := tfResource.Name
    Id := attrs.ID
    Env := attrs.Env
    StartupScript := attrs.StartupScript
    OperatingSystem := attrs.OperatingSystem
    Architecture := attrs.Architecture
    Directory := attrs.Directory
    ConnectionTimeoutSeconds := attrs.ConnectionTimeoutSeconds
    TroubleshootingUrl := attrs.TroubleshootingURL
    Auth := if attrs.Auth = "token" then some (.Token attrs.Token)
      else some (.InstanceId "") }

/-- The loop "Find all agents!" of `ConvertResources` over the entries of
`tfResourceByLabel` in the order of the visit. -/
def ConvertResources.agents {γ : Type} (env : Env γ) (fuel : Nat) (graph : gographviz.Graph)
    (tfResourceByLabel : List (String × tfjson.StateResource)) :
    List (String × tfjson.StateResource) → List (String × List sdkproto.Agent) →
    Except Error (List (String × List sdkproto.Agent))
  | [], resourceAgents => .ok resourceAgents
  | (_, tfResource) :: rest, resourceAgents =>
    if tfResource.Type_ ≠ "coder_agent" then
      agents env fuel graph tfResourceByLabel rest resourceAgents
    else
      match env.DecodeAgent tfResource.AttributeValues with
      | .error err => .error (.wrap "decode agent attributes" err)
      | .ok attrs =>
        let agent := ConvertResources.agent tfResource attrs
        let agentLabel := convertAddressToLabel tfResource.Address
        match ConvertResources.findNode env graph agentLabel with
        | none => .error (.new ("couldn't find node on graph: " ++ env.Quote agentLabel))
        | some agentNode =>
          match findResourcesInGraph env graph tfResourceByLabel fuel agentNode.Name 0 true with
          | .error err => .error err
          | .ok found =>
            match found.foldl ConvertResources.closer none with
            | none => agents env fuel graph tfResourceByLabel rest resourceAgents
            | some agentResource =>
              agents env fuel graph tfResourceByLabel rest
                (gomap.set resourceAgents agentResource.Label
                  ((resourceAgents.lookup agentResource.Label).getD [] ++ [agent]))

/-- The loop over one slice of agents in "Manually associate agents with
instance IDs": the first agent with the id gets the instance id. -/
def ConvertResources.associate : String → String → List sdkproto.Agent → List sdkproto.Agent
  | _, _, [] => []
  | agentID, instanceID, agent :: rest =>
    if agent.Id ≠ agentID then agent :: ConvertResources.associate agentID instanceID rest
    else { agent with Auth := some (.InstanceId instanceID) } :: rest

/-- The loop "Manually associate agents with instance IDs".  The slices of
`resourceAgents` are updated one by one, whatever the order of the visit. -/
def ConvertResources.instances :
    List (String × tfjson.StateResource) → List (String × List sdkproto.Agent) →
    List (String × List sdkproto.Agent)
  | [], resourceAgents => resourceAgents
  | (_, resource) :: rest, resourceAgents =>
    if resource.Type_ ≠ "coder_agent_instance" then instances rest resourceAgents
    else
      match resource.AttributeValues.lookup "agent_id" with
      | some (.string agentID) =>
        match resource.AttributeValues.lookup "instance_id" with
        | some (.string instanceID) =>
          instances rest (resourceAgents.map
            (fun e => (e.1, ConvertResources.associate agentID instanceID e.2)))
        | _ => instances rest resourceAgents
      | _ => instances rest resourceAgents

/-- The defaults of a "coder_app": the slug is the resource name if none is
set, the display name is the deprecated name, else the slug. -/
def ConvertResources.appDefaults (resource : tfjson.StateResource)
    (attrs : agentAppAttributes) : agentAppAttributes :=
  let attrs := if attrs.Slug = "" then { attrs with Slug := resource.Name } else attrs
  if attrs.DisplayName = "" then
    if attrs.Name ≠ "" then { attrs with DisplayName := attrs.Name }
    else { attrs with DisplayName := attrs.Slug }
  else attrs

/-- The app appended to the agents of a "coder_app". -/
def ConvertResources.app {γ : Type} (env : Env γ) (attrs : agentAppAttributes) :
    sdkproto.App :=
  { Slug := attrs.Slug
    DisplayName := attrs.DisplayName
    Command := attrs.Command
    Url := attrs.URL
    Icon := attrs.Icon
    Subdomain := attrs.Subdomain
    SharingLevel :=
      if env.ToLower attrs.Share = "owner" then .OWNER
      else if env.ToLower attrs.Share = "authenticated" then .AUTHENTICATED
      else if env.ToLower attrs.Share = "public" then .PUBLIC
      else .OWNER
    Healthcheck :=
      match attrs.Healthcheck with
      | [] => none
      | first :: _ =>
        some { Url := first.URL, Interval := first.Interval, Threshold := first.Threshold } }

/-- The loops over `resourceAgents` of "Associate Apps with agents": every
agent with the id gets the app. -/
def ConvertResources.attach (agentID : String) (app : sdkproto.App)
    (resourceAgents : List (String × List sdkproto.Agent)) :
    List (String × List sdkproto.Agent) :=
  resourceAgents.map (fun e => (e.1, e.2.map (fun agent =>
    if agent.Id ≠ agentID then agent else { agent with Apps := agent.Apps ++ [app] })))

/-- The loop "Associate Apps with agents"; `appSlugs` holds the slugs seen. -/
def ConvertResources.apps {γ : Type} (env : Env γ) :
    List (String × tfjson.StateResource) → List String →
    List (String × List sdkproto.Agent) → Except Error (List (String × List sdkproto.Agent))
  | [], _, resourceAgents => .ok resourceAgents
  | (_, resource) :: rest, appSlugs, resourceAgents =>
    if resource.Type_ ≠ "coder_app" then apps env rest appSlugs resourceAgents
    else
      match env.DecodeApp resource.AttributeValues with
      | .error err => .error (.wrap "decode app attributes" err)
      | .ok attrs =>
        let attrs := ConvertResources.appDefaults resource attrs
        if !env.AppSlugRegexMatch attrs.Slug then
          .error (.new ("invalid app slug " ++ env.Quote attrs.Slug
            ++ ", please update your coder/coder provider to the latest version and specify the slug property on each coder_app"))
        else if attrs.Slug ∈ appSlugs then
          .error (.new ("duplicate app slug, they must be unique per template: "
            ++ env.Quote attrs.Slug))
        else
          apps env rest (attrs.Slug :: appSlugs)
            (ConvertResources.attach attrs.AgentID (ConvertResources.app env attrs)
              resourceAgents)

end terraform
namespace terraform

/-- The four maps of "Associate metadata blocks with resources". -/
structure ConvertResources.Metadata where
  resourceMetadata : List (String × List sdkproto.Resource_Metadata) := []
  resourceHidden : List (String × Bool) := []
  resourceIcon : List (String × String) := []
  resourceCost : List (String × Int) := []
  deriving DecidableEq

/-- The metadata entry of an item of a "coder_metadata". -/
def ConvertResources.item (item : metadataItem) : sdkproto.Resource_Metadata :=
  { Key := item.Key, Value := item.Value, Sensitive := item.Sensitive, IsNull := item.IsNull }

/-- The writes of one "coder_metadata" to the maps of its target. -/
def ConvertResources.Metadata.put (maps : ConvertResources.Metadata) (targetLabel : String)
    (attrs : metadataAttributes) : ConvertResources.Metadata :=
  { resourceHidden := gomap.set maps.resourceHidden targetLabel attrs.Hide
    resourceIcon := gomap.set maps.resourceIcon targetLabel attrs.Icon
    resourceCost := gomap.set maps.resourceCost targetLabel attrs.DailyCost
    resourceMetadata :=
      attrs.Items.foldl (fun resourceMetadata item =>
        gomap.set resourceMetadata targetLabel
          ((resourceMetadata.lookup targetLabel).getD [] ++ [ConvertResources.item item]))
        maps.resourceMetadata }

/-- The loop "Associate metadata blocks with resources". -/
def ConvertResources.metadata {γ : Type} (env : Env γ) (fuel : Nat)
    (graph : gographviz.Graph) (index : Index) :
    List (String × tfjson.StateResource) → ConvertResources.Metadata →
    Except Error ConvertResources.Metadata
  | [], maps => .ok maps
  | (_, resource) :: rest, maps =>
    if resource.Type_ ≠ "coder_metadata" then metadata env fuel graph index rest maps
    else
      match env.DecodeMetadata resource.AttributeValues with
      | .error err => .error (.wrap "decode metadata attributes" err)
      | .ok attrs =>
        if attrs.ResourceID = "" then
          let resourceLabel := convertAddressToLabel resource.Address
          match ConvertResources.findNode env graph resourceLabel with
          | none => metadata env fuel graph index rest maps
          | some attachedNode =>
            match findResourcesInGraph env graph index.tfResourceByLabel fuel
                attachedNode.Name 0 false with
            | .error err => .error err
            | .ok found =>
              match found.foldl ConvertResources.closer none with
              | none => metadata env fuel graph index rest maps
              | some attachedResource =>
                let targetLabel :=
                  if attachedResource.Label = "" then
                    (index.resourceLabelByID.lookup attrs.ResourceID).getD ""
                  else attachedResource.Label
                if targetLabel = "" then metadata env fuel graph index rest maps
                else metadata env fuel graph index rest (maps.put targetLabel attrs)
        else
          let targetLabel := (index.resourceLabelByID.lookup attrs.ResourceID).getD ""
          if targetLabel = "" then metadata env fuel graph index rest maps
          else metadata env fuel graph index rest (maps.put targetLabel attrs)

/-- The resource emitted for an entry of `tfResourceByLabel`. -/
def ConvertResources.resource (resourceAgents : List (String × List sdkproto.Agent))
    (maps : ConvertResources.Metadata) (resource : tfjson.StateResource) :
    sdkproto.Resource :=
  let label := convertAddressToLabel resource.Address
  { Name := resource.Name
    Type_ := resource.Type_
    Agents :=
      match resourceAgents.lookup label with
      | some agents => applyAutomaticInstanceID resource agents
      | none => []
    Metadata := (maps.resourceMetadata.lookup label).getD []
    Hide := (maps.resourceHidden.lookup label).getD false
    Icon := (maps.resourceIcon.lookup label).getD ""
    DailyCost := (maps.resourceCost.lookup label).getD 0
    InstanceType := applyInstanceType resource }

/-- The last loop of `ConvertResources`, which appends to `resources`. -/
def ConvertResources.emit (resourceAgents : List (String × List sdkproto.Agent))
    (maps : ConvertResources.Metadata) :
    List (String × tfjson.StateResource) → List sdkproto.Resource → List sdkproto.Resource
  | [], resources => resources
  | (_, resource) :: rest, resources =>
    if resource.Mode = .DataResourceMode then emit resourceAgents maps rest resources
    else if resource.Type_ = "coder_agent" ∨ resource.Type_ = "coder_agent_instance"
        ∨ resource.Type_ = "coder_app" ∨ resource.Type_ = "coder_metadata" then
      emit resourceAgents maps rest resources
    else
      emit resourceAgents maps rest
        (resources ++ [ConvertResources.resource resourceAgents maps resource])

/-- Function `ConvertResources` consumes Terraform state and a GraphViz
representation produced by `terraform graph` to produce resources consumable
by Coder. -/
def ConvertResources {γ : Type} (env : Env γ) (fuel : Nat) (module : tfjson.StateModule)
    (rawGraph : String) : Except Error (List sdkproto.Resource) :=
  match env.ParseString rawGraph with
  | .error err => .error (.wrap "parse graph" err)
  | .ok parsedGraph =>
    match env.NewAnalysedGraph parsedGraph with
    | .error err => .error (.wrap "analyze graph" err)
    | .ok graph =>
      let index := findTerraformResources module {}
      match ConvertResources.agents env fuel graph index.tfResourceByLabel
          (env.rangeResources 0 index.tfResourceByLabel) [] with
      | .error err => .error err
      | .ok resourceAgents =>
        let resourceAgents :=
          ConvertResources.instances (env.rangeResources 1 index.tfResourceByLabel)
            resourceAgents
        match ConvertResources.apps env (env.rangeResources 2 index.tfResourceByLabel) []
            resourceAgents with
        | .error err => .error err
        | .ok resourceAgents =>
          match ConvertResources.metadata env fuel graph index
              (env.rangeResources 3 index.tfResourceByLabel) {} with
          | .error err => .error err
          | .ok maps =>
            .ok (ConvertResources.emit resourceAgents maps
              (env.rangeResources 4 index.tfResourceByLabel) [])

/-- The text of an attribute, empty when it is absent or no text. -/
def textAttribute (values : List (String × tfjson.Value)) (key : String) : String :=
  match values.lookup key with
  | some (.string s) => s
  | _ => ""

/-- What Go's `strconv.Quote` writes for one ASCII character: the escapes
of the double quote, the backslash and the control characters, and the
character itself when it is printable. -/
def sampleQuote.char (c : Char) : List Char :=
  if c = '"' then ['\\', '"']
  else if c = '\\' then ['\\', '\\']
  else if c.toNat = 7 then ['\\', 'a']
  else if c.toNat = 8 then ['\\', 'b']
  else if c.toNat = 12 then ['\\', 'f']
  else if c.toNat = 10 then ['\\', 'n']
  else if c.toNat = 13 then ['\\', 'r']
  else if c.toNat = 9 then ['\\', 't']
  else if c.toNat = 11 then ['\\', 'v']
  else if c.toNat < 32 ∨ c.toNat = 127 then
    ['\\', 'x', "0123456789abcdef".toList.getD (c.toNat / 16) '0',
      "0123456789abcdef".toList.getD (c.toNat % 16) '0']
  else [c]

/-- The quoting of the examples: Go's `strconv.Quote` on ASCII text.  A
character beyond ASCII is kept as it is, where Go escapes those that are not
printable. -/
def sampleQuote (s : String) : String :=
  "\"" ++ String.mk (s.toList.flatMap sampleQuote.char) ++ "\""

/-- A converter environment for the examples: the graph text stands for the
given graph, the decoders read the text attributes, every slug of lower-case
letters and digits is valid, a text is quoted as `sampleQuote` does, and each
map is visited in the order of its entries, or in the reverse order when
`reversed` is set. -/
def graphEnv (graph : gographviz.Graph) (reversed : Bool) : Env gographviz.Graph where
  ParseString := fun _ => .ok graph
  NewAnalysedGraph := fun parsedGraph => .ok parsedGraph
  DecodeAgent := fun values => .ok
    { Auth := textAttribute values "auth"
      ID := textAttribute values "id"
      Token := textAttribute values "token" }
  DecodeApp := fun values => .ok
    { AgentID := textAttribute values "agent_id"
      Slug := textAttribute values "slug"
      DisplayName := textAttribute values "display_name"
      Name := textAttribute values "name" }
  DecodeMetadata := fun values => .ok { ResourceID := textAttribute values "resource_id" }
  AppSlugRegexMatch := fun slug =>
    slug.toList.all (fun c => c.isLower || c.isDigit) && slug != ""
  ToLower := fun s => s
  Quote := sampleQuote
  rangeResources := fun _ entries => if reversed then entries.reverse else entries
  rangeNodes := fun _ entries => if reversed then entries.reverse else entries
  rangeEdges := fun _ _ names => if reversed then names.reverse else names

end terraform
namespace terraform

/-- A graph node whose name is its label. -/
def labelNode (label : String) : String × gographviz.Node :=
  (label, { Name := label, Attrs := [("label", "\"" ++ label ++ "\"")] })

/-- An agent with token auth, and two instances that both depend on it. -/
def twoHostsModule : tfjson.StateModule :=
  .mk [{ Address := "aws_instance.b", Type_ := "aws_instance", Name := "b",
         AttributeValues := [("id", .string "i-b")] },
       { Address := "coder_agent.main", Type_ := "coder_agent", Name := "main",
         AttributeValues := [("id", .string "agent1"), ("auth", .string "token"),
           ("token", .string "secret")] },
       { Address := "aws_instance.a", Type_ := "aws_instance", Name := "a",
         AttributeValues := [("id", .string "i-a")] }] []

/-- The graph of `twoHostsModule`: an edge from each instance to the agent. -/
def twoHostsGraph : gographviz.Graph :=
  { Nodes := { Lookup := [labelNode "aws_instance.b", labelNode "coder_agent.main",
      labelNode "aws_instance.a"] }
    Edges :=
      { SrcToDsts := [("aws_instance.b", ["coder_agent.main"]),
          ("aws_instance.a", ["coder_agent.main"])]
        DstToSrcs := [("coder_agent.main", ["aws_instance.b", "aws_instance.a"])] } }

end terraform

namespace terraform

/-- The order of the choice of a host: closer first, at equal depth the
smaller label first. -/
def graphResource.NotAfter (r c : graphResource) : Prop :=
  r.Depth < c.Depth
    ∨ (r.Depth = c.Depth ∧ (r.Label = c.Label ∨ strings.Less r.Label c.Label = true))

/-- The agents `resourceAgents` holds for a label. -/
def agentsOf (resourceAgents : List (String × List sdkproto.Agent)) (label : String) :
    List sdkproto.Agent :=
  (resourceAgents.lookup label).getD []

/-- A candidate host: its label is indexed, for a managed resource whose type
does not begin with "coder_". -/
def IsHost (tfResourceByLabel : List (String × tfjson.StateResource)) (r : graphResource)
    (resource : tfjson.StateResource) : Prop :=
  tfResourceByLabel.lookup r.Label = some resource
    ∧ resource.Mode = .ManagedResourceMode
    ∧ strings.HasPrefix resource.Type_ "coder_" = false

end terraform

namespace terraform

/-- The test of the last loop of `ConvertResources`: neither a data resource
nor one of the four Coder resource types. -/
def ConvertResources.emits (resource : tfjson.StateResource) : Bool :=
  decide (resource.Mode ≠ .DataResourceMode)
    && !(decide (resource.Type_ = "coder_agent" ∨ resource.Type_ = "coder_agent_instance"
      ∨ resource.Type_ = "coder_app" ∨ resource.Type_ = "coder_metadata"))

/-- The error of `ConvertResources` for a slug the regex rejects; the slug is
printed with `%q`. -/
def ConvertResources.invalidSlug {γ : Type} (env : Env γ) (slug : String) : Error :=
  .new ("invalid app slug " ++ env.Quote slug
    ++ ", please update your coder/coder provider to the latest version and specify the slug property on each coder_app")

/-- The error of `ConvertResources` for a slug seen before; the slug is
printed with `%q`. -/
def ConvertResources.duplicateSlug {γ : Type} (env : Env γ) (slug : String) : Error :=
  .new ("duplicate app slug, they must be unique per template: " ++ env.Quote slug)

/-- The effective slugs of the "coder_app" entries that decode, in the order
of the entries. -/
def ConvertResources.slugs {γ : Type} (env : Env γ) :
    List (String × tfjson.StateResource) → List String
  | [] => []
  | (_, resource) :: rest =>
    if resource.Type_ ≠ "coder_app" then ConvertResources.slugs env rest
    else
      match env.DecodeApp resource.AttributeValues with
      | .error _ => ConvertResources.slugs env rest
      | .ok attrs =>
        (ConvertResources.appDefaults resource attrs).Slug :: ConvertResources.slugs env rest

end terraform

namespace terraform

/-- The agent with token auth of `twoHostsModule`, its two instances, and a
"coder_agent_instance" with the id of the agent. -/
def manualInstanceModule : tfjson.StateModule :=
  .mk [{ Address := "aws_instance.b", Type_ := "aws_instance", Name := "b",
         AttributeValues := [("id", .string "i-b")] },
       { Address := "coder_agent.main", Type_ := "coder_agent", Name := "main",
         AttributeValues := [("id", .string "agent1"), ("auth", .string "token"),
           ("token", .string "secret")] },
       { Address := "aws_instance.a", Type_ := "aws_instance", Name := "a",
         AttributeValues := [("id", .string "i-a")] },
       { Address := "coder_agent_instance.main", Type_ := "coder_agent_instance",
         Name := "main",
         AttributeValues := [("agent_id", .string "agent1"),
           ("instance_id", .string "i-999")] }] []

end terraform

namespace terraform

/-- Two apps with the slug `ide`, then an app whose slug the regex rejects. -/
def mixedAppsModule : tfjson.StateModule :=
  .mk [{ Address := "coder_app.a", Type_ := "coder_app", Name := "a",
         AttributeValues := [("slug", .string "ide")] },
       { Address := "coder_app.b", Type_ := "coder_app", Name := "b",
         AttributeValues := [("slug", .string "ide")] },
       { Address := "coder_app.c", Type_ := "coder_app", Name := "c",
         AttributeValues := [("slug", .string "Bad Slug")] }] []

/-- Two instances of one counted "coder_app", both with the slug `ide`. -/
def countedAppsModule : tfjson.StateModule :=
  .mk [{ Address := "coder_app.x[0]", Type_ := "coder_app", Name := "x",
         AttributeValues := [("slug", .string "ide")] },
       { Address := "coder_app.x[1]", Type_ := "coder_app", Name := "x",
         AttributeValues := [("slug", .string "ide")] }] []

/-- The resources of `twoHostsModule` and two apps of its agent: one without
slug and display name, one with a slug and the deprecated name. -/
def appsModule : tfjson.StateModule :=
  .mk [{ Address := "aws_instance.b", Type_ := "aws_instance", Name := "b",
         AttributeValues := [("id", .string "i-b")] },
       { Address := "coder_agent.main", Type_ := "coder_agent", Name := "main",
         AttributeValues := [("id", .string "agent1"), ("auth", .string "token"),
           ("token", .string "secret")] },
       { Address := "aws_instance.a", Type_ := "aws_instance", Name := "a",
         AttributeValues := [("id", .string "i-a")] },
       { Address := "coder_app.code", Type_ := "coder_app", Name := "code",
         AttributeValues := [("agent_id", .string "agent1")] },
       { Address := "coder_app.shell", Type_ := "coder_app", Name := "shell",
         AttributeValues := [("agent_id", .string "agent1"), ("slug", .string "sh"),
           ("name", .string "Shell")] }] []

/-- A managed resource of a type that begins with "coder_" and is none of
the four types of the converter, a data resource, and an instance. -/
def otherCoderModule : tfjson.StateModule :=
  .mk [{ Address := "coder_script.setup", Type_ := "coder_script", Name := "setup" },
       { Address := "data.aws_ami.ubuntu", Mode := .DataResourceMode, Type_ := "aws_ami",
         Name := "ubuntu" },
       { Address := "aws_instance.a", Type_ := "aws_instance", Name := "a" }] []

end terraform

namespace terraform

/-- Two apps with the slug `ide`. -/
def duplicateAppsModule : tfjson.StateModule :=
  .mk [{ Address := "coder_app.a", Type_ := "coder_app", Name := "a",
         AttributeValues := [("slug", .string "ide")] },
       { Address := "coder_app.b", Type_ := "coder_app", Name := "b",
         AttributeValues := [("slug", .string "ide")] }] []

end terraform

/-! ## The rows `InsertWorkspaceResource` inserts -/

/-- The kind of row a store call of `InsertWorkspaceResource` inserts, with
the slug for an app row. -/
inductive InsertedRow where
  | resource
  | agent
  | app (slug : String)
  | metadata
  deriving DecidableEq, Repr, Inhabited

/-- The slug of an app row. -/
def InsertedRow.slug : InsertedRow → Option String
  | .app slug => some slug
  | _ => none

/-- The row an insert call of the trace is for. -/
def Event.inserted : Event → Option InsertedRow
  | .InsertWorkspaceResource _ => some .resource
  | .InsertWorkspaceAgent _ => some .agent
  | .InsertWorkspaceApp arg => some (.app arg.Slug)
  | .InsertWorkspaceResourceMetadata _ => some .metadata
  | _ => none

/-- The rows of the agents of a resource, in the order of the loops: for each
agent its row, then a row for each of its apps. -/
def InsertWorkspaceResource.agentRows (agents : List sdkproto.Agent) : List InsertedRow :=
  agents.flatMap (fun prAgent =>
    InsertedRow.agent :: prAgent.Apps.map (fun app => InsertedRow.app app.Slug))

/-- The rows of a resource, in the order of the calls: the resource, the
agents with their apps, then a row for each metadata item. -/
def InsertWorkspaceResource.rows (protoResource : sdkproto.Resource) : List InsertedRow :=
  InsertedRow.resource :: InsertWorkspaceResource.agentRows protoResource.Agents
    ++ protoResource.Metadata.map (fun _ => InsertedRow.metadata)

/-- The slugs are accepted after the slugs seen: none is empty, each matches
the slug regex, none was seen, and no two are the same. -/
def InsertWorkspaceResource.FreshSlugs {σ : Type} (env : Env σ) (seen slugs : List String) :
    Prop :=
  (∀ s ∈ slugs, s ≠ "" ∧ env.AppSlugRegexMatch s = true ∧ s ∉ seen) ∧ slugs.Nodup

namespace terraform

/-- A decoder of "coder_metadata" attributes for the examples: the texts
`resource_id` and `icon`, the boolean `hide`, the number `daily_cost`, and the
texts `key` and `value` of each object of the list `item`. -/
def decodeMetadataSample (values : List (String × tfjson.Value)) : metadataAttributes :=
  { ResourceID := textAttribute values "resource_id"
    Icon := textAttribute values "icon"
    Hide :=
      match values.lookup "hide" with
      | some (.bool hide) => hide
      | _ => false
    DailyCost :=
      match values.lookup "daily_cost" with
      | some (.number cost) => cost
      | _ => 0
    Items :=
      match values.lookup "item" with
      | some (.list items) =>
        items.filterMap (fun item =>
          match item with
          | .object fields =>
            some { Key := textAttribute fields "key", Value := textAttribute fields "value" }
          | _ => none)
      | _ => [] }

/-- The environment `graphEnv` with the decoder `decodeMetadataSample`. -/
def metadataEnv (graph : gographviz.Graph) (reversed : Bool) : Env gographviz.Graph :=
  { graphEnv graph reversed with DecodeMetadata := fun values => .ok (decodeMetadataSample values) }

/-- An instance with the id `i-a`, a "coder_metadata" for that id with two
items, and a "coder_metadata" for an id no resource has. -/
def metadataModule : tfjson.StateModule :=
  .mk [{ Address := "aws_instance.a", Type_ := "aws_instance", Name := "a",
         AttributeValues := [("id", .string "i-a")] },
       { Address := "coder_metadata.info", Type_ := "coder_metadata", Name := "info",
         AttributeValues := [("resource_id", .string "i-a"), ("icon", .string "/icon.svg"),
           ("hide", .bool true), ("daily_cost", .number 7),
           ("item", .list [.object [("key", .string "region"), ("value", .string "eu")],
             .object [("key", .string "zone"), ("value", .string "b")]])] },
       { Address := "coder_metadata.lost", Type_ := "coder_metadata", Name := "lost",
         AttributeValues := [("resource_id", .string "i-none"),
           ("icon", .string "/lost.svg")] }] []

end terraform

namespace terraform

/-- The first of the agents with the id has the instance id as its auth. -/
def BoundFirst (agentID instanceID : String) (agents : List sdkproto.Agent) : Prop :=
  ∃ before a after, agents = before ++ a :: after
    ∧ (∀ b ∈ before, b.Id ≠ agentID)
    ∧ a.Id = agentID
    ∧ a.Auth = some (.InstanceId instanceID)

/-- An agent with instance auth and two instances that depend on it, and a
"coder_agent_instance" with the id of the agent. -/
def boundAgentModule : tfjson.StateModule :=
  .mk [{ Address := "aws_instance.b", Type_ := "aws_instance", Name := "b",
         AttributeValues := [("id", .string "i-b")] },
       { Address := "coder_agent_instance.main", Type_ := "coder_agent_instance",
         Name := "main",
         AttributeValues := [("agent_id", .string "agent1"),
           ("instance_id", .string "i-999")] },
       { Address := "coder_agent.main", Type_ := "coder_agent", Name := "main",
         AttributeValues := [("id", .string "agent1"),
           ("auth", .string "aws-instance-identity")] },
       { Address := "aws_instance.a", Type_ := "aws_instance", Name := "a",
         AttributeValues := [("id", .string "i-a")] }] []

end terraform

namespace terraform

/-- The names of the nodes one edge away from a node in the direction of the
traversal: the names of the nodes `findResourcesInGraph` recurses into. -/
def findResourcesInGraph.next (graph : gographviz.Graph) (up : Bool) (nodeName : String) :
    List String :=
  (((if !up then graph.Edges.SrcToDsts else graph.Edges.DstToSrcs).lookup nodeName).getD
    []).filterMap (fun destination =>
      (graph.Nodes.Lookup.lookup destination).map (fun destinationNode => destinationNode.Name))

/-- The trails of a traversal from an origin: the nodes of a path that
follows the edges from the origin, the last node reached first. -/
inductive Trail (graph : gographviz.Graph) (up : Bool) (origin : String) : List String → Prop
  | start : Trail graph up origin [origin]
  | step (nodeName next : String) (earlier : List String) :
      Trail graph up origin (nodeName :: earlier) →
      next ∈ findResourcesInGraph.next graph up nodeName →
      Trail graph up origin (next :: nodeName :: earlier)

end terraform

/-! # Theorems -/

/-! ## The debounce of `AcquireJob` -/

section DebounceLemmas

variable {σ π : Type}

/-- After an instant u, the saturated difference is at most the difference. -/
theorem time.Sub_le {t u : time.Time} (h : u ≤ t) : time.Sub t u ≤ t - u := by
  unfold time.Sub time.maxDuration time.minDuration
  split_ifs with h1 h2
  · exact le_of_lt h1
  · have h0 : (0 : Int) ≤ t - u := sub_nonneg.mpr h
    have h3 : (-(2 : Int) ^ 63) < 0 := by norm_num
    linarith
  · exact le_refl _

/-- A debounced `AcquireJob` returns the empty envelope and only reads the clock. -/
theorem AcquireJob.of_debounced (env : Env σ) (server : Server σ π) (w : World σ π)
    (h : AcquireJob.debounced env server w = true) :
    AcquireJob env server w = (.ok {}, AcquireJob.afterTest w) := by
  unfold AcquireJob
  simp [h]

/-- The world `AcquireJob` leaves when the store reports no row. -/
theorem AcquireJob.of_norow (env : Env σ) (server : Server σ π) (w : World σ π) (err : Error)
    (hquery : AcquireJob.debounced env server w = false)
    (hstore : (server.Database.AcquireProvisionerJob (AcquireJob.arg env server w) w.db).1
      = .error err)
    (his : errors.Is err .ErrNoRows = true) :
    AcquireJob env server w =
      (.ok {},
        { db := (server.Database.AcquireProvisionerJob (AcquireJob.arg env server w) w.db).2,
          ps := w.ps,
          lastAcquire := AcquireJob.emptyInstant env w,
          ticks := (AcquireJob.afterTest w).ticks + 2,
          minted := w.minted,
          trace := w.trace ++ [Event.AcquireProvisionerJob (AcquireJob.arg env server w) none] }) := by
  unfold AcquireJob
  simp only [hquery, Bool.false_eq_true, if_false, World.write, World.tick]
  have hdb : (AcquireJob.afterTest w).db = w.db := by
    unfold AcquireJob.afterTest; split <;> rfl
  have hps : (AcquireJob.afterTest w).ps = w.ps := by
    unfold AcquireJob.afterTest; split <;> rfl
  have hmi : (AcquireJob.afterTest w).minted = w.minted := by
    unfold AcquireJob.afterTest; split <;> rfl
  have htr : (AcquireJob.afterTest w).trace = w.trace := by
    unfold AcquireJob.afterTest; split <;> rfl
  simp only [hdb, hstore, his, if_true, hps, hmi, htr, timeNow, AcquireJob.emptyInstant,
    Except.toOption]

/-- The world `AcquireJob` leaves when the store fails with another error. -/
theorem AcquireJob.of_store_error (env : Env σ) (server : Server σ π) (w : World σ π)
    (err : Error)
    (hquery : AcquireJob.debounced env server w = false)
    (hstore : (server.Database.AcquireProvisionerJob (AcquireJob.arg env server w) w.db).1
      = .error err)
    (his : errors.Is err .ErrNoRows = false) :
    AcquireJob env server w =
      (.error (.wrap "acquire job" err),
        { db := (server.Database.AcquireProvisionerJob (AcquireJob.arg env server w) w.db).2,
          ps := w.ps,
          lastAcquire := w.lastAcquire,
          ticks := (AcquireJob.afterTest w).ticks + 1,
          minted := w.minted,
          trace := w.trace ++ [Event.AcquireProvisionerJob (AcquireJob.arg env server w) none] }) := by
  unfold AcquireJob
  simp only [hquery, Bool.false_eq_true, if_false, World.write, World.tick]
  have hdb : (AcquireJob.afterTest w).db = w.db := by
    unfold AcquireJob.afterTest; split <;> rfl
  have hps : (AcquireJob.afterTest w).ps = w.ps := by
    unfold AcquireJob.afterTest; split <;> rfl
  have hmi : (AcquireJob.afterTest w).minted = w.minted := by
    unfold AcquireJob.afterTest; split <;> rfl
  have htr : (AcquireJob.afterTest w).trace = w.trace := by
    unfold AcquireJob.afterTest; split <;> rfl
  have hla : (AcquireJob.afterTest w).lastAcquire = w.lastAcquire := by
    unfold AcquireJob.afterTest; split <;> rfl
  simp only [hdb, hstore, his, hps, hmi, htr, hla, Except.toOption, Bool.false_eq_true,
    if_false]

/-- A call is debounced when the recorded instant is not the zero time and
the clock reads less than the debounce interval after it. -/
theorem AcquireJob.debounced_of_within (env : Env σ) (server : Server σ π) (w : World σ π)
    (hzero : time.IsZero w.lastAcquire = false)
    (hafter : w.lastAcquire ≤ timeNow env w)
    (hwithin : timeNow env w - w.lastAcquire < server.AcquireJobDebounce) :
    AcquireJob.debounced env server w = true := by
  unfold AcquireJob.debounced
  simp only [hzero, Bool.not_false, Bool.true_and, decide_eq_true_eq]
  exact lt_of_le_of_lt (time.Sub_le hafter) hwithin

end DebounceLemmas

section DebounceAndOwnerChecks

variable {σ π : Type}

/-- C1 (idle debounce).  If an `AcquireJob` call queries the store and the
store reports no row, then a second `AcquireJob` call made less than
`AcquireJobDebounce` after the instant the first call recorded (which is not
the zero time) returns the empty envelope with no error and makes no call on
the store or the notifier: the trace and the rows are as the first call left
them. -/
theorem acquireJob_idle_debounce (env : Env σ) (server : Server σ π) (w : World σ π)
    (err : Error)
    (hquery : AcquireJob.debounced env server w = false)
    (hstore : (server.Database.AcquireProvisionerJob (AcquireJob.arg env server w) w.db).1
      = .error err)
    (his : errors.Is err .ErrNoRows = true)
    (hclock : time.IsZero (AcquireJob.emptyInstant env w) = false)
    (hafter : AcquireJob.emptyInstant env w ≤ timeNow env (AcquireJob env server w).2)
    (hwithin : timeNow env (AcquireJob env server w).2 - AcquireJob.emptyInstant env w
      < server.AcquireJobDebounce) :
    (AcquireJob env server (AcquireJob env server w).2).1 = .ok {}
    ∧ (AcquireJob env server (AcquireJob env server w).2).2.trace
        = (AcquireJob env server w).2.trace
    ∧ (∀ e ∈ (AcquireJob env server (AcquireJob env server w).2).2.trace,
        e ∈ w.trace ∨ e = Event.AcquireProvisionerJob (AcquireJob.arg env server w) none)
    ∧ (AcquireJob env server (AcquireJob env server w).2).2.db
        = (AcquireJob env server w).2.db := by
  have h1 := AcquireJob.of_norow env server w err hquery hstore his
  have hla : (AcquireJob env server w).2.lastAcquire = AcquireJob.emptyInstant env w := by
    rw [h1]
  have hdeb : AcquireJob.debounced env server (AcquireJob env server w).2 = true := by
    apply AcquireJob.debounced_of_within
    · rw [hla]; exact hclock
    · rw [hla]; exact hafter
    · rw [hla]; exact hwithin
  have h2 := AcquireJob.of_debounced env server _ hdeb
  have htr : (AcquireJob.afterTest (AcquireJob env server w).2).trace
      = (AcquireJob env server w).2.trace := by
    unfold AcquireJob.afterTest; split <;> rfl
  have hdb : (AcquireJob.afterTest (AcquireJob env server w).2).db
      = (AcquireJob env server w).2.db := by
    unfold AcquireJob.afterTest; split <;> rfl
  refine ⟨by rw [h2], by rw [h2]; exact htr, ?_, by rw [h2]; exact hdb⟩
  intro e he
  rw [h2] at he
  simp only [htr] at he
  rw [h1] at he
  simpa using he

/-- Witness of C1: an empty in-memory store, a debounce of 10, a first call
that records the instant 101 and a second call made at 102. -/
theorem acquireJob_idle_debounce_witness :
    (AcquireJob (sampleEnv fun n => 100 + n) (sampleServer ⟨"a"⟩ 10)
        (AcquireJob (sampleEnv fun n => 100 + n) (sampleServer ⟨"a"⟩ 10)
          { db := {}, ps := [] }).2).1 = .ok {}
    ∧ (AcquireJob (sampleEnv fun n => 100 + n) (sampleServer ⟨"a"⟩ 10)
        (AcquireJob (sampleEnv fun n => 100 + n) (sampleServer ⟨"a"⟩ 10)
          { db := {}, ps := [] }).2).2.trace
      = [Event.AcquireProvisionerJob
          { StartedAt := { Time := 100, Valid := true },
            WorkerID := { UUID := ⟨"a"⟩, Valid := true }, Types := [.echo], Tags := "" } none] :=
  have h := acquireJob_idle_debounce (sampleEnv fun n => 100 + n) (sampleServer ⟨"a"⟩ 10)
    { db := {}, ps := [] } .ErrNoRows (by decide) (by decide) (by decide) (by decide)
    (by decide) (by decide)
  ⟨h.1, h.2.1.trans (by decide)⟩

/-- C5.  When `AcquireJob` queries the store and `AcquireProvisionerJob` fails:
if the error is the no-row error, the call returns the empty envelope with no
error and sets `lastAcquire` to now, the clock reading it takes after the
store answered (the one after the reading it sent as started-at); for any
other error it returns that error, wrapped, and leaves `lastAcquire`
unchanged. -/
theorem acquireJob_norow_only (env : Env σ) (server : Server σ π) (w : World σ π)
    (err : Error)
    (hquery : AcquireJob.debounced env server w = false)
    (hstore : (server.Database.AcquireProvisionerJob (AcquireJob.arg env server w) w.db).1
      = .error err) :
    (errors.Is err .ErrNoRows = true →
      (AcquireJob env server w).1 = .ok {}
      ∧ (AcquireJob env server w).2.lastAcquire = env.clock ((AcquireJob.afterTest w).ticks + 1))
    ∧ (errors.Is err .ErrNoRows = false →
      (AcquireJob env server w).1 = .error (.wrap "acquire job" err)
      ∧ (AcquireJob env server w).2.lastAcquire = w.lastAcquire) := by
  constructor
  · intro his
    rw [AcquireJob.of_norow env server w err hquery hstore his]
    exact ⟨rfl, rfl⟩
  · intro his
    rw [AcquireJob.of_store_error env server w err hquery hstore his]
    exact ⟨rfl, rfl⟩

/-- C6.  `UpdateJob` called by a server that does not own the job returns an
error (not-started when the job's worker-id is null, not-owner when it is
another server's id) and makes no store write and no publication: the world
it leaves is the world it found with the one query of the job recorded. -/
theorem updateJob_not_owner (env : Env σ) (server : Server σ π)
    (request : proto.UpdateJobRequest) (w : World σ π) (parsedID : uuid.UUID)
    (job : database.ProvisionerJob)
    (hparse : env.uuidParse request.JobId = .ok parsedID)
    (hget : server.Database.GetProvisionerJobByID parsedID w.db = .ok job)
    (hown : job.WorkerID.Valid = false ∨ job.WorkerID.UUID ≠ server.ID) :
    UpdateJob env server request w =
      (.error (if job.WorkerID.Valid = false then .new "job isn't running yet"
        else .new "you don't own this job"),
       w.record (.GetProvisionerJobByID parsedID)) := by
  unfold UpdateJob
  simp only [hparse, World.read, hget]
  by_cases hv : job.WorkerID.Valid = false
  · simp [hv]
  · have hne : job.WorkerID.UUID ≠ server.ID := by
      rcases hown with h | h
      · exact absurd h hv
      · exact h
    have hs : job.WorkerID.UUID.String ≠ server.ID.String := by
      intro h
      apply hne
      cases hu : job.WorkerID.UUID
      cases hi : server.ID
      simp_all
    simp [hv, hs]

/-- Witness of C5: an empty store reports no row, and the call records the
instant 101; a store whose acquire fails with "connection refused", which is
not the no-row error, has the call return the wrapped error and leave the
recorded instant at the zero time. -/
theorem acquireJob_norow_only_witness :
    ((AcquireJob (sampleEnv fun n => 100 + n) (sampleServer ⟨"a"⟩ 10) (sampleWorld [])).1
        = .ok {}
      ∧ (AcquireJob (sampleEnv fun n => 100 + n) (sampleServer ⟨"a"⟩ 10)
          (sampleWorld [])).2.lastAcquire = 101)
    ∧ ((AcquireJob (sampleEnv fun n => 100 + n)
        { sampleServer ⟨"a"⟩ 10 with Database := failingAcquireStore (.new "connection refused") }
        (sampleWorld [])).1 = .error (.wrap "acquire job" (.new "connection refused"))
      ∧ (AcquireJob (sampleEnv fun n => 100 + n)
        { sampleServer ⟨"a"⟩ 10 with Database := failingAcquireStore (.new "connection refused") }
        (sampleWorld [])).2.lastAcquire = 0) :=
  ⟨(acquireJob_norow_only (sampleEnv fun n => 100 + n) (sampleServer ⟨"a"⟩ 10)
      (sampleWorld []) .ErrNoRows (by decide) (by decide)).1 (by decide),
   (acquireJob_norow_only (sampleEnv fun n => 100 + n)
      { sampleServer ⟨"a"⟩ 10 with Database := failingAcquireStore (.new "connection refused") }
      (sampleWorld []) (.new "connection refused") (by decide) (by decide)).2 (by decide)⟩

/-- Witness of C6: server b updates the job j that server a is running. -/
theorem updateJob_not_owner_witness :
    UpdateJob (sampleEnv fun n => 100 + n) (sampleServer ⟨"b"⟩ 10) { JobId := "j" }
        (sampleWorld [runningJob])
      = (.error (.new "you don't own this job"),
          { sampleWorld [runningJob] with trace := [Event.GetProvisionerJobByID ⟨"j"⟩] }) :=
  (updateJob_not_owner (sampleEnv fun n => 100 + n) (sampleServer ⟨"b"⟩ 10) { JobId := "j" }
    (sampleWorld [runningJob]) ⟨"j"⟩ runningJob (by decide) (by decide) (by decide)).trans
    (by decide)

/-- The ownership test of `FailJob` and `CompleteJob` compares the UUID of the
worker-id with the id of the server, and a null worker-id reads as the nil
UUID.  On a server whose id is itself the nil UUID, which `uuid.New` never
returns, the null worker-id of the queued job j passes the test; `UpdateJob`
tests first that the worker-id is valid. -/
theorem failJob_completeJob_null_worker :
    (FailJob (sampleEnv fun n => 100 + n) (sampleServer uuid.Nil 10)
        { JobId := "j", Error := "boom" } (sampleWorld [queuedJob])).1 = .ok {}
    ∧ (FailJob (sampleEnv fun n => 100 + n) (sampleServer uuid.Nil 10)
        { JobId := "j", Error := "boom" } (sampleWorld [queuedJob])).2.db.provisionerJobs
      = [{ queuedJob with UpdatedAt := 101, CompletedAt := { Time := 100, Valid := true },
                          Error := { String := "boom", Valid := true } }]
    ∧ (CompleteJob (sampleEnv fun n => 100 + n) (sampleServer uuid.Nil 10)
        { JobId := "j", Type_ := some (.TemplateImport_ {}) } (sampleWorld [queuedJob])).1
      = .ok {}
    ∧ (CompleteJob (sampleEnv fun n => 100 + n) (sampleServer uuid.Nil 10)
        { JobId := "j", Type_ := some (.TemplateImport_ {}) }
        (sampleWorld [queuedJob])).2.db.provisionerJobs
      = [{ queuedJob with UpdatedAt := 100, CompletedAt := { Time := 101, Valid := true } }]
    ∧ (UpdateJob (sampleEnv fun n => 100 + n) (sampleServer uuid.Nil 10)
        { JobId := "j" } (sampleWorld [queuedJob])).1 = .error (.new "job isn't running yet") := by
  decide

/-- C9.  `FailJob` on a job the server owns whose completed-at is already
non-null returns the error "job already completed" and makes no store write
and no publication: the world it leaves is the world it found with the one
query of the job recorded. -/
theorem failJob_already_completed (env : Env σ) (server : Server σ π)
    (failJob : proto.FailedJob) (w : World σ π) (jobID : uuid.UUID)
    (job : database.ProvisionerJob)
    (hparse : env.uuidParse failJob.JobId = .ok jobID)
    (hget : server.Database.GetProvisionerJobByID jobID w.db = .ok job)
    (hown : job.WorkerID = { UUID := server.ID, Valid := true })
    (hdone : job.CompletedAt.Valid = true) :
    FailJob env server failJob w =
      (.error (.new "job already completed"), w.record (.GetProvisionerJobByID jobID)) := by
  unfold FailJob
  simp [hparse, World.read, hget, hown, hdone]

/-- Witness of C9: server a fails its own job j, which completed at 50. -/
theorem failJob_already_completed_witness :
    FailJob (sampleEnv fun n => 100 + n) (sampleServer ⟨"a"⟩ 10)
        { JobId := "j", Error := "boom" } (sampleWorld [terminalJob])
      = (.error (.new "job already completed"),
          { sampleWorld [terminalJob] with trace := [Event.GetProvisionerJobByID ⟨"j"⟩] }) :=
  (failJob_already_completed (sampleEnv fun n => 100 + n) (sampleServer ⟨"a"⟩ 10)
    { JobId := "j", Error := "boom" } (sampleWorld [terminalJob]) ⟨"j"⟩ terminalJob
    (by decide) (by decide) (by decide) (by decide)).trans (by decide)

end DebounceAndOwnerChecks

/-! ## The hydration of an acquired job -/

section Hydration

variable {σ π : Type}

@[simp] theorem World.record_db (w : World σ π) (e : Event) : (w.record e).db = w.db := rfl

@[simp] theorem World.record_ps (w : World σ π) (e : Event) : (w.record e).ps = w.ps := rfl

theorem World.Quiet.quiet_refl (w : World σ π) : World.Quiet w w :=
  ⟨rfl, rfl, [], by simp, by simp⟩

theorem World.Quiet.quiet_record {w0 w : World σ π} (h : World.Quiet w0 w) (e : Event)
    (he : e.isWrite = false) : World.Quiet w0 (w.record e) := by
  obtain ⟨l, hl, hw⟩ := h.trace
  refine ⟨h.db, h.lastAcquire, l ++ [e], ?_, ?_⟩
  · simp [World.record, hl]
  · intro x hx
    rcases List.mem_append.mp hx with hx | hx
    · exact hw x hx
    · simp at hx; rw [hx]; exact he

theorem World.Quiet.quiet_publish {w0 w : World σ π} (h : World.Quiet w0 w)
    (ps : database.Pubsub π) (channel message : String) :
    World.Quiet w0 (w.publish ps channel message).2 := by
  obtain ⟨l, hl, hw⟩ := h.trace
  refine ⟨h.db, h.lastAcquire, l ++ [Event.Publish channel message], ?_, ?_⟩
  · simp [World.publish, hl]
  · intro x hx
    rcases List.mem_append.mp hx with hx | hx
    · exact hw x hx
    · simp at hx; rw [hx]; rfl

theorem World.Quiet.quiet_trans {w0 w1 w2 : World σ π} (h : World.Quiet w0 w1)
    (h' : World.Quiet w1 w2) : World.Quiet w0 w2 := by
  obtain ⟨l, hl, hw⟩ := h.trace
  obtain ⟨l', hl', hw'⟩ := h'.trace
  refine ⟨h'.db.trans h.db, h'.lastAcquire.trans h.lastAcquire, l ++ l', ?_, ?_⟩
  · rw [hl', hl, List.append_assoc]
  · intro x hx
    rcases List.mem_append.mp hx with hx | hx
    · exact hw x hx
    · exact hw' x hx

theorem AcquireJob.FailedFrom.of_quiet {α : Type} {env : Env σ} {server : Server σ π}
    {job : database.ProvisionerJob} {w0 w1 : World σ π} {r : Except Error α × World σ π}
    (h : World.Quiet w0 w1) (hr : AcquireJob.FailedFrom env server job w1 r) :
    AcquireJob.FailedFrom env server job w0 r := by
  obtain ⟨msg, w, hrw, hq⟩ := hr
  exact ⟨msg, w, hrw, h.quiet_trans hq⟩

/-- The workspace-build case either loads every piece of context, changing no
row, or fails the job. -/
theorem AcquireJob.workspaceBuild_cases (env : Env σ) (server : Server σ π)
    (job : database.ProvisionerJob) (w : World σ π) :
    (∃ t w', AcquireJob.workspaceBuild env server job w = (.ok t, w') ∧ World.Quiet w w'
      ∧ AcquireJob.WorkspaceBuildLoads env server job w.db w.ps)
    ∨ AcquireJob.FailedFrom env server job w (AcquireJob.workspaceBuild env server job w) := by
  unfold AcquireJob.workspaceBuild
  simp only [World.read]
  split
  · exact Or.inr ⟨_, _, rfl, World.Quiet.quiet_refl w⟩
  rename_i input hinput
  have q0 := World.Quiet.quiet_refl w
  split
  · rename_i err w1 heq
    obtain ⟨-, rfl⟩ := Prod.mk.inj heq
    exact Or.inr ⟨_, _, rfl, q0.quiet_record _ (by rfl)⟩
  rename_i workspaceBuild w1 heq
  obtain ⟨h1, rfl⟩ := Prod.mk.inj heq
  have q1 := q0.quiet_record (Event.GetWorkspaceBuildByID input.WorkspaceBuildID) (by rfl)
  split
  · rename_i err w2 heq
    obtain ⟨-, rfl⟩ := Prod.mk.inj heq
    exact Or.inr ⟨_, _, rfl, q1.quiet_record _ (by rfl)⟩
  rename_i workspace w2 heq
  obtain ⟨h2, rfl⟩ := Prod.mk.inj heq
  have q2 := q1.quiet_record (Event.GetWorkspaceByID workspaceBuild.WorkspaceID) (by rfl)
  split
  · rename_i err w3 heq
    obtain ⟨-, rfl⟩ := Prod.mk.inj heq
    exact Or.inr ⟨_, _, rfl, q2.quiet_record _ (by rfl)⟩
  rename_i templateVersion w3 heq
  obtain ⟨h3, rfl⟩ := Prod.mk.inj heq
  have q3 := q2.quiet_record (Event.GetTemplateVersionByID workspaceBuild.TemplateVersionID) (by rfl)
  split
  · rename_i err w4 heq
    obtain ⟨-, rfl⟩ := Prod.mk.inj heq
    exact Or.inr ⟨_, _, rfl, q3.quiet_record _ (by rfl)⟩
  rename_i template w4 heq
  obtain ⟨h4, rfl⟩ := Prod.mk.inj heq
  have q4 := q3.quiet_record (Event.GetTemplateByID templateVersion.TemplateID.UUID) (by rfl)
  split
  · rename_i err w5 heq
    obtain ⟨-, rfl⟩ := Prod.mk.inj heq
    exact Or.inr ⟨_, _, rfl, q4.quiet_record _ (by rfl)⟩
  rename_i owner w5 heq
  obtain ⟨h5, rfl⟩ := Prod.mk.inj heq
  have q5 := q4.quiet_record (Event.GetUserByID workspace.OwnerID) (by rfl)
  have q6 := q5.quiet_publish server.Pubsub (codersdk.WorkspaceNotifyChannel workspace.ID) ""
  split
  · rename_i err w6 heq
    obtain ⟨-, hw⟩ := Prod.mk.inj heq
    rw [← hw]
    exact Or.inr ⟨_, _, rfl, q6⟩
  rename_i w6 heq
  obtain ⟨h6, hw⟩ := Prod.mk.inj heq
  rw [← hw]
  split
  · rename_i err w7 heq
    obtain ⟨-, rfl⟩ := Prod.mk.inj heq
    exact Or.inr ⟨_, _, rfl, q6.quiet_record _ (by rfl)⟩
  rename_i parameters w7 heq
  obtain ⟨h7, rfl⟩ := Prod.mk.inj heq
  have q7 := q6.quiet_record (Event.ParameterCompute
    { TemplateImportJobID := templateVersion.JobID,
      TemplateID := { UUID := template.ID, Valid := true },
      WorkspaceID := { UUID := workspace.ID, Valid := true } }) (by rfl)
  split
  · exact Or.inr ⟨_, _, rfl, q7⟩
  rename_i protoParameters h8
  split
  · exact Or.inr ⟨_, _, rfl, q7⟩
  rename_i transition h9
  refine Or.inl ⟨_, _, rfl, q7, ?_⟩
  simp only [World.record_db, World.record_ps, World.publish] at h1 h2 h3 h4 h5 h6 h7
  exact ⟨input, workspaceBuild, workspace, templateVersion, template, owner, parameters,
    protoParameters, transition, hinput, h1, h2, h3, h4, h5, h6, h7, h8, h9⟩

/-- The template dry-run case either loads every piece of context, changing
no row, or fails the job. -/
theorem AcquireJob.templateVersionDryRun_cases (env : Env σ) (server : Server σ π)
    (job : database.ProvisionerJob) (w : World σ π) :
    (∃ t w', AcquireJob.templateVersionDryRun env server job w = (.ok t, w') ∧ World.Quiet w w'
      ∧ AcquireJob.TemplateVersionDryRunLoads env server job w.db)
    ∨ AcquireJob.FailedFrom env server job w
        (AcquireJob.templateVersionDryRun env server job w) := by
  unfold AcquireJob.templateVersionDryRun
  simp only [World.read]
  split
  · exact Or.inr ⟨_, _, rfl, World.Quiet.quiet_refl w⟩
  rename_i input hinput
  have q0 := World.Quiet.quiet_refl w
  split
  · rename_i err w1 heq
    obtain ⟨-, rfl⟩ := Prod.mk.inj heq
    exact Or.inr ⟨_, _, rfl, q0.quiet_record _ (by rfl)⟩
  rename_i templateVersion w1 heq
  obtain ⟨h1, rfl⟩ := Prod.mk.inj heq
  have q1 := q0.quiet_record (Event.GetTemplateVersionByID input.TemplateVersionID) (by rfl)
  split
  · rename_i err w2 heq
    obtain ⟨-, rfl⟩ := Prod.mk.inj heq
    exact Or.inr ⟨_, _, rfl, q1.quiet_record _ (by rfl)⟩
  rename_i parameters w2 heq
  obtain ⟨h2, rfl⟩ := Prod.mk.inj heq
  have q2 := q1.quiet_record (Event.ParameterCompute
    { TemplateImportJobID := templateVersion.JobID,
      TemplateID := templateVersion.TemplateID,
      WorkspaceID := {},
      AdditionalParameterValues := input.ParameterValues }) (by rfl)
  split
  · exact Or.inr ⟨_, _, rfl, q2⟩
  rename_i protoParameters h3
  refine Or.inl ⟨_, _, rfl, q2, ?_⟩
  simp only [World.record_db] at h1 h2
  exact ⟨input, templateVersion, parameters, protoParameters, hinput, h1, h2, h3⟩

/-- The switch on the job type either loads the context of the type,
changing no row, or fails the job. -/
theorem AcquireJob.jobType_cases (env : Env σ) (server : Server σ π)
    (job : database.ProvisionerJob) (w : World σ π) :
    (∃ t w', AcquireJob.jobType env server job w = (.ok t, w') ∧ World.Quiet w w'
      ∧ (job.Type_ = .WorkspaceBuild → AcquireJob.WorkspaceBuildLoads env server job w.db w.ps)
      ∧ (job.Type_ = .TemplateVersionDryRun →
          AcquireJob.TemplateVersionDryRunLoads env server job w.db))
    ∨ AcquireJob.FailedFrom env server job w (AcquireJob.jobType env server job w) := by
  unfold AcquireJob.jobType
  split
  · rename_i hty
    have hdr : job.Type_ = .TemplateVersionDryRun →
        AcquireJob.TemplateVersionDryRunLoads env server job w.db := by
      intro h; rw [hty] at h; cases h
    rcases AcquireJob.workspaceBuild_cases env server job w with ⟨t, w', hr, hq, hl⟩ | hf
    · rw [hr]
      exact Or.inl ⟨_, _, rfl, hq, fun _ => hl, hdr⟩
    · obtain ⟨msg, w', hr, hq⟩ := hf
      rw [hr]
      exact Or.inr ⟨msg, w', rfl, hq⟩
  · rename_i hty
    have hwb : job.Type_ = .WorkspaceBuild →
        AcquireJob.WorkspaceBuildLoads env server job w.db w.ps := by
      intro h; rw [hty] at h; cases h
    rcases AcquireJob.templateVersionDryRun_cases env server job w with ⟨t, w', hr, hq, hl⟩ | hf
    · rw [hr]
      exact Or.inl ⟨_, _, rfl, hq, hwb, fun _ => hl⟩
    · obtain ⟨msg, w', hr, hq⟩ := hf
      rw [hr]
      exact Or.inr ⟨msg, w', rfl, hq⟩
  · rename_i hty
    have hwb : job.Type_ = .WorkspaceBuild →
        AcquireJob.WorkspaceBuildLoads env server job w.db w.ps := by
      intro h; rw [hty] at h; cases h
    have hdr : job.Type_ = .TemplateVersionDryRun →
        AcquireJob.TemplateVersionDryRunLoads env server job w.db := by
      intro h; rw [hty] at h; cases h
    exact Or.inl ⟨_, _, rfl, World.Quiet.quiet_refl w, hwb, hdr⟩
  · rename_i s hty
    have hwb : job.Type_ = .WorkspaceBuild →
        AcquireJob.WorkspaceBuildLoads env server job w.db w.ps := by
      intro h; rw [hty] at h; cases h
    have hdr : job.Type_ = .TemplateVersionDryRun →
        AcquireJob.TemplateVersionDryRunLoads env server job w.db := by
      intro h; rw [hty] at h; cases h
    exact Or.inl ⟨_, _, rfl, World.Quiet.quiet_refl w, hwb, hdr⟩

/-- The hydration of an acquired job either loads every piece of context and
returns the envelope, changing no row, or fails the job. -/
theorem AcquireJob.hydrate_cases (env : Env σ) (server : Server σ π)
    (job : database.ProvisionerJob) (w : World σ π) :
    (∃ protoJob w', AcquireJob.hydrate env server job w = (.ok protoJob, w') ∧ World.Quiet w w'
      ∧ AcquireJob.Loads env server job w.db w.ps protoJob)
    ∨ AcquireJob.FailedFrom env server job w (AcquireJob.hydrate env server job w) := by
  unfold AcquireJob.hydrate
  simp only [World.read]
  have q0 := World.Quiet.quiet_refl w
  split
  · rename_i err w1 heq
    obtain ⟨-, rfl⟩ := Prod.mk.inj heq
    exact Or.inr ⟨_, _, rfl, q0.quiet_record _ (by rfl)⟩
  rename_i user w1 heq
  obtain ⟨h1, rfl⟩ := Prod.mk.inj heq
  have q1 := q0.quiet_record (Event.GetUserByID job.InitiatorID) (by rfl)
  rcases AcquireJob.jobType_cases env server job (w.record (Event.GetUserByID job.InitiatorID))
    with ⟨t, w2, hr, hq, hwb, hdr⟩ | hf
  swap
  · obtain ⟨msg, w2, hr, hq⟩ := hf
    rw [hr]
    exact Or.inr ⟨msg, w2, rfl, q1.quiet_trans hq⟩
  rw [hr]
  have q2 := q1.quiet_trans hq
  simp only
  split
  · rename_i hsm
    split
    · rename_i err w3 heq
      obtain ⟨-, rfl⟩ := Prod.mk.inj heq
      exact Or.inr ⟨_, _, rfl, q2.quiet_record _ (by rfl)⟩
    rename_i file w3 heq
    obtain ⟨h3, rfl⟩ := Prod.mk.inj heq
    have q3 := q2.quiet_record (Event.GetFileByID job.FileID) (by rfl)
    split
    · exact Or.inr ⟨_, _, rfl, q3⟩
    rename_i hsize
    refine Or.inl ⟨_, _, rfl, q3, ?_⟩
    simp only [World.record_db, World.record_ps] at h1 hwb hdr
    rw [hq.db, World.record_db] at h3
    exact ⟨⟨user, h1, rfl⟩, hwb, hdr, hsm, ⟨file, h3, rfl⟩, not_lt.mp hsize, rfl⟩
  · exact Or.inr ⟨_, _, rfl, q2⟩

end Hydration

section FailureConvention

variable {σ π : Type}

theorem AcquireJob.afterTest_db (w : World σ π) : (AcquireJob.afterTest w).db = w.db := by
  unfold AcquireJob.afterTest; split <;> rfl

theorem AcquireJob.afterTest_ps (w : World σ π) : (AcquireJob.afterTest w).ps = w.ps := by
  unfold AcquireJob.afterTest; split <;> rfl

theorem AcquireJob.afterTest_trace (w : World σ π) :
    (AcquireJob.afterTest w).trace = w.trace := by
  unfold AcquireJob.afterTest; split <;> rfl

theorem AcquireJob.afterTest_lastAcquire (w : World σ π) :
    (AcquireJob.afterTest w).lastAcquire = w.lastAcquire := by
  unfold AcquireJob.afterTest; split <;> rfl

/-- When the store hands out a job, `AcquireJob` is the hydration of that job
in the world the acquire left. -/
theorem AcquireJob.of_acquired (env : Env σ) (server : Server σ π) (w : World σ π)
    (job : database.ProvisionerJob)
    (hquery : AcquireJob.debounced env server w = false)
    (hstore : (server.Database.AcquireProvisionerJob (AcquireJob.arg env server w) w.db).1
      = .ok job) :
    AcquireJob env server w
      = AcquireJob.hydrate env server job (AcquireJob.afterAcquire env server w) := by
  unfold AcquireJob AcquireJob.afterAcquire
  simp only [hquery, Bool.false_eq_true, if_false, World.write, World.tick,
    AcquireJob.afterTest_db, hstore]

/-- The rows, notifier state and trace of the world the acquire left. -/
theorem AcquireJob.afterAcquire_spec (env : Env σ) (server : Server σ π) (w : World σ π) :
    (AcquireJob.afterAcquire env server w).db
      = (server.Database.AcquireProvisionerJob (AcquireJob.arg env server w) w.db).2
    ∧ (AcquireJob.afterAcquire env server w).ps = w.ps
    ∧ (AcquireJob.afterAcquire env server w).lastAcquire = w.lastAcquire
    ∧ (AcquireJob.afterAcquire env server w).trace
      = w.trace ++ [Event.AcquireProvisionerJob (AcquireJob.arg env server w)
          (server.Database.AcquireProvisionerJob (AcquireJob.arg env server w) w.db).1.toOption] := by
  unfold AcquireJob.afterAcquire
  simp only [World.write, World.tick, AcquireJob.afterTest_db, AcquireJob.afterTest_ps,
    AcquireJob.afterTest_trace, AcquireJob.afterTest_lastAcquire, and_self]

/-- What `return nil, failJob(msg)` does: one terminal write of the job, and
an error. -/
theorem AcquireJob.fail_spec {α : Type} (env : Env σ) (server : Server σ π)
    (job : database.ProvisionerJob) (msg : String) (w : World σ π) :
    (AcquireJob.fail env server job msg w : Except Error α × World σ π).2.trace
      = w.trace ++ [Event.UpdateProvisionerJobWithCompleteByID
          { ID := job.ID, CompletedAt := { Time := databaseNow env w, Valid := true },
            Error := { String := msg, Valid := true } }]
    ∧ (AcquireJob.fail env server job msg w : Except Error α × World σ π).2.db
      = (server.Database.UpdateProvisionerJobWithCompleteByID
          { ID := job.ID, CompletedAt := { Time := databaseNow env w, Valid := true },
            Error := { String := msg, Valid := true } } w.db).2
    ∧ (AcquireJob.fail env server job msg w : Except Error α × World σ π).2.lastAcquire
      = w.lastAcquire
    ∧ ((AcquireJob.fail env server job msg w : Except Error α × World σ π).1
        = .error (.new ("request job was invalidated: " ++ msg))
      ∨ ∃ cause, (AcquireJob.fail env server job msg w : Except Error α × World σ π).1
        = .error (.wrap "update provisioner job" cause)) := by
  unfold AcquireJob.fail AcquireJob.failJob AcquireJob.failArg
  simp only [World.write, World.tick]
  split
  · rename_i err w1 heq
    obtain ⟨-, rfl⟩ := Prod.mk.inj heq
    exact ⟨rfl, rfl, rfl, Or.inr ⟨err, rfl⟩⟩
  · rename_i u w1 heq
    obtain ⟨-, rfl⟩ := Prod.mk.inj heq
    exact ⟨rfl, rfl, rfl, Or.inl rfl⟩

/-- C4 (job-failure convention).  Once the store has handed out a job,
`AcquireJob` ends in one of two ways.  Either every step of the hydration
succeeded (the initiator, build, workspace, template version, template,
owner and file lookups, the decoding of the job input, the workspace
publication, the computation and conversion of the parameters, the
conversion of the transition; the storage method is file and the envelope is
not larger than `MaxMessageSize`), and it returns the envelope having made no
store write after the acquire.  Or it returns an error and no envelope, and
the last call it made is the store write that makes the job terminal:
completed-at non-null and the error set to the failure message msg, the
message of the error returned (unless that very write failed, whose error is
then returned). -/
theorem acquireJob_failure_convention (env : Env σ) (server : Server σ π) (w : World σ π)
    (job : database.ProvisionerJob)
    (hquery : AcquireJob.debounced env server w = false)
    (hstore : (server.Database.AcquireProvisionerJob (AcquireJob.arg env server w) w.db).1
      = .ok job) :
    (∃ protoJob l,
      (AcquireJob env server w).1 = .ok protoJob
      ∧ AcquireJob.Loads env server job
          (server.Database.AcquireProvisionerJob (AcquireJob.arg env server w) w.db).2 w.ps
          protoJob
      ∧ (AcquireJob env server w).2.trace
          = w.trace ++ Event.AcquireProvisionerJob (AcquireJob.arg env server w) (some job) :: l
      ∧ ∀ e ∈ l, e.isWrite = false)
    ∨ (∃ msg instant l,
      (AcquireJob env server w).2.trace
          = w.trace ++ Event.AcquireProvisionerJob (AcquireJob.arg env server w) (some job)
              :: (l ++ [Event.UpdateProvisionerJobWithCompleteByID
                  { ID := job.ID, CompletedAt := { Time := instant, Valid := true },
                    Error := { String := msg, Valid := true } }])
      ∧ (∀ e ∈ l, e.isWrite = false)
      ∧ ((AcquireJob env server w).1 = .error (.new ("request job was invalidated: " ++ msg))
        ∨ ∃ cause, (AcquireJob env server w).1
            = .error (.wrap "update provisioner job" cause))) := by
  rw [AcquireJob.of_acquired env server w job hquery hstore]
  obtain ⟨hdb, hps, -, htr⟩ := AcquireJob.afterAcquire_spec env server w
  rw [hstore] at htr
  rcases AcquireJob.hydrate_cases env server job (AcquireJob.afterAcquire env server w)
    with ⟨protoJob, w', hr, hq, hl⟩ | ⟨msg, w', hr, hq⟩
  · left
    obtain ⟨l, hl', hw⟩ := hq.trace
    refine ⟨protoJob, l, by rw [hr], ?_, ?_, hw⟩
    · rw [← hdb, ← hps]; exact hl
    · rw [hr]; simp only [hl', htr, Except.toOption, List.append_assoc, List.singleton_append]
  · right
    obtain ⟨l, hl', hw⟩ := hq.trace
    obtain ⟨ftr, -, -, fres⟩ := AcquireJob.fail_spec (α := proto.AcquiredJob) env server job msg w'
    refine ⟨msg, databaseNow env w', l, ?_, hw, ?_⟩
    · rw [hr, ftr, hl', htr]
      simp only [Except.toOption, List.append_assoc, List.singleton_append, List.cons_append,
        List.nil_append]
    · rw [hr]; exact fres

/-- Witness of C4: server a acquires the queued job j from a store that
holds no user, so the lookup of the initiator fails and the job is failed. -/
theorem acquireJob_failure_convention_witness :
    AcquireJob.debounced (sampleEnv fun n => 100 + n) (sampleServer ⟨"a"⟩ 10)
        (sampleWorld [queuedJob]) = false
    ∧ ((sampleServer ⟨"a"⟩ 10).Database.AcquireProvisionerJob
        (AcquireJob.arg (sampleEnv fun n => 100 + n) (sampleServer ⟨"a"⟩ 10)
          (sampleWorld [queuedJob])) (sampleWorld [queuedJob]).db).1
      = .ok { queuedJob with StartedAt := { Time := 100, Valid := true },
                             WorkerID := { UUID := ⟨"a"⟩, Valid := true } }
    ∧ ∃ msg, (AcquireJob (sampleEnv fun n => 100 + n) (sampleServer ⟨"a"⟩ 10)
        (sampleWorld [queuedJob])).1
      = .error (.new ("request job was invalidated: " ++ msg)) := by
  refine ⟨by decide, by decide, ?_⟩
  have hval : (AcquireJob (sampleEnv fun n => 100 + n) (sampleServer ⟨"a"⟩ 10)
      (sampleWorld [queuedJob])).1
      = .error (.new "request job was invalidated: get user: sql: no rows in result set") := by
    decide
  rcases acquireJob_failure_convention (sampleEnv fun n => 100 + n) (sampleServer ⟨"a"⟩ 10)
    (sampleWorld [queuedJob])
    { queuedJob with StartedAt := { Time := 100, Valid := true },
                     WorkerID := { UUID := ⟨"a"⟩, Valid := true } }
    (by decide) (by decide) with ⟨protoJob, l, hok, -⟩ | ⟨msg, instant, l, -, -, hres⟩
  · rw [hval] at hok; cases hok
  · rcases hres with h | ⟨cause, h⟩
    · exact ⟨msg, h⟩
    · rw [hval] at h; cases h

end FailureConvention

section DebounceWindow

variable {σ π : Type}

/-- A call that is not debounced queries the store first: its trace is the
trace it found, then the acquire, then what the hydration does. -/
theorem AcquireJob.trace_of_query (env : Env σ) (server : Server σ π) (w : World σ π)
    (hquery : AcquireJob.debounced env server w = false) :
    ∃ l, (AcquireJob env server w).2.trace
      = w.trace ++ Event.AcquireProvisionerJob (AcquireJob.arg env server w)
          (server.Database.AcquireProvisionerJob (AcquireJob.arg env server w) w.db).1.toOption
          :: l := by
  cases hstore : (server.Database.AcquireProvisionerJob (AcquireJob.arg env server w) w.db).1 with
  | error err =>
    cases his : errors.Is err .ErrNoRows with
    | true =>
      rw [AcquireJob.of_norow env server w err hquery hstore his]
      exact ⟨[], rfl⟩
    | false =>
      rw [AcquireJob.of_store_error env server w err hquery hstore his]
      exact ⟨[], rfl⟩
  | ok job =>
    rw [AcquireJob.of_acquired env server w job hquery hstore]
    obtain ⟨-, -, -, htr⟩ := AcquireJob.afterAcquire_spec env server w
    rw [hstore] at htr
    rcases AcquireJob.hydrate_cases env server job (AcquireJob.afterAcquire env server w)
      with ⟨protoJob, w', hr, hq, -⟩ | ⟨msg, w', hr, hq⟩
    · obtain ⟨l, hl, -⟩ := hq.trace
      refine ⟨l, ?_⟩
      rw [hr]
      simp only [hl, htr, List.append_assoc, List.singleton_append]
    · obtain ⟨l, hl, -⟩ := hq.trace
      obtain ⟨ftr, -⟩ := AcquireJob.fail_spec (α := proto.AcquiredJob) env server job msg w'
      refine ⟨l ++ [Event.UpdateProvisionerJobWithCompleteByID
        { ID := job.ID, CompletedAt := { Time := databaseNow env w', Valid := true },
          Error := { String := msg, Valid := true } }], ?_⟩
      rw [hr, ftr, hl, htr]
      simp only [List.append_assoc, List.singleton_append, List.cons_append, List.nil_append]

/-- C2, as amended.  For every debounce interval (that of the server):
after an `AcquireJob` call that returned the empty envelope because the
store reported no row, the next call made less than the interval after the
instant recorded performs no store query.  A call that was itself debounced
returns the empty envelope and leaves the recorded instant where it was: the
next call performs no store query exactly when the clock then reads less
than the interval after that recorded instant, however soon after the
debounced call it is made. -/
theorem acquireJob_debounce_from_recorded (env : Env σ) (server : Server σ π)
    (w : World σ π) :
    (∀ err, AcquireJob.debounced env server w = false →
      (server.Database.AcquireProvisionerJob (AcquireJob.arg env server w) w.db).1
        = .error err →
      errors.Is err .ErrNoRows = true →
      time.IsZero (AcquireJob.emptyInstant env w) = false →
      AcquireJob.emptyInstant env w ≤ timeNow env (AcquireJob env server w).2 →
      timeNow env (AcquireJob env server w).2 - AcquireJob.emptyInstant env w
        < server.AcquireJobDebounce →
      (AcquireJob env server w).1 = .ok {}
      ∧ (AcquireJob env server (AcquireJob env server w).2).2.trace
          = (AcquireJob env server w).2.trace)
    ∧ (AcquireJob.debounced env server w = true →
      (AcquireJob env server w).1 = .ok {}
      ∧ (AcquireJob env server w).2.lastAcquire = w.lastAcquire
      ∧ ((AcquireJob env server (AcquireJob env server w).2).2.trace
            = (AcquireJob env server w).2.trace
          ↔ time.Sub (timeNow env (AcquireJob env server w).2) w.lastAcquire
              < server.AcquireJobDebounce)) := by
  constructor
  · intro err hquery hstore his hclock hafter hwithin
    have h1 := AcquireJob.of_norow env server w err hquery hstore his
    have hla : (AcquireJob env server w).2.lastAcquire = AcquireJob.emptyInstant env w := by
      rw [h1]
    have hdeb : AcquireJob.debounced env server (AcquireJob env server w).2 = true := by
      apply AcquireJob.debounced_of_within
      · rw [hla]; exact hclock
      · rw [hla]; exact hafter
      · rw [hla]; exact hwithin
    refine ⟨by rw [h1], ?_⟩
    rw [AcquireJob.of_debounced env server _ hdeb]
    exact AcquireJob.afterTest_trace _
  · intro hdeb
    have h1 := AcquireJob.of_debounced env server w hdeb
    have hz : time.IsZero w.lastAcquire = false := by
      unfold AcquireJob.debounced at hdeb
      cases hz : time.IsZero w.lastAcquire with
      | false => rfl
      | true => simp [hz] at hdeb
    have hla : (AcquireJob env server w).2.lastAcquire = w.lastAcquire := by
      rw [h1]; exact AcquireJob.afterTest_lastAcquire w
    refine ⟨by rw [h1], hla, ?_⟩
    have hd : AcquireJob.debounced env server (AcquireJob env server w).2
        = decide (time.Sub (timeNow env (AcquireJob env server w).2) w.lastAcquire
            < server.AcquireJobDebounce) := by
      unfold AcquireJob.debounced
      rw [hla, hz]
      simp
    constructor
    · intro htr
      by_contra hnot
      have hq : AcquireJob.debounced env server (AcquireJob env server w).2 = false := by
        rw [hd]; exact decide_eq_false hnot
      obtain ⟨l, hl⟩ := AcquireJob.trace_of_query env server _ hq
      rw [hl] at htr
      have := congrArg List.length htr
      simp at this
    · intro hlt
      have hq : AcquireJob.debounced env server (AcquireJob env server w).2 = true := by
        rw [hd]; exact decide_eq_true hlt
      rw [AcquireJob.of_debounced env server _ hq]
      exact AcquireJob.afterTest_trace _

/-- Witness of C2 as amended: the call made at 109 in a world that recorded
instant 100 is debounced (interval 10), and the call made at 115 is not; an
empty store with a first call at 100 debounces the call made at 102. -/
theorem acquireJob_debounce_from_recorded_witness :
    ((AcquireJob (sampleEnv fun n => 100 + n) (sampleServer ⟨"a"⟩ 10) (sampleWorld [])).1
        = .ok {}
      ∧ (AcquireJob (sampleEnv fun n => 100 + n) (sampleServer ⟨"a"⟩ 10)
          (AcquireJob (sampleEnv fun n => 100 + n) (sampleServer ⟨"a"⟩ 10)
            (sampleWorld [])).2).2.trace
        = (AcquireJob (sampleEnv fun n => 100 + n) (sampleServer ⟨"a"⟩ 10)
            (sampleWorld [])).2.trace)
    ∧ (AcquireJob (sampleEnv slowClock) (sampleServer ⟨"a"⟩ 10) recordedWorld).2.lastAcquire
        = 100
    ∧ (AcquireJob (sampleEnv slowClock) (sampleServer ⟨"a"⟩ 10)
          (AcquireJob (sampleEnv slowClock) (sampleServer ⟨"a"⟩ 10) recordedWorld).2).2.trace
        ≠ (AcquireJob (sampleEnv slowClock) (sampleServer ⟨"a"⟩ 10) recordedWorld).2.trace :=
  ⟨(acquireJob_debounce_from_recorded (sampleEnv fun n => 100 + n) (sampleServer ⟨"a"⟩ 10)
      (sampleWorld [])).1 .ErrNoRows (by decide) (by decide) (by decide) (by decide)
      (by decide) (by decide),
   ((acquireJob_debounce_from_recorded (sampleEnv slowClock) (sampleServer ⟨"a"⟩ 10)
      recordedWorld).2 (by decide)).2.1,
   fun h => absurd
     (((acquireJob_debounce_from_recorded (sampleEnv slowClock) (sampleServer ⟨"a"⟩ 10)
        recordedWorld).2 (by decide)).2.2.mp h) (by decide)⟩

/-- Counterexample to C2 as stated.  An empty acquire was recorded at 100
and the debounce interval is 10.  The call made at 109 is debounced and
returns the empty envelope; the next call is made at 115, which is 6 < 10
after it, and yet it queries the store. -/
theorem acquireJob_debounce_not_sliding :
    (AcquireJob (sampleEnv slowClock) (sampleServer ⟨"a"⟩ 10) recordedWorld).1 = .ok {}
    ∧ (AcquireJob (sampleEnv slowClock) (sampleServer ⟨"a"⟩ 10) recordedWorld).2.trace = []
    ∧ timeNow (sampleEnv slowClock)
          (AcquireJob (sampleEnv slowClock) (sampleServer ⟨"a"⟩ 10) recordedWorld).2
        - timeNow (sampleEnv slowClock) recordedWorld
        < (sampleServer ⟨"a"⟩ 10).AcquireJobDebounce
    ∧ (AcquireJob (sampleEnv slowClock) (sampleServer ⟨"a"⟩ 10)
        (AcquireJob (sampleEnv slowClock) (sampleServer ⟨"a"⟩ 10) recordedWorld).2).2.trace
      = [Event.AcquireProvisionerJob
          { StartedAt := { Time := 121, Valid := true },
            WorkerID := { UUID := ⟨"a"⟩, Valid := true }, Types := [.echo], Tags := "" }
          none] := by
  decide

end DebounceWindow

/-! ## `UpdateJob`, `FailJob` and `CompleteJob` on terminal jobs -/

section TraceExtension

variable {σ π : Type}

theorem World.Extends.extends_refl (w : World σ π) : World.Extends w w := List.prefix_refl _

theorem World.Extends.extends_trans {w0 w1 w2 : World σ π} (h : World.Extends w0 w1)
    (h' : World.Extends w1 w2) : World.Extends w0 w2 := List.IsPrefix.trans h h'

@[simp] theorem World.tick_trace (w : World σ π) : w.tick.trace = w.trace := rfl

@[simp] theorem World.mint_trace (w : World σ π) : w.mint.trace = w.trace := rfl

@[simp] theorem World.record_trace (w : World σ π) (e : Event) :
    (w.record e).trace = w.trace ++ [e] := rfl

/-- The log block of `UpdateJob` only adds calls to the trace. -/
theorem UpdateJob.logs_extends (server : Server σ π) (parsedID : uuid.UUID)
    (request : proto.UpdateJobRequest) (w : World σ π) :
    World.Extends w (UpdateJob.logs server parsedID request w).2 := by
  unfold UpdateJob.logs
  simp only [World.read, World.write, World.publish]
  split
  swap
  · exact World.Extends.extends_refl w
  split
  · exact World.Extends.extends_refl w
  split
  · rename_i heq; obtain ⟨-, rfl⟩ := Prod.mk.inj heq; simp [World.Extends]
  rename_i heq; obtain ⟨-, rfl⟩ := Prod.mk.inj heq
  split
  · simp [World.Extends]
  split
  · rename_i heq; obtain ⟨-, rfl⟩ := Prod.mk.inj heq; simp [World.Extends]
  · rename_i heq; obtain ⟨-, rfl⟩ := Prod.mk.inj heq; simp [World.Extends]

/-- The readme block of `UpdateJob` only adds calls to the trace. -/
theorem UpdateJob.readme_extends (env : Env σ) (server : Server σ π)
    (job : database.ProvisionerJob) (request : proto.UpdateJobRequest) (w : World σ π) :
    World.Extends w (UpdateJob.readme env server job request w).2 := by
  unfold UpdateJob.readme
  simp only [World.read, World.write, World.publish]
  split
  swap
  · exact World.Extends.extends_refl w
  split
  · rename_i heq; obtain ⟨-, rfl⟩ := Prod.mk.inj heq; simp [World.Extends]
  · rename_i heq; obtain ⟨-, rfl⟩ := Prod.mk.inj heq; simp [World.Extends]

/-- The schema loop of `UpdateJob` only adds calls to the trace. -/
theorem UpdateJob.insertSchemas_extends (env : Env σ) (server : Server σ π)
    (job : database.ProvisionerJob) (schemas : List sdkproto.ParameterSchema) :
    ∀ (index : Nat) (w : World σ π),
      World.Extends w (UpdateJob.insertSchemas env server job index schemas w).2 := by
  induction schemas with
  | nil => intro index w; exact World.Extends.extends_refl w
  | cons protoParameter rest ih =>
    intro index w
    unfold UpdateJob.insertSchemas
    simp only [World.read, World.write, World.publish]
    split
    · exact World.Extends.extends_refl w
    split
    · simp [World.Extends]
    split
    · simp [World.Extends]
    split
    · rename_i heq; obtain ⟨-, rfl⟩ := Prod.mk.inj heq; simp [World.Extends]
    rename_i heq; obtain ⟨-, rfl⟩ := Prod.mk.inj heq
    refine World.Extends.extends_trans ?_ (ih _ _)
    simp [World.Extends]

/-- The lookup of the template id in `UpdateJob` only adds calls to the trace. -/
theorem UpdateJob.templateID_extends (server : Server σ π) (job : database.ProvisionerJob)
    (w : World σ π) : World.Extends w (UpdateJob.templateID server job w).2 := by
  unfold UpdateJob.templateID
  simp only [World.read, World.write, World.publish]
  split
  swap
  · exact World.Extends.extends_refl w
  split
  · rename_i heq; obtain ⟨-, rfl⟩ := Prod.mk.inj heq; simp [World.Extends]
  · rename_i heq; obtain ⟨-, rfl⟩ := Prod.mk.inj heq; simp [World.Extends]

/-- The schema block of `UpdateJob` only adds calls to the trace. -/
theorem UpdateJob.parameterSchemas_extends (env : Env σ) (server : Server σ π)
    (job : database.ProvisionerJob) (request : proto.UpdateJobRequest) (w : World σ π) :
    World.Extends w (UpdateJob.parameterSchemas env server job request w).2 := by
  unfold UpdateJob.parameterSchemas
  have h1 := UpdateJob.insertSchemas_extends env server job request.ParameterSchemas 0 w
  split
  · rename_i heq; rw [heq] at h1; exact h1
  rename_i w1 heq
  rw [heq] at h1
  have h2 := UpdateJob.templateID_extends server job w1
  split
  · rename_i heq; rw [heq] at h2; exact h1.extends_trans h2
  rename_i w2 heq
  rw [heq] at h2
  have h12 := h1.extends_trans h2
  simp only [World.read]
  split
  · rename_i heq; obtain ⟨-, rfl⟩ := Prod.mk.inj heq
    exact h12.extends_trans (by simp [World.Extends])
  rename_i heq; obtain ⟨-, rfl⟩ := Prod.mk.inj heq
  split
  · exact h12.extends_trans (by simp [World.Extends])
  · exact h12.extends_trans (by simp [World.Extends])

end TraceExtension

section TerminalJobs

variable {σ π : Type}

/-- The calls the type switch of `FailJob` makes: at most an update of the
workspace build and a publication on the workspace channel. -/
theorem FailJob.jobType_trace (env : Env σ) (server : Server σ π)
    (job : database.ProvisionerJob) (failJob : proto.FailedJob) (w : World σ π) :
    ∃ l, (FailJob.jobType env server job failJob w).2.trace = w.trace ++ l
      ∧ ∀ e ∈ l, (∃ arg, e = Event.UpdateWorkspaceBuildByID arg) ∨ e.isPublish = true := by
  unfold FailJob.jobType
  simp only [World.write, World.publish, World.tick]
  split
  swap
  · exact ⟨[], by simp, by simp⟩
  split
  · exact ⟨[], by simp, by simp⟩
  split
  · exact ⟨[], by simp, by simp⟩
  split
  · rename_i heq; obtain ⟨-, rfl⟩ := Prod.mk.inj heq
    exact ⟨[_], rfl, by simp⟩
  rename_i heq; obtain ⟨-, rfl⟩ := Prod.mk.inj heq
  split
  · rename_i heq; obtain ⟨-, rfl⟩ := Prod.mk.inj heq
    refine ⟨[_, _], List.append_assoc _ _ _, ?_⟩
    intro e he
    simp at he
    rcases he with rfl | rfl
    · exact Or.inl ⟨_, rfl⟩
    · exact Or.inr rfl
  · rename_i heq; obtain ⟨-, rfl⟩ := Prod.mk.inj heq
    refine ⟨[_, _], List.append_assoc _ _ _, ?_⟩
    intro e he
    simp at he
    rcases he with rfl | rfl
    · exact Or.inl ⟨_, rfl⟩
    · exact Or.inr rfl

/-- C10, as amended.  For every error message m, a successful `FailJob` has
made, right after the query of the job, the store write that makes the job
terminal, and that write succeeded: completed-at is non-null and the string
of the stored error is m verbatim; the stored error is non-null exactly when
m is not empty, so the empty message is stored as null.  Nothing `FailJob`
does afterwards touches the job row (an update of the workspace build,
publications). -/
theorem failJob_terminal_write (env : Env σ) (server : Server σ π)
    (failJob : proto.FailedJob) (w : World σ π)
    (hok : (FailJob env server failJob w).1 = .ok {}) :
    ∃ jobID l,
      env.uuidParse failJob.JobId = .ok jobID
      ∧ (FailJob env server failJob w).2.trace
          = w.trace ++ Event.GetProvisionerJobByID jobID
              :: Event.UpdateProvisionerJobWithCompleteByID
                  { ID := jobID,
                    UpdatedAt := env.clock (w.ticks + 1),
                    CompletedAt := { Time := env.clock w.ticks, Valid := true },
                    Error := { String := failJob.Error, Valid := failJob.Error != "" } }
              :: l
      ∧ (server.Database.UpdateProvisionerJobWithCompleteByID
            { ID := jobID,
              UpdatedAt := env.clock (w.ticks + 1),
              CompletedAt := { Time := env.clock w.ticks, Valid := true },
              Error := { String := failJob.Error, Valid := failJob.Error != "" } } w.db).1
          = .ok ()
      ∧ (∀ e ∈ l, (∃ arg, e = Event.UpdateWorkspaceBuildByID arg) ∨ e.isPublish = true)
      ∧ ({ String := failJob.Error, Valid := failJob.Error != "" } : sql.NullString).value
          = if failJob.Error = "" then none else some failJob.Error := by
  cases hparse : env.uuidParse failJob.JobId with
  | error err => simp [FailJob, hparse] at hok
  | ok jobID =>
  cases hget : server.Database.GetProvisionerJobByID jobID w.db with
  | error err => simp [FailJob, hparse, World.read, hget] at hok
  | ok job =>
  by_cases hown : (job.WorkerID.UUID.String != server.ID.String) = true
  · simp [FailJob, hparse, World.read, hget, hown] at hok
  by_cases hdone : job.CompletedAt.Valid = true
  · simp [FailJob, hparse, World.read, hget, hown, hdone] at hok
  have hval : ({ String := failJob.Error, Valid := failJob.Error != "" } : sql.NullString).value
      = if failJob.Error = "" then none else some failJob.Error := by
    unfold sql.NullString.value
    by_cases hm : failJob.Error = "" <;> simp [hm]
  cases hwrite : (server.Database.UpdateProvisionerJobWithCompleteByID
      { ID := jobID,
        UpdatedAt := env.clock (w.ticks + 1),
        CompletedAt := { Time := env.clock w.ticks, Valid := true },
        Error := { String := failJob.Error, Valid := failJob.Error != "" } } w.db).1 with
  | error err =>
    simp [FailJob, hparse, World.read, hget, hown, hdone, World.write, World.tick, World.record,
      databaseNow, hwrite] at hok
  | ok u =>
  obtain ⟨l, hl, hevents⟩ := FailJob.jobType_trace env server
    { job with
      CompletedAt := { Time := env.clock w.ticks, Valid := true },
      Error := { String := failJob.Error, Valid := failJob.Error != "" } } failJob
    { db := (server.Database.UpdateProvisionerJobWithCompleteByID
              { ID := jobID,
                UpdatedAt := env.clock (w.ticks + 1),
                CompletedAt := { Time := env.clock w.ticks, Valid := true },
                Error := { String := failJob.Error, Valid := failJob.Error != "" } } w.db).2,
      ps := w.ps, lastAcquire := w.lastAcquire, ticks := w.ticks + 1 + 1, minted := w.minted,
      trace := w.trace ++ [Event.GetProvisionerJobByID jobID,
        Event.UpdateProvisionerJobWithCompleteByID
              { ID := jobID,
                UpdatedAt := env.clock (w.ticks + 1),
                CompletedAt := { Time := env.clock w.ticks, Valid := true },
                Error := { String := failJob.Error, Valid := failJob.Error != "" } }] }
  rcases hjt : FailJob.jobType env server
    { job with
      CompletedAt := { Time := env.clock w.ticks, Valid := true },
      Error := { String := failJob.Error, Valid := failJob.Error != "" } } failJob
    { db := (server.Database.UpdateProvisionerJobWithCompleteByID
              { ID := jobID,
                UpdatedAt := env.clock (w.ticks + 1),
                CompletedAt := { Time := env.clock w.ticks, Valid := true },
                Error := { String := failJob.Error, Valid := failJob.Error != "" } } w.db).2,
      ps := w.ps, lastAcquire := w.lastAcquire, ticks := w.ticks + 1 + 1, minted := w.minted,
      trace := w.trace ++ [Event.GetProvisionerJobByID jobID,
        Event.UpdateProvisionerJobWithCompleteByID
              { ID := jobID,
                UpdatedAt := env.clock (w.ticks + 1),
                CompletedAt := { Time := env.clock w.ticks, Valid := true },
                Error := { String := failJob.Error, Valid := failJob.Error != "" } }] }
    with ⟨_ | err, w3⟩
  swap
  · simp [FailJob, hparse, World.read, hget, hown, hdone, World.write, World.tick, World.record,
      databaseNow, hwrite, hjt] at hok
  rw [hjt] at hl
  have hF : (FailJob env server failJob w).2.trace
      = w3.trace ++ [Event.Publish (ProvisionerJobLogsNotifyChannel jobID)
          (ProvisionerJobLogsNotifyMessage.Marshal { EndOfLogs := true })] := by
    simp only [FailJob, hparse, World.read, hget, hown, hdone, World.write, World.tick,
      World.record, databaseNow, hwrite, hjt, World.publish, Bool.false_eq_true, if_false,
      List.append_assoc, List.singleton_append]
    split
    · rename_i heq; obtain ⟨-, rfl⟩ := Prod.mk.inj heq; rfl
    · rename_i heq; obtain ⟨-, rfl⟩ := Prod.mk.inj heq; rfl
  refine ⟨jobID, l ++ [Event.Publish (ProvisionerJobLogsNotifyChannel jobID)
    (ProvisionerJobLogsNotifyMessage.Marshal { EndOfLogs := true })], rfl, ?_, hwrite, ?_, hval⟩
  · rw [hF, hl]
    simp only [List.append_assoc, List.singleton_append, List.cons_append, List.nil_append]
  · intro e he
    rcases List.mem_append.mp he with he | he
    · exact hevents e he
    · simp at he; rw [he]; exact Or.inr rfl

/-- Witness of C10 as amended: server a fails its running job j with the
message "boom". -/
theorem failJob_terminal_write_witness :
    (FailJob (sampleEnv fun n => 100 + n) (sampleServer ⟨"a"⟩ 10)
        { JobId := "j", Error := "boom" } (sampleWorld [runningJob])).1 = .ok {}
    ∧ ∃ l, (FailJob (sampleEnv fun n => 100 + n) (sampleServer ⟨"a"⟩ 10)
        { JobId := "j", Error := "boom" } (sampleWorld [runningJob])).2.trace
      = Event.GetProvisionerJobByID ⟨"j"⟩
          :: Event.UpdateProvisionerJobWithCompleteByID
              { ID := ⟨"j"⟩, UpdatedAt := 101, CompletedAt := { Time := 100, Valid := true },
                Error := { String := "boom", Valid := true } }
          :: l := by
  refine ⟨by decide, ?_⟩
  obtain ⟨jobID, l, hparse, htr, -⟩ := failJob_terminal_write (sampleEnv fun n => 100 + n)
    (sampleServer ⟨"a"⟩ 10) { JobId := "j", Error := "boom" } (sampleWorld [runningJob])
    (by decide)
  have hid : jobID = ⟨"j"⟩ := by
    have h : (sampleEnv fun n => 100 + n).uuidParse "j" = .ok ⟨"j"⟩ := by decide
    rw [h] at hparse
    cases hparse
    rfl
  subst hid
  exact ⟨l, htr⟩

/-- Counterexample to C10 as stated.  Server a fails its running job j with
the empty message: the call succeeds, the job row is terminal, and its stored
error is null, not the empty message. -/
theorem failJob_empty_message_null :
    (FailJob (sampleEnv fun n => 100 + n) (sampleServer ⟨"a"⟩ 10)
        { JobId := "j", Error := "" } (sampleWorld [runningJob])).1 = .ok {}
    ∧ (FailJob (sampleEnv fun n => 100 + n) (sampleServer ⟨"a"⟩ 10)
        { JobId := "j", Error := "" } (sampleWorld [runningJob])).2.db.provisionerJobs
      = [{ runningJob with UpdatedAt := 101, CompletedAt := { Time := 100, Valid := true },
                           Error := { String := "", Valid := false } }]
    ∧ ((FailJob (sampleEnv fun n => 100 + n) (sampleServer ⟨"a"⟩ 10)
        { JobId := "j", Error := "" } (sampleWorld [runningJob])).2.db.provisionerJobs.map
          fun row => row.Error.value) ≠ [some ""] := by
  decide

/-- A world whose trace extends one ending in two calls has those two calls
right after the earlier trace. -/
theorem World.Extends.extends_tail {w0 w : World σ π} (a b : Event) (tr : List Event)
    (h0 : w0.trace = tr ++ [a] ++ [b]) (h : World.Extends w0 w) :
    ∃ l, w.trace = tr ++ a :: b :: l := by
  obtain ⟨l, hl⟩ := h
  refine ⟨l, ?_⟩
  rw [← hl, h0]
  simp only [List.append_assoc, List.singleton_append, List.cons_append, List.nil_append]

/-- C8, as amended.  For every job whose completed-at is already non-null:
no call to `FailJob`, by the owning server or by another, changes the job row
or writes any other row; it returns an error and leaves the world it found
with the one query of the job recorded.  `UpdateJob` and `CompleteJob` do not
test completed-at: called by the owning server, `UpdateJob` stamps updated-at
on the job row right after the query, and `CompleteJob` with a
template-import payload that reports no resource writes completed-at on the
job row again. -/
theorem terminal_job_only_failJob_guards (env : Env σ) (server : Server σ π) (w : World σ π)
    (jobID : uuid.UUID) (job : database.ProvisionerJob)
    (hget : server.Database.GetProvisionerJobByID jobID w.db = .ok job)
    (hdone : job.CompletedAt.Valid = true) :
    (∀ failJob : proto.FailedJob, env.uuidParse failJob.JobId = .ok jobID →
      (∃ err, (FailJob env server failJob w).1 = .error err)
      ∧ (FailJob env server failJob w).2 = w.record (.GetProvisionerJobByID jobID))
    ∧ (∀ request : proto.UpdateJobRequest, env.uuidParse request.JobId = .ok jobID →
      job.WorkerID = { UUID := server.ID, Valid := true } →
      ∃ l, (UpdateJob env server request w).2.trace
        = w.trace ++ Event.GetProvisionerJobByID jobID
            :: Event.UpdateProvisionerJobByID { ID := jobID, UpdatedAt := env.clock w.ticks }
            :: l)
    ∧ (∀ completed : proto.CompletedJob, env.uuidParse completed.JobId = .ok jobID →
      job.WorkerID = { UUID := server.ID, Valid := true } →
      completed.Type_ = some (.TemplateImport_ {}) →
      ∃ l, (CompleteJob env server completed w).2.trace
        = w.trace ++ Event.GetProvisionerJobByID jobID
            :: Event.UpdateProvisionerJobWithCompleteByID
                { ID := jobID, UpdatedAt := env.clock w.ticks,
                  CompletedAt := { Time := env.clock (w.ticks + 1), Valid := true } }
            :: l) := by
  refine ⟨?_, ?_, ?_⟩
  · intro failJob hparse
    unfold FailJob
    simp only [hparse, World.read, hget, hdone, if_true]
    split
    · exact ⟨⟨_, rfl⟩, rfl⟩
    · exact ⟨⟨_, rfl⟩, rfl⟩
  · intro request hparse hown
    unfold UpdateJob
    simp only [hparse, World.read, hget, hown, Bool.not_true, Bool.false_eq_true, if_false,
      bne_self_eq_false, World.write, World.tick, World.record, databaseNow]
    split
    · rename_i heq; obtain ⟨-, rfl⟩ := Prod.mk.inj heq
      exact ⟨[], by simp⟩
    rename_i u w1 heq
    obtain ⟨-, rfl⟩ := Prod.mk.inj heq
    have e1 := UpdateJob.logs_extends server jobID request
      { db := (server.Database.UpdateProvisionerJobByID
                { ID := jobID, UpdatedAt := env.clock w.ticks } w.db).2,
        ps := w.ps, lastAcquire := w.lastAcquire, ticks := w.ticks + 1, minted := w.minted,
        trace := w.trace ++ [Event.GetProvisionerJobByID jobID]
          ++ [Event.UpdateProvisionerJobByID { ID := jobID, UpdatedAt := env.clock w.ticks }] }
    split
    · rename_i err w2 heq
      rw [heq] at e1
      exact World.Extends.extends_tail _ _ _ rfl e1
    rename_i w2 heq
    rw [heq] at e1
    have e2 := e1.extends_trans (UpdateJob.readme_extends env server job request w2)
    split
    · rename_i err w3 heq
      rw [heq] at e2
      exact World.Extends.extends_tail _ _ _ rfl e2
    rename_i w3 heq
    rw [heq] at e2
    split
    · have e3 := e2.extends_trans (UpdateJob.parameterSchemas_extends env server job request w3)
      exact World.Extends.extends_tail _ _ _ rfl e3
    · exact World.Extends.extends_tail _ _ _ rfl e2
  · intro completed hparse hown hty
    unfold CompleteJob
    simp only [hparse, World.read, hget, hown, bne_self_eq_false, Bool.false_eq_true, if_false,
      CompleteJob.jobType, hty, CompleteJob.templateImport, CompleteJob.templateImport.go,
      CompleteJob.insertResources, CompleteJob.markCompleted, World.write, World.tick,
      World.record, databaseNow, World.publish]
    cases env.rangeStartFirst <;>
      simp only [Bool.false_eq_true, if_false, if_true, CompleteJob.templateImport.go,
        CompleteJob.insertResources] <;>
      (split
       · rename_i heq
         split at heq
         · rename_i heq2; obtain ⟨-, rfl⟩ := Prod.mk.inj heq2
           obtain ⟨-, rfl⟩ := Prod.mk.inj heq
           exact ⟨[], by simp⟩
         · cases heq
       · rename_i heq
         split at heq
         · cases heq
         · rename_i heq2; obtain ⟨-, rfl⟩ := Prod.mk.inj heq2
           obtain ⟨-, rfl⟩ := Prod.mk.inj heq
           split
           · rename_i heq3; obtain ⟨-, rfl⟩ := Prod.mk.inj heq3
             exact ⟨[Event.Publish (ProvisionerJobLogsNotifyChannel jobID)
               (ProvisionerJobLogsNotifyMessage.Marshal { EndOfLogs := true })], by simp⟩
           · rename_i heq3; obtain ⟨-, rfl⟩ := Prod.mk.inj heq3
             exact ⟨[Event.Publish (ProvisionerJobLogsNotifyChannel jobID)
               (ProvisionerJobLogsNotifyMessage.Marshal { EndOfLogs := true })], by simp⟩)

/-- Witness of C8 as amended: server a fails its own job j, which completed
at 50; the call returns an error and only the query is recorded. -/
theorem terminal_job_only_failJob_guards_witness :
    (sampleServer ⟨"a"⟩ 10).Database.GetProvisionerJobByID ⟨"j"⟩ (sampleWorld [terminalJob]).db
      = .ok terminalJob
    ∧ terminalJob.CompletedAt.Valid = true
    ∧ (FailJob (sampleEnv fun n => 100 + n) (sampleServer ⟨"a"⟩ 10)
        { JobId := "j", Error := "boom" } (sampleWorld [terminalJob])).2
      = (sampleWorld [terminalJob]).record (.GetProvisionerJobByID ⟨"j"⟩) :=
  ⟨by decide, by decide,
    ((terminal_job_only_failJob_guards (sampleEnv fun n => 100 + n) (sampleServer ⟨"a"⟩ 10)
      (sampleWorld [terminalJob]) ⟨"j"⟩ terminalJob (by decide) (by decide)).1
      { JobId := "j", Error := "boom" } (by decide)).2⟩

/-- Counterexample to C8 as stated.  Job j is owned by server a and terminal
(completed at 50, updated at 50).  `UpdateJob` by server a succeeds and
changes the job row: updated-at becomes 100.  `CompleteJob` by server a with an
empty template-import payload succeeds and changes the job row too:
completed-at becomes 101. -/
theorem updateJob_completeJob_change_terminal_job :
    (UpdateJob (sampleEnv fun n => 100 + n) (sampleServer ⟨"a"⟩ 10) { JobId := "j" }
        (sampleWorld [terminalJob])).1 = .ok { Canceled := false }
    ∧ (UpdateJob (sampleEnv fun n => 100 + n) (sampleServer ⟨"a"⟩ 10) { JobId := "j" }
        (sampleWorld [terminalJob])).2.db.provisionerJobs
      = [{ terminalJob with UpdatedAt := 100 }]
    ∧ (UpdateJob (sampleEnv fun n => 100 + n) (sampleServer ⟨"a"⟩ 10) { JobId := "j" }
        (sampleWorld [terminalJob])).2.db.provisionerJobs
      ≠ (sampleWorld [terminalJob]).db.provisionerJobs
    ∧ (CompleteJob (sampleEnv fun n => 100 + n) (sampleServer ⟨"a"⟩ 10)
        { JobId := "j", Type_ := some (.TemplateImport_ {}) } (sampleWorld [terminalJob])).1
      = .ok {}
    ∧ (CompleteJob (sampleEnv fun n => 100 + n) (sampleServer ⟨"a"⟩ 10)
        { JobId := "j", Type_ := some (.TemplateImport_ {}) }
        (sampleWorld [terminalJob])).2.db.provisionerJobs
      = [{ terminalJob with UpdatedAt := 100, CompletedAt := { Time := 101, Valid := true } }] := by
  decide

end TerminalJobs

/-! ## Ownership uniqueness -/

section AcquireEffect

variable {σ π : Type}

theorem Event.isWrite_of_isAcquire (e : Event) (h : e.isWrite = false) : e.isAcquire = false := by
  cases e <;> simp_all [Event.isWrite, Event.isAcquire]

theorem Event.acquiredID_of_not_acquire (e : Event) (h : e.isAcquire = false) :
    e.acquiredID = none := by
  cases e <;> simp_all [Event.isAcquire, Event.acquiredID]

theorem acquiredIDs_append (a b : List Event) :
    acquiredIDs (a ++ b) = acquiredIDs a ++ acquiredIDs b := by
  simp [acquiredIDs, List.filterMap_append]

theorem acquiredIDs_of_no_acquire (l : List Event) (h : ∀ e ∈ l, e.isAcquire = false) :
    acquiredIDs l = [] := by
  induction l with
  | nil => rfl
  | cons e rest ih =>
    have he := Event.acquiredID_of_not_acquire e (h e (List.mem_cons_self _ _))
    have hr := ih (fun x hx => h x (List.mem_cons_of_mem _ hx))
    simp only [acquiredIDs] at hr ⊢
    rw [List.filterMap_cons, he]
    exact hr

/-- What a call of `AcquireJob` does to the rows and to the trace: nothing
when it is debounced; otherwise one acquire, then calls none of which is an
acquire, and to the rows what the acquire did, followed at most by the one
write that fails the job handed out. -/
theorem AcquireJob.effect (env : Env σ) (server : Server σ π) (w : World σ π) :
    ((AcquireJob env server w).2.db = w.db ∧ (AcquireJob env server w).2.trace = w.trace)
    ∨ ∃ l,
      (AcquireJob env server w).2.trace
        = w.trace ++ Event.AcquireProvisionerJob (AcquireJob.arg env server w)
            (server.Database.AcquireProvisionerJob (AcquireJob.arg env server w) w.db).1.toOption
            :: l
      ∧ (∀ e ∈ l, e.isAcquire = false)
      ∧ ((AcquireJob env server w).2.db
          = (server.Database.AcquireProvisionerJob (AcquireJob.arg env server w) w.db).2
        ∨ ∃ job msg instant,
          (server.Database.AcquireProvisionerJob (AcquireJob.arg env server w) w.db).1 = .ok job
          ∧ (AcquireJob env server w).2.db
            = (server.Database.UpdateProvisionerJobWithCompleteByID
                { ID := job.ID, CompletedAt := { Time := instant, Valid := true },
                  Error := { String := msg, Valid := true } }
                (server.Database.AcquireProvisionerJob (AcquireJob.arg env server w) w.db).2).2) := by
  cases hquery : AcquireJob.debounced env server w with
  | true =>
    left
    rw [AcquireJob.of_debounced env server w hquery]
    exact ⟨AcquireJob.afterTest_db w, AcquireJob.afterTest_trace w⟩
  | false =>
  right
  cases hstore : (server.Database.AcquireProvisionerJob (AcquireJob.arg env server w) w.db).1 with
  | error err =>
    cases his : errors.Is err .ErrNoRows with
    | true =>
      rw [AcquireJob.of_norow env server w err hquery hstore his]
      exact ⟨[], rfl, by simp, Or.inl rfl⟩
    | false =>
      rw [AcquireJob.of_store_error env server w err hquery hstore his]
      exact ⟨[], rfl, by simp, Or.inl rfl⟩
  | ok job =>
    rw [AcquireJob.of_acquired env server w job hquery hstore]
    obtain ⟨hdb, -, -, htr⟩ := AcquireJob.afterAcquire_spec env server w
    rw [hstore] at htr
    rcases AcquireJob.hydrate_cases env server job (AcquireJob.afterAcquire env server w)
      with ⟨protoJob, w', hr, hq, -⟩ | ⟨msg, w', hr, hq⟩
    · obtain ⟨l, hl, hw⟩ := hq.trace
      refine ⟨l, ?_, fun e he => Event.isWrite_of_isAcquire e (hw e he), Or.inl ?_⟩
      · rw [hr]
        simp only [hl, htr, List.append_assoc, List.singleton_append]
      · rw [hr]; exact hq.db.trans hdb
    · obtain ⟨l, hl, hw⟩ := hq.trace
      obtain ⟨ftr, fdb, -, -⟩ :=
        AcquireJob.fail_spec (α := proto.AcquiredJob) env server job msg w'
      refine ⟨l ++ [Event.UpdateProvisionerJobWithCompleteByID
        { ID := job.ID, CompletedAt := { Time := databaseNow env w', Valid := true },
          Error := { String := msg, Valid := true } }], ?_, ?_, Or.inr ⟨job, msg, databaseNow env w', rfl, ?_⟩⟩
      · rw [hr, ftr, hl, htr]
        simp only [List.append_assoc, List.singleton_append, List.cons_append, List.nil_append]
      · intro e he
        rcases List.mem_append.mp he with he | he
        · exact Event.isWrite_of_isAcquire e (hw e he)
        · simp at he; rw [he]; rfl
      · rw [hr, fdb, hq.db, hdb]

end AcquireEffect

section OwnershipUniqueness

variable {π : Type}

theorem MemDB.oldest_mem (rows : List database.ProvisionerJob) (job : database.ProvisionerJob)
    (h : MemDB.oldest rows = some job) : job ∈ rows := by
  induction rows generalizing job with
  | nil => simp [MemDB.oldest] at h
  | cons row rest ih =>
    unfold MemDB.oldest at h
    split at h
    · cases h; exact List.mem_cons_self _ _
    · rename_i other hother
      split at h
      · cases h; exact List.mem_cons_of_mem _ (ih _ hother)
      · cases h; exact List.mem_cons_self _ _

theorem MemDB.unstamped_of_eligible (tagFilter : json.RawMessage → json.RawMessage → Bool)
    (arg : database.AcquireProvisionerJobParams) (job : database.ProvisionerJob)
    (h : MemDB.eligible tagFilter arg job = true) : job.Unstamped := by
  unfold MemDB.eligible at h
  simp only [Bool.and_eq_true, Bool.not_eq_true', decide_eq_true_eq] at h
  exact ⟨h.1.1.1.1.1, h.1.1.1.1.2⟩

/-- The in-memory acquire either reports no row and leaves the rows, or
hands out an eligible row, stamped, and stamps the rows of that id. -/
theorem MemDB.acquire_cases (tagFilter : json.RawMessage → json.RawMessage → Bool)
    (arg : database.AcquireProvisionerJobParams) (db : MemDB) :
    MemDB.AcquireProvisionerJob tagFilter arg db = (.error .ErrNoRows, db)
    ∨ ∃ job ∈ db.provisionerJobs, MemDB.eligible tagFilter arg job = true
      ∧ MemDB.AcquireProvisionerJob tagFilter arg db
        = (.ok (MemDB.stamp arg job),
            { db with provisionerJobs :=
                db.provisionerJobs.map fun row =>
                  if row.ID = job.ID then MemDB.stamp arg row else row }) := by
  unfold MemDB.AcquireProvisionerJob
  split
  · exact Or.inl rfl
  · rename_i job hjob
    have hmem := MemDB.oldest_mem _ _ hjob
    rw [List.mem_filter] at hmem
    exact Or.inr ⟨job, hmem.1, hmem.2, rfl⟩

/-- One `AcquireJob` call over the in-memory store keeps the invariant. -/
theorem AcquireInv.step (tagFilter : json.RawMessage → json.RawMessage → Bool)
    (env : Env MemDB) (server : Server MemDB π) (hs : server.Database = memStore tagFilter)
    (db0 : MemDB) (ids : List uuid.UUID) (w : World MemDB π) (hid : server.ID ∈ ids)
    (h : AcquireInv db0 ids w) : AcquireInv db0 ids (AcquireJob env server w).2 := by
  rcases AcquireJob.effect env server w with ⟨hdb, htr⟩ | ⟨l, htr, hl, hdb⟩
  · exact ⟨by rw [hdb]; exact h.unstamped, by rw [htr]; exact h.nodup,
      by rw [hdb, htr]; exact h.started, by rw [htr]; exact h.asked,
      by rw [htr]; exact h.handed⟩
  have hargW : (AcquireJob.arg env server w).WorkerID = { UUID := server.ID, Valid := true } := rfl
  have hargS : (AcquireJob.arg env server w).StartedAt.Valid = true := rfl
  have hstoreEq : server.Database.AcquireProvisionerJob (AcquireJob.arg env server w) w.db
      = MemDB.AcquireProvisionerJob tagFilter (AcquireJob.arg env server w) w.db := by
    rw [hs]; rfl
  have hupd : ∀ a d, server.Database.UpdateProvisionerJobWithCompleteByID a d
      = MemDB.UpdateProvisionerJobWithCompleteByID a d := by
    intro a d; rw [hs]; rfl
  have hlIDs : acquiredIDs l = [] := acquiredIDs_of_no_acquire l hl
  have hlmem : ∀ a r, Event.AcquireProvisionerJob a r ∈ l → False := by
    intro a r hm
    have := hl _ hm
    simp [Event.isAcquire] at this
  rw [hstoreEq] at htr hdb
  rcases MemDB.acquire_cases tagFilter (AcquireJob.arg env server w) w.db
    with hnone | ⟨job0, hmem0, helig, hsome⟩
  · rw [hnone] at htr hdb
    have hdb' : (AcquireJob env server w).2.db = w.db := by
      rcases hdb with hdb | ⟨job, msg, instant, hjob, -⟩
      · exact hdb
      · cases hjob
    have hids : acquiredIDs (AcquireJob env server w).2.trace = acquiredIDs w.trace := by
      rw [htr, acquiredIDs_append]
      have : acquiredIDs (Event.AcquireProvisionerJob (AcquireJob.arg env server w)
          (Except.error Error.ErrNoRows : Except Error database.ProvisionerJob).toOption :: l)
          = [] := by
        have h2 := acquiredIDs_append
          [Event.AcquireProvisionerJob (AcquireJob.arg env server w) none] l
        simp only [List.singleton_append] at h2
        rw [show (Except.error Error.ErrNoRows : Except Error database.ProvisionerJob).toOption
          = none from rfl, h2, hlIDs]
        rfl
      rw [this, List.append_nil]
    refine ⟨by rw [hdb']; exact h.unstamped, by rw [hids]; exact h.nodup,
      by rw [hdb', hids]; exact h.started, ?_, ?_⟩
    · intro a r hm
      rw [htr] at hm
      rcases List.mem_append.mp hm with hm | hm
      · exact h.asked a r hm
      · rcases List.mem_cons.mp hm with hm | hm
        · cases hm
          exact ⟨rfl, rfl, hid⟩
        · exact absurd (hlmem a r hm) id
    · intro a job hm
      rw [htr] at hm
      rcases List.mem_append.mp hm with hm | hm
      · exact h.handed a job hm
      · rcases List.mem_cons.mp hm with hm | hm
        · cases hm
        · exact absurd (hlmem a _ hm) id
  · rw [hsome] at htr hdb
    have hun0 := MemDB.unstamped_of_eligible tagFilter _ job0 helig
    -- every row left is a row found, with the same id, stamped if its id is
    -- that of the job handed out and with the stamps it had otherwise
    have hrows : ∀ row' ∈ (AcquireJob env server w).2.db.provisionerJobs,
        ∃ row ∈ w.db.provisionerJobs, row'.ID = row.ID
          ∧ ((row.ID = job0.ID ∧ row'.StartedAt = (AcquireJob.arg env server w).StartedAt
              ∧ row'.WorkerID = (AcquireJob.arg env server w).WorkerID)
            ∨ (row.ID ≠ job0.ID ∧ row'.StartedAt = row.StartedAt
              ∧ row'.WorkerID = row.WorkerID)) := by
      intro row' hrow'
      have hstampf : ∀ row : database.ProvisionerJob,
          (if row.ID = job0.ID then MemDB.stamp (AcquireJob.arg env server w) row else row).ID
            = row.ID
          ∧ ((row.ID = job0.ID
              ∧ (if row.ID = job0.ID then MemDB.stamp (AcquireJob.arg env server w) row
                  else row).StartedAt = (AcquireJob.arg env server w).StartedAt
              ∧ (if row.ID = job0.ID then MemDB.stamp (AcquireJob.arg env server w) row
                  else row).WorkerID = (AcquireJob.arg env server w).WorkerID)
            ∨ (row.ID ≠ job0.ID
              ∧ (if row.ID = job0.ID then MemDB.stamp (AcquireJob.arg env server w) row
                  else row).StartedAt = row.StartedAt
              ∧ (if row.ID = job0.ID then MemDB.stamp (AcquireJob.arg env server w) row
                  else row).WorkerID = row.WorkerID)) := by
        intro row
        by_cases hid0 : row.ID = job0.ID
        · rw [if_pos hid0]
          exact ⟨rfl, Or.inl ⟨hid0, rfl, rfl⟩⟩
        · rw [if_neg hid0]
          exact ⟨rfl, Or.inr ⟨hid0, rfl, rfl⟩⟩
      rcases hdb with hdb | ⟨job, msg, instant, -, hdb⟩
      · rw [hdb] at hrow'
        simp only [List.mem_map] at hrow'
        obtain ⟨row, hrow, rfl⟩ := hrow'
        exact ⟨row, hrow, hstampf row⟩
      · rw [hdb, hupd] at hrow'
        simp only [MemDB.UpdateProvisionerJobWithCompleteByID, List.mem_map] at hrow'
        obtain ⟨row1, ⟨row, hrow, hrow1⟩, hrow''⟩ := hrow'
        have hcu : row'.ID = row1.ID ∧ row'.StartedAt = row1.StartedAt
            ∧ row'.WorkerID = row1.WorkerID := by
          rw [← hrow'']
          split
          · exact ⟨rfl, rfl, rfl⟩
          · exact ⟨rfl, rfl, rfl⟩
        have hst := hstampf row
        rw [hrow1] at hst
        rw [hcu.1, hcu.2.1, hcu.2.2]
        exact ⟨row, hrow, hst⟩
    have hids : acquiredIDs (AcquireJob env server w).2.trace
        = acquiredIDs w.trace ++ [job0.ID] := by
      rw [htr, acquiredIDs_append]
      have h2 := acquiredIDs_append
        [Event.AcquireProvisionerJob (AcquireJob.arg env server w)
          (some (MemDB.stamp (AcquireJob.arg env server w) job0))] l
      simp only [List.singleton_append] at h2
      rw [show (Except.ok (MemDB.stamp (AcquireJob.arg env server w) job0) :
          Except Error database.ProvisionerJob).toOption
        = some (MemDB.stamp (AcquireJob.arg env server w) job0) from rfl, h2, hlIDs]
      rfl
    have hnew : job0.ID ∉ acquiredIDs w.trace := by
      intro hin
      have := h.started job0 hmem0 hin
      rw [hun0.1] at this
      cases this
    refine ⟨?_, ?_, ?_, ?_, ?_⟩
    · intro row' hrow' hun'
      obtain ⟨row, hrow, hID, hcase⟩ := hrows row' hrow'
      rcases hcase with ⟨-, hst, -⟩ | ⟨-, hst, hwk⟩
      · have := hun'.1
        rw [hst, hargS] at this
        cases this
      · obtain ⟨row0, hrow0, hID0, hun00⟩ := h.unstamped row hrow
          ⟨by rw [← hst]; exact hun'.1, by rw [← hwk]; exact hun'.2⟩
        exact ⟨row0, hrow0, hID0.trans hID.symm, hun00⟩
    · rw [hids]
      exact List.Nodup.append h.nodup (List.nodup_singleton _)
        (by
          intro x hx hx'
          simp at hx'
          rw [hx'] at hx
          exact hnew hx)
    · intro row' hrow' hin
      obtain ⟨row, hrow, hID, hcase⟩ := hrows row' hrow'
      rcases hcase with ⟨-, hst, -⟩ | ⟨hne, hst, -⟩
      · rw [hst]; exact hargS
      · rw [hids] at hin
        rcases List.mem_append.mp hin with hin | hin
        · rw [hst]
          exact h.started row hrow (by rw [← hID]; exact hin)
        · simp at hin
          exact absurd (hID.symm.trans hin) hne
    · intro a r hm
      rw [htr] at hm
      rcases List.mem_append.mp hm with hm | hm
      · exact h.asked a r hm
      · rcases List.mem_cons.mp hm with hm | hm
        · cases hm
          exact ⟨rfl, rfl, hid⟩
        · exact absurd (hlmem a r hm) id
    · intro a job hm
      rw [htr] at hm
      rcases List.mem_append.mp hm with hm | hm
      · exact h.handed a job hm
      · rcases List.mem_cons.mp hm with hm | hm
        · cases hm
          obtain ⟨row0, hrow0, hID0, hun00⟩ := h.unstamped job0 hmem0 hun0
          exact ⟨rfl, rfl, row0, hrow0, hID0, hun00⟩
        · exact absurd (hlmem a _ hm) id

/-- A sequence of `AcquireJob` calls over the in-memory store keeps the
invariant. -/
theorem AcquireInv.run (tagFilter : json.RawMessage → json.RawMessage → Bool)
    (env : Env MemDB) (db0 : MemDB) (ids : List uuid.UUID) (servers : List (Server MemDB π)) :
    ∀ (w : World MemDB π), (∀ s ∈ servers, s.Database = memStore tagFilter) →
      (∀ s ∈ servers, s.ID ∈ ids) → AcquireInv db0 ids w →
      AcquireInv db0 ids (acquireRun env servers w) := by
  induction servers with
  | nil => intro w _ _ h; exact h
  | cons server rest ih =>
    intro w hdb hids h
    unfold acquireRun
    apply ih
    · exact fun s hs => hdb s (List.mem_cons_of_mem _ hs)
    · exact fun s hs => hids s (List.mem_cons_of_mem _ hs)
    · exact AcquireInv.step tagFilter env server (hdb server (List.mem_cons_self _ _)) db0 ids w
        (hids server (List.mem_cons_self _ _)) h

/-- Before any call the invariant holds of a world with an empty trace. -/
theorem AcquireInv.init (ids : List uuid.UUID) (w : World MemDB π) (htrace : w.trace = []) :
    AcquireInv w.db ids w := by
  refine ⟨fun row hrow hun => ⟨row, hrow, rfl, hun⟩, ?_, ?_, ?_, ?_⟩
  · rw [htrace]; exact List.nodup_nil
  · intro row _ hin; rw [htrace] at hin; cases hin
  · intro a r hm; rw [htrace] at hm; cases hm
  · intro a r hm; rw [htrace] at hm; cases hm

theorem mem_acquiredIDs (trace : List Event) (id : uuid.UUID) (h : id ∈ acquiredIDs trace) :
    ∃ arg job, Event.AcquireProvisionerJob arg (some job) ∈ trace ∧ job.ID = id := by
  unfold acquiredIDs at h
  rw [List.mem_filterMap] at h
  obtain ⟨e, he, hid⟩ := h
  cases e with
  | AcquireProvisionerJob arg acquired =>
    cases acquired with
    | none => simp [Event.acquiredID] at hid
    | some job =>
      simp only [Event.acquiredID, Option.some.injEq] at hid
      exact ⟨arg, job, he, hid⟩
  | _ => simp [Event.acquiredID] at hid

/-- C3 (ownership uniqueness), over the store contract of the spec.  For
every sequence of `AcquireJob` calls by any servers against any rows of
queued and other jobs: each acquire asks the store to stamp with the calling
server's id, non-null, and a non-null started-at; no job is handed out
twice; every job handed out carries that stamp and had no stamp at the
start; and, the job ids being unique, a job that already had a stamp at the
start is never handed out. -/
theorem acquireJob_ownership_unique (tagFilter : json.RawMessage → json.RawMessage → Bool)
    (env : Env MemDB) (servers : List (Server MemDB π)) (w : World MemDB π)
    (hdb : ∀ s ∈ servers, s.Database = memStore tagFilter)
    (htrace : w.trace = []) :
    (∀ arg acquired,
      Event.AcquireProvisionerJob arg acquired ∈ (acquireRun env servers w).trace →
      arg.WorkerID.Valid = true ∧ arg.StartedAt.Valid = true
        ∧ ∃ s ∈ servers, arg.WorkerID.UUID = s.ID)
    ∧ (acquiredIDs (acquireRun env servers w).trace).Nodup
    ∧ (∀ arg job,
      Event.AcquireProvisionerJob arg (some job) ∈ (acquireRun env servers w).trace →
      job.WorkerID = arg.WorkerID ∧ job.StartedAt = arg.StartedAt
        ∧ ∃ row0 ∈ w.db.provisionerJobs, row0.ID = job.ID ∧ row0.Unstamped)
    ∧ ((w.db.provisionerJobs.map fun row => row.ID).Nodup →
      ∀ row0 ∈ w.db.provisionerJobs, ¬ row0.Unstamped →
        row0.ID ∉ acquiredIDs (acquireRun env servers w).trace) := by
  have h := AcquireInv.run tagFilter env w.db (servers.map fun s => s.ID) servers w hdb
    (fun s hs => List.mem_map.mpr ⟨s, hs, rfl⟩)
    (AcquireInv.init _ w htrace)
  refine ⟨?_, h.nodup, h.handed, ?_⟩
  · intro arg acquired hm
    obtain ⟨hv, hs, hin⟩ := h.asked arg acquired hm
    obtain ⟨s, hs', hid⟩ := List.mem_map.mp hin
    exact ⟨hv, hs, s, hs', hid.symm⟩
  · intro hnodup row0 hrow0 hstamped hin
    obtain ⟨arg, job, hm, hid⟩ := mem_acquiredIDs _ _ hin
    obtain ⟨-, -, row1, hrow1, hid1, hun1⟩ := h.handed arg job hm
    have heq : row1 = row0 :=
      List.inj_on_of_nodup_map hnodup hrow1 hrow0 (hid1.trans hid)
    rw [heq] at hun1
    exact hstamped hun1

/-- Witness of C3: servers a and b share a store that holds the queued jobs
j and k; a, then b, then a again call `AcquireJob`.  The store hands out k
(the older) and then j, once each. -/
theorem acquireJob_ownership_unique_witness :
    (acquiredIDs (acquireRun (sampleEnv fun n => 100 + n)
        [sampleServer ⟨"a"⟩ 0, sampleServer ⟨"b"⟩ 0, sampleServer ⟨"a"⟩ 0]
        (sampleWorld [queuedJob, olderQueuedJob])).trace).Nodup
    ∧ acquiredIDs (acquireRun (sampleEnv fun n => 100 + n)
        [sampleServer ⟨"a"⟩ 0, sampleServer ⟨"b"⟩ 0, sampleServer ⟨"a"⟩ 0]
        (sampleWorld [queuedJob, olderQueuedJob])).trace = [⟨"k"⟩, ⟨"j"⟩] :=
  ⟨(acquireJob_ownership_unique (fun _ _ => true) (sampleEnv fun n => 100 + n)
      [sampleServer ⟨"a"⟩ 0, sampleServer ⟨"b"⟩ 0, sampleServer ⟨"a"⟩ 0]
      (sampleWorld [queuedJob, olderQueuedJob])
      (by intro s hs; simp at hs; rcases hs with rfl | rfl | rfl <;> rfl) rfl).2.1,
   by decide⟩

end OwnershipUniqueness

/-! ## Calls made by `InsertWorkspaceResource` and `CompleteJob` -/

section ViaLemmas

variable {σ π : Type}

theorem World.Via.via_refl (P : Event → Prop) (w : World σ π) : World.Via P w w :=
  ⟨rfl, rfl, [], by simp, by simp⟩

theorem World.Via.via_trans {P : Event → Prop} {w0 w1 w2 : World σ π}
    (h : World.Via P w0 w1) (h' : World.Via P w1 w2) : World.Via P w0 w2 := by
  obtain ⟨l, hl, hP⟩ := h.trace
  obtain ⟨l', hl', hP'⟩ := h'.trace
  refine ⟨h'.ps.trans h.ps, h'.lastAcquire.trans h.lastAcquire, l ++ l', ?_, ?_⟩
  · rw [hl', hl, List.append_assoc]
  · intro e he
    rcases List.mem_append.1 he with he | he
    · exact hP e he
    · exact hP' e he

theorem World.Via.via_mono {P Q : Event → Prop} {w0 w : World σ π} (hPQ : ∀ e, P e → Q e)
    (h : World.Via P w0 w) : World.Via Q w0 w := by
  obtain ⟨l, hl, hP⟩ := h.trace
  exact ⟨h.ps, h.lastAcquire, l, hl, fun e he => hPQ e (hP e he)⟩

/-- One call that leaves the notifier alone. -/
theorem World.Via.via_step (P : Event → Prop) (w w1 : World σ π) (e : Event)
    (hps : w1.ps = w.ps) (hla : w1.lastAcquire = w.lastAcquire)
    (htrace : w1.trace = w.trace ++ [e]) (hP : P e) : World.Via P w w1 :=
  ⟨hps, hla, [e], htrace, by simpa using hP⟩

/-- No call at all: only the clock or the UUID generator moved. -/
theorem World.Via.via_same (P : Event → Prop) (w w1 : World σ π)
    (hps : w1.ps = w.ps) (hla : w1.lastAcquire = w.lastAcquire)
    (htrace : w1.trace = w.trace) : World.Via P w w1 :=
  ⟨hps, hla, [], by simpa using htrace, by simp⟩

theorem World.Via.extends {P : Event → Prop} {w0 w : World σ π} (h : World.Via P w0 w) :
    World.Extends w0 w := by
  obtain ⟨l, hl, -⟩ := h.trace
  exact ⟨l, hl.symm⟩

/-- The app loop of `InsertWorkspaceResource` only inserts rows. -/
theorem InsertWorkspaceResource.apps_via (env : Env σ) (db : database.Store σ)
    (dbAgent : database.WorkspaceAgent) (apps : List sdkproto.App) :
    ∀ (appSlugs : List String) (w : World σ π),
      World.Via (fun e => e.isResourceInsert = true) w
        (InsertWorkspaceResource.apps env db dbAgent apps appSlugs w).2 := by
  induction apps with
  | nil => intro appSlugs w; exact World.Via.via_refl _ w
  | cons app rest ih =>
    intro appSlugs w
    unfold InsertWorkspaceResource.apps
    simp only []
    split
    · exact World.Via.via_refl _ w
    split
    · exact World.Via.via_refl _ w
    split
    · exact World.Via.via_refl _ w
    split
    · rename_i heq; obtain ⟨-, rfl⟩ := Prod.mk.inj heq
      exact World.Via.via_step _ _ _ _ rfl rfl rfl rfl
    · rename_i heq; obtain ⟨-, rfl⟩ := Prod.mk.inj heq
      refine World.Via.via_trans ?_ (ih _ _)
      exact World.Via.via_step _ _ _ _ rfl rfl rfl rfl

/-- The agent loop of `InsertWorkspaceResource` only inserts rows. -/
theorem InsertWorkspaceResource.agents_via (env : Env σ) (db : database.Store σ)
    (resource : database.WorkspaceResource) (agents : List sdkproto.Agent) :
    ∀ (appSlugs : List String) (w : World σ π),
      World.Via (fun e => e.isResourceInsert = true) w
        (InsertWorkspaceResource.agents env db resource agents appSlugs w).2 := by
  induction agents with
  | nil => intro appSlugs w; exact World.Via.via_refl _ w
  | cons prAgent rest ih =>
    intro appSlugs w
    unfold InsertWorkspaceResource.agents
    simp only []
    split
    · exact World.Via.via_refl _ w
    split
    · exact World.Via.via_same _ _ _ rfl rfl rfl
    split
    · rename_i heq; obtain ⟨-, rfl⟩ := Prod.mk.inj heq
      exact World.Via.via_step _ _ _ _ rfl rfl rfl rfl
    rename_i dbAgent w1 heq; obtain ⟨-, rfl⟩ := Prod.mk.inj heq
    split
    · rename_i heq; have h2 := congrArg Prod.snd heq; simp only at h2; subst h2
      refine World.Via.via_trans ?_
        (InsertWorkspaceResource.apps_via env db dbAgent prAgent.Apps appSlugs _)
      exact World.Via.via_step _ _ _ _ rfl rfl rfl rfl
    · rename_i heq; have h2 := congrArg Prod.snd heq; simp only at h2; subst h2
      refine World.Via.via_trans (World.Via.via_trans ?_
        (InsertWorkspaceResource.apps_via env db dbAgent prAgent.Apps appSlugs _)) (ih _ _)
      exact World.Via.via_step _ _ _ _ rfl rfl rfl rfl

/-- The metadata loop of `InsertWorkspaceResource` only inserts rows. -/
theorem InsertWorkspaceResource.metadata_via (db : database.Store σ)
    (resource : database.WorkspaceResource) (metadata : List sdkproto.Resource_Metadata) :
    ∀ (w : World σ π),
      World.Via (fun e => e.isResourceInsert = true) w
        (InsertWorkspaceResource.metadata db resource metadata w).2 := by
  induction metadata with
  | nil => intro w; exact World.Via.via_refl _ w
  | cons metadatum rest ih =>
    intro w
    unfold InsertWorkspaceResource.metadata
    simp only []
    split
    · rename_i heq; obtain ⟨-, rfl⟩ := Prod.mk.inj heq
      exact World.Via.via_step _ _ _ _ rfl rfl rfl rfl
    · rename_i heq; obtain ⟨-, rfl⟩ := Prod.mk.inj heq
      refine World.Via.via_trans ?_ (ih _)
      exact World.Via.via_step _ _ _ _ rfl rfl rfl rfl

/-- `InsertWorkspaceResource` only inserts rows: it makes no other store call
and no publication. -/
theorem InsertWorkspaceResource.via (env : Env σ) (db : database.Store σ) (jobID : uuid.UUID)
    (transition : database.WorkspaceTransition) (protoResource : sdkproto.Resource)
    (w : World σ π) :
    World.Via (fun e => e.isResourceInsert = true) w
      (InsertWorkspaceResource env db jobID transition protoResource w).2 := by
  unfold InsertWorkspaceResource
  simp only []
  split
  · rename_i heq; obtain ⟨-, rfl⟩ := Prod.mk.inj heq
    exact World.Via.via_step _ _ _ _ rfl rfl rfl rfl
  rename_i resource w1 heq; obtain ⟨-, rfl⟩ := Prod.mk.inj heq
  split
  · rename_i heq; have h2 := congrArg Prod.snd heq; simp only at h2; subst h2
    refine World.Via.via_trans ?_
      (InsertWorkspaceResource.agents_via env db resource protoResource.Agents [] _)
    exact World.Via.via_step _ _ _ _ rfl rfl rfl rfl
  · rename_i heq; have h2 := congrArg Prod.snd heq; simp only at h2; subst h2
    refine World.Via.via_trans (World.Via.via_trans ?_
      (InsertWorkspaceResource.agents_via env db resource protoResource.Agents [] _))
      (InsertWorkspaceResource.metadata_via db resource protoResource.Metadata _)
    exact World.Via.via_step _ _ _ _ rfl rfl rfl rfl

/-- A loop of `CompleteJob` over reported resources only inserts rows. -/
theorem CompleteJob.insertResources_via (env : Env σ) (db : database.Store σ) (jobID : uuid.UUID)
    (transition : database.WorkspaceTransition) (msg : String)
    (resources : List sdkproto.Resource) :
    ∀ (w : World σ π),
      World.Via (fun e => e.isResourceInsert = true) w
        (CompleteJob.insertResources env db jobID transition msg resources w).2 := by
  induction resources with
  | nil => intro w; exact World.Via.via_refl _ w
  | cons resource rest ih =>
    intro w
    unfold CompleteJob.insertResources
    split
    · rename_i heq; have h2 := congrArg Prod.snd heq; simp only at h2; subst h2
      exact InsertWorkspaceResource.via env db jobID transition resource w
    · rename_i heq; have h2 := congrArg Prod.snd heq; simp only at h2; subst h2
      exact World.Via.via_trans (InsertWorkspaceResource.via env db jobID transition resource w)
        (ih _)

end ViaLemmas

section CompleteJobLemmas

variable {σ π : Type}

/-- The statement that marks the job completed makes one store write, with
completed-at non-null and no error; it returns nil exactly when the write
succeeded. -/
theorem CompleteJob.markCompleted_spec (env : Env σ) (db : database.Store σ) (jobID : uuid.UUID)
    (w : World σ π) :
    ∃ arg : database.UpdateProvisionerJobWithCompleteByIDParams,
      arg.ID = jobID ∧ arg.CompletedAt.Valid = true ∧ arg.Error = {}
      ∧ (CompleteJob.markCompleted env db jobID w).2.trace
          = w.trace ++ [Event.UpdateProvisionerJobWithCompleteByID arg]
      ∧ (CompleteJob.markCompleted env db jobID w).2.ps = w.ps
      ∧ (CompleteJob.markCompleted env db jobID w).2.lastAcquire = w.lastAcquire
      ∧ (CompleteJob.markCompleted env db jobID w).2.db
          = (db.UpdateProvisionerJobWithCompleteByID arg w.db).2
      ∧ ((CompleteJob.markCompleted env db jobID w).1 = none
          ↔ (db.UpdateProvisionerJobWithCompleteByID arg w.db).1 = .ok ()) := by
  refine ⟨{ ID := jobID, UpdatedAt := databaseNow env w,
            CompletedAt := { Time := databaseNow env w.tick, Valid := true } },
    rfl, rfl, rfl, ?_⟩
  unfold CompleteJob.markCompleted
  simp only [World.write, World.tick]
  split
  · rename_i heq; obtain ⟨h1, rfl⟩ := Prod.mk.inj heq
    refine ⟨rfl, rfl, rfl, rfl, ?_⟩
    rw [h1]; simp
  · rename_i heq; obtain ⟨h1, rfl⟩ := Prod.mk.inj heq
    refine ⟨rfl, rfl, rfl, rfl, ?_⟩
    exact ⟨fun _ => h1, fun _ => rfl⟩

/-- The resource loops of a template import only insert rows. -/
theorem CompleteJob.templateImport_go_via (env : Env σ) (server : Server σ π) (jobID : uuid.UUID)
    (passes : List (database.WorkspaceTransition × List sdkproto.Resource)) :
    ∀ (w : World σ π),
      World.Via (fun e => e.isResourceInsert = true) w
        (CompleteJob.templateImport.go env server jobID passes w).2 := by
  induction passes with
  | nil => intro w; exact World.Via.via_refl _ w
  | cons pass rest ih =>
    intro w
    obtain ⟨transition, resources⟩ := pass
    unfold CompleteJob.templateImport.go
    split
    · rename_i heq; have h2 := congrArg Prod.snd heq; simp only at h2; subst h2
      exact CompleteJob.insertResources_via env server.Database jobID transition _ resources w
    · rename_i heq; have h2 := congrArg Prod.snd heq; simp only at h2; subst h2
      exact World.Via.via_trans
        (CompleteJob.insertResources_via env server.Database jobID transition _ resources w)
        (ih _)

/-- What the function `CompleteJob` runs in a transaction did when it returned
nil: every one of its writes succeeded. -/
theorem CompleteJob.workspaceBuildTx_ok (env : Env σ) (server : Server σ π) (jobID : uuid.UUID)
    (job : database.ProvisionerJob) (workspaceBuild : database.WorkspaceBuild)
    (payload : proto.CompletedJob_WorkspaceBuild) (w w4 : World σ π)
    (h : CompleteJob.workspaceBuildTx env server jobID job workspaceBuild payload w = (none, w4)) :
    ∃ (w1 w2 w3 : World σ π) (build : database.WorkspaceBuild),
      CompleteJob.markCompleted env server.Database jobID
          (w.tick.record (.GetWorkspaceByID workspaceBuild.WorkspaceID)) = (none, w1)
      ∧ w1.write
          (.UpdateWorkspaceBuildByID
            { ID := workspaceBuild.ID,
              Deadline :=
                (match server.Database.GetWorkspaceByID workspaceBuild.WorkspaceID w.db with
                | .ok workspace =>
                  if workspace.Ttl.Valid then time.Add (databaseNow env w) workspace.Ttl.Int64
                  else 0
                | .error _ => 0),
              ProvisionerState := payload.State,
              UpdatedAt := databaseNow env w })
          (server.Database.UpdateWorkspaceBuildByID
            { ID := workspaceBuild.ID,
              Deadline :=
                (match server.Database.GetWorkspaceByID workspaceBuild.WorkspaceID w.db with
                | .ok workspace =>
                  if workspace.Ttl.Valid then time.Add (databaseNow env w) workspace.Ttl.Int64
                  else 0
                | .error _ => 0),
              ProvisionerState := payload.State,
              UpdatedAt := databaseNow env w }) = (.ok build, w2)
      ∧ CompleteJob.insertResources env server.Database job.ID workspaceBuild.Transition
          "insert provisioner job" payload.Resources w2 = (none, w3)
      ∧ (workspaceBuild.Transition ≠ .Delete → w4 = w3)
      ∧ (workspaceBuild.Transition = .Delete →
          w3.write (.UpdateWorkspaceDeletedByID { ID := workspaceBuild.WorkspaceID, Deleted := true })
            (server.Database.UpdateWorkspaceDeletedByID
              { ID := workspaceBuild.WorkspaceID, Deleted := true }) = (.ok (), w4)) := by
  unfold CompleteJob.workspaceBuildTx at h
  simp only [] at h
  split at h
  · simp at h
  rename_i w1 hm
  split at h
  · simp at h
  rename_i build w2 hb
  split at h
  · simp at h
  rename_i w3 hi
  refine ⟨w1, w2, w3, build, hm, hb, hi, ?_, ?_⟩
  · intro hne
    rw [if_pos (by simpa using hne)] at h
    exact (Prod.mk.inj h).2.symm
  · intro he
    rw [if_neg (by simp [he])] at h
    split at h
    · simp at h
    rename_i hd
    obtain ⟨-, rfl⟩ := Prod.mk.inj h
    exact hd

theorem Event.isStoreCall_of_isResourceInsert (e : Event) (h : e.isResourceInsert = true) :
    e.isStoreCall = true := by
  cases e <;> simp_all [Event.isResourceInsert, Event.isStoreCall]

theorem Event.isPublish_of_isStoreCall (e : Event) (h : e.isStoreCall = true) :
    e.isPublish = false := by
  cases e <;> simp_all [Event.isPublish, Event.isStoreCall]

/-- What the workspace-build case of `CompleteJob` did when it returned nil:
the calls it made, in order, and that the write of the terminal state
succeeded. -/
theorem CompleteJob.workspaceBuild_ok (env : Env σ) (server : Server σ π) (jobID : uuid.UUID)
    (job : database.ProvisionerJob) (payload : proto.CompletedJob_WorkspaceBuild)
    (w w5 : World σ π)
    (h : CompleteJob.workspaceBuild env server jobID job payload w = (none, w5)) :
    ∃ (input : WorkspaceProvisionJob) (build : database.WorkspaceBuild)
      (argC : database.UpdateProvisionerJobWithCompleteByIDParams) (lins : List Event),
      env.unmarshalWorkspaceProvisionJob job.Input = .ok input
      ∧ server.Database.GetWorkspaceBuildByID input.WorkspaceBuildID w.db = .ok build
      ∧ argC.ID = jobID ∧ argC.CompletedAt.Valid = true
      ∧ (server.Database.UpdateProvisionerJobWithCompleteByID argC w.db).1 = .ok ()
      ∧ (∀ e ∈ lins, e.isResourceInsert = true)
      ∧ w5.trace = w.trace ++
          ([Event.GetWorkspaceBuildByID input.WorkspaceBuildID, Event.InTxBegin,
            Event.GetWorkspaceByID build.WorkspaceID,
            Event.UpdateProvisionerJobWithCompleteByID argC,
            Event.UpdateWorkspaceBuildByID
              { ID := build.ID,
                Deadline :=
                  (match server.Database.GetWorkspaceByID build.WorkspaceID w.db with
                  | .ok workspace =>
                    if workspace.Ttl.Valid then time.Add (databaseNow env w) workspace.Ttl.Int64
                    else 0
                  | .error _ => 0),
                ProvisionerState := payload.State,
                UpdatedAt := databaseNow env w }]
            ++ lins
            ++ (if build.Transition = .Delete then
                  [Event.UpdateWorkspaceDeletedByID { ID := build.WorkspaceID, Deleted := true }]
                else [])
            ++ [Event.InTxCommit,
                Event.Publish (codersdk.WorkspaceNotifyChannel build.WorkspaceID) ""]) := by
  unfold CompleteJob.workspaceBuild at h
  split at h
  · simp at h
  rename_i input hinput
  split at h
  · simp at h
  rename_i build w1 hread
  obtain ⟨hbuild, rfl⟩ := Prod.mk.inj hread
  split at h
  · simp at h
  rename_i w3 htx
  unfold InTx at htx
  split at htx
  · simp at htx
  rename_i w4 hfn
  obtain ⟨-, rfl⟩ := Prod.mk.inj htx
  split at h
  · simp at h
  rename_i w6 hpub
  obtain ⟨-, rfl⟩ := Prod.mk.inj h
  obtain ⟨-, rfl⟩ := Prod.mk.inj hpub
  obtain ⟨x1, x2, x3, b, hm, hb, hi, hne, hde⟩ :=
    CompleteJob.workspaceBuildTx_ok env server jobID job build payload _ _ hfn
  obtain ⟨argC, hC1, hC2, -, hCt, -, -, -, hCok⟩ :=
    CompleteJob.markCompleted_spec env server.Database jobID
      (((w.record (.GetWorkspaceBuildByID input.WorkspaceBuildID)).record .InTxBegin).tick.record
        (.GetWorkspaceByID build.WorkspaceID))
  rw [hm] at hCt hCok
  obtain ⟨-, rfl⟩ := Prod.mk.inj hb
  obtain ⟨lins, hl, hP⟩ :=
    (CompleteJob.insertResources_via env server.Database job.ID build.Transition
      "insert provisioner job" payload.Resources _).trace
  rw [hi] at hl
  dsimp only at hl hCt
  refine ⟨input, build, argC, lins, hinput, hbuild, hC1, hC2, hCok.1 rfl, hP, ?_⟩
  by_cases hd : build.Transition = .Delete
  · have h4 := congrArg (fun r => r.2.trace) (hde hd)
    simp only [World.write] at h4
    simp only [World.publish, World.record_trace, ← h4, hl, World.write, hCt, World.tick_trace,
      if_pos hd, List.append_assoc, List.cons_append, List.nil_append]
    rfl
  · have h4 := hne hd
    subst h4
    simp only [World.publish, World.record_trace, hl, World.write, hCt, World.tick_trace,
      if_neg hd, List.append_assoc, List.cons_append, List.nil_append, List.append_nil]
    rfl

/-- The statement that marks the job completed makes store calls only. -/
theorem CompleteJob.markCompleted_via (env : Env σ) (db : database.Store σ) (jobID : uuid.UUID)
    (w : World σ π) :
    World.Via (fun e => e.isStoreCall = true) w (CompleteJob.markCompleted env db jobID w).2 := by
  obtain ⟨arg, -, -, -, ht, hps, hla, -, -⟩ := CompleteJob.markCompleted_spec env db jobID w
  exact World.Via.via_step _ _ _ _ hps hla ht rfl

/-- A loop of `CompleteJob` over reported resources makes store calls only. -/
theorem CompleteJob.insertResources_store (env : Env σ) (db : database.Store σ)
    (jobID : uuid.UUID) (transition : database.WorkspaceTransition) (msg : String)
    (resources : List sdkproto.Resource) (w : World σ π) :
    World.Via (fun e => e.isStoreCall = true) w
      (CompleteJob.insertResources env db jobID transition msg resources w).2 :=
  World.Via.via_mono Event.isStoreCall_of_isResourceInsert
    (CompleteJob.insertResources_via env db jobID transition msg resources w)

theorem World.Via.via_write {P : Event → Prop} {w0 w : World σ π} {α : Type}
    (h : World.Via P w0 w) (e : Event) (op : σ → Except Error α × σ) (hP : P e) :
    World.Via P w0 (w.write e op).2 :=
  h.via_trans (World.Via.via_step P w _ e rfl rfl rfl hP)

theorem World.Via.via_record {P : Event → Prop} {w0 w : World σ π}
    (h : World.Via P w0 w) (e : Event) (hP : P e) : World.Via P w0 (w.record e) :=
  h.via_trans (World.Via.via_step P w _ e rfl rfl rfl hP)

/-- The function `CompleteJob` runs in a transaction makes store calls only:
it publishes nothing. -/
theorem CompleteJob.workspaceBuildTx_via (env : Env σ) (server : Server σ π) (jobID : uuid.UUID)
    (job : database.ProvisionerJob) (workspaceBuild : database.WorkspaceBuild)
    (payload : proto.CompletedJob_WorkspaceBuild) (w : World σ π) :
    World.Via (fun e => e.isStoreCall = true) w
      (CompleteJob.workspaceBuildTx env server jobID job workspaceBuild payload w).2 := by
  unfold CompleteJob.workspaceBuildTx
  simp only []
  have h0 : World.Via (fun e => e.isStoreCall = true) w
      (w.tick.record (.GetWorkspaceByID workspaceBuild.WorkspaceID)) :=
    World.Via.via_step _ _ _ _ rfl rfl rfl rfl
  have h1 := CompleteJob.markCompleted_via env server.Database jobID
    (w.tick.record (.GetWorkspaceByID workspaceBuild.WorkspaceID))
  split
  · rename_i heq; rw [heq] at h1; exact h0.via_trans h1
  rename_i w1 heq; rw [heq] at h1
  have h01 : World.Via (fun e => e.isStoreCall = true) w w1 := h0.via_trans h1
  split
  · rename_i w2 heq
    have hw := congrArg Prod.snd heq; dsimp only at hw; rw [← hw]
    exact h01.via_write _ _ rfl
  rename_i w2 heq
  have h02 : World.Via (fun e => e.isStoreCall = true) w w2 := by
    have hw := congrArg Prod.snd heq; dsimp only at hw; rw [← hw]
    exact h01.via_write _ _ rfl
  have h3 := CompleteJob.insertResources_store env server.Database job.ID
    workspaceBuild.Transition "insert provisioner job" payload.Resources w2
  split
  · rename_i heq; rw [heq] at h3; exact h02.via_trans h3
  rename_i w3 heq; rw [heq] at h3
  have h03 : World.Via (fun e => e.isStoreCall = true) w w3 := h02.via_trans h3
  split
  · exact h03
  split
  · rename_i w4 heq
    have hw := congrArg Prod.snd heq; dsimp only at hw; rw [← hw]
    exact h03.via_write _ _ rfl
  · rename_i w4 heq
    have hw := congrArg Prod.snd heq; dsimp only at hw; rw [← hw]
    exact h03.via_write _ _ rfl

end CompleteJobLemmas

section CompleteJobCases

variable {σ π : Type}

/-- What the resource loop followed by the statement that marks the job
completed did when it returned nil: inserts, then the write of the terminal
state, which succeeded. -/
theorem CompleteJob.insert_then_mark_ok (env : Env σ) (db : database.Store σ) (jobID : uuid.UUID)
    (w w1 w2 : World σ π)
    (h1 : World.Via (fun e => e.isResourceInsert = true) w w1)
    (h : CompleteJob.markCompleted env db jobID w1 = (none, w2)) :
    ∃ (argC : database.UpdateProvisionerJobWithCompleteByIDParams) (lins : List Event),
      argC.ID = jobID ∧ argC.CompletedAt.Valid = true
      ∧ (db.UpdateProvisionerJobWithCompleteByID argC w1.db).1 = .ok ()
      ∧ (∀ e ∈ lins, e.isResourceInsert = true)
      ∧ w1.trace = w.trace ++ lins
      ∧ w2.trace = w1.trace ++ [Event.UpdateProvisionerJobWithCompleteByID argC] := by
  obtain ⟨argC, hC1, hC2, -, hCt, -, -, -, hCok⟩ :=
    CompleteJob.markCompleted_spec env db jobID w1
  rw [h] at hCt hCok
  obtain ⟨lins, hl, hP⟩ := h1.trace
  exact ⟨argC, lins, hC1, hC2, hCok.1 rfl, hP, hl, hCt⟩

/-- What the template-import case of `CompleteJob` did when it returned nil. -/
theorem CompleteJob.templateImport_ok (env : Env σ) (server : Server σ π) (jobID : uuid.UUID)
    (templateImport : proto.CompletedJob_TemplateImport) (w w2 : World σ π)
    (h : CompleteJob.templateImport env server jobID templateImport w = (none, w2)) :
    ∃ (w1 : World σ π) (argC : database.UpdateProvisionerJobWithCompleteByIDParams)
      (lins : List Event),
      argC.ID = jobID ∧ argC.CompletedAt.Valid = true
      ∧ (server.Database.UpdateProvisionerJobWithCompleteByID argC w1.db).1 = .ok ()
      ∧ (∀ e ∈ lins, e.isResourceInsert = true)
      ∧ w1.trace = w.trace ++ lins
      ∧ w2.trace = w1.trace ++ [Event.UpdateProvisionerJobWithCompleteByID argC] := by
  unfold CompleteJob.templateImport at h
  simp only [] at h
  split at h
  · simp at h
  rename_i w1 hgo
  have hvia := CompleteJob.templateImport_go_via env server jobID
    (if env.rangeStartFirst then
      [(database.WorkspaceTransition.Start, templateImport.StartResources),
        (database.WorkspaceTransition.Stop, templateImport.StopResources)]
    else
      [(database.WorkspaceTransition.Stop, templateImport.StopResources),
        (database.WorkspaceTransition.Start, templateImport.StartResources)]) w
  rw [hgo] at hvia
  obtain ⟨argC, lins, r⟩ :=
    CompleteJob.insert_then_mark_ok env server.Database jobID w w1 w2 hvia h
  exact ⟨w1, argC, lins, r⟩

/-- What the template dry-run case of `CompleteJob` did when it returned nil. -/
theorem CompleteJob.templateDryRun_ok (env : Env σ) (server : Server σ π) (jobID : uuid.UUID)
    (templateDryRun : proto.CompletedJob_TemplateDryRun) (w w2 : World σ π)
    (h : CompleteJob.templateDryRun env server jobID templateDryRun w = (none, w2)) :
    ∃ (w1 : World σ π) (argC : database.UpdateProvisionerJobWithCompleteByIDParams)
      (lins : List Event),
      argC.ID = jobID ∧ argC.CompletedAt.Valid = true
      ∧ (server.Database.UpdateProvisionerJobWithCompleteByID argC w1.db).1 = .ok ()
      ∧ (∀ e ∈ lins, e.isResourceInsert = true)
      ∧ w1.trace = w.trace ++ lins
      ∧ w2.trace = w1.trace ++ [Event.UpdateProvisionerJobWithCompleteByID argC] := by
  unfold CompleteJob.templateDryRun at h
  split at h
  · simp at h
  rename_i w1 hins
  have hvia := CompleteJob.insertResources_via env server.Database jobID .Start
    "insert resource" templateDryRun.Resources w
  rw [hins] at hvia
  obtain ⟨argC, lins, r⟩ :=
    CompleteJob.insert_then_mark_ok env server.Database jobID w w1 w2 hvia h
  exact ⟨w1, argC, lins, r⟩

/-- The template-import case of `CompleteJob` makes store calls only. -/
theorem CompleteJob.templateImport_via (env : Env σ) (server : Server σ π) (jobID : uuid.UUID)
    (templateImport : proto.CompletedJob_TemplateImport) (w : World σ π) :
    World.Via (fun e => e.isStoreCall = true) w
      (CompleteJob.templateImport env server jobID templateImport w).2 := by
  unfold CompleteJob.templateImport
  simp only []
  have hvia := World.Via.via_mono Event.isStoreCall_of_isResourceInsert
    (CompleteJob.templateImport_go_via env server jobID
      (if env.rangeStartFirst then
        [(database.WorkspaceTransition.Start, templateImport.StartResources),
          (database.WorkspaceTransition.Stop, templateImport.StopResources)]
      else
        [(database.WorkspaceTransition.Stop, templateImport.StopResources),
          (database.WorkspaceTransition.Start, templateImport.StartResources)]) w)
  split
  · rename_i heq; rw [heq] at hvia; exact hvia
  · rename_i w1 heq; rw [heq] at hvia
    exact hvia.via_trans (CompleteJob.markCompleted_via env server.Database jobID w1)

/-- The template dry-run case of `CompleteJob` makes store calls only. -/
theorem CompleteJob.templateDryRun_via (env : Env σ) (server : Server σ π) (jobID : uuid.UUID)
    (templateDryRun : proto.CompletedJob_TemplateDryRun) (w : World σ π) :
    World.Via (fun e => e.isStoreCall = true) w
      (CompleteJob.templateDryRun env server jobID templateDryRun w).2 := by
  unfold CompleteJob.templateDryRun
  have hvia := CompleteJob.insertResources_store env server.Database jobID .Start
    "insert resource" templateDryRun.Resources w
  split
  · rename_i heq; rw [heq] at hvia; exact hvia
  · rename_i w1 heq; rw [heq] at hvia
    exact hvia.via_trans (CompleteJob.markCompleted_via env server.Database jobID w1)

/-- The workspace-build case of `CompleteJob` when the function it runs in the
transaction returns an error: the case returns the error wrapped, in a world
with the rows and the notifier state it started with, and nothing published. -/
theorem CompleteJob.workspaceBuild_rollback (env : Env σ) (server : Server σ π)
    (jobID : uuid.UUID) (job : database.ProvisionerJob)
    (payload : proto.CompletedJob_WorkspaceBuild) (w : World σ π)
    (input : WorkspaceProvisionJob) (build : database.WorkspaceBuild) (err : Error)
    (hinput : env.unmarshalWorkspaceProvisionJob job.Input = .ok input)
    (hbuild : server.Database.GetWorkspaceBuildByID input.WorkspaceBuildID w.db = .ok build)
    (htx : (CompleteJob.workspaceBuildTx env server jobID job build payload
      ((w.record (.GetWorkspaceBuildByID input.WorkspaceBuildID)).record .InTxBegin)).1
        = some err) :
    (CompleteJob.workspaceBuild env server jobID job payload w).1
        = some (.wrap "complete job" err)
      ∧ (CompleteJob.workspaceBuild env server jobID job payload w).2.db = w.db
      ∧ (CompleteJob.workspaceBuild env server jobID job payload w).2.ps = w.ps
      ∧ ∃ l, (CompleteJob.workspaceBuild env server jobID job payload w).2.trace = w.trace ++ l
          ∧ ∀ e ∈ l, e.isPublish = false := by
  have hvia := CompleteJob.workspaceBuildTx_via env server jobID job build payload
    ((w.record (.GetWorkspaceBuildByID input.WorkspaceBuildID)).record .InTxBegin)
  obtain ⟨l, hl, hP⟩ := hvia.trace
  have hps := hvia.ps
  cases hfn : CompleteJob.workspaceBuildTx env server jobID job build payload
    ((w.record (.GetWorkspaceBuildByID input.WorkspaceBuildID)).record .InTxBegin) with
  | mk r w4 =>
    rw [hfn] at htx hl hps
    dsimp only at htx hl hps
    subst htx
    simp only [CompleteJob.workspaceBuild, hinput, World.read, hbuild, InTx, hfn]
    refine ⟨trivial, rfl, hps, ?_⟩
    refine ⟨[Event.GetWorkspaceBuildByID input.WorkspaceBuildID, Event.InTxBegin] ++ l
      ++ [Event.InTxRollback], ?_, ?_⟩
    · simp [World.record, hl]
    · intro e he
      simp only [List.mem_append, List.mem_cons, List.mem_singleton, List.not_mem_nil,
        or_false] at he
      rcases he with ((rfl | rfl) | he) | rfl
      · rfl
      · rfl
      · exact Event.isPublish_of_isStoreCall e (hP e he)
      · rfl

end CompleteJobCases

section RpcCases

variable {σ π : Type}

/-- The end-of-logs sentinel is not the empty message. -/
theorem ProvisionerJobLogsNotifyMessage.Marshal_ne_empty (m : ProvisionerJobLogsNotifyMessage) :
    ProvisionerJobLogsNotifyMessage.Marshal m ≠ "" := by
  intro h
  have h2 := congrArg String.length h
  simp [ProvisionerJobLogsNotifyMessage.Marshal, String.length_append] at h2
  exact absurd h2.2 (by decide)

/-- The ways `CompleteJob` runs once the job id parsed: it stops after the
query of the job; or the switch on the payload returns an error; or the switch
returns nil and the end-of-logs sentinel is published, which decides the
result. -/
theorem CompleteJob.completeJob_run_cases (env : Env σ) (server : Server σ π) (completed : proto.CompletedJob)
    (w : World σ π) (jobID : uuid.UUID) (hid : env.uuidParse completed.JobId = .ok jobID) :
    ((CompleteJob env server completed w).2 = w.record (.GetProvisionerJobByID jobID)
        ∧ ∃ err, (CompleteJob env server completed w).1 = .error err)
    ∨ ∃ (job : database.ProvisionerJob) (w2 : World σ π),
        server.Database.GetProvisionerJobByID jobID w.db = .ok job
        ∧ job.WorkerID.UUID.String = server.ID.String
        ∧ ((∃ err, CompleteJob.jobType env server jobID job completed
                (w.record (.GetProvisionerJobByID jobID)) = (some err, w2)
              ∧ CompleteJob env server completed w = (.error err, w2))
          ∨ (CompleteJob.jobType env server jobID job completed
                (w.record (.GetProvisionerJobByID jobID)) = (none, w2)
              ∧ (CompleteJob env server completed w).2
                  = { w2 with
                      ps := (server.Pubsub.Publish (ProvisionerJobLogsNotifyChannel jobID)
                        (ProvisionerJobLogsNotifyMessage.Marshal { EndOfLogs := true }) w2.ps).2,
                      trace := w2.trace ++ [endOfLogs jobID] }
              ∧ ((CompleteJob env server completed w).1 = .ok {}
                  ∨ ∃ err, (CompleteJob env server completed w).1 = .error err))) := by
  unfold CompleteJob
  simp only [hid, World.read, World.publish]
  cases hjob : server.Database.GetProvisionerJobByID jobID w.db with
  | error err => exact Or.inl ⟨rfl, _, rfl⟩
  | ok job =>
    simp only []
    by_cases hown : job.WorkerID.UUID.String = server.ID.String
    swap
    · rw [if_pos (by simpa using hown)]
      exact Or.inl ⟨rfl, _, rfl⟩
    rw [if_neg (by simpa using hown)]
    cases hsw : CompleteJob.jobType env server jobID job completed
      (w.record (.GetProvisionerJobByID jobID)) with
    | mk r w2 =>
      cases r with
      | some err => exact Or.inr ⟨job, w2, rfl, hown, Or.inl ⟨err, hsw, rfl⟩⟩
      | none =>
        refine Or.inr ⟨job, w2, rfl, hown, Or.inr ⟨hsw, ?_, ?_⟩⟩
        · simp only []
          split <;> (rename_i heq; obtain ⟨-, rfl⟩ := Prod.mk.inj heq; rfl)
        · simp only []
          split
          · exact Or.inr ⟨_, rfl⟩
          · exact Or.inl rfl

end RpcCases

section RpcCases2

variable {σ π : Type}

/-- The calls the type switch of `FailJob` makes.  None is the rollback of a
transaction and a publication among them carries the empty message.  When the
switch returns nil it made two calls for a workspace-build payload with a
state (the update of the build, then the publication on the channel of the
workspace of the row the store returned) and none otherwise. -/
theorem FailJob.jobType_spec (env : Env σ) (server : Server σ π)
    (job : database.ProvisionerJob) (failJob : proto.FailedJob) (w : World σ π) :
    ∃ l, (FailJob.jobType env server job failJob w).2.trace = w.trace ++ l
      ∧ (∀ e ∈ l, e ≠ Event.InTxRollback ∧ ∀ c m, e = Event.Publish c m → m = "")
      ∧ ((FailJob.jobType env server job failJob w).1 = none →
          (∀ workspaceBuild state, failJob.Type_ = some (.WorkspaceBuild_ workspaceBuild) →
            workspaceBuild.State = some state →
            ∃ input build,
              env.unmarshalWorkspaceProvisionJob job.Input = .ok input
              ∧ (server.Database.UpdateWorkspaceBuildByID
                  { ID := input.WorkspaceBuildID, UpdatedAt := databaseNow env w,
                    ProvisionerState := some state } w.db).1 = .ok build
              ∧ l = [Event.UpdateWorkspaceBuildByID
                      { ID := input.WorkspaceBuildID, UpdatedAt := databaseNow env w,
                        ProvisionerState := some state },
                    Event.Publish (codersdk.WorkspaceNotifyChannel build.WorkspaceID) ""])
          ∧ ((∀ workspaceBuild state, failJob.Type_ = some (.WorkspaceBuild_ workspaceBuild) →
              workspaceBuild.State ≠ some state) → l = [])) := by
  unfold FailJob.jobType
  simp only [World.write, World.publish, World.tick]
  split
  swap
  · rename_i hty
    refine ⟨[], by simp, by simp, fun _ => ⟨?_, fun _ => rfl⟩⟩
    intro wb state h1 _
    exact absurd h1 (hty wb)
  rename_i wb hty
  split
  · rename_i hst
    refine ⟨[], by simp, by simp, fun _ => ⟨?_, fun _ => rfl⟩⟩
    intro wb2 state h1 h2
    rw [hty] at h1
    cases h1
    rw [hst] at h2
    cases h2
  rename_i state hst
  split
  · refine ⟨[], by simp, by simp, fun h => ?_⟩
    simp at h
  rename_i input hinput
  split
  · rename_i heq; obtain ⟨-, rfl⟩ := Prod.mk.inj heq
    refine ⟨[_], rfl, by simp, fun h => ?_⟩
    simp at h
  rename_i build w1 heq; obtain ⟨hb, rfl⟩ := Prod.mk.inj heq
  have hpP : ∀ e ∈ [Event.UpdateWorkspaceBuildByID
        { ID := input.WorkspaceBuildID, UpdatedAt := databaseNow env w,
          ProvisionerState := some state },
      Event.Publish (codersdk.WorkspaceNotifyChannel build.WorkspaceID) ""],
      e ≠ Event.InTxRollback ∧ ∀ c m, e = Event.Publish c m → m = "" := by
    intro e he
    simp at he
    rcases he with rfl | rfl
    · simp
    · refine ⟨by simp, ?_⟩
      intro c m h
      cases h
      rfl
  split
  · rename_i heq; obtain ⟨-, rfl⟩ := Prod.mk.inj heq
    refine ⟨[_, _], List.append_assoc _ _ _, hpP, fun h => ?_⟩
    simp at h
  · rename_i heq; obtain ⟨-, rfl⟩ := Prod.mk.inj heq
    refine ⟨[_, _], List.append_assoc _ _ _, hpP, fun _ => ⟨?_, ?_⟩⟩
    · intro wb2 state2 h1 h2
      rw [hty] at h1
      cases h1
      rw [hst] at h2
      cases h2
      exact ⟨input, build, hinput, hb, rfl⟩
    · intro hno
      exact absurd hst (hno wb state hty)

/-- The ways `FailJob` runs once the job id parsed: it stops after the query
of the job; or it issues the write of the terminal state, which fails; or the
write succeeds and the switch on the payload returns an error; or the switch
returns nil and the end-of-logs sentinel is published, which decides the
result. -/
theorem FailJob.failJob_run_cases (env : Env σ) (server : Server σ π) (failJob : proto.FailedJob)
    (w : World σ π) (jobID : uuid.UUID) (hid : env.uuidParse failJob.JobId = .ok jobID) :
    ((FailJob env server failJob w).2 = w.record (.GetProvisionerJobByID jobID)
        ∧ ∃ err, (FailJob env server failJob w).1 = .error err)
    ∨ ∃ (job job1 : database.ProvisionerJob)
        (arg : database.UpdateProvisionerJobWithCompleteByIDParams) (wC w2 : World σ π),
        server.Database.GetProvisionerJobByID jobID w.db = .ok job
        ∧ job1.Input = job.Input
        ∧ arg.ID = jobID ∧ arg.CompletedAt.Valid = true
        ∧ wC.trace = w.trace
            ++ [Event.GetProvisionerJobByID jobID, Event.UpdateProvisionerJobWithCompleteByID arg]
        ∧ wC.ticks = w.ticks + 2
        ∧ wC.db = (server.Database.UpdateProvisionerJobWithCompleteByID arg w.db).2
        ∧ (((FailJob env server failJob w).2 = wC
              ∧ ∃ err, (FailJob env server failJob w).1 = .error err)
          ∨ ((server.Database.UpdateProvisionerJobWithCompleteByID arg w.db).1 = .ok ()
            ∧ ((∃ err, FailJob.jobType env server job1 failJob wC = (some err, w2)
                  ∧ FailJob env server failJob w = (.error err, w2))
              ∨ (FailJob.jobType env server job1 failJob wC = (none, w2)
                  ∧ (FailJob env server failJob w).2
                      = { w2 with
                          ps := (server.Pubsub.Publish (ProvisionerJobLogsNotifyChannel jobID)
                            (ProvisionerJobLogsNotifyMessage.Marshal { EndOfLogs := true })
                              w2.ps).2,
                          trace := w2.trace ++ [endOfLogs jobID] }
                  ∧ ((FailJob env server failJob w).1 = .ok {}
                      ∨ ∃ err, (FailJob env server failJob w).1 = .error err))))) := by
  unfold FailJob
  simp only [hid, World.read, World.publish]
  cases hjob : server.Database.GetProvisionerJobByID jobID w.db with
  | error err => exact Or.inl ⟨rfl, _, rfl⟩
  | ok job =>
    simp only []
    by_cases hown : job.WorkerID.UUID.String = server.ID.String
    swap
    · rw [if_pos (by simpa using hown)]
      exact Or.inl ⟨rfl, _, rfl⟩
    rw [if_neg (by simpa using hown)]
    by_cases hdone : job.CompletedAt.Valid = true
    · rw [if_pos hdone]
      exact Or.inl ⟨rfl, _, rfl⟩
    rw [if_neg hdone]
    right
    generalize hwr : World.write _ _ _ = r
    obtain ⟨r1, wC⟩ := r
    have h1 := congrArg Prod.fst hwr
    have h2 := congrArg Prod.snd hwr
    simp only [World.write] at h1 h2
    subst h2
    cases r1 with
    | error err =>
      exact ⟨job, job, _, _, w, rfl, rfl, rfl, rfl, List.append_assoc _ _ _, rfl, rfl,
        Or.inl ⟨rfl, _, rfl⟩⟩
    | ok u =>
      cases u
      simp only []
      generalize hsw : FailJob.jobType _ _ _ _ _ = s
      obtain ⟨s1, w2⟩ := s
      cases s1 with
      | some err =>
        exact ⟨job, _, _, _, w2, rfl, rfl, rfl, rfl, List.append_assoc _ _ _, rfl, rfl,
          Or.inr ⟨h1, Or.inl ⟨err, hsw, rfl⟩⟩⟩
      | none =>
        refine ⟨job, _, _, _, w2, rfl, rfl, rfl, rfl, List.append_assoc _ _ _, rfl, rfl,
          Or.inr ⟨h1, Or.inr ⟨hsw, ?_, ?_⟩⟩⟩
        · simp only []
          split <;> (rename_i heq; obtain ⟨-, rfl⟩ := Prod.mk.inj heq; rfl)
        · simp only []
          split
          · exact Or.inr ⟨_, rfl⟩
          · exact Or.inl rfl

end RpcCases2

section RpcCases3

variable {σ π : Type}

/-- A transaction whose function leaves the notifier alone leaves it alone,
and adds its begin and its commit or rollback to the calls of the function. -/
theorem InTx_via (P : Event → Prop) (fn : World σ π → Option Error × World σ π) (w : World σ π)
    (hfn : World.Via P (w.record .InTxBegin) (fn (w.record .InTxBegin)).2)
    (hb : P .InTxBegin) (hc : P .InTxCommit) (hr : P .InTxRollback) :
    World.Via P w (InTx fn w).2 := by
  have h0 : World.Via P w (w.record .InTxBegin) := (World.Via.via_refl P w).via_record _ hb
  have h1 := h0.via_trans hfn
  unfold InTx
  split
  · rename_i heq; rw [heq] at h1
    exact h1.via_trans (World.Via.via_step P _ _ _ rfl rfl rfl hr)
  · rename_i heq; rw [heq] at h1
    exact h1.via_record _ hc

/-- A publication the switch of `CompleteJob` makes carries the empty
message, whatever the switch returns. -/
theorem CompleteJob.jobType_events (env : Env σ) (server : Server σ π) (jobID : uuid.UUID)
    (job : database.ProvisionerJob) (completed : proto.CompletedJob) (w : World σ π) :
    ∃ l, (CompleteJob.jobType env server jobID job completed w).2.trace = w.trace ++ l
      ∧ ∀ e ∈ l, ∀ c m, e = Event.Publish c m → m = "" := by
  have hmono : ∀ {w0 w1 : World σ π}, World.Via (fun e => e.isStoreCall = true) w0 w1 →
      ∃ l, w1.trace = w0.trace ++ l ∧ ∀ e ∈ l, ∀ c m, e = Event.Publish c m → m = "" := by
    intro w0 w1 h
    obtain ⟨l, hl, hP⟩ := h.trace
    refine ⟨l, hl, ?_⟩
    intro e he c m hem
    have := hP e he
    rw [hem] at this
    cases this
  unfold CompleteJob.jobType
  split
  · exact hmono (CompleteJob.templateImport_via env server jobID _ w)
  · rename_i payload _
    unfold CompleteJob.workspaceBuild
    split
    · exact ⟨[], by simp, by simp⟩
    rename_i input _
    split
    · rename_i heq; obtain ⟨-, rfl⟩ := Prod.mk.inj heq
      exact ⟨[_], rfl, by simp⟩
    rename_i build w1 heq; obtain ⟨-, rfl⟩ := Prod.mk.inj heq
    have htx := InTx_via (fun e => e.isPublish = false)
      (CompleteJob.workspaceBuildTx env server jobID job build payload)
      (w.record (.GetWorkspaceBuildByID input.WorkspaceBuildID))
      (World.Via.via_mono Event.isPublish_of_isStoreCall
        (CompleteJob.workspaceBuildTx_via env server jobID job build payload _)) rfl rfl rfl
    obtain ⟨l, hl, hP⟩ := htx.trace
    have hP2 : ∀ e ∈ l, ∀ c m, e = Event.Publish c m → m = "" := by
      intro e he c m hem
      have := hP e he
      rw [hem] at this
      cases this
    split
    · rename_i heq; rw [heq] at hl
      dsimp only at hl
      refine ⟨Event.GetWorkspaceBuildByID input.WorkspaceBuildID :: l, ?_, ?_⟩
      · simp only [hl, World.record_trace, List.append_assoc, List.singleton_append]
      · intro e he
        rcases List.mem_cons.1 he with rfl | he
        · simp
        · exact hP2 e he
    rename_i w3 heq; rw [heq] at hl
    dsimp only at hl
    have hfin : ∀ e ∈ Event.GetWorkspaceBuildByID input.WorkspaceBuildID :: l
        ++ [Event.Publish (codersdk.WorkspaceNotifyChannel build.WorkspaceID) ""],
        ∀ c m, e = Event.Publish c m → m = "" := by
      intro e he c m hem
      simp only [List.mem_append, List.mem_cons, List.mem_singleton, List.not_mem_nil,
        or_false] at he
      rcases he with (rfl | he) | rfl
      · cases hem
      · exact hP2 e he c m hem
      · cases hem; rfl
    simp only [World.publish]
    split
    · rename_i heq; obtain ⟨-, rfl⟩ := Prod.mk.inj heq
      exact ⟨Event.GetWorkspaceBuildByID input.WorkspaceBuildID :: l
        ++ [Event.Publish (codersdk.WorkspaceNotifyChannel build.WorkspaceID) ""],
        by simp [hl], hfin⟩
    · rename_i heq; obtain ⟨-, rfl⟩ := Prod.mk.inj heq
      exact ⟨Event.GetWorkspaceBuildByID input.WorkspaceBuildID :: l
        ++ [Event.Publish (codersdk.WorkspaceNotifyChannel build.WorkspaceID) ""],
        by simp [hl], hfin⟩
  · exact hmono (CompleteJob.templateDryRun_via env server jobID _ w)
  · exact ⟨[], by simp, by simp⟩
  · exact ⟨[], by simp, by simp⟩

end RpcCases3

section RpcCases4

variable {σ π : Type}

/-- What the switch of `CompleteJob` did when it returned nil: in some world
reached from the one it started in it issued the write that makes the job
terminal, the write succeeded, and no call after it is a rollback. -/
theorem CompleteJob.jobType_ok (env : Env σ) (server : Server σ π) (jobID : uuid.UUID)
    (job : database.ProvisionerJob) (completed : proto.CompletedJob) (w w2 : World σ π)
    (h : CompleteJob.jobType env server jobID job completed w = (none, w2)) :
    ∃ (w1 : World σ π) (argC : database.UpdateProvisionerJobWithCompleteByIDParams)
      (post : List Event),
      World.Extends w w1 ∧ argC.ID = jobID ∧ argC.CompletedAt.Valid = true
      ∧ (server.Database.UpdateProvisionerJobWithCompleteByID argC w1.db).1 = .ok ()
      ∧ w2.trace = w1.trace ++ Event.UpdateProvisionerJobWithCompleteByID argC :: post
      ∧ (∀ e ∈ post, e ≠ Event.InTxRollback) := by
  unfold CompleteJob.jobType at h
  split at h
  · obtain ⟨w1, argC, lins, h1, h2, h3, -, h5, h6⟩ :=
      CompleteJob.templateImport_ok env server jobID _ w w2 h
    exact ⟨w1, argC, [], ⟨lins, h5.symm⟩, h1, h2, h3, h6, by simp⟩
  · rename_i payload _
    obtain ⟨input, build, argC, lins, -, -, h1, h2, h3, h4, h5⟩ :=
      CompleteJob.workspaceBuild_ok env server jobID job payload w w2 h
    generalize hB : Event.UpdateWorkspaceBuildByID _ = eB at h5
    refine ⟨{ w with trace := w.trace ++ [Event.GetWorkspaceBuildByID input.WorkspaceBuildID,
        Event.InTxBegin, Event.GetWorkspaceByID build.WorkspaceID] }, argC,
      eB :: (lins ++ ((if build.Transition = .Delete then
          [Event.UpdateWorkspaceDeletedByID { ID := build.WorkspaceID, Deleted := true }]
        else []) ++ [Event.InTxCommit,
          Event.Publish (codersdk.WorkspaceNotifyChannel build.WorkspaceID) ""])),
      ⟨_, rfl⟩, h1, h2, h3, ?_, ?_⟩
    · rw [h5]
      simp only [List.append_assoc, List.cons_append, List.nil_append]
    · intro e he
      simp only [List.mem_append, List.mem_cons, List.mem_singleton, List.not_mem_nil,
        or_false] at he
      rcases he with rfl | he | he | rfl | rfl
      · rw [← hB]; simp
      · have := h4 e he
        intro hc; rw [hc] at this; cases this
      · split at he
        · simp at he; rw [he]; simp
        · simp at he
      · simp
      · simp
  · obtain ⟨w1, argC, lins, h1, h2, h3, -, h5, h6⟩ :=
      CompleteJob.templateDryRun_ok env server jobID _ w w2 h
    exact ⟨w1, argC, [], ⟨lins, h5.symm⟩, h1, h2, h3, h6, by simp⟩
  · simp at h
  · simp at h

end RpcCases4

/-! ## The end of `FailJob` and `CompleteJob` -/

section EndOfJob

variable {σ π : Type}

/-- C11, at a failing input.  The build b of workspace ws has deadline 500.
`FailJob` by the owner of job j, with a workspace-build payload that carries
the state [1, 2], succeeds.  It passes to `UpdateWorkspaceBuildByID` the id of
the build, the state, and a deadline left at its zero value: the very argument
`CompleteJob` passes to write the zero time as the deadline of a build whose
workspace has no time-to-live.  The store writes the state, and the deadline
of the build becomes the zero time; it is not left unchanged, against the
comment "We are explicitly not updating deadline here". -/
theorem failJob_resets_build_deadline :
    (FailJob (buildEnv fun n => 100 + n) (sampleServer ⟨"a"⟩ 10)
        { JobId := "j", Error := "boom",
          Type_ := some (.WorkspaceBuild_ { State := some [1, 2] }) }
        (buildWorld sampleBuild sampleWorkspace)).1 = .ok {}
    ∧ Event.UpdateWorkspaceBuildByID
        { ID := ⟨"b"⟩, UpdatedAt := 102, ProvisionerState := some [1, 2], Deadline := 0 }
      ∈ (FailJob (buildEnv fun n => 100 + n) (sampleServer ⟨"a"⟩ 10)
        { JobId := "j", Error := "boom",
          Type_ := some (.WorkspaceBuild_ { State := some [1, 2] }) }
        (buildWorld sampleBuild sampleWorkspace)).2.trace
    ∧ Event.UpdateWorkspaceBuildByID
        { ID := ⟨"b"⟩, UpdatedAt := 102, ProvisionerState := some [1, 2], Deadline := 0 }
      ∈ (CompleteJob (buildEnv fun n => 102 + n) (sampleServer ⟨"a"⟩ 10)
        { JobId := "j", Type_ := some (.WorkspaceBuild_ { State := some [1, 2] }) }
        (buildWorld sampleBuild { sampleWorkspace with Ttl := {} })).2.trace
    ∧ (FailJob (buildEnv fun n => 100 + n) (sampleServer ⟨"a"⟩ 10)
        { JobId := "j", Error := "boom",
          Type_ := some (.WorkspaceBuild_ { State := some [1, 2] }) }
        (buildWorld sampleBuild sampleWorkspace)).2.db.workspaceBuilds
      = [{ sampleBuild with UpdatedAt := 102, ProvisionerState := some [1, 2], Deadline := 0 }]
    ∧ sampleBuild.Deadline = 500 := by
  decide

/-- A call whose publications carry the empty message is not the publication
of the end-of-logs sentinel. -/
theorem endOfLogs_ne (jobID : uuid.UUID) (e : Event)
    (h : ∀ c m, e = Event.Publish c m → m = "") : e ≠ endOfLogs jobID := by
  intro he
  exact ProvisionerJobLogsNotifyMessage.Marshal_ne_empty _ (h _ _ he)

/-- C12.  In every run of `FailJob` and of `CompleteJob`, whatever the payload,
in which the end-of-logs sentinel is published on the log channel of the job:
the store write that makes the job terminal (completed-at non-null, for this
job id) was issued before, it succeeded, and no rollback of a transaction
follows it. -/
theorem endOfLogs_after_terminal_write (env : Env σ) (server : Server σ π) (w : World σ π)
    (jobID : uuid.UUID) :
    (∀ (failJob : proto.FailedJob) (l : List Event),
      env.uuidParse failJob.JobId = .ok jobID →
      (FailJob env server failJob w).2.trace = w.trace ++ l →
      endOfLogs jobID ∈ l →
      ∃ (w1 : World σ π) (arg : database.UpdateProvisionerJobWithCompleteByIDParams)
        (post : List Event),
        World.Extends w w1 ∧ arg.ID = jobID ∧ arg.CompletedAt.Valid = true
        ∧ (server.Database.UpdateProvisionerJobWithCompleteByID arg w1.db).1 = .ok ()
        ∧ (FailJob env server failJob w).2.trace
            = w1.trace ++ Event.UpdateProvisionerJobWithCompleteByID arg :: post
        ∧ endOfLogs jobID ∈ post ∧ Event.InTxRollback ∉ post)
    ∧ (∀ (completed : proto.CompletedJob) (l : List Event),
      env.uuidParse completed.JobId = .ok jobID →
      (CompleteJob env server completed w).2.trace = w.trace ++ l →
      endOfLogs jobID ∈ l →
      ∃ (w1 : World σ π) (arg : database.UpdateProvisionerJobWithCompleteByIDParams)
        (post : List Event),
        World.Extends w w1 ∧ arg.ID = jobID ∧ arg.CompletedAt.Valid = true
        ∧ (server.Database.UpdateProvisionerJobWithCompleteByID arg w1.db).1 = .ok ()
        ∧ (CompleteJob env server completed w).2.trace
            = w1.trace ++ Event.UpdateProvisionerJobWithCompleteByID arg :: post
        ∧ endOfLogs jobID ∈ post ∧ Event.InTxRollback ∉ post) := by
  constructor
  · intro failJob l hid htrace hmem
    rcases FailJob.failJob_run_cases env server failJob w jobID hid with
      ⟨h2, -⟩ | ⟨job, job1, arg, wC, w2, -, -, ha1, ha2, hCt, -, -, hrest⟩
    · rw [h2, World.record_trace] at htrace
      have hl := List.append_cancel_left htrace
      rw [← hl] at hmem
      simp [endOfLogs] at hmem
    obtain ⟨lj, hlj, hPj, -⟩ := FailJob.jobType_spec env server job1 failJob wC
    rcases hrest with ⟨h2, -⟩ | ⟨hwok, ⟨err, hsw, hres⟩ | ⟨hsw, h2, -⟩⟩
    · rw [h2, hCt] at htrace
      have hl := List.append_cancel_left htrace
      rw [← hl] at hmem
      simp [endOfLogs] at hmem
    · rw [hsw] at hlj
      rw [hres] at htrace
      dsimp only at hlj htrace
      rw [hlj, hCt, List.append_assoc] at htrace
      have hl := List.append_cancel_left htrace
      rw [← hl] at hmem
      simp only [List.mem_append, List.mem_cons, List.mem_singleton, List.not_mem_nil,
        or_false] at hmem
      rcases hmem with (hmem | hmem) | hmem
      · simp [endOfLogs] at hmem
      · simp [endOfLogs] at hmem
      · exact absurd rfl (endOfLogs_ne jobID _ (hPj _ hmem).2)
    · rw [hsw] at hlj
      dsimp only at hlj
      refine ⟨{ w with trace := w.trace ++ [Event.GetProvisionerJobByID jobID] }, arg,
        lj ++ [endOfLogs jobID], ⟨_, rfl⟩, ha1, ha2, hwok, ?_, by simp, ?_⟩
      · rw [h2]
        simp only [hlj, hCt, List.append_assoc, List.cons_append, List.nil_append]
      · intro hc
        rcases List.mem_append.1 hc with hc | hc
        · exact (hPj _ hc).1 rfl
        · simp [endOfLogs] at hc
  · intro completed l hid htrace hmem
    rcases CompleteJob.completeJob_run_cases env server completed w jobID hid with
      ⟨h2, -⟩ | ⟨job, w2, -, -, hrest⟩
    · rw [h2, World.record_trace] at htrace
      have hl := List.append_cancel_left htrace
      rw [← hl] at hmem
      simp [endOfLogs] at hmem
    rcases hrest with ⟨err, hsw, hres⟩ | ⟨hsw, h2, -⟩
    · obtain ⟨lj, hlj, hPj⟩ := CompleteJob.jobType_events env server jobID job completed
        (w.record (.GetProvisionerJobByID jobID))
      rw [hsw] at hlj
      rw [hres] at htrace
      dsimp only at hlj htrace
      rw [hlj, World.record_trace, List.append_assoc] at htrace
      have hl := List.append_cancel_left htrace
      rw [← hl] at hmem
      simp only [List.mem_append, List.mem_cons, List.mem_singleton, List.not_mem_nil,
        or_false] at hmem
      rcases hmem with hmem | hmem
      · simp [endOfLogs] at hmem
      · exact absurd rfl (endOfLogs_ne jobID _ (hPj _ hmem))
    · obtain ⟨w1, arg, post, hext, ha1, ha2, hwok, ht, hnr⟩ :=
        CompleteJob.jobType_ok env server jobID job completed _ w2 hsw
      refine ⟨w1, arg, post ++ [endOfLogs jobID], ?_, ha1, ha2, hwok, ?_, by simp, ?_⟩
      · exact World.Extends.extends_trans ⟨[_], rfl⟩ hext
      · rw [h2]
        simp only [ht, List.append_assoc, List.cons_append]
      · intro hc
        rcases List.mem_append.1 hc with hc | hc
        · exact hnr _ hc rfl
        · simp [endOfLogs] at hc

end EndOfJob

/-- Witness for C12: `CompleteJob` by the owner for the workspace build b
publishes the sentinel, after the terminal write that succeeded inside the
transaction that committed. -/
theorem endOfLogs_after_terminal_write_witness :
    (buildEnv fun n => 100 + n).uuidParse "j" = .ok ⟨"j"⟩
    ∧ endOfLogs ⟨"j"⟩ ∈ (CompleteJob (buildEnv fun n => 100 + n) (sampleServer ⟨"a"⟩ 10)
        { JobId := "j", Type_ := some (.WorkspaceBuild_ { State := some [1, 2] }) }
        (buildWorld sampleBuild sampleWorkspace)).2.trace
    ∧ ∃ (w1 : World MemDB (List (String × String)))
        (arg : database.UpdateProvisionerJobWithCompleteByIDParams) (post : List Event),
        World.Extends (buildWorld sampleBuild sampleWorkspace) w1
        ∧ arg.ID = ⟨"j"⟩ ∧ arg.CompletedAt.Valid = true
        ∧ ((sampleServer ⟨"a"⟩ 10).Database.UpdateProvisionerJobWithCompleteByID arg w1.db).1
            = .ok ()
        ∧ (CompleteJob (buildEnv fun n => 100 + n) (sampleServer ⟨"a"⟩ 10)
            { JobId := "j", Type_ := some (.WorkspaceBuild_ { State := some [1, 2] }) }
            (buildWorld sampleBuild sampleWorkspace)).2.trace
            = w1.trace ++ Event.UpdateProvisionerJobWithCompleteByID arg :: post
        ∧ endOfLogs ⟨"j"⟩ ∈ post ∧ Event.InTxRollback ∉ post :=
  ⟨by decide, by decide,
    (endOfLogs_after_terminal_write (buildEnv fun n => 100 + n) (sampleServer ⟨"a"⟩ 10)
      (buildWorld sampleBuild sampleWorkspace) ⟨"j"⟩).2
      { JobId := "j", Type_ := some (.WorkspaceBuild_ { State := some [1, 2] }) }
      _ (by decide) (by rfl) (by decide)⟩

section Publications

variable {σ π : Type}

/-- Inserts of resource rows are no publications. -/
theorem filter_isPublish_of_inserts (l : List Event)
    (h : ∀ e ∈ l, e.isResourceInsert = true) : l.filter Event.isPublish = [] := by
  induction l with
  | nil => rfl
  | cons e rest ih =>
    have he := h e (List.mem_cons_self _ _)
    have hp : e.isPublish = false :=
      Event.isPublish_of_isStoreCall e (Event.isStoreCall_of_isResourceInsert e he)
    rw [List.filter_cons, hp]
    simpa using ih fun e' he' => h e' (List.mem_cons_of_mem _ he')

/-- The publications of the switch of `CompleteJob` when it returned nil: for
a workspace-build payload one empty message on the channel of the workspace of
the build, and none otherwise. -/
theorem CompleteJob.jobType_publications (env : Env σ) (server : Server σ π) (jobID : uuid.UUID)
    (job : database.ProvisionerJob) (completed : proto.CompletedJob) (w w2 : World σ π)
    (h : CompleteJob.jobType env server jobID job completed w = (none, w2)) :
    ∃ l, w2.trace = w.trace ++ l
      ∧ (∀ payload, completed.Type_ = some (.WorkspaceBuild_ payload) →
          ∃ input build,
            env.unmarshalWorkspaceProvisionJob job.Input = .ok input
            ∧ server.Database.GetWorkspaceBuildByID input.WorkspaceBuildID w.db = .ok build
            ∧ l.filter Event.isPublish
                = [Event.Publish (codersdk.WorkspaceNotifyChannel build.WorkspaceID) ""])
      ∧ ((∀ payload, completed.Type_ ≠ some (.WorkspaceBuild_ payload)) →
          l.filter Event.isPublish = []) := by
  unfold CompleteJob.jobType at h
  split at h
  · rename_i hty
    obtain ⟨w1, argC, lins, -, -, -, h4, h5, h6⟩ :=
      CompleteJob.templateImport_ok env server jobID _ w w2 h
    refine ⟨lins ++ [Event.UpdateProvisionerJobWithCompleteByID argC], ?_, ?_, ?_⟩
    · rw [h6, h5, List.append_assoc]
    · intro payload hp; rw [hty] at hp; cases hp
    · intro _
      rw [List.filter_append, filter_isPublish_of_inserts lins h4]
      rfl
  · rename_i payload hty
    obtain ⟨input, build, argC, lins, hin, hb, -, -, -, h4, h5⟩ :=
      CompleteJob.workspaceBuild_ok env server jobID job payload w w2 h
    refine ⟨_, h5, ?_, ?_⟩
    · intro payload2 _
      refine ⟨input, build, hin, hb, ?_⟩
      by_cases hd : build.Transition = .Delete
      · simp [List.filter_append, List.filter_cons, filter_isPublish_of_inserts lins h4,
          Event.isPublish, hd]
      · simp [List.filter_append, List.filter_cons, filter_isPublish_of_inserts lins h4,
          Event.isPublish, hd]
    · intro hno
      exact absurd hty (hno payload)
  · rename_i hty
    obtain ⟨w1, argC, lins, -, -, -, h4, h5, h6⟩ :=
      CompleteJob.templateDryRun_ok env server jobID _ w w2 h
    refine ⟨lins ++ [Event.UpdateProvisionerJobWithCompleteByID argC], ?_, ?_, ?_⟩
    · rw [h6, h5, List.append_assoc]
    · intro payload hp; rw [hty] at hp; cases hp
    · intro _
      rw [List.filter_append, filter_isPublish_of_inserts lins h4]
      rfl
  · simp at h
  · simp at h

end Publications

section Publications2

variable {σ π : Type}

/-- The publications of a successful run.  A successful `FailJob` and a
successful `CompleteJob` publish the end-of-logs sentinel on the log channel of the job exactly once,
as their last publication.  A successful `CompleteJob` with a workspace-build
payload publishes before it exactly one empty message on the channel of the
workspace of the build; a successful `FailJob` with a workspace-build payload
does so when the payload carries a state, on the channel of the workspace of
the row the update of the build returned, and publishes nothing but the
sentinel when the payload carries no state.  With any other payload the
sentinel is the only publication. -/
theorem publications_of_success (env : Env σ) (server : Server σ π) (w : World σ π) :
    (∀ failJob : proto.FailedJob, (FailJob env server failJob w).1 = .ok {} →
      ∃ jobID job l,
        env.uuidParse failJob.JobId = .ok jobID
        ∧ server.Database.GetProvisionerJobByID jobID w.db = .ok job
        ∧ (FailJob env server failJob w).2.trace = w.trace ++ l
        ∧ (∀ workspaceBuild state, failJob.Type_ = some (.WorkspaceBuild_ workspaceBuild) →
            workspaceBuild.State = some state →
            ∃ input build db,
              env.unmarshalWorkspaceProvisionJob job.Input = .ok input
              ∧ (server.Database.UpdateWorkspaceBuildByID
                  { ID := input.WorkspaceBuildID, UpdatedAt := env.clock (w.ticks + 2),
                    ProvisionerState := some state } db).1 = .ok build
              ∧ l.filter Event.isPublish
                  = [Event.Publish (codersdk.WorkspaceNotifyChannel build.WorkspaceID) "",
                      endOfLogs jobID])
        ∧ ((∀ workspaceBuild state, failJob.Type_ = some (.WorkspaceBuild_ workspaceBuild) →
            workspaceBuild.State ≠ some state) →
            l.filter Event.isPublish = [endOfLogs jobID]))
    ∧ (∀ completed : proto.CompletedJob, (CompleteJob env server completed w).1 = .ok {} →
      ∃ jobID job l,
        env.uuidParse completed.JobId = .ok jobID
        ∧ server.Database.GetProvisionerJobByID jobID w.db = .ok job
        ∧ (CompleteJob env server completed w).2.trace = w.trace ++ l
        ∧ (∀ payload, completed.Type_ = some (.WorkspaceBuild_ payload) →
            ∃ input build,
              env.unmarshalWorkspaceProvisionJob job.Input = .ok input
              ∧ server.Database.GetWorkspaceBuildByID input.WorkspaceBuildID w.db = .ok build
              ∧ l.filter Event.isPublish
                  = [Event.Publish (codersdk.WorkspaceNotifyChannel build.WorkspaceID) "",
                      endOfLogs jobID])
        ∧ ((∀ payload, completed.Type_ ≠ some (.WorkspaceBuild_ payload)) →
            l.filter Event.isPublish = [endOfLogs jobID])) := by
  constructor
  · intro failJob hok
    cases hid : env.uuidParse failJob.JobId with
    | error err => simp [FailJob, hid] at hok
    | ok jobID =>
    rcases FailJob.failJob_run_cases env server failJob w jobID hid with
      ⟨-, err, he⟩ | ⟨job, job1, arg, wC, w2, hjob, hin1, -, -, hCt, hticks, -, hrest⟩
    · rw [he] at hok; cases hok
    rcases hrest with ⟨-, err, he⟩ | ⟨-, ⟨err, -, hres⟩ | ⟨hsw, h2, -⟩⟩
    · rw [he] at hok; cases hok
    · rw [hres] at hok; cases hok
    obtain ⟨lj, hlj, -, hnone⟩ := FailJob.jobType_spec env server job1 failJob wC
    rw [hsw] at hlj hnone
    dsimp only at hlj
    obtain ⟨hA, hB⟩ := hnone rfl
    refine ⟨jobID, job, [Event.GetProvisionerJobByID jobID,
      Event.UpdateProvisionerJobWithCompleteByID arg] ++ lj ++ [endOfLogs jobID], rfl, hjob,
      ?_, ?_, ?_⟩
    · rw [h2]
      simp only [hlj, hCt, List.append_assoc]
    · intro wb state hty hst
      obtain ⟨input, build, hin, hb, hl⟩ := hA wb state hty hst
      rw [hin1] at hin
      simp only [databaseNow, hticks] at hb
      refine ⟨input, build, wC.db, hin, hb, ?_⟩
      rw [hl]
      simp [List.filter_cons, Event.isPublish, endOfLogs]
    · intro hno
      rw [hB hno]
      simp [List.filter_cons, Event.isPublish, endOfLogs]
  · intro completed hok
    cases hid : env.uuidParse completed.JobId with
    | error err => simp [CompleteJob, hid] at hok
    | ok jobID =>
    rcases CompleteJob.completeJob_run_cases env server completed w jobID hid with
      ⟨-, err, he⟩ | ⟨job, w2, hjob, -, hrest⟩
    · rw [he] at hok; cases hok
    rcases hrest with ⟨err, -, hres⟩ | ⟨hsw, h2, -⟩
    · rw [hres] at hok; cases hok
    obtain ⟨lj, hlj, hA, hB⟩ :=
      CompleteJob.jobType_publications env server jobID job completed _ w2 hsw
    refine ⟨jobID, job, [Event.GetProvisionerJobByID jobID] ++ lj ++ [endOfLogs jobID], rfl,
      hjob, ?_, ?_, ?_⟩
    · rw [h2]
      simp only [hlj, World.record_trace, List.append_assoc]
    · intro payload hty
      obtain ⟨input, build, hin, hb, hl⟩ := hA payload hty
      refine ⟨input, build, hin, hb, ?_⟩
      simp only [List.filter_append, hl]
      simp [List.filter_cons, Event.isPublish, endOfLogs]
    · intro hno
      simp only [List.filter_append, hB hno]
      simp [List.filter_cons, Event.isPublish, endOfLogs]

end Publications2

/-- The publications of `FailJob` by the owner with a workspace-build payload
that carries a state: on the channel of workspace ws, then the sentinel. -/
theorem publications_of_success_witness :
    ∃ jobID job l,
      (buildEnv fun n => 100 + n).uuidParse "j" = .ok jobID
      ∧ (sampleServer ⟨"a"⟩ 10).Database.GetProvisionerJobByID jobID
          (buildWorld sampleBuild sampleWorkspace).db = .ok job
      ∧ (FailJob (buildEnv fun n => 100 + n) (sampleServer ⟨"a"⟩ 10)
          { JobId := "j", Error := "boom",
            Type_ := some (.WorkspaceBuild_ { State := some [1, 2] }) }
          (buildWorld sampleBuild sampleWorkspace)).2.trace
          = (buildWorld sampleBuild sampleWorkspace).trace ++ l
      ∧ (∀ workspaceBuild state,
          (some (proto.FailedJob_Type.WorkspaceBuild_ { State := some [1, 2] }))
            = some (.WorkspaceBuild_ workspaceBuild) →
          workspaceBuild.State = some state →
          ∃ input build db,
            (buildEnv fun n => 100 + n).unmarshalWorkspaceProvisionJob job.Input = .ok input
            ∧ ((sampleServer ⟨"a"⟩ 10).Database.UpdateWorkspaceBuildByID
                { ID := input.WorkspaceBuildID,
                  UpdatedAt := (buildEnv fun n => 100 + n).clock
                    ((buildWorld sampleBuild sampleWorkspace).ticks + 2),
                  ProvisionerState := some state } db).1 = .ok build
            ∧ l.filter Event.isPublish
                = [Event.Publish (codersdk.WorkspaceNotifyChannel build.WorkspaceID) "",
                    endOfLogs jobID])
      ∧ ((∀ workspaceBuild state,
          (some (proto.FailedJob_Type.WorkspaceBuild_ { State := some [1, 2] }))
            = some (.WorkspaceBuild_ workspaceBuild) →
          workspaceBuild.State ≠ some state) →
          l.filter Event.isPublish = [endOfLogs jobID]) :=
  (publications_of_success (buildEnv fun n => 100 + n) (sampleServer ⟨"a"⟩ 10)
    (buildWorld sampleBuild sampleWorkspace)).1
    { JobId := "j", Error := "boom", Type_ := some (.WorkspaceBuild_ { State := some [1, 2] }) }
    (by decide)

/-- C13, at a failing input.  `FailJob` by the owner with a workspace-build
payload that carries no state succeeds and publishes the end-of-logs sentinel
only: there is no publication on the channel of workspace ws.  The same call
with a state in the payload, and `CompleteJob` for the same build with no
state in its payload, both publish the empty notification on the channel of
workspace ws before the sentinel. -/
theorem failJob_without_state_publishes_sentinel_only :
    (FailJob (buildEnv fun n => 100 + n) (sampleServer ⟨"a"⟩ 10)
        { JobId := "j", Error := "boom", Type_ := some (.WorkspaceBuild_ { State := none }) }
        (buildWorld sampleBuild sampleWorkspace)).1 = .ok {}
    ∧ (FailJob (buildEnv fun n => 100 + n) (sampleServer ⟨"a"⟩ 10)
        { JobId := "j", Error := "boom", Type_ := some (.WorkspaceBuild_ { State := none }) }
        (buildWorld sampleBuild sampleWorkspace)).2.trace.filter Event.isPublish
      = [endOfLogs ⟨"j"⟩]
    ∧ (FailJob (buildEnv fun n => 100 + n) (sampleServer ⟨"a"⟩ 10)
        { JobId := "j", Error := "boom", Type_ := some (.WorkspaceBuild_ { State := none }) }
        (buildWorld sampleBuild sampleWorkspace)).2.ps
      = [("provisioner-log-logs:j", "\x7b\"created_after\":0,\"end_of_logs\":true\x7d")]
    ∧ Event.Publish (codersdk.WorkspaceNotifyChannel ⟨"ws"⟩) ""
      ∉ (FailJob (buildEnv fun n => 100 + n) (sampleServer ⟨"a"⟩ 10)
        { JobId := "j", Error := "boom", Type_ := some (.WorkspaceBuild_ { State := none }) }
        (buildWorld sampleBuild sampleWorkspace)).2.trace
    ∧ (FailJob (buildEnv fun n => 100 + n) (sampleServer ⟨"a"⟩ 10)
        { JobId := "j", Error := "boom",
          Type_ := some (.WorkspaceBuild_ { State := some [1, 2] }) }
        (buildWorld sampleBuild sampleWorkspace)).2.trace.filter Event.isPublish
      = [Event.Publish (codersdk.WorkspaceNotifyChannel ⟨"ws"⟩) "", endOfLogs ⟨"j"⟩]
    ∧ (CompleteJob (buildEnv fun n => 100 + n) (sampleServer ⟨"a"⟩ 10)
        { JobId := "j", Type_ := some (.WorkspaceBuild_ { State := none }) }
        (buildWorld sampleBuild sampleWorkspace)).2.trace.filter Event.isPublish
      = [Event.Publish (codersdk.WorkspaceNotifyChannel ⟨"ws"⟩) "", endOfLogs ⟨"j"⟩] := by
  decide

section Sentinel

variable {σ π : Type}

/-- C14, as amended.  The end-of-logs sentinel is exactly the JSON object with
the two keys `created_after`, whose value is 0, and `end_of_logs`, whose value
is true; and the last call of every successful `FailJob` and of every
successful `CompleteJob` is the publication of that text on the log channel of
the job. -/
theorem endOfLogs_payload (env : Env σ) (server : Server σ π) (w : World σ π) :
    ProvisionerJobLogsNotifyMessage.Marshal { EndOfLogs := true }
        = "\x7b\"created_after\":0,\"end_of_logs\":true\x7d"
    ∧ (∀ failJob : proto.FailedJob, (FailJob env server failJob w).1 = .ok {} →
        ∃ jobID, env.uuidParse failJob.JobId = .ok jobID
          ∧ (FailJob env server failJob w).2.trace.getLast?
              = some (Event.Publish ("provisioner-log-logs:" ++ jobID.String)
                  "\x7b\"created_after\":0,\"end_of_logs\":true\x7d"))
    ∧ (∀ completed : proto.CompletedJob, (CompleteJob env server completed w).1 = .ok {} →
        ∃ jobID, env.uuidParse completed.JobId = .ok jobID
          ∧ (CompleteJob env server completed w).2.trace.getLast?
              = some (Event.Publish ("provisioner-log-logs:" ++ jobID.String)
                  "\x7b\"created_after\":0,\"end_of_logs\":true\x7d")) := by
  have htext : ∀ jobID : uuid.UUID, endOfLogs jobID
      = Event.Publish ("provisioner-log-logs:" ++ jobID.String)
          "\x7b\"created_after\":0,\"end_of_logs\":true\x7d" := fun _ => rfl
  refine ⟨rfl, ?_, ?_⟩
  · intro failJob hok
    cases hid : env.uuidParse failJob.JobId with
    | error err => simp [FailJob, hid] at hok
    | ok jobID =>
    rcases FailJob.failJob_run_cases env server failJob w jobID hid with
      ⟨-, err, he⟩ | ⟨job, job1, arg, wC, w2, -, -, -, -, -, -, -, hrest⟩
    · rw [he] at hok; cases hok
    rcases hrest with ⟨-, err, he⟩ | ⟨-, ⟨err, -, hres⟩ | ⟨-, h2, -⟩⟩
    · rw [he] at hok; cases hok
    · rw [hres] at hok; cases hok
    refine ⟨jobID, rfl, ?_⟩
    rw [h2, ← htext]
    simp
  · intro completed hok
    cases hid : env.uuidParse completed.JobId with
    | error err => simp [CompleteJob, hid] at hok
    | ok jobID =>
    rcases CompleteJob.completeJob_run_cases env server completed w jobID hid with
      ⟨-, err, he⟩ | ⟨job, w2, -, -, hrest⟩
    · rw [he] at hok; cases hok
    rcases hrest with ⟨err, -, hres⟩ | ⟨-, h2, -⟩
    · rw [hres] at hok; cases hok
    refine ⟨jobID, rfl, ?_⟩
    rw [h2, ← htext]
    simp

end Sentinel

/-- Witness for C14: `CompleteJob` by the owner of job j with an empty
template-import payload succeeds. -/
theorem endOfLogs_payload_witness :
    ∃ jobID, (sampleEnv fun n => 100 + n).uuidParse "j" = .ok jobID
      ∧ (CompleteJob (sampleEnv fun n => 100 + n) (sampleServer ⟨"a"⟩ 10)
          { JobId := "j", Type_ := some (.TemplateImport_ {}) }
          (sampleWorld [runningJob])).2.trace.getLast?
          = some (Event.Publish ("provisioner-log-logs:" ++ jobID.String)
              "\x7b\"created_after\":0,\"end_of_logs\":true\x7d") :=
  (endOfLogs_payload (sampleEnv fun n => 100 + n) (sampleServer ⟨"a"⟩ 10)
    (sampleWorld [runningJob])).2.2
    { JobId := "j", Type_ := some (.TemplateImport_ {}) } (by decide)

/-- Counterexample to C14 as stated.  The sentinel is not the object with the
single key `end_of_logs`: the field `CreatedAfter` has no `omitempty` and is
written too.  `FailJob` by the owner of job j publishes the two-key text. -/
theorem endOfLogs_payload_not_single_key :
    ProvisionerJobLogsNotifyMessage.Marshal { EndOfLogs := true }
        ≠ "\x7b\"end_of_logs\":true\x7d"
    ∧ (FailJob (sampleEnv fun n => 100 + n) (sampleServer ⟨"a"⟩ 10)
        { JobId := "j", Error := "boom" } (sampleWorld [runningJob])).1 = .ok {}
    ∧ (FailJob (sampleEnv fun n => 100 + n) (sampleServer ⟨"a"⟩ 10)
        { JobId := "j", Error := "boom" } (sampleWorld [runningJob])).2.ps
      = [("provisioner-log-logs:j", "\x7b\"created_after\":0,\"end_of_logs\":true\x7d")] := by
  decide

/-! ## The log publication of `UpdateJob` -/

section UpdateJobLogs

variable {σ π : Type}

/-- Store calls are no publications. -/
theorem filter_isPublish_of_store (l : List Event)
    (h : ∀ e ∈ l, e.isStoreCall = true) : l.filter Event.isPublish = [] := by
  induction l with
  | nil => rfl
  | cons e rest ih =>
    have hp : e.isPublish = false :=
      Event.isPublish_of_isStoreCall e (h e (List.mem_cons_self _ _))
    rw [List.filter_cons, hp]
    simpa using ih fun e' he' => h e' (List.mem_cons_of_mem _ he')

/-- For an id above the smallest int64, the id minus one is computed without
wrapping. -/
theorem int64.wrap_pred (n : Int) (hlow : -(2 ^ 63) < n) (hhigh : n < 2 ^ 63) :
    int64.wrap (n - 1) = n - 1 := by
  unfold int64.wrap
  have h0 : (0 : Int) ≤ n - 1 + 2 ^ 63 := by linarith
  have h1 : n - 1 + 2 ^ 63 < 2 ^ 64 := by
    have : (2 : Int) ^ 64 = 2 ^ 63 + 2 ^ 63 := by norm_num
    linarith
  rw [Int.emod_eq_of_lt h0 h1]
  ring

/-- The loop over the logs keeps the job id of the insert. -/
theorem UpdateJob.logParams_JobID (logs : List proto.Log) :
    ∀ (insertParams result : database.InsertProvisionerJobLogsParams),
      UpdateJob.logParams insertParams logs = .ok result → result.JobID = insertParams.JobID := by
  induction logs with
  | nil =>
    intro insertParams result h
    simp only [UpdateJob.logParams] at h
    cases h
    rfl
  | cons log rest ih =>
    intro insertParams result h
    unfold UpdateJob.logParams at h
    split at h
    · cases h
    split at h
    · cases h
    have hr := ih _ result h
    exact hr

/-- What the log block of `UpdateJob` did when it returned nil on a non-empty
list of logs: one bulk insert for the job, then one publication on the log
channel of the job, whose `created_after` is the id of the first row the
store returned, minus one. -/
theorem UpdateJob.logs_ok (server : Server σ π) (parsedID : uuid.UUID)
    (request : proto.UpdateJobRequest) (w w1 : World σ π) (hlogs : request.Logs ≠ [])
    (h : UpdateJob.logs server parsedID request w = (none, w1)) :
    ∃ insertParams first rest,
      insertParams.JobID = parsedID
      ∧ (server.Database.InsertProvisionerJobLogs insertParams w.db).1 = .ok (first :: rest)
      ∧ w1.trace = w.trace ++
          [Event.InsertProvisionerJobLogs insertParams,
            Event.Publish (ProvisionerJobLogsNotifyChannel parsedID)
              (ProvisionerJobLogsNotifyMessage.Marshal
                { CreatedAfter := int64.wrap (first.ID - 1) })] := by
  unfold UpdateJob.logs at h
  have hlen : request.Logs.length > 0 := List.length_pos.2 hlogs
  rw [if_pos hlen] at h
  split at h
  · simp at h
  rename_i insertParams hparams
  simp only [World.write, World.publish] at h
  split at h
  · simp at h
  rename_i logs w2 heq
  obtain ⟨hins, rfl⟩ := Prod.mk.inj heq
  split at h
  · simp at h
  rename_i first rest
  split at h
  · simp at h
  rename_i heq2
  obtain ⟨-, rfl⟩ := Prod.mk.inj heq2
  obtain ⟨-, rfl⟩ := Prod.mk.inj h
  exact ⟨insertParams, first, rest, UpdateJob.logParams_JobID _ _ _ hparams, hins,
    List.append_assoc _ _ _⟩

/-- The readme block of `UpdateJob` makes store calls only. -/
theorem UpdateJob.readme_via (env : Env σ) (server : Server σ π)
    (job : database.ProvisionerJob) (request : proto.UpdateJobRequest) (w : World σ π) :
    World.Via (fun e => e.isStoreCall = true) w (UpdateJob.readme env server job request w).2 := by
  unfold UpdateJob.readme
  simp only [World.write]
  split
  swap
  · exact World.Via.via_refl _ w
  split
  · rename_i heq; obtain ⟨-, rfl⟩ := Prod.mk.inj heq
    exact World.Via.via_step _ _ _ _ rfl rfl rfl rfl
  · rename_i heq; obtain ⟨-, rfl⟩ := Prod.mk.inj heq
    exact World.Via.via_step _ _ _ _ rfl rfl rfl rfl

/-- The schema loop of `UpdateJob` makes store calls only. -/
theorem UpdateJob.insertSchemas_via (env : Env σ) (server : Server σ π)
    (job : database.ProvisionerJob) (schemas : List sdkproto.ParameterSchema) :
    ∀ (index : Nat) (w : World σ π),
      World.Via (fun e => e.isStoreCall = true) w
        (UpdateJob.insertSchemas env server job index schemas w).2 := by
  induction schemas with
  | nil => intro index w; exact World.Via.via_refl _ w
  | cons protoParameter rest ih =>
    intro index w
    unfold UpdateJob.insertSchemas
    simp only [World.write]
    split
    · exact World.Via.via_refl _ w
    split
    · exact World.Via.via_same _ _ _ rfl rfl rfl
    split
    · exact World.Via.via_same _ _ _ rfl rfl rfl
    split
    · rename_i heq; obtain ⟨-, rfl⟩ := Prod.mk.inj heq
      exact World.Via.via_step _ _ _ _ rfl rfl rfl rfl
    rename_i heq; obtain ⟨-, rfl⟩ := Prod.mk.inj heq
    refine World.Via.via_trans ?_ (ih _ _)
    exact World.Via.via_step _ _ _ _ rfl rfl rfl rfl

/-- The lookup of the template id in `UpdateJob` makes store calls only. -/
theorem UpdateJob.templateID_via (server : Server σ π) (job : database.ProvisionerJob)
    (w : World σ π) :
    World.Via (fun e => e.isStoreCall = true) w (UpdateJob.templateID server job w).2 := by
  unfold UpdateJob.templateID
  simp only [World.read]
  split
  swap
  · exact World.Via.via_refl _ w
  split
  · rename_i heq; obtain ⟨-, rfl⟩ := Prod.mk.inj heq
    exact World.Via.via_step _ _ _ _ rfl rfl rfl rfl
  · rename_i heq; obtain ⟨-, rfl⟩ := Prod.mk.inj heq
    exact World.Via.via_step _ _ _ _ rfl rfl rfl rfl

/-- The schema block of `UpdateJob` makes store calls only. -/
theorem UpdateJob.parameterSchemas_via (env : Env σ) (server : Server σ π)
    (job : database.ProvisionerJob) (request : proto.UpdateJobRequest) (w : World σ π) :
    World.Via (fun e => e.isStoreCall = true) w
      (UpdateJob.parameterSchemas env server job request w).2 := by
  unfold UpdateJob.parameterSchemas
  have h1 := UpdateJob.insertSchemas_via env server job request.ParameterSchemas 0 w
  split
  · rename_i heq; rw [heq] at h1; exact h1
  rename_i w1 heq
  rw [heq] at h1
  have h2 := UpdateJob.templateID_via server job w1
  split
  · rename_i heq; rw [heq] at h2; exact h1.via_trans h2
  rename_i w2 heq
  rw [heq] at h2
  have h12 : World.Via (fun e => e.isStoreCall = true) w w2 := h1.via_trans h2
  simp only [World.read]
  split
  · rename_i heq; obtain ⟨-, rfl⟩ := Prod.mk.inj heq
    exact h12.via_record _ rfl
  rename_i heq; obtain ⟨-, rfl⟩ := Prod.mk.inj heq
  split
  · exact h12.via_record _ rfl
  · exact h12.via_record _ rfl

end UpdateJobLogs

section UpdateJobLogs2

variable {σ π : Type}

/-- C15, as amended.  A successful `UpdateJob` with a non-empty list of logs
makes one bulk insert for the job and publishes exactly one message, on the
log channel of the job; its `created_after` is the id of the first row the
store returned for the insert, minus one, computed in int64: the id minus one
for every id above the smallest int64.  That is the lowest inserted id minus
one when the store returns the rows in ascending order of id. -/
theorem updateJob_log_publication (env : Env σ) (server : Server σ π)
    (request : proto.UpdateJobRequest) (w : World σ π) (resp : proto.UpdateJobResponse)
    (hok : (UpdateJob env server request w).1 = .ok resp) (hlogs : request.Logs ≠ []) :
    ∃ jobID insertParams db first rest l,
      env.uuidParse request.JobId = .ok jobID
      ∧ insertParams.JobID = jobID
      ∧ (server.Database.InsertProvisionerJobLogs insertParams db).1 = .ok (first :: rest)
      ∧ (UpdateJob env server request w).2.trace = w.trace ++ l
      ∧ Event.InsertProvisionerJobLogs insertParams ∈ l
      ∧ l.filter Event.isPublish
          = [Event.Publish (ProvisionerJobLogsNotifyChannel jobID)
              (ProvisionerJobLogsNotifyMessage.Marshal
                { CreatedAfter := int64.wrap (first.ID - 1) })]
      ∧ (-(2 ^ 63) < first.ID → first.ID < 2 ^ 63 →
          int64.wrap (first.ID - 1) = first.ID - 1)
      ∧ ((first :: rest).Pairwise (fun a b => a.ID ≤ b.ID) →
          ∀ row ∈ first :: rest, first.ID ≤ row.ID) := by
  have hsorted : ∀ (first : database.ProvisionerJobLog) (rest : List database.ProvisionerJobLog),
      (first :: rest).Pairwise (fun a b => a.ID ≤ b.ID) →
        ∀ row ∈ first :: rest, first.ID ≤ row.ID := by
    intro first rest hp row hrow
    rcases List.mem_cons.1 hrow with rfl | hrow
    · exact le_refl _
    · exact (List.pairwise_cons.1 hp).1 row hrow
  cases hid : env.uuidParse request.JobId with
  | error err => simp [UpdateJob, hid] at hok
  | ok jobID =>
  generalize hr : UpdateJob env server request w = r at hok ⊢
  unfold UpdateJob at hr
  simp only [hid, World.read] at hr
  split at hr
  · subst hr; cases hok
  rename_i job w1 heq
  obtain ⟨-, rfl⟩ := Prod.mk.inj heq
  split at hr
  · subst hr; cases hok
  split at hr
  · subst hr; cases hok
  simp only [World.write] at hr
  split at hr
  · subst hr; cases hok
  rename_i u w2 heq
  obtain ⟨-, rfl⟩ := Prod.mk.inj heq
  split at hr
  · subst hr; cases hok
  rename_i w3 hlog
  obtain ⟨insertParams, first, rest, h1, h2, h3⟩ :=
    UpdateJob.logs_ok server jobID request _ w3 hlogs hlog
  have hpre : ∃ pre, w3.trace = w.trace ++ pre
      ∧ Event.InsertProvisionerJobLogs insertParams ∈ pre
      ∧ pre.filter Event.isPublish
        = [Event.Publish (ProvisionerJobLogsNotifyChannel jobID)
            (ProvisionerJobLogsNotifyMessage.Marshal
              { CreatedAfter := int64.wrap (first.ID - 1) })] :=
    ⟨[Event.GetProvisionerJobByID jobID,
        Event.UpdateProvisionerJobByID
          { ID := jobID, UpdatedAt := databaseNow env (w.record (.GetProvisionerJobByID jobID)) },
        Event.InsertProvisionerJobLogs insertParams,
        Event.Publish (ProvisionerJobLogsNotifyChannel jobID)
          (ProvisionerJobLogsNotifyMessage.Marshal
            { CreatedAfter := int64.wrap (first.ID - 1) })],
      by rw [h3]; simp [World.record, World.tick], by simp,
      by simp [List.filter_cons, Event.isPublish]⟩
  obtain ⟨pre, hpre, hmempre, hpubpre⟩ := hpre
  have hfin : ∀ w5 : World σ π, World.Via (fun e => e.isStoreCall = true) w3 w5 →
      ∃ l, w5.trace = w.trace ++ l
        ∧ Event.InsertProvisionerJobLogs insertParams ∈ l
        ∧ l.filter Event.isPublish
          = [Event.Publish (ProvisionerJobLogsNotifyChannel jobID)
              (ProvisionerJobLogsNotifyMessage.Marshal
                { CreatedAfter := int64.wrap (first.ID - 1) })] := by
    intro w5 hv
    obtain ⟨l5, hl5, hP5⟩ := hv.trace
    refine ⟨pre ++ l5, by rw [hl5, hpre, List.append_assoc],
      List.mem_append_left _ hmempre, ?_⟩
    rw [List.filter_append, filter_isPublish_of_store l5 hP5, hpubpre]
    rfl
  have hv4 := UpdateJob.readme_via env server job request w3
  split at hr
  · subst hr; cases hok
  rename_i w4 hreadme
  rw [hreadme] at hv4
  split at hr
  · have hv5 := hv4.via_trans (UpdateJob.parameterSchemas_via env server job request w4)
    rw [hr] at hv5
    obtain ⟨l, hl, hmem, hpub⟩ := hfin _ hv5
    exact ⟨jobID, insertParams, _, first, rest, l, rfl, h1, h2, hl, hmem, hpub,
      int64.wrap_pred first.ID, hsorted first rest⟩
  · subst hr
    obtain ⟨l, hl, hmem, hpub⟩ := hfin _ hv4
    exact ⟨jobID, insertParams, _, first, rest, l, rfl, h1, h2, hl, hmem, hpub,
      int64.wrap_pred first.ID, hsorted first rest⟩

end UpdateJobLogs2

/-- Witness for C15: `UpdateJob` by the owner of job j with three logs, over
the in-memory store, which returns the rows 1, 2, 3 in that order: the message
published carries `created_after` 0.  At the smallest int64 the subtraction
wraps to the largest. -/
theorem updateJob_log_publication_witness :
    (∃ jobID insertParams db first rest l,
      (sampleEnv fun n => 100 + n).uuidParse "j" = .ok jobID
      ∧ insertParams.JobID = jobID
      ∧ ((sampleServer ⟨"a"⟩ 10).Database.InsertProvisionerJobLogs insertParams db).1
          = .ok (first :: rest)
      ∧ (UpdateJob (sampleEnv fun n => 100 + n) (sampleServer ⟨"a"⟩ 10)
          { JobId := "j", Logs := [{ Output := "x" }, { Output := "y" }, { Output := "z" }] }
          (sampleWorld [runningJob])).2.trace = (sampleWorld [runningJob]).trace ++ l
      ∧ Event.InsertProvisionerJobLogs insertParams ∈ l
      ∧ l.filter Event.isPublish
          = [Event.Publish (ProvisionerJobLogsNotifyChannel jobID)
              (ProvisionerJobLogsNotifyMessage.Marshal
                { CreatedAfter := int64.wrap (first.ID - 1) })]
      ∧ (-(2 ^ 63) < first.ID → first.ID < 2 ^ 63 →
          int64.wrap (first.ID - 1) = first.ID - 1)
      ∧ ((first :: rest).Pairwise (fun a b => a.ID ≤ b.ID) →
          ∀ row ∈ first :: rest, first.ID ≤ row.ID))
    ∧ (UpdateJob (sampleEnv fun n => 100 + n) (sampleServer ⟨"a"⟩ 10)
        { JobId := "j", Logs := [{ Output := "x" }, { Output := "y" }, { Output := "z" }] }
        (sampleWorld [runningJob])).2.ps
      = [("provisioner-log-logs:j", "\x7b\"created_after\":0\x7d")]
    ∧ ProvisionerJobLogsNotifyMessage.Marshal { CreatedAfter := int64.wrap (41 - 1) }
      = "\x7b\"created_after\":40\x7d"
    ∧ ProvisionerJobLogsNotifyMessage.Marshal { CreatedAfter := int64.wrap (-(2 ^ 63) - 1) }
      = "\x7b\"created_after\":9223372036854775807\x7d" :=
  ⟨updateJob_log_publication (sampleEnv fun n => 100 + n) (sampleServer ⟨"a"⟩ 10)
      { JobId := "j", Logs := [{ Output := "x" }, { Output := "y" }, { Output := "z" }] }
      (sampleWorld [runningJob]) { Canceled := false } (by decide) (by decide),
    by decide, by decide, by decide⟩

/-- Counterexample to C15 as stated.  Over a store that returns the inserted
rows highest id first, `UpdateJob` by the owner of job j with three logs
succeeds; the rows inserted have the ids 1, 2 and 3, and the one message
published carries `created_after` 2, not 0: the code reads the id of the first
row returned. -/
theorem updateJob_created_after_first_returned :
    (UpdateJob (sampleEnv fun n => 100 + n)
        { sampleServer ⟨"a"⟩ 10 with Database := reversedLogsStore }
        { JobId := "j", Logs := [{ Output := "x" }, { Output := "y" }, { Output := "z" }] }
        (sampleWorld [runningJob])).1 = .ok { Canceled := false }
    ∧ ((UpdateJob (sampleEnv fun n => 100 + n)
        { sampleServer ⟨"a"⟩ 10 with Database := reversedLogsStore }
        { JobId := "j", Logs := [{ Output := "x" }, { Output := "y" }, { Output := "z" }] }
        (sampleWorld [runningJob])).2.db.provisionerJobLogs.map fun row => row.ID) = [1, 2, 3]
    ∧ (UpdateJob (sampleEnv fun n => 100 + n)
        { sampleServer ⟨"a"⟩ 10 with Database := reversedLogsStore }
        { JobId := "j", Logs := [{ Output := "x" }, { Output := "y" }, { Output := "z" }] }
        (sampleWorld [runningJob])).2.ps
      = [("provisioner-log-logs:j", "\x7b\"created_after\":2\x7d")]
    ∧ ProvisionerJobLogsNotifyMessage.Marshal { CreatedAfter := 1 - 1 }
      = "\x7b\"created_after\":0\x7d" := by
  decide

/-! ## App slugs and atomicity of `CompleteJob` -/

/-- C16, at a failing input.  `CompleteJob` by the owner of job j with a
template-import payload whose one resource has one agent with two apps of slug
ide returns the duplicate-slug error and leaves the job non-terminal, but it
runs outside a transaction: the resource row, the agent row and the first app
row it wrote remain in the store.  With the two apps under two resources it
returns no error at all. -/
theorem completeJob_duplicate_slug_rows_remain :
    (CompleteJob (sampleEnv fun n => 100 + n) (sampleServer ⟨"a"⟩ 10)
        { JobId := "j", Type_ := some (.TemplateImport_ { StartResources := [twiceIdeResource] }) }
        (sampleWorld [runningJob])).1
      = .error (.wrap "insert resource"
          (.new ("duplicate app slug, must be unique per template: " ++ String.quote "ide")))
    ∧ (CompleteJob (sampleEnv fun n => 100 + n) (sampleServer ⟨"a"⟩ 10)
        { JobId := "j", Type_ := some (.TemplateImport_ { StartResources := [twiceIdeResource] }) }
        (sampleWorld [runningJob])).2.db.provisionerJobs = [runningJob]
    ∧ ((CompleteJob (sampleEnv fun n => 100 + n) (sampleServer ⟨"a"⟩ 10)
        { JobId := "j", Type_ := some (.TemplateImport_ { StartResources := [twiceIdeResource] }) }
        (sampleWorld [runningJob])).2.db.workspaceResources.map fun row => row.Name) = ["dev"]
    ∧ ((CompleteJob (sampleEnv fun n => 100 + n) (sampleServer ⟨"a"⟩ 10)
        { JobId := "j", Type_ := some (.TemplateImport_ { StartResources := [twiceIdeResource] }) }
        (sampleWorld [runningJob])).2.db.workspaceAgents.map fun row => row.Name) = ["main"]
    ∧ ((CompleteJob (sampleEnv fun n => 100 + n) (sampleServer ⟨"a"⟩ 10)
        { JobId := "j", Type_ := some (.TemplateImport_ { StartResources := [twiceIdeResource] }) }
        (sampleWorld [runningJob])).2.db.workspaceApps.map fun row => row.Slug) = ["ide"]
    ∧ (sampleWorld [runningJob]).db.workspaceResources = []
    ∧ Event.InTxBegin ∉ (CompleteJob (sampleEnv fun n => 100 + n) (sampleServer ⟨"a"⟩ 10)
        { JobId := "j", Type_ := some (.TemplateImport_ { StartResources := [twiceIdeResource] }) }
        (sampleWorld [runningJob])).2.trace
    ∧ (CompleteJob (sampleEnv fun n => 100 + n) (sampleServer ⟨"a"⟩ 10)
        { JobId := "j",
          Type_ := some (.TemplateImport_
            { StartResources := [ideResource "one", ideResource "two"] }) }
        (sampleWorld [runningJob])).1 = .ok {} :=
  ⟨rfl, by decide, by decide, by decide, by decide, by decide, by decide, by decide⟩

/-- C17, at a failing input.  `CompleteJob` by the owner of job j with a
template-import payload of two resources, each with one agent that has an app
of slug ide, succeeds and inserts two app rows with the slug ide, under two
agents: the set of slugs seen is created anew for every resource, although the
error it guards is "duplicate app slug, must be unique per template". -/
theorem completeJob_duplicate_slug_across_resources :
    (CompleteJob (sampleEnv fun n => 100 + n) (sampleServer ⟨"a"⟩ 10)
        { JobId := "j",
          Type_ := some (.TemplateImport_
            { StartResources := [ideResource "one", ideResource "two"] }) }
        (sampleWorld [runningJob])).1 = .ok {}
    ∧ ((CompleteJob (sampleEnv fun n => 100 + n) (sampleServer ⟨"a"⟩ 10)
        { JobId := "j",
          Type_ := some (.TemplateImport_
            { StartResources := [ideResource "one", ideResource "two"] }) }
        (sampleWorld [runningJob])).2.db.workspaceApps.map fun row => row.Slug) = ["ide", "ide"]
    ∧ ((CompleteJob (sampleEnv fun n => 100 + n) (sampleServer ⟨"a"⟩ 10)
        { JobId := "j",
          Type_ := some (.TemplateImport_
            { StartResources := [ideResource "one", ideResource "two"] }) }
        (sampleWorld [runningJob])).2.db.workspaceApps.map fun row => row.AgentID).Nodup
    ∧ ((CompleteJob (sampleEnv fun n => 100 + n) (sampleServer ⟨"a"⟩ 10)
        { JobId := "j",
          Type_ := some (.TemplateImport_
            { StartResources := [ideResource "one", ideResource "two"] }) }
        (sampleWorld [runningJob])).2.db.workspaceResources.map fun row => row.Name)
      = ["one", "two"]
    ∧ (CompleteJob (sampleEnv fun n => 100 + n) (sampleServer ⟨"a"⟩ 10)
        { JobId := "j",
          Type_ := some (.TemplateImport_
            { StartResources := [ideResource "one", ideResource "two"] }) }
        (sampleWorld [runningJob])).2.db.provisionerJobs
      = [{ runningJob with UpdatedAt := 108, CompletedAt := { Time := 109, Valid := true } }] := by
  decide

section WorkspaceBuildCompletion

variable {σ π : Type}

/-- The calls of a successful `CompleteJob` with a workspace-build payload, in
order: the queries of the job and of the build, then inside the transaction
the query of the workspace, the write of the terminal state, the update of the
build, the inserts of the resources and, for a delete build only, the write of
the deleted flag; then the two publications. -/
theorem CompleteJob.workspaceBuild_success (env : Env σ) (server : Server σ π)
    (completed : proto.CompletedJob) (w : World σ π)
    (payload : proto.CompletedJob_WorkspaceBuild)
    (hok : (CompleteJob env server completed w).1 = .ok {})
    (hty : completed.Type_ = some (.WorkspaceBuild_ payload)) :
    ∃ (jobID : uuid.UUID) (job : database.ProvisionerJob) (input : WorkspaceProvisionJob)
      (build : database.WorkspaceBuild)
      (argC : database.UpdateProvisionerJobWithCompleteByIDParams) (lins : List Event),
      env.uuidParse completed.JobId = .ok jobID
      ∧ server.Database.GetProvisionerJobByID jobID w.db = .ok job
      ∧ env.unmarshalWorkspaceProvisionJob job.Input = .ok input
      ∧ server.Database.GetWorkspaceBuildByID input.WorkspaceBuildID w.db = .ok build
      ∧ (∀ e ∈ lins, e.isResourceInsert = true)
      ∧ (CompleteJob env server completed w).2.trace = w.trace ++
          ([Event.GetProvisionerJobByID jobID,
            Event.GetWorkspaceBuildByID input.WorkspaceBuildID, Event.InTxBegin,
            Event.GetWorkspaceByID build.WorkspaceID,
            Event.UpdateProvisionerJobWithCompleteByID argC,
            Event.UpdateWorkspaceBuildByID
              { ID := build.ID,
                Deadline :=
                  (match server.Database.GetWorkspaceByID build.WorkspaceID w.db with
                  | .ok workspace =>
                    if workspace.Ttl.Valid then time.Add (env.clock w.ticks) workspace.Ttl.Int64
                    else 0
                  | .error _ => 0),
                ProvisionerState := payload.State,
                UpdatedAt := env.clock w.ticks }]
            ++ lins
            ++ (if build.Transition = .Delete then
                  [Event.UpdateWorkspaceDeletedByID { ID := build.WorkspaceID, Deleted := true }]
                else [])
            ++ [Event.InTxCommit,
                Event.Publish (codersdk.WorkspaceNotifyChannel build.WorkspaceID) "",
                endOfLogs jobID]) := by
  cases hid : env.uuidParse completed.JobId with
  | error err => simp [CompleteJob, hid] at hok
  | ok jobID =>
  rcases CompleteJob.completeJob_run_cases env server completed w jobID hid with
    ⟨-, err, he⟩ | ⟨job, w2, hjob, -, hrest⟩
  · rw [he] at hok; cases hok
  rcases hrest with ⟨err, -, hres⟩ | ⟨hsw, h2, -⟩
  · rw [hres] at hok; cases hok
  unfold CompleteJob.jobType at hsw
  rw [hty] at hsw
  dsimp only at hsw
  obtain ⟨input, build, argC, lins, hin, hb, -, -, -, h4, h5⟩ :=
    CompleteJob.workspaceBuild_ok env server jobID job payload _ w2 hsw
  refine ⟨jobID, job, input, build, argC, lins, rfl, hjob, hin, hb, h4, ?_⟩
  rw [h2]
  simp only [h5, World.record_trace, List.append_assoc, List.cons_append, List.nil_append]
  rfl

end WorkspaceBuildCompletion

section WorkspaceBuildClaims

variable {σ π : Type}

/-- C18.  `CompleteJob` by the owner with a workspace-build payload, once the
job input decoded and the build was found: when the function run in the
transaction returns an error, `CompleteJob` returns that error wrapped, the
rows of the store and the state of the notifier are those before the call,
and no call it made is a publication, so neither the workspace notification
nor the end-of-logs sentinel is published.  And the function returns nil only
if each of its writes succeeded: the write of the terminal state, the update
of the build, the materialization of every resource and, for a delete build,
the write of the deleted flag. -/
theorem completeJob_workspace_build_atomic (env : Env σ) (server : Server σ π)
    (completed : proto.CompletedJob) (w : World σ π) (jobID : uuid.UUID)
    (job : database.ProvisionerJob) (payload : proto.CompletedJob_WorkspaceBuild)
    (input : WorkspaceProvisionJob) (build : database.WorkspaceBuild)
    (hid : env.uuidParse completed.JobId = .ok jobID)
    (hjob : server.Database.GetProvisionerJobByID jobID w.db = .ok job)
    (hown : job.WorkerID.UUID.String = server.ID.String)
    (hty : completed.Type_ = some (.WorkspaceBuild_ payload))
    (hinput : env.unmarshalWorkspaceProvisionJob job.Input = .ok input)
    (hbuild : server.Database.GetWorkspaceBuildByID input.WorkspaceBuildID w.db = .ok build) :
    (∀ err,
      (CompleteJob.workspaceBuildTx env server jobID job build payload
        (((w.record (.GetProvisionerJobByID jobID)).record
          (.GetWorkspaceBuildByID input.WorkspaceBuildID)).record .InTxBegin)).1 = some err →
      (CompleteJob env server completed w).1 = .error (.wrap "complete job" err)
      ∧ (CompleteJob env server completed w).2.db = w.db
      ∧ (CompleteJob env server completed w).2.ps = w.ps
      ∧ ∃ l, (CompleteJob env server completed w).2.trace = w.trace ++ l
          ∧ ∀ e ∈ l, e.isPublish = false)
    ∧ ((CompleteJob.workspaceBuildTx env server jobID job build payload
        (((w.record (.GetProvisionerJobByID jobID)).record
          (.GetWorkspaceBuildByID input.WorkspaceBuildID)).record .InTxBegin)).1 = none →
      ∃ (w1 w2 w3 w4 : World σ π) (argB : database.UpdateWorkspaceBuildByIDParams)
        (row : database.WorkspaceBuild),
        CompleteJob.markCompleted env server.Database jobID
          ((((w.record (.GetProvisionerJobByID jobID)).record
            (.GetWorkspaceBuildByID input.WorkspaceBuildID)).record .InTxBegin).tick.record
              (.GetWorkspaceByID build.WorkspaceID)) = (none, w1)
        ∧ argB.ID = build.ID
        ∧ w1.write (.UpdateWorkspaceBuildByID argB)
            (server.Database.UpdateWorkspaceBuildByID argB) = (.ok row, w2)
        ∧ CompleteJob.insertResources env server.Database job.ID build.Transition
            "insert provisioner job" payload.Resources w2 = (none, w3)
        ∧ (build.Transition ≠ .Delete → w4 = w3)
        ∧ (build.Transition = .Delete →
            w3.write (.UpdateWorkspaceDeletedByID { ID := build.WorkspaceID, Deleted := true })
              (server.Database.UpdateWorkspaceDeletedByID
                { ID := build.WorkspaceID, Deleted := true }) = (.ok (), w4))) := by
  constructor
  · intro err htx
    obtain ⟨h1, h2, h3, l, hl, hP⟩ := CompleteJob.workspaceBuild_rollback env server jobID job
      payload (w.record (.GetProvisionerJobByID jobID)) input build err hinput hbuild htx
    have hrun : CompleteJob env server completed w
        = (.error (.wrap "complete job" err),
            (CompleteJob.workspaceBuild env server jobID job payload
              (w.record (.GetProvisionerJobByID jobID))).2) := by
      unfold CompleteJob
      simp only [hid, World.read, hjob]
      rw [if_neg (by simpa using hown)]
      unfold CompleteJob.jobType
      rw [hty]
      dsimp only
      cases hwb : CompleteJob.workspaceBuild env server jobID job payload
        (w.record (.GetProvisionerJobByID jobID)) with
      | mk r w2 =>
        rw [hwb] at h1
        dsimp only at h1
        subst h1
        rfl
    rw [hrun]
    refine ⟨rfl, h2, h3, Event.GetProvisionerJobByID jobID :: l, ?_, ?_⟩
    · dsimp only
      rw [hl]
      simp
    · intro e he
      rcases List.mem_cons.1 he with rfl | he
      · rfl
      · exact hP e he
  · intro hnone
    cases hfn : CompleteJob.workspaceBuildTx env server jobID job build payload
      (((w.record (.GetProvisionerJobByID jobID)).record
        (.GetWorkspaceBuildByID input.WorkspaceBuildID)).record .InTxBegin) with
    | mk r w4 =>
      rw [hfn] at hnone
      dsimp only at hnone
      subst hnone
      obtain ⟨w1, w2, w3, row, hm, hb, hi, hne, hde⟩ :=
        CompleteJob.workspaceBuildTx_ok env server jobID job build payload _ w4 hfn
      exact ⟨w1, w2, w3, w4, _, row, hm, rfl, hb, hi, hne, hde⟩

end WorkspaceBuildClaims

/-- Witness for C18: over a store whose `UpdateWorkspaceDeletedByID` fails,
`CompleteJob` by the owner for a delete build with one resource returns the
error, and the rows and the notifier are as before the call. -/
theorem completeJob_workspace_build_atomic_witness :
    (CompleteJob (buildEnv fun n => 100 + n)
        { sampleServer ⟨"a"⟩ 10 with Database := failingDeleteStore (.new "connection lost") }
        { JobId := "j",
          Type_ := some (.WorkspaceBuild_
            { State := some [1, 2], Resources := [ideResource "dev"] }) }
        (buildWorld { sampleBuild with Transition := .Delete } sampleWorkspace)).1
      = .error (.wrap "complete job"
          (.wrap "update workspace deleted" (.new "connection lost")))
    ∧ (CompleteJob (buildEnv fun n => 100 + n)
        { sampleServer ⟨"a"⟩ 10 with Database := failingDeleteStore (.new "connection lost") }
        { JobId := "j",
          Type_ := some (.WorkspaceBuild_
            { State := some [1, 2], Resources := [ideResource "dev"] }) }
        (buildWorld { sampleBuild with Transition := .Delete } sampleWorkspace)).2.db
      = (buildWorld { sampleBuild with Transition := .Delete } sampleWorkspace).db
    ∧ (CompleteJob (buildEnv fun n => 100 + n)
        { sampleServer ⟨"a"⟩ 10 with Database := failingDeleteStore (.new "connection lost") }
        { JobId := "j",
          Type_ := some (.WorkspaceBuild_
            { State := some [1, 2], Resources := [ideResource "dev"] }) }
        (buildWorld { sampleBuild with Transition := .Delete } sampleWorkspace)).2.ps
      = (buildWorld { sampleBuild with Transition := .Delete } sampleWorkspace).ps
    ∧ ∃ l, (CompleteJob (buildEnv fun n => 100 + n)
        { sampleServer ⟨"a"⟩ 10 with Database := failingDeleteStore (.new "connection lost") }
        { JobId := "j",
          Type_ := some (.WorkspaceBuild_
            { State := some [1, 2], Resources := [ideResource "dev"] }) }
        (buildWorld { sampleBuild with Transition := .Delete } sampleWorkspace)).2.trace
          = (buildWorld { sampleBuild with Transition := .Delete } sampleWorkspace).trace ++ l
        ∧ ∀ e ∈ l, e.isPublish = false :=
  (completeJob_workspace_build_atomic (buildEnv fun n => 100 + n)
    { sampleServer ⟨"a"⟩ 10 with Database := failingDeleteStore (.new "connection lost") }
    { JobId := "j",
      Type_ := some (.WorkspaceBuild_ { State := some [1, 2], Resources := [ideResource "dev"] }) }
    (buildWorld { sampleBuild with Transition := .Delete } sampleWorkspace)
    ⟨"j"⟩ buildJob { State := some [1, 2], Resources := [ideResource "dev"] }
    { WorkspaceBuildID := ⟨"b"⟩ } { sampleBuild with Transition := .Delete }
    (by decide) (by decide) (by decide) (by decide) (by decide) (by decide)).1
    (.wrap "update workspace deleted" (.new "connection lost")) (by decide)

section WorkspaceBuildClaims2

variable {σ π : Type}

/-- C19.  A successful `CompleteJob` with a workspace-build payload issues the
write `UpdateWorkspaceDeletedByID` exactly when the transition of the build is
delete, and then for the workspace of the build with the flag true; for every
other transition (start, stop) it issues no write of the deleted flag. -/
theorem completeJob_marks_deleted_iff (env : Env σ) (server : Server σ π)
    (completed : proto.CompletedJob) (w : World σ π)
    (payload : proto.CompletedJob_WorkspaceBuild)
    (hok : (CompleteJob env server completed w).1 = .ok {})
    (hty : completed.Type_ = some (.WorkspaceBuild_ payload)) :
    ∃ jobID job input build l,
      env.uuidParse completed.JobId = .ok jobID
      ∧ server.Database.GetProvisionerJobByID jobID w.db = .ok job
      ∧ env.unmarshalWorkspaceProvisionJob job.Input = .ok input
      ∧ server.Database.GetWorkspaceBuildByID input.WorkspaceBuildID w.db = .ok build
      ∧ (CompleteJob env server completed w).2.trace = w.trace ++ l
      ∧ (∀ arg, Event.UpdateWorkspaceDeletedByID arg ∈ l ↔
          (build.Transition = .Delete ∧ arg = { ID := build.WorkspaceID, Deleted := true }))
      ∧ l.count (Event.UpdateWorkspaceDeletedByID { ID := build.WorkspaceID, Deleted := true })
          = if build.Transition = .Delete then 1 else 0 := by
  obtain ⟨jobID, job, input, build, argC, lins, hid, hjob, hin, hb, h4, ht⟩ :=
    CompleteJob.workspaceBuild_success env server completed w payload hok hty
  refine ⟨jobID, job, input, build, _, hid, hjob, hin, hb, ht, ?_, ?_⟩
  · intro arg
    have hins : Event.UpdateWorkspaceDeletedByID arg ∉ lins := by
      intro hc
      have := h4 _ hc
      cases this
    by_cases hd : build.Transition = .Delete
    · simp [hd, hins, endOfLogs]
    · simp [hd, hins, endOfLogs]
  · have hins : lins.count
        (Event.UpdateWorkspaceDeletedByID { ID := build.WorkspaceID, Deleted := true }) = 0 := by
      rw [List.count_eq_zero]
      intro hc
      have := h4 _ hc
      cases this
    by_cases hd : build.Transition = .Delete
    · simp [hd, hins, endOfLogs, List.count_cons]
    · simp [hd, hins, endOfLogs, List.count_cons]

/-- C20.  A successful `CompleteJob` with a workspace-build payload issues
exactly one form of the write `UpdateWorkspaceBuildByID`: for the build, with
updated-at the instant `now` read first in the transaction, with the state of
the payload as provisioner state, and with a deadline that is the sum of
`now` and the time-to-live of the workspace when that is set, and the zero
time when it is not set or the workspace is not found. -/
theorem completeJob_build_deadline (env : Env σ) (server : Server σ π)
    (completed : proto.CompletedJob) (w : World σ π)
    (payload : proto.CompletedJob_WorkspaceBuild)
    (hok : (CompleteJob env server completed w).1 = .ok {})
    (hty : completed.Type_ = some (.WorkspaceBuild_ payload)) :
    ∃ jobID job input build l deadline,
      env.uuidParse completed.JobId = .ok jobID
      ∧ server.Database.GetProvisionerJobByID jobID w.db = .ok job
      ∧ env.unmarshalWorkspaceProvisionJob job.Input = .ok input
      ∧ server.Database.GetWorkspaceBuildByID input.WorkspaceBuildID w.db = .ok build
      ∧ (CompleteJob env server completed w).2.trace = w.trace ++ l
      ∧ (∀ arg, Event.UpdateWorkspaceBuildByID arg ∈ l ↔
          arg = { ID := build.ID, UpdatedAt := env.clock w.ticks,
                  ProvisionerState := payload.State, Deadline := deadline })
      ∧ (∀ workspace, server.Database.GetWorkspaceByID build.WorkspaceID w.db = .ok workspace →
          workspace.Ttl.Valid = true →
          deadline = env.clock w.ticks + workspace.Ttl.Int64)
      ∧ (∀ workspace, server.Database.GetWorkspaceByID build.WorkspaceID w.db = .ok workspace →
          workspace.Ttl.Valid = false → deadline = 0)
      ∧ (∀ err, server.Database.GetWorkspaceByID build.WorkspaceID w.db = .error err →
          deadline = 0) := by
  obtain ⟨jobID, job, input, build, argC, lins, hid, hjob, hin, hb, h4, ht⟩ :=
    CompleteJob.workspaceBuild_success env server completed w payload hok hty
  refine ⟨jobID, job, input, build, _,
    (match server.Database.GetWorkspaceByID build.WorkspaceID w.db with
      | .ok workspace =>
        if workspace.Ttl.Valid then time.Add (env.clock w.ticks) workspace.Ttl.Int64 else 0
      | .error _ => 0),
    hid, hjob, hin, hb, ht, ?_, ?_, ?_, ?_⟩
  · intro arg
    have hins : Event.UpdateWorkspaceBuildByID arg ∉ lins := by
      intro hc
      have := h4 _ hc
      cases this
    by_cases hd : build.Transition = .Delete
    · simp only [hd, if_true, List.mem_append, List.mem_cons, List.mem_singleton,
        List.not_mem_nil, or_false, hins, endOfLogs, reduceCtorEq, false_or, or_false,
        Event.UpdateWorkspaceBuildByID.injEq]
    · simp only [hd, if_false, List.mem_append, List.mem_cons, List.mem_singleton,
        List.not_mem_nil, or_false, hins, endOfLogs, reduceCtorEq, false_or, or_false,
        Event.UpdateWorkspaceBuildByID.injEq]
  · intro workspace hws hv
    simp only [hws, hv, if_true]
    rfl
  · intro workspace hws hv
    simp [hws, hv]
  · intro err hws
    simp only [hws]

end WorkspaceBuildClaims2

/-- Witness for C19: `CompleteJob` by the owner for a delete build of
workspace ws succeeds. -/
theorem completeJob_marks_deleted_iff_witness :
    ∃ jobID job input build l,
      (buildEnv fun n => 100 + n).uuidParse "j" = .ok jobID
      ∧ (sampleServer ⟨"a"⟩ 10).Database.GetProvisionerJobByID jobID
          (buildWorld { sampleBuild with Transition := .Delete } sampleWorkspace).db = .ok job
      ∧ (buildEnv fun n => 100 + n).unmarshalWorkspaceProvisionJob job.Input = .ok input
      ∧ (sampleServer ⟨"a"⟩ 10).Database.GetWorkspaceBuildByID input.WorkspaceBuildID
          (buildWorld { sampleBuild with Transition := .Delete } sampleWorkspace).db = .ok build
      ∧ (CompleteJob (buildEnv fun n => 100 + n) (sampleServer ⟨"a"⟩ 10)
          { JobId := "j", Type_ := some (.WorkspaceBuild_ { State := some [1, 2] }) }
          (buildWorld { sampleBuild with Transition := .Delete } sampleWorkspace)).2.trace
          = (buildWorld { sampleBuild with Transition := .Delete } sampleWorkspace).trace ++ l
      ∧ (∀ arg, Event.UpdateWorkspaceDeletedByID arg ∈ l ↔
          (build.Transition = .Delete ∧ arg = { ID := build.WorkspaceID, Deleted := true }))
      ∧ l.count (Event.UpdateWorkspaceDeletedByID { ID := build.WorkspaceID, Deleted := true })
          = if build.Transition = .Delete then 1 else 0 :=
  completeJob_marks_deleted_iff (buildEnv fun n => 100 + n) (sampleServer ⟨"a"⟩ 10)
    { JobId := "j", Type_ := some (.WorkspaceBuild_ { State := some [1, 2] }) }
    (buildWorld { sampleBuild with Transition := .Delete } sampleWorkspace)
    { State := some [1, 2] } (by decide) rfl

/-- Witness for C20: `CompleteJob` by the owner for the start build b of
workspace ws, whose time-to-live is 3600, succeeds with the clock at 100: the
one write of the build carries updated-at 100 and deadline 3700, and the row
of the build gets them.  With a null time-to-live the deadline written is the
zero time. -/
theorem completeJob_build_deadline_witness :
    (∃ jobID job input build l deadline,
      (buildEnv fun n => 100 + n).uuidParse "j" = .ok jobID
      ∧ (sampleServer ⟨"a"⟩ 10).Database.GetProvisionerJobByID jobID
          (buildWorld sampleBuild sampleWorkspace).db = .ok job
      ∧ (buildEnv fun n => 100 + n).unmarshalWorkspaceProvisionJob job.Input = .ok input
      ∧ (sampleServer ⟨"a"⟩ 10).Database.GetWorkspaceBuildByID input.WorkspaceBuildID
          (buildWorld sampleBuild sampleWorkspace).db = .ok build
      ∧ (CompleteJob (buildEnv fun n => 100 + n) (sampleServer ⟨"a"⟩ 10)
          { JobId := "j", Type_ := some (.WorkspaceBuild_ { State := some [1, 2] }) }
          (buildWorld sampleBuild sampleWorkspace)).2.trace
          = (buildWorld sampleBuild sampleWorkspace).trace ++ l
      ∧ (∀ arg, Event.UpdateWorkspaceBuildByID arg ∈ l ↔
          arg = { ID := build.ID,
                  UpdatedAt := (buildEnv fun n => 100 + n).clock
                    (buildWorld sampleBuild sampleWorkspace).ticks,
                  ProvisionerState := some [1, 2], Deadline := deadline })
      ∧ (∀ workspace, (sampleServer ⟨"a"⟩ 10).Database.GetWorkspaceByID build.WorkspaceID
          (buildWorld sampleBuild sampleWorkspace).db = .ok workspace →
          workspace.Ttl.Valid = true →
          deadline = (buildEnv fun n => 100 + n).clock
            (buildWorld sampleBuild sampleWorkspace).ticks + workspace.Ttl.Int64)
      ∧ (∀ workspace, (sampleServer ⟨"a"⟩ 10).Database.GetWorkspaceByID build.WorkspaceID
          (buildWorld sampleBuild sampleWorkspace).db = .ok workspace →
          workspace.Ttl.Valid = false → deadline = 0)
      ∧ (∀ err, (sampleServer ⟨"a"⟩ 10).Database.GetWorkspaceByID build.WorkspaceID
          (buildWorld sampleBuild sampleWorkspace).db = .error err → deadline = 0))
    ∧ (CompleteJob (buildEnv fun n => 100 + n) (sampleServer ⟨"a"⟩ 10)
        { JobId := "j", Type_ := some (.WorkspaceBuild_ { State := some [1, 2] }) }
        (buildWorld sampleBuild sampleWorkspace)).2.trace.filter
          (fun e => e matches .UpdateWorkspaceBuildByID _)
      = [Event.UpdateWorkspaceBuildByID
          { ID := ⟨"b"⟩, UpdatedAt := 100, ProvisionerState := some [1, 2], Deadline := 3700 }]
    ∧ ((CompleteJob (buildEnv fun n => 100 + n) (sampleServer ⟨"a"⟩ 10)
        { JobId := "j", Type_ := some (.WorkspaceBuild_ { State := some [1, 2] }) }
        (buildWorld sampleBuild sampleWorkspace)).2.db.workspaceBuilds.map
          fun row => (row.UpdatedAt, row.Deadline, row.ProvisionerState))
      = [(100, 3700, some [1, 2])]
    ∧ (CompleteJob (buildEnv fun n => 100 + n) (sampleServer ⟨"a"⟩ 10)
        { JobId := "j", Type_ := some (.WorkspaceBuild_ { State := some [1, 2] }) }
        (buildWorld sampleBuild { sampleWorkspace with Ttl := {} })).2.trace.filter
          (fun e => e matches .UpdateWorkspaceBuildByID _)
      = [Event.UpdateWorkspaceBuildByID
          { ID := ⟨"b"⟩, UpdatedAt := 100, ProvisionerState := some [1, 2], Deadline := 0 }] :=
  ⟨completeJob_build_deadline (buildEnv fun n => 100 + n) (sampleServer ⟨"a"⟩ 10)
      { JobId := "j", Type_ := some (.WorkspaceBuild_ { State := some [1, 2] }) }
      (buildWorld sampleBuild sampleWorkspace) { State := some [1, 2] } (by decide) rfl,
    by decide, by decide, by decide⟩

/-! ## Payload variants of `CompleteJob`, `CommitQuota`, the destination scheme codec -/

section PayloadVariants

variable {σ π : Type}

/-- C21.  `CompleteJob` on a job the server owns: when the payload variant is
missing it returns the error "type payload must be provided", and when the
variant is none of template import, workspace build and template dry-run it
returns the error "unknown job type ...; ensure coderd and provisionerd
versions match".  In both cases the world it leaves is the world it found with
the one query of the job recorded: no store write, no publication. -/
theorem completeJob_missing_or_unknown_type (env : Env σ) (server : Server σ π)
    (completed : proto.CompletedJob) (w : World σ π) (jobID : uuid.UUID)
    (job : database.ProvisionerJob)
    (hid : env.uuidParse completed.JobId = .ok jobID)
    (hjob : server.Database.GetProvisionerJobByID jobID w.db = .ok job)
    (hown : job.WorkerID.UUID.String = server.ID.String) :
    (completed.Type_ = none →
      CompleteJob env server completed w
        = (.error (.new "type payload must be provided"),
            w.record (.GetProvisionerJobByID jobID)))
    ∧ (∀ goType, completed.Type_ = some (.other goType) →
      CompleteJob env server completed w
        = (.error (.new ("unknown job type " ++ goType.quote
              ++ "; ensure coderd and provisionerd versions match")),
            w.record (.GetProvisionerJobByID jobID)))
    ∧ (w.record (.GetProvisionerJobByID jobID)).db = w.db
    ∧ (w.record (.GetProvisionerJobByID jobID)).ps = w.ps
    ∧ (w.record (.GetProvisionerJobByID jobID)).trace
        = w.trace ++ [Event.GetProvisionerJobByID jobID]
    ∧ (Event.GetProvisionerJobByID jobID).isWrite = false
    ∧ (Event.GetProvisionerJobByID jobID).isPublish = false := by
  refine ⟨?_, ?_, rfl, rfl, rfl, rfl, rfl⟩
  · intro hty
    unfold CompleteJob
    simp only [hid, World.read, hjob]
    rw [if_neg (by simpa using hown)]
    simp only [CompleteJob.jobType, hty]
  · intro goType hty
    unfold CompleteJob
    simp only [hid, World.read, hjob]
    rw [if_neg (by simpa using hown)]
    simp only [CompleteJob.jobType, hty]

/-- C23.  `CommitQuota` once the job id parsed and the job was found.  For a
job this server owns (worker-id non-null and equal to the server's id): with
no quota committer installed it returns budget -1 and ok, with no error,
having made no call but the query of the job; with a committer installed it
returns exactly what the committer returns for the same request, on the rows
as they are.  For a job that is unowned (worker-id null) or owned by another
server it returns an error, and the committer is not invoked: the only call
is the query of the job. -/
theorem commitQuota_delegates (env : Env σ) (server : Server σ π)
    (request : proto.CommitQuotaRequest) (w : World σ π) (jobID : uuid.UUID)
    (job : database.ProvisionerJob)
    (hid : env.uuidParse request.JobId = .ok jobID)
    (hjob : server.Database.GetProvisionerJobByID jobID w.db = .ok job) :
    ((job.WorkerID.Valid = true ∧ job.WorkerID.UUID.String = server.ID.String) →
      (server.QuotaCommitter = none →
        CommitQuota env server request w
          = (.ok { Budget := -1, Ok := true }, w.record (.GetProvisionerJobByID jobID)))
      ∧ (∀ q, server.QuotaCommitter = some q →
        (CommitQuota env server request w).1 = (q.CommitQuota request w.db).1
        ∧ (CommitQuota env server request w).2.db = (q.CommitQuota request w.db).2
        ∧ (CommitQuota env server request w).2.trace
            = w.trace ++ [Event.GetProvisionerJobByID jobID, Event.CommitQuota request]))
    ∧ (¬ (job.WorkerID.Valid = true ∧ job.WorkerID.UUID.String = server.ID.String) →
      (∃ err, (CommitQuota env server request w).1 = .error err)
      ∧ (CommitQuota env server request w).2 = w.record (.GetProvisionerJobByID jobID)) := by
  constructor
  · rintro ⟨hvalid, hown⟩
    constructor
    · intro hq
      unfold CommitQuota
      simp only [hid, World.read, hjob]
      rw [if_neg (by simp [hvalid]), if_neg (by simpa using hown)]
      simp only [hq]
    · intro q hq
      unfold CommitQuota
      simp only [hid, World.read, hjob]
      rw [if_neg (by simp [hvalid]), if_neg (by simpa using hown)]
      simp only [hq, World.write, World.record]
      exact ⟨trivial, trivial, by simp⟩
  · intro hnot
    unfold CommitQuota
    simp only [hid, World.read, hjob]
    by_cases hvalid : job.WorkerID.Valid = true
    · have hown : ¬ job.WorkerID.UUID.String = server.ID.String := fun h => hnot ⟨hvalid, h⟩
      rw [if_neg (by simp [hvalid]), if_pos (by simpa using hown)]
      exact ⟨⟨_, rfl⟩, rfl⟩
    · rw [if_pos (by simpa using hvalid)]
      exact ⟨⟨_, rfl⟩, rfl⟩

end PayloadVariants

/-- C30.  The parameter destination scheme codec round-trips on its declared
domain.  A computed value whose storage scheme is environment-variable or
provisioner-variable converts to a wire value whose scheme converts back to
the storage scheme it came from; and a wire scheme that is ENVIRONMENT_VARIABLE
or PROVISIONER_VARIABLE converts to a storage scheme that, carried by any
computed value, converts back to the wire scheme it came from. -/
theorem destinationScheme_roundtrip :
    (∀ param : parameter.ComputedValue,
      param.DestinationScheme = .EnvironmentVariable
        ∨ param.DestinationScheme = .ProvisionerVariable →
      ∃ value, convertComputedParameterValue param = .ok value
        ∧ convertParameterDestinationScheme value.DestinationScheme
            = .ok param.DestinationScheme)
    ∧ (∀ (scheme : sdkproto.ParameterDestination_Scheme) (param : parameter.ComputedValue),
      scheme = .ENVIRONMENT_VARIABLE ∨ scheme = .PROVISIONER_VARIABLE →
      ∃ stored, convertParameterDestinationScheme scheme = .ok stored
        ∧ ∃ value,
          convertComputedParameterValue { param with DestinationScheme := stored } = .ok value
          ∧ value.DestinationScheme = scheme) := by
  constructor
  · intro param h
    rcases h with h | h
    · refine ⟨sdkproto.ParameterValue.mk .ENVIRONMENT_VARIABLE param.Name param.SourceValue, ?_, ?_⟩
      · simp [convertComputedParameterValue, h]
      · simp [convertParameterDestinationScheme, h]
    · refine ⟨sdkproto.ParameterValue.mk .PROVISIONER_VARIABLE param.Name param.SourceValue, ?_, ?_⟩
      · simp [convertComputedParameterValue, h]
      · simp [convertParameterDestinationScheme, h]
  · intro scheme param h
    rcases h with rfl | rfl
    · exact ⟨.EnvironmentVariable, rfl, _, rfl, rfl⟩
    · exact ⟨.ProvisionerVariable, rfl, _, rfl, rfl⟩

/-- Witness for C21: `CompleteJob` by the owner of job j with no payload, and
with a payload of an unknown type. -/
theorem completeJob_missing_or_unknown_type_witness :
    CompleteJob (sampleEnv fun n => 100 + n) (sampleServer ⟨"a"⟩ 10) { JobId := "j" }
        (sampleWorld [runningJob])
      = (.error (.new "type payload must be provided"),
          (sampleWorld [runningJob]).record (.GetProvisionerJobByID ⟨"j"⟩))
    ∧ CompleteJob (sampleEnv fun n => 100 + n) (sampleServer ⟨"a"⟩ 10)
        { JobId := "j", Type_ := some (.other "*proto.CompletedJob_Other") }
        (sampleWorld [runningJob])
      = (.error (.new ("unknown job type " ++ String.quote "*proto.CompletedJob_Other"
            ++ "; ensure coderd and provisionerd versions match")),
          (sampleWorld [runningJob]).record (.GetProvisionerJobByID ⟨"j"⟩)) :=
  ⟨(completeJob_missing_or_unknown_type (sampleEnv fun n => 100 + n) (sampleServer ⟨"a"⟩ 10)
      { JobId := "j" } (sampleWorld [runningJob]) ⟨"j"⟩ runningJob
      (by decide) (by decide) (by decide)).1 rfl,
    (completeJob_missing_or_unknown_type (sampleEnv fun n => 100 + n) (sampleServer ⟨"a"⟩ 10)
      { JobId := "j", Type_ := some (.other "*proto.CompletedJob_Other") }
      (sampleWorld [runningJob]) ⟨"j"⟩ runningJob
      (by decide) (by decide) (by decide)).2.1 _ rfl⟩

/-- Witness for C23: `CommitQuota` for job j, owned by server a, with no
committer installed: by server a, and by server b. -/
theorem commitQuota_delegates_witness :
    CommitQuota (sampleEnv fun n => 100 + n) (sampleServer ⟨"a"⟩ 10)
        { JobId := "j", DailyCost := 7 } (sampleWorld [runningJob])
      = (.ok { Budget := -1, Ok := true },
          (sampleWorld [runningJob]).record (.GetProvisionerJobByID ⟨"j"⟩))
    ∧ (∃ err, (CommitQuota (sampleEnv fun n => 100 + n) (sampleServer ⟨"b"⟩ 10)
        { JobId := "j", DailyCost := 7 } (sampleWorld [runningJob])).1 = .error err) :=
  ⟨((commitQuota_delegates (sampleEnv fun n => 100 + n) (sampleServer ⟨"a"⟩ 10)
      { JobId := "j", DailyCost := 7 } (sampleWorld [runningJob]) ⟨"j"⟩ runningJob
      (by decide) (by decide)).1 (by decide)).1 rfl,
    ((commitQuota_delegates (sampleEnv fun n => 100 + n) (sampleServer ⟨"b"⟩ 10)
      { JobId := "j", DailyCost := 7 } (sampleWorld [runningJob]) ⟨"j"⟩ runningJob
      (by decide) (by decide)).2 (by decide)).1⟩

/-- Witness for C30: a computed value with the provisioner-variable scheme,
and the wire scheme ENVIRONMENT_VARIABLE. -/
theorem destinationScheme_roundtrip_witness :
    (∃ value, convertComputedParameterValue
        { Name := "region", SourceValue := "eu", DestinationScheme := .ProvisionerVariable }
          = .ok value
      ∧ convertParameterDestinationScheme value.DestinationScheme = .ok .ProvisionerVariable)
    ∧ (∃ stored, convertParameterDestinationScheme .ENVIRONMENT_VARIABLE = .ok stored
      ∧ ∃ value,
        convertComputedParameterValue
          { ({ Name := "region" } : parameter.ComputedValue) with DestinationScheme := stored }
            = .ok value
        ∧ value.DestinationScheme = .ENVIRONMENT_VARIABLE) :=
  ⟨destinationScheme_roundtrip.1 _ (Or.inr rfl),
    destinationScheme_roundtrip.2 .ENVIRONMENT_VARIABLE { Name := "region" } (Or.inl rfl)⟩

/-! ## What the calls do to the rows of the jobs -/

section FrameLemmas

variable {σ π α : Type}

/-- The app loop of `InsertWorkspaceResource` keeps f. -/
theorem InsertWorkspaceResource.apps_keeps (env : Env σ) (db : database.Store σ) (f : σ → α)
    (hk : db.Keeps f) (dbAgent : database.WorkspaceAgent) (apps : List sdkproto.App) :
    ∀ (appSlugs : List String) (w : World σ π),
      f (InsertWorkspaceResource.apps env db dbAgent apps appSlugs w).2.db = f w.db := by
  induction apps with
  | nil => intro appSlugs w; rfl
  | cons app rest ih =>
    intro appSlugs w
    unfold InsertWorkspaceResource.apps
    simp only []
    split
    · rfl
    split
    · rfl
    split
    · rfl
    split
    · rename_i heq; obtain ⟨-, rfl⟩ := Prod.mk.inj heq
      exact hk.InsertWorkspaceApp _ _
    · rename_i heq; obtain ⟨-, rfl⟩ := Prod.mk.inj heq
      rw [ih]
      exact hk.InsertWorkspaceApp _ _

/-- The agent loop of `InsertWorkspaceResource` keeps f. -/
theorem InsertWorkspaceResource.agents_keeps (env : Env σ) (db : database.Store σ) (f : σ → α)
    (hk : db.Keeps f) (resource : database.WorkspaceResource) (agents : List sdkproto.Agent) :
    ∀ (appSlugs : List String) (w : World σ π),
      f (InsertWorkspaceResource.agents env db resource agents appSlugs w).2.db = f w.db := by
  induction agents with
  | nil => intro appSlugs w; rfl
  | cons prAgent rest ih =>
    intro appSlugs w
    unfold InsertWorkspaceResource.agents
    simp only []
    split
    · rfl
    split
    · rfl
    split
    · rename_i heq; obtain ⟨-, rfl⟩ := Prod.mk.inj heq
      exact hk.InsertWorkspaceAgent _ _
    rename_i dbAgent w1 heq; obtain ⟨-, rfl⟩ := Prod.mk.inj heq
    split
    · rename_i heq; have h2 := congrArg Prod.snd heq; simp only at h2; subst h2
      rw [InsertWorkspaceResource.apps_keeps env db f hk]
      exact hk.InsertWorkspaceAgent _ _
    · rename_i heq; have h2 := congrArg Prod.snd heq; simp only at h2; subst h2
      rw [ih, InsertWorkspaceResource.apps_keeps env db f hk]
      exact hk.InsertWorkspaceAgent _ _

/-- The metadata loop of `InsertWorkspaceResource` keeps f. -/
theorem InsertWorkspaceResource.metadata_keeps (db : database.Store σ) (f : σ → α)
    (hk : db.Keeps f) (resource : database.WorkspaceResource)
    (metadata : List sdkproto.Resource_Metadata) :
    ∀ (w : World σ π),
      f (InsertWorkspaceResource.metadata db resource metadata w).2.db = f w.db := by
  induction metadata with
  | nil => intro w; rfl
  | cons metadatum rest ih =>
    intro w
    unfold InsertWorkspaceResource.metadata
    simp only []
    split
    · rename_i heq; obtain ⟨-, rfl⟩ := Prod.mk.inj heq
      exact hk.InsertWorkspaceResourceMetadata _ _
    · rename_i heq; obtain ⟨-, rfl⟩ := Prod.mk.inj heq
      rw [ih]
      exact hk.InsertWorkspaceResourceMetadata _ _

/-- `InsertWorkspaceResource` keeps f. -/
theorem InsertWorkspaceResource.keeps (env : Env σ) (db : database.Store σ) (f : σ → α)
    (hk : db.Keeps f) (jobID : uuid.UUID) (transition : database.WorkspaceTransition)
    (protoResource : sdkproto.Resource) (w : World σ π) :
    f (InsertWorkspaceResource env db jobID transition protoResource w).2.db = f w.db := by
  unfold InsertWorkspaceResource
  simp only []
  split
  · rename_i heq; obtain ⟨-, rfl⟩ := Prod.mk.inj heq
    exact hk.InsertWorkspaceResource _ _
  rename_i resource w1 heq; obtain ⟨-, rfl⟩ := Prod.mk.inj heq
  split
  · rename_i heq; have h2 := congrArg Prod.snd heq; simp only at h2; subst h2
    rw [InsertWorkspaceResource.agents_keeps env db f hk]
    exact hk.InsertWorkspaceResource _ _
  · rename_i heq; have h2 := congrArg Prod.snd heq; simp only at h2; subst h2
    rw [InsertWorkspaceResource.metadata_keeps db f hk,
      InsertWorkspaceResource.agents_keeps env db f hk]
    exact hk.InsertWorkspaceResource _ _

/-- A loop of `CompleteJob` over reported resources keeps f. -/
theorem CompleteJob.insertResources_keeps (env : Env σ) (db : database.Store σ) (f : σ → α)
    (hk : db.Keeps f) (jobID : uuid.UUID) (transition : database.WorkspaceTransition)
    (msg : String) (resources : List sdkproto.Resource) :
    ∀ (w : World σ π),
      f (CompleteJob.insertResources env db jobID transition msg resources w).2.db = f w.db := by
  induction resources with
  | nil => intro w; rfl
  | cons resource rest ih =>
    intro w
    unfold CompleteJob.insertResources
    split
    · rename_i heq; have h2 := congrArg Prod.snd heq; simp only at h2; subst h2
      exact InsertWorkspaceResource.keeps env db f hk jobID transition resource w
    · rename_i heq; have h2 := congrArg Prod.snd heq; simp only at h2; subst h2
      rw [ih]
      exact InsertWorkspaceResource.keeps env db f hk jobID transition resource w

/-- The resource loops of a template import keep f. -/
theorem CompleteJob.templateImport_go_keeps (env : Env σ) (server : Server σ π) (f : σ → α)
    (hk : server.Database.Keeps f) (jobID : uuid.UUID)
    (passes : List (database.WorkspaceTransition × List sdkproto.Resource)) :
    ∀ (w : World σ π),
      f (CompleteJob.templateImport.go env server jobID passes w).2.db = f w.db := by
  induction passes with
  | nil => intro w; rfl
  | cons pass rest ih =>
    intro w
    obtain ⟨transition, resources⟩ := pass
    unfold CompleteJob.templateImport.go
    split
    · rename_i heq; have h2 := congrArg Prod.snd heq; simp only at h2; subst h2
      exact CompleteJob.insertResources_keeps env server.Database f hk jobID transition _
        resources w
    · rename_i heq; have h2 := congrArg Prod.snd heq; simp only at h2; subst h2
      rw [ih]
      exact CompleteJob.insertResources_keeps env server.Database f hk jobID transition _
        resources w

end FrameLemmas

section FrameLemmas2

variable {σ π α : Type}

/-- The rows the function `CompleteJob` runs in a transaction leaves: as to
f, those the write of the terminal state left. -/
theorem CompleteJob.workspaceBuildTx_effect (env : Env σ) (server : Server σ π) (f : σ → α)
    (hk : server.Database.Keeps f) (jobID : uuid.UUID)
    (job : database.ProvisionerJob) (workspaceBuild : database.WorkspaceBuild)
    (payload : proto.CompletedJob_WorkspaceBuild) (w : World σ π) :
    ∃ arg : database.UpdateProvisionerJobWithCompleteByIDParams,
      arg.ID = jobID
      ∧ f (CompleteJob.workspaceBuildTx env server jobID job workspaceBuild payload w).2.db
          = f (server.Database.UpdateProvisionerJobWithCompleteByID arg w.db).2 := by
  obtain ⟨arg, ha, -, -, -, -, -, hdb, -⟩ :=
    CompleteJob.markCompleted_spec env server.Database jobID
      (w.tick.record (.GetWorkspaceByID workspaceBuild.WorkspaceID))
  refine ⟨arg, ha, ?_⟩
  unfold CompleteJob.workspaceBuildTx
  simp only []
  split
  · rename_i heq; rw [heq] at hdb; rw [hdb]; rfl
  rename_i w1 heq; rw [heq] at hdb
  dsimp only at hdb
  have h1 : f w1.db = f (server.Database.UpdateProvisionerJobWithCompleteByID arg w.db).2 := by
    rw [hdb]; rfl
  simp only [World.write]
  split
  · rename_i heq; obtain ⟨-, rfl⟩ := Prod.mk.inj heq
    rw [← h1]
    exact hk.UpdateWorkspaceBuildByID _ _
  rename_i heq; obtain ⟨-, rfl⟩ := Prod.mk.inj heq
  split
  · rename_i heq; have h2 := congrArg Prod.snd heq; simp only at h2; subst h2
    rw [CompleteJob.insertResources_keeps env server.Database f hk, ← h1]
    exact hk.UpdateWorkspaceBuildByID _ _
  rename_i heq; have h2 := congrArg Prod.snd heq; simp only at h2; subst h2
  split
  · rw [CompleteJob.insertResources_keeps env server.Database f hk, ← h1]
    exact hk.UpdateWorkspaceBuildByID _ _
  split
  · rename_i heq; obtain ⟨-, rfl⟩ := Prod.mk.inj heq
    dsimp only
    rw [hk.UpdateWorkspaceDeletedByID,
      CompleteJob.insertResources_keeps env server.Database f hk, ← h1]
    exact hk.UpdateWorkspaceBuildByID _ _
  · rename_i heq; obtain ⟨-, rfl⟩ := Prod.mk.inj heq
    dsimp only
    rw [hk.UpdateWorkspaceDeletedByID,
      CompleteJob.insertResources_keeps env server.Database f hk, ← h1]
    exact hk.UpdateWorkspaceBuildByID _ _

/-- The rows the switch of `CompleteJob` leaves: as to f, those it found, or
those the write of the terminal state for this job left when issued on rows
that were, as to f, those it found. -/
theorem CompleteJob.jobType_effect (env : Env σ) (server : Server σ π) (f : σ → α)
    (hk : server.Database.Keeps f) (jobID : uuid.UUID)
    (job : database.ProvisionerJob) (completed : proto.CompletedJob) (w : World σ π) :
    f (CompleteJob.jobType env server jobID job completed w).2.db = f w.db
    ∨ ∃ (arg : database.UpdateProvisionerJobWithCompleteByIDParams) (db1 : σ),
        arg.ID = jobID ∧ f db1 = f w.db
        ∧ f (CompleteJob.jobType env server jobID job completed w).2.db
            = f (server.Database.UpdateProvisionerJobWithCompleteByID arg db1).2 := by
  unfold CompleteJob.jobType
  split
  · rename_i templateImport _
    unfold CompleteJob.templateImport
    simp only []
    split
    · rename_i heq; have h2 := congrArg Prod.snd heq; simp only at h2; subst h2
      exact Or.inl (CompleteJob.templateImport_go_keeps env server f hk jobID _ w)
    · rename_i w1 heq
      have h1 := CompleteJob.templateImport_go_keeps env server f hk jobID
        (if env.rangeStartFirst then
          [(database.WorkspaceTransition.Start, templateImport.StartResources),
            (database.WorkspaceTransition.Stop, templateImport.StopResources)]
        else
          [(database.WorkspaceTransition.Stop, templateImport.StopResources),
            (database.WorkspaceTransition.Start, templateImport.StartResources)]) w
      rw [heq] at h1
      obtain ⟨arg, ha, -, -, -, -, -, hdb, -⟩ :=
        CompleteJob.markCompleted_spec env server.Database jobID w1
      exact Or.inr ⟨arg, w1.db, ha, h1, by rw [hdb]⟩
  · rename_i payload _
    unfold CompleteJob.workspaceBuild
    split
    · exact Or.inl rfl
    rename_i input _
    simp only [World.read]
    cases hb : server.Database.GetWorkspaceBuildByID input.WorkspaceBuildID w.db with
    | error err => exact Or.inl rfl
    | ok workspaceBuild =>
      simp only []
      unfold InTx
      cases hfn : CompleteJob.workspaceBuildTx env server jobID job workspaceBuild payload
        ((w.record (.GetWorkspaceBuildByID input.WorkspaceBuildID)).record .InTxBegin) with
      | mk r w4 =>
        obtain ⟨arg, ha, h4⟩ := CompleteJob.workspaceBuildTx_effect env server f hk jobID job
          workspaceBuild payload
          ((w.record (.GetWorkspaceBuildByID input.WorkspaceBuildID)).record .InTxBegin)
        rw [hfn] at h4
        cases r with
        | some err => exact Or.inl rfl
        | none =>
          simp only [World.publish]
          split
          · rename_i heq; obtain ⟨-, rfl⟩ := Prod.mk.inj heq
            exact Or.inr ⟨arg, w.db, ha, rfl, h4⟩
          · rename_i heq; obtain ⟨-, rfl⟩ := Prod.mk.inj heq
            exact Or.inr ⟨arg, w.db, ha, rfl, h4⟩
  · rename_i templateDryRun _
    unfold CompleteJob.templateDryRun
    split
    · rename_i heq; have h2 := congrArg Prod.snd heq; simp only at h2; subst h2
      exact Or.inl (CompleteJob.insertResources_keeps env server.Database f hk jobID _ _ _ w)
    · rename_i w1 heq
      have h1 := CompleteJob.insertResources_keeps env server.Database f hk jobID .Start
        "insert resource" templateDryRun.Resources w
      rw [heq] at h1
      obtain ⟨arg, ha, -, -, -, -, -, hdb, -⟩ :=
        CompleteJob.markCompleted_spec env server.Database jobID w1
      exact Or.inr ⟨arg, w1.db, ha, h1, by rw [hdb]⟩
  · exact Or.inl rfl
  · exact Or.inl rfl

end FrameLemmas2

section FrameLemmas3

variable {σ π α : Type}

/-- The rows `CompleteJob` leaves: as to f, those it found, or those the write
of the terminal state left, for a job that passed the ownership test, when
issued on rows that were, as to f, those it found. -/
theorem CompleteJob.completeJob_jobs_effect (env : Env σ) (server : Server σ π) (f : σ → α)
    (hk : server.Database.Keeps f) (completed : proto.CompletedJob) (w : World σ π) :
    f (CompleteJob env server completed w).2.db = f w.db
    ∨ ∃ (jobID : uuid.UUID) (job : database.ProvisionerJob)
        (arg : database.UpdateProvisionerJobWithCompleteByIDParams) (db1 : σ),
        server.Database.GetProvisionerJobByID jobID w.db = .ok job
        ∧ job.WorkerID.UUID.String = server.ID.String
        ∧ arg.ID = jobID ∧ f db1 = f w.db
        ∧ f (CompleteJob env server completed w).2.db
            = f (server.Database.UpdateProvisionerJobWithCompleteByID arg db1).2 := by
  cases hid : env.uuidParse completed.JobId with
  | error err => left; simp [CompleteJob, hid]
  | ok jobID =>
  rcases CompleteJob.completeJob_run_cases env server completed w jobID hid with
    ⟨h2, -⟩ | ⟨job, w2, hjob, hown, hrest⟩
  · left; rw [h2]; rfl
  have hsw := CompleteJob.jobType_effect env server f hk jobID job completed
    (w.record (.GetProvisionerJobByID jobID))
  have hfinal : f (CompleteJob env server completed w).2.db
      = f (CompleteJob.jobType env server jobID job completed
          (w.record (.GetProvisionerJobByID jobID))).2.db := by
    rcases hrest with ⟨err, hj, hres⟩ | ⟨hj, h2, -⟩
    · rw [hres, hj]
    · rw [h2, hj]
  rw [← hfinal] at hsw
  rcases hsw with h | ⟨arg, db1, ha, h1, h2⟩
  · exact Or.inl h
  · exact Or.inr ⟨jobID, job, arg, db1, hjob, hown, ha, h1, h2⟩

/-- The switch of `FailJob` keeps f. -/
theorem FailJob.jobType_keeps (env : Env σ) (server : Server σ π) (f : σ → α)
    (hk : server.Database.Keeps f) (job : database.ProvisionerJob) (failJob : proto.FailedJob)
    (w : World σ π) : f (FailJob.jobType env server job failJob w).2.db = f w.db := by
  unfold FailJob.jobType
  simp only [World.write, World.publish, World.tick]
  split
  swap
  · rfl
  split
  · rfl
  split
  · rfl
  split
  · rename_i heq; obtain ⟨-, rfl⟩ := Prod.mk.inj heq
    exact hk.UpdateWorkspaceBuildByID _ _
  rename_i heq; obtain ⟨-, rfl⟩ := Prod.mk.inj heq
  split
  · rename_i heq; obtain ⟨-, rfl⟩ := Prod.mk.inj heq
    exact hk.UpdateWorkspaceBuildByID _ _
  · rename_i heq; obtain ⟨-, rfl⟩ := Prod.mk.inj heq
    exact hk.UpdateWorkspaceBuildByID _ _

/-- The rows `FailJob` leaves: as to f, those it found, or those the write of
the terminal state left, for a job that passed the ownership test. -/
theorem FailJob.failJob_jobs_effect (env : Env σ) (server : Server σ π) (f : σ → α)
    (hk : server.Database.Keeps f) (failJob : proto.FailedJob) (w : World σ π) :
    f (FailJob env server failJob w).2.db = f w.db
    ∨ ∃ (jobID : uuid.UUID) (job : database.ProvisionerJob)
        (arg : database.UpdateProvisionerJobWithCompleteByIDParams),
        server.Database.GetProvisionerJobByID jobID w.db = .ok job
        ∧ job.WorkerID.UUID.String = server.ID.String
        ∧ arg.ID = jobID
        ∧ f (FailJob env server failJob w).2.db
            = f (server.Database.UpdateProvisionerJobWithCompleteByID arg w.db).2 := by
  cases hid : env.uuidParse failJob.JobId with
  | error err => left; simp [FailJob, hid]
  | ok jobID =>
  rcases FailJob.failJob_run_cases env server failJob w jobID hid with
    ⟨h2, -⟩ | ⟨job, job1, arg, wC, w2, hjob, -, ha, -, -, -, hdbC, hrest⟩
  · left; rw [h2]; rfl
  by_cases hown : job.WorkerID.UUID.String = server.ID.String
  swap
  · left
    unfold FailJob
    simp only [hid, World.read, hjob]
    rw [if_pos (by simpa using hown)]
    rfl
  right
  refine ⟨jobID, job, arg, hjob, hown, ha, ?_⟩
  have hsw := FailJob.jobType_keeps env server f hk job1 failJob wC
  rcases hrest with ⟨h2, -⟩ | ⟨-, ⟨err, hj, hres⟩ | ⟨hj, h2, -⟩⟩
  · rw [h2, hdbC]
  · rw [hj] at hsw
    rw [hres]
    dsimp only at hsw ⊢
    rw [hsw, hdbC]
  · rw [hj] at hsw
    rw [h2]
    dsimp only at hsw ⊢
    rw [hsw, hdbC]

/-- The log block of `UpdateJob` keeps f. -/
theorem UpdateJob.logs_keeps (server : Server σ π) (f : σ → α)
    (hk : server.Database.Keeps f) (parsedID : uuid.UUID)
    (request : proto.UpdateJobRequest) (w : World σ π) :
    f (UpdateJob.logs server parsedID request w).2.db = f w.db := by
  unfold UpdateJob.logs
  simp only [World.write, World.publish]
  split
  swap
  · rfl
  split
  · rfl
  split
  · rename_i heq; obtain ⟨-, rfl⟩ := Prod.mk.inj heq
    exact hk.InsertProvisionerJobLogs _ _
  rename_i heq; obtain ⟨-, rfl⟩ := Prod.mk.inj heq
  split
  · exact hk.InsertProvisionerJobLogs _ _
  split
  · rename_i heq; obtain ⟨-, rfl⟩ := Prod.mk.inj heq
    exact hk.InsertProvisionerJobLogs _ _
  · rename_i heq; obtain ⟨-, rfl⟩ := Prod.mk.inj heq
    exact hk.InsertProvisionerJobLogs _ _

/-- The readme block of `UpdateJob` keeps f. -/
theorem UpdateJob.readme_keeps (env : Env σ) (server : Server σ π) (f : σ → α)
    (hk : server.Database.Keeps f) (job : database.ProvisionerJob)
    (request : proto.UpdateJobRequest) (w : World σ π) :
    f (UpdateJob.readme env server job request w).2.db = f w.db := by
  unfold UpdateJob.readme
  simp only [World.write]
  split
  swap
  · rfl
  split
  · rename_i heq; obtain ⟨-, rfl⟩ := Prod.mk.inj heq
    exact hk.UpdateTemplateVersionDescriptionByJobID _ _
  · rename_i heq; obtain ⟨-, rfl⟩ := Prod.mk.inj heq
    exact hk.UpdateTemplateVersionDescriptionByJobID _ _

/-- The schema loop of `UpdateJob` keeps f. -/
theorem UpdateJob.insertSchemas_keeps (env : Env σ) (server : Server σ π) (f : σ → α)
    (hk : server.Database.Keeps f) (job : database.ProvisionerJob)
    (schemas : List sdkproto.ParameterSchema) :
    ∀ (index : Nat) (w : World σ π),
      f (UpdateJob.insertSchemas env server job index schemas w).2.db = f w.db := by
  induction schemas with
  | nil => intro index w; rfl
  | cons protoParameter rest ih =>
    intro index w
    unfold UpdateJob.insertSchemas
    simp only [World.write]
    split
    · rfl
    split
    · rfl
    split
    · rfl
    split
    · rename_i heq; obtain ⟨-, rfl⟩ := Prod.mk.inj heq
      exact hk.InsertParameterSchema _ _
    rename_i heq; obtain ⟨-, rfl⟩ := Prod.mk.inj heq
    rw [ih]
    exact hk.InsertParameterSchema _ _

/-- The schema block of `UpdateJob` keeps f. -/
theorem UpdateJob.parameterSchemas_keeps (env : Env σ) (server : Server σ π) (f : σ → α)
    (hk : server.Database.Keeps f) (job : database.ProvisionerJob)
    (request : proto.UpdateJobRequest) (w : World σ π) :
    f (UpdateJob.parameterSchemas env server job request w).2.db = f w.db := by
  unfold UpdateJob.parameterSchemas
  have h1 := UpdateJob.insertSchemas_keeps env server f hk job request.ParameterSchemas 0 w
  split
  · rename_i heq; rw [heq] at h1; exact h1
  rename_i w1 heq
  rw [heq] at h1
  have h2 : (UpdateJob.templateID server job w1).2.db = w1.db := by
    unfold UpdateJob.templateID
    simp only [World.read]
    split
    · split <;> (rename_i heq; obtain ⟨-, rfl⟩ := Prod.mk.inj heq; rfl)
    · rfl
  split
  · rename_i heq; rw [heq] at h2; dsimp only at h2 ⊢; rw [h2]; exact h1
  rename_i w2 heq
  rw [heq] at h2
  dsimp only at h2
  simp only [World.read]
  split
  · rename_i heq; obtain ⟨-, rfl⟩ := Prod.mk.inj heq
    show f w2.db = f w.db
    rw [h2]; exact h1
  rename_i heq; obtain ⟨-, rfl⟩ := Prod.mk.inj heq
  split
  · show f w2.db = f w.db
    rw [h2]; exact h1
  · show f w2.db = f w.db
    rw [h2]; exact h1

/-- The rows `UpdateJob` leaves: as to f, those it found, or those the stamp
of updated-at left. -/
theorem UpdateJob.updateJob_jobs_effect (env : Env σ) (server : Server σ π) (f : σ → α)
    (hk : server.Database.Keeps f) (request : proto.UpdateJobRequest) (w : World σ π) :
    f (UpdateJob env server request w).2.db = f w.db
    ∨ ∃ arg : database.UpdateProvisionerJobByIDParams,
        f (UpdateJob env server request w).2.db
          = f (server.Database.UpdateProvisionerJobByID arg w.db).2 := by
  unfold UpdateJob
  split
  · exact Or.inl rfl
  rename_i parsedID _
  simp only [World.read]
  cases hjob : server.Database.GetProvisionerJobByID parsedID w.db with
  | error err => exact Or.inl rfl
  | ok job =>
  simp only []
  split
  · exact Or.inl rfl
  split
  · exact Or.inl rfl
  right
  refine ⟨{ ID := parsedID,
            UpdatedAt := databaseNow env (w.record (.GetProvisionerJobByID parsedID)) }, ?_⟩
  simp only [World.write]
  split
  · rename_i heq; obtain ⟨-, rfl⟩ := Prod.mk.inj heq
    rfl
  rename_i heq; obtain ⟨-, rfl⟩ := Prod.mk.inj heq
  split
  · rename_i heq; have h2 := congrArg Prod.snd heq; simp only at h2; subst h2
    rw [UpdateJob.logs_keeps server f hk]
    rfl
  rename_i heq; have h2 := congrArg Prod.snd heq; simp only at h2; subst h2
  split
  · rename_i heq; have h2 := congrArg Prod.snd heq; simp only at h2; subst h2
    rw [UpdateJob.readme_keeps env server f hk, UpdateJob.logs_keeps server f hk]
    rfl
  rename_i heq; have h2 := congrArg Prod.snd heq; simp only at h2; subst h2
  split
  · rw [UpdateJob.parameterSchemas_keeps env server f hk,
      UpdateJob.readme_keeps env server f hk, UpdateJob.logs_keeps server f hk]
    rfl
  · rw [UpdateJob.readme_keeps env server f hk, UpdateJob.logs_keeps server f hk]
    rfl

end FrameLemmas3

/-! ## The invariant completed-at implies started-at -/

section JobsInvariant

variable {π : Type}

/-- The in-memory store changes the rows of the jobs only through the three
operations on them. -/
theorem memStore_keeps (tagFilter : json.RawMessage → json.RawMessage → Bool) :
    (memStore tagFilter).Keeps fun db => db.provisionerJobs := by
  refine ⟨?_, ?_, ?_, ?_, ?_, ?_, ?_, ?_, ?_⟩
  · intro arg s; rfl
  · intro arg s; rfl
  · intro arg s; rfl
  · intro arg s
    show (MemDB.UpdateWorkspaceBuildByID arg s).2.provisionerJobs = s.provisionerJobs
    unfold MemDB.UpdateWorkspaceBuildByID
    split <;> rfl
  · intro arg s; rfl
  · intro arg s; rfl
  · intro arg s; rfl
  · intro arg s; rfl
  · intro arg s; rfl

/-- A change of every row that keeps its id, keeps its started-at when that is
non-null, and either leaves the row started or keeps its completed-at and its
worker-id, keeps the invariant. -/
theorem JobsInv.inv_map (ids : List uuid.UUID) (jobs : List database.ProvisionerJob)
    (g : database.ProvisionerJob → database.ProvisionerJob)
    (hID : ∀ row, (g row).ID = row.ID)
    (hS : ∀ row ∈ jobs, row.StartedAt.Valid = true → (g row).StartedAt.Valid = true)
    (hgood : ∀ row ∈ jobs, (g row).StartedAt.Valid = true
      ∨ ((g row).CompletedAt.Valid = row.CompletedAt.Valid ∧ (g row).WorkerID = row.WorkerID))
    (h : JobsInv ids jobs) : JobsInv ids (jobs.map g) := by
  refine ⟨?_, ?_, ?_⟩
  · have : (jobs.map g).map (fun job => job.ID) = jobs.map fun job => job.ID := by
      rw [List.map_map]
      exact List.map_congr_left fun row _ => hID row
    rw [this]
    exact h.nodup
  · intro row' hrow' hc
    obtain ⟨row, hrow, rfl⟩ := List.mem_map.1 hrow'
    rcases hgood row hrow with hs | ⟨hcv, -⟩
    · exact hs
    · exact hS row hrow (h.completed row hrow (hcv ▸ hc))
  · intro row' hrow' id hid how
    obtain ⟨row, hrow, rfl⟩ := List.mem_map.1 hrow'
    rcases hgood row hrow with hs | ⟨-, hw⟩
    · exact hs
    · rw [hw] at how
      exact hS row hrow (h.owned row hrow id hid how)

/-- The stamp of updated-at keeps the invariant. -/
theorem JobsInv.inv_update (ids : List uuid.UUID) (db : MemDB)
    (arg : database.UpdateProvisionerJobByIDParams) (h : JobsInv ids db.provisionerJobs) :
    JobsInv ids (MemDB.UpdateProvisionerJobByID arg db).2.provisionerJobs := by
  unfold MemDB.UpdateProvisionerJobByID
  refine JobsInv.inv_map ids _ _ ?_ ?_ ?_ h
  · intro row; dsimp only; split <;> rfl
  · intro row _ hs; dsimp only; split
    · exact hs
    · exact hs
  · intro row _; right; dsimp only; split <;> exact ⟨rfl, rfl⟩

/-- The write of the terminal state keeps the invariant when the rows it
addresses have started. -/
theorem JobsInv.inv_complete (ids : List uuid.UUID) (db : MemDB)
    (arg : database.UpdateProvisionerJobWithCompleteByIDParams)
    (hstarted : ∀ row ∈ db.provisionerJobs, row.ID = arg.ID → row.StartedAt.Valid = true)
    (h : JobsInv ids db.provisionerJobs) :
    JobsInv ids (MemDB.UpdateProvisionerJobWithCompleteByID arg db).2.provisionerJobs := by
  unfold MemDB.UpdateProvisionerJobWithCompleteByID
  refine JobsInv.inv_map ids _ _ ?_ ?_ ?_ h
  · intro row; dsimp only; split <;> rfl
  · intro row _ hs; dsimp only; split
    · exact hs
    · exact hs
  · intro row hrow; dsimp only
    split
    · rename_i hid
      exact Or.inl (hstarted row hrow hid)
    · exact Or.inr ⟨rfl, rfl⟩

/-- The write of the terminal state only reads the rows of the jobs. -/
theorem MemDB.complete_congr (arg : database.UpdateProvisionerJobWithCompleteByIDParams)
    (db db1 : MemDB) (h : db1.provisionerJobs = db.provisionerJobs) :
    (MemDB.UpdateProvisionerJobWithCompleteByID arg db1).2.provisionerJobs
      = (MemDB.UpdateProvisionerJobWithCompleteByID arg db).2.provisionerJobs := by
  unfold MemDB.UpdateProvisionerJobWithCompleteByID
  dsimp only
  rw [h]

/-- Under the invariant, the rows with the id of a job that the store finds by
its id and that passes the ownership test of a server have started. -/
theorem JobsInv.started_of_owned (ids : List uuid.UUID) (db : MemDB) (jobID id : uuid.UUID)
    (job : database.ProvisionerJob) (h : JobsInv ids db.provisionerJobs)
    (hjob : MemDB.getOne db.provisionerJobs (fun row => row.ID = jobID) = .ok job)
    (hid : id ∈ ids) (hown : job.WorkerID.UUID.String = id.String) :
    ∀ row ∈ db.provisionerJobs, row.ID = jobID → row.StartedAt.Valid = true := by
  unfold MemDB.getOne at hjob
  split at hjob
  swap
  · cases hjob
  rename_i found hfind
  cases hjob
  have hmem := List.mem_of_find?_eq_some hfind
  have hfid : job.ID = jobID := by
    have := List.find?_some hfind
    simpa using this
  intro row hrow hrid
  have heq : row = job :=
    List.inj_on_of_nodup_map h.nodup hrow hmem (hrid.trans hfid.symm)
  rw [heq]
  exact h.owned job hmem id hid hown

end JobsInvariant

section JobsInvariant2

variable {π : Type}

/-- The in-memory acquire keeps the invariant when it stamps a non-null
started-at, and the rows with the id of the job it hands out have started. -/
theorem JobsInv.inv_acquire (tagFilter : json.RawMessage → json.RawMessage → Bool)
    (ids : List uuid.UUID) (db : MemDB) (arg : database.AcquireProvisionerJobParams)
    (harg : arg.StartedAt.Valid = true) (h : JobsInv ids db.provisionerJobs) :
    JobsInv ids (MemDB.AcquireProvisionerJob tagFilter arg db).2.provisionerJobs
    ∧ ∀ job, (MemDB.AcquireProvisionerJob tagFilter arg db).1 = .ok job →
        ∀ row ∈ (MemDB.AcquireProvisionerJob tagFilter arg db).2.provisionerJobs,
          row.ID = job.ID → row.StartedAt.Valid = true := by
  rcases MemDB.acquire_cases tagFilter arg db with hnone | ⟨job0, -, -, hsome⟩
  · rw [hnone]
    exact ⟨h, fun job hjob => by cases hjob⟩
  rw [hsome]
  constructor
  · refine JobsInv.inv_map ids _ _ ?_ ?_ ?_ h
    · intro row; dsimp only; split <;> rfl
    · intro row _ hs; dsimp only; split
      · exact harg
      · exact hs
    · intro row _; dsimp only
      split
      · exact Or.inl harg
      · exact Or.inr ⟨rfl, rfl⟩
  · intro job hjob row' hrow' hrid
    cases hjob
    obtain ⟨row, -, rfl⟩ := List.mem_map.1 hrow'
    by_cases hc : row.ID = job0.ID
    · rw [if_pos hc]; exact harg
    · rw [if_neg hc] at hrid
      exact absurd hrid hc

/-- One call by a server over the in-memory store, its id among the given
ids, keeps the invariant. -/
theorem JobsInv.inv_step (tagFilter : json.RawMessage → json.RawMessage → Bool)
    (env : Env MemDB) (ids : List uuid.UUID) (call : Call MemDB π)
    (hs : call.server.Database = memStore tagFilter) (hid : call.server.ID ∈ ids)
    (w : World MemDB π) (h : JobsInv ids w.db.provisionerJobs) :
    JobsInv ids (call.run env w).db.provisionerJobs := by
  cases call with
  | acquire server =>
    simp only [Call.server] at hs hid
    simp only [Call.run]
    have hargS : (AcquireJob.arg env server w).StartedAt.Valid = true := rfl
    have hacq := JobsInv.inv_acquire tagFilter ids w.db (AcquireJob.arg env server w) hargS h
    have hstoreEq : server.Database.AcquireProvisionerJob (AcquireJob.arg env server w) w.db
        = MemDB.AcquireProvisionerJob tagFilter (AcquireJob.arg env server w) w.db := by
      rw [hs]; rfl
    have hupd : ∀ a d, server.Database.UpdateProvisionerJobWithCompleteByID a d
        = MemDB.UpdateProvisionerJobWithCompleteByID a d := by
      intro a d; rw [hs]; rfl
    rcases AcquireJob.effect env server w with ⟨hdb, -⟩ | ⟨l, -, -, hdb⟩
    · rw [hdb]; exact h
    rw [hstoreEq] at hdb
    rcases hdb with hdb | ⟨job, msg, instant, hjob, hdb⟩
    · rw [hdb]; exact hacq.1
    · rw [hdb, hupd]
      exact JobsInv.inv_complete ids _ _ (hacq.2 job hjob) hacq.1
  | update server request =>
    simp only [Call.server] at hs hid
    simp only [Call.run]
    have hk : server.Database.Keeps fun db : MemDB => db.provisionerJobs := by
      rw [hs]; exact memStore_keeps tagFilter
    rcases UpdateJob.updateJob_jobs_effect env server _ hk request w with hdb | ⟨arg, hdb⟩
    · rw [hdb]; exact h
    · rw [hdb, hs]
      exact JobsInv.inv_update ids w.db arg h
  | fail server failJob =>
    simp only [Call.server] at hs hid
    simp only [Call.run]
    have hk : server.Database.Keeps fun db : MemDB => db.provisionerJobs := by
      rw [hs]; exact memStore_keeps tagFilter
    rcases FailJob.failJob_jobs_effect env server _ hk failJob w with
      hdb | ⟨jobID, job, arg, hjob, hown, ha, hdb⟩
    · rw [hdb]; exact h
    · rw [hdb, hs]
      rw [hs] at hjob
      refine JobsInv.inv_complete ids w.db arg ?_ h
      rw [ha]
      exact JobsInv.started_of_owned ids w.db jobID server.ID job h hjob hid hown
  | complete server completed =>
    simp only [Call.server] at hs hid
    simp only [Call.run]
    have hk : server.Database.Keeps fun db : MemDB => db.provisionerJobs := by
      rw [hs]; exact memStore_keeps tagFilter
    rcases CompleteJob.completeJob_jobs_effect env server _ hk completed w with
      hdb | ⟨jobID, job, arg, db1, hjob, hown, ha, h1, hdb⟩
    · rw [hdb]; exact h
    · rw [hdb, hs]
      rw [hs] at hjob
      show JobsInv ids (MemDB.UpdateProvisionerJobWithCompleteByID arg db1).2.provisionerJobs
      rw [MemDB.complete_congr arg w.db db1 h1]
      refine JobsInv.inv_complete ids w.db arg ?_ h
      rw [ha]
      exact JobsInv.started_of_owned ids w.db jobID server.ID job h hjob hid hown

/-- Every sequence of calls by servers over the in-memory store, their ids
among the given ids, keeps the invariant. -/
theorem JobsInv.inv_run (tagFilter : json.RawMessage → json.RawMessage → Bool)
    (env : Env MemDB) (ids : List uuid.UUID) (calls : List (Call MemDB π)) :
    ∀ (w : World MemDB π),
      (∀ call ∈ calls, call.server.Database = memStore tagFilter ∧ call.server.ID ∈ ids) →
      JobsInv ids w.db.provisionerJobs →
      JobsInv ids (runCalls env calls w).db.provisionerJobs := by
  induction calls with
  | nil => intro w _ h; exact h
  | cons call rest ih =>
    intro w hcalls h
    unfold runCalls
    refine ih _ (fun c hc => hcalls c (List.mem_cons_of_mem _ hc)) ?_
    obtain ⟨hs, hid⟩ := hcalls call (List.mem_cons_self _ _)
    exact JobsInv.inv_step tagFilter env ids call hs hid w h

/-- C22, as amended, over the store contract of the spec.  Start from rows in
which the ids of the jobs are pairwise distinct, every job with completed-at
non-null has started-at non-null, and every job whose worker-id field holds
the id of one of the calling servers has started-at non-null.  After every
sequence of `AcquireJob`, `UpdateJob`, `FailJob` and `CompleteJob` calls by
those servers, every job with completed-at non-null has started-at non-null
(and the two other conditions hold again). -/
theorem completed_implies_started (tagFilter : json.RawMessage → json.RawMessage → Bool)
    (env : Env MemDB) (calls : List (Call MemDB π)) (w : World MemDB π)
    (hdb : ∀ call ∈ calls, call.server.Database = memStore tagFilter)
    (hnodup : (w.db.provisionerJobs.map fun job => job.ID).Nodup)
    (hcompleted : CompletedStarted w.db.provisionerJobs)
    (howned : OwnedStarted (calls.map fun call => call.server.ID) w.db.provisionerJobs) :
    CompletedStarted (runCalls env calls w).db.provisionerJobs
    ∧ OwnedStarted (calls.map fun call => call.server.ID)
        (runCalls env calls w).db.provisionerJobs
    ∧ ((runCalls env calls w).db.provisionerJobs.map fun job => job.ID).Nodup := by
  have h := JobsInv.inv_run tagFilter env (calls.map fun call => call.server.ID) calls w
    (fun call hc => ⟨hdb call hc, List.mem_map.2 ⟨call, hc, rfl⟩⟩)
    ⟨hnodup, hcompleted, howned⟩
  exact ⟨h.completed, h.owned, h.nodup⟩

end JobsInvariant2

/-- Witness for C22: server a acquires the queued job j, updates it and fails
it, over the in-memory store; the job ends completed and started. -/
theorem completed_implies_started_witness :
    (CompletedStarted (runCalls (sampleEnv fun n => 100 + n)
        [Call.acquire (sampleServer ⟨"a"⟩ 0),
          Call.update (sampleServer ⟨"a"⟩ 0) { JobId := "j" },
          Call.fail (sampleServer ⟨"a"⟩ 0) { JobId := "j", Error := "boom" }]
        (sampleWorld [queuedJob])).db.provisionerJobs
      ∧ OwnedStarted
        ([Call.acquire (sampleServer ⟨"a"⟩ 0),
          Call.update (sampleServer ⟨"a"⟩ 0) { JobId := "j" },
          Call.fail (sampleServer ⟨"a"⟩ 0) { JobId := "j", Error := "boom" }].map
            fun call => call.server.ID)
        (runCalls (sampleEnv fun n => 100 + n)
          [Call.acquire (sampleServer ⟨"a"⟩ 0),
            Call.update (sampleServer ⟨"a"⟩ 0) { JobId := "j" },
            Call.fail (sampleServer ⟨"a"⟩ 0) { JobId := "j", Error := "boom" }]
          (sampleWorld [queuedJob])).db.provisionerJobs
      ∧ ((runCalls (sampleEnv fun n => 100 + n)
          [Call.acquire (sampleServer ⟨"a"⟩ 0),
            Call.update (sampleServer ⟨"a"⟩ 0) { JobId := "j" },
            Call.fail (sampleServer ⟨"a"⟩ 0) { JobId := "j", Error := "boom" }]
          (sampleWorld [queuedJob])).db.provisionerJobs.map fun job => job.ID).Nodup)
    ∧ ((runCalls (sampleEnv fun n => 100 + n)
          [Call.acquire (sampleServer ⟨"a"⟩ 0),
            Call.update (sampleServer ⟨"a"⟩ 0) { JobId := "j" },
            Call.fail (sampleServer ⟨"a"⟩ 0) { JobId := "j", Error := "boom" }]
          (sampleWorld [queuedJob])).db.provisionerJobs.map fun job =>
            (job.StartedAt.Valid, job.CompletedAt.Valid)) = [(true, true)] :=
  ⟨completed_implies_started (fun _ _ => true) (sampleEnv fun n => 100 + n)
      [Call.acquire (sampleServer ⟨"a"⟩ 0),
        Call.update (sampleServer ⟨"a"⟩ 0) { JobId := "j" },
        Call.fail (sampleServer ⟨"a"⟩ 0) { JobId := "j", Error := "boom" }]
      (sampleWorld [queuedJob])
      (by
        intro call hc
        simp only [List.mem_cons, List.mem_singleton, List.not_mem_nil, or_false] at hc
        rcases hc with rfl | rfl | rfl <;> rfl)
      (by decide) (by decide) (by decide),
    by decide⟩

/-- Counterexample to C22 as stated.  The one job of the store has worker-id
a, started-at null and completed-at null, so every job with completed-at
non-null has started-at non-null.  After `FailJob` by server a the job has
completed-at non-null and started-at null. -/
theorem completed_without_started :
    CompletedStarted (sampleWorld [ownedUnstartedJob]).db.provisionerJobs
    ∧ (FailJob (sampleEnv fun n => 100 + n) (sampleServer ⟨"a"⟩ 10)
        { JobId := "j", Error := "boom" } (sampleWorld [ownedUnstartedJob])).1 = .ok {}
    ∧ ¬ CompletedStarted (runCalls (sampleEnv fun n => 100 + n)
        [Call.fail (sampleServer ⟨"a"⟩ 10) { JobId := "j", Error := "boom" }]
        (sampleWorld [ownedUnstartedJob])).db.provisionerJobs
    ∧ ((runCalls (sampleEnv fun n => 100 + n)
        [Call.fail (sampleServer ⟨"a"⟩ 10) { JobId := "j", Error := "boom" }]
        (sampleWorld [ownedUnstartedJob])).db.provisionerJobs.map fun job =>
          (job.StartedAt.Valid, job.CompletedAt.Valid)) = [(false, true)] := by
  decide

namespace strings

theorem lessChars_irrefl (a : List Char) : lessChars a a = false := by
  induction a with
  | nil => rfl
  | cons c cs ih => simp [lessChars, ih]

theorem lessChars_trans : ∀ (a b c : List Char), lessChars a b = true → lessChars b c = true →
    lessChars a c = true
  | [], [], _, h, _ => by simp [lessChars] at h
  | [], _ :: _, [], _, h => by simp [lessChars] at h
  | [], _ :: _, _ :: _, _, _ => by simp [lessChars]
  | _ :: _, [], _, h, _ => by simp [lessChars] at h
  | _ :: _, _ :: _, [], _, h => by simp [lessChars] at h
  | x :: xs, y :: ys, z :: zs, h1, h2 => by
    simp only [lessChars] at h1 h2 ⊢
    by_cases hxy : x.toNat < y.toNat
    · by_cases hyz : y.toNat < z.toNat
      · simp [Nat.lt_trans hxy hyz]
      · by_cases hzy : z.toNat < y.toNat
        · simp [hyz, hzy] at h2
        · have : y.toNat = z.toNat := by omega
          simp [← this, hxy]
    · by_cases hyx : y.toNat < x.toNat
      · simp [hxy, hyx] at h1
      · have hxy2 : x.toNat = y.toNat := by omega
        simp only [hxy, hyx, if_false] at h1
        by_cases hyz : y.toNat < z.toNat
        · simp [hxy2, hyz]
        · by_cases hzy : z.toNat < y.toNat
          · simp [hyz, hzy] at h2
          · simp only [hyz, hzy, if_false] at h2
            have : ¬ x.toNat < z.toNat := by omega
            have : ¬ z.toNat < x.toNat := by omega
            simp only [*, if_false]
            exact lessChars_trans xs ys zs h1 h2

theorem lessChars_total : ∀ (a b : List Char), lessChars a b = false → lessChars b a = false →
    a = b
  | [], [], _, _ => rfl
  | [], _ :: _, h, _ => by simp [lessChars] at h
  | _ :: _, [], _, h => by simp [lessChars] at h
  | x :: xs, y :: ys, h1, h2 => by
    simp only [lessChars] at h1 h2
    by_cases hxy : x.toNat < y.toNat
    · simp [hxy] at h1
    · by_cases hyx : y.toNat < x.toNat
      · simp [hyx] at h2
      · simp only [hxy, hyx, if_false] at h1 h2
        have hn : x.toNat = y.toNat := by omega
        have hc : x = y := Char.ext (UInt32.ext (by simpa [Char.toNat] using hn))
        rw [hc, lessChars_total xs ys h1 h2]

theorem Less_irrefl (a : String) : Less a a = false :=
  lessChars_irrefl _

theorem Less_trans (a b c : String) (h1 : Less a b = true) (h2 : Less b c = true) :
    Less a c = true :=
  lessChars_trans _ _ _ h1 h2

theorem Less_total (a b : String) (h1 : Less a b = false) (h2 : Less b a = false) : a = b :=
  String.ext (lessChars_total _ _ h1 h2)

theorem Less_asymm (a b : String) (h1 : Less a b = true) : Less b a = false := by
  cases h : Less b a
  · rfl
  · have := Less_trans a b a h1 h
    rw [Less_irrefl] at this
    cases this

end strings
namespace terraform

theorem graphResource.notAfter_refl (r : graphResource) : r.NotAfter r :=
  Or.inr ⟨rfl, Or.inl rfl⟩

theorem graphResource.notAfter_trans (a b c : graphResource) (h1 : a.NotAfter b)
    (h2 : b.NotAfter c) : a.NotAfter c := by
  unfold graphResource.NotAfter at *
  rcases h1 with h1 | ⟨hd1, hl1⟩
  · rcases h2 with h2 | ⟨hd2, _⟩
    · exact Or.inl (by omega)
    · exact Or.inl (by omega)
  · rcases h2 with h2 | ⟨hd2, hl2⟩
    · exact Or.inl (by omega)
    · refine Or.inr ⟨by omega, ?_⟩
      rcases hl1 with hl1 | hl1
      · rw [hl1]; exact hl2
      · rcases hl2 with hl2 | hl2
        · rw [← hl2]; exact Or.inr hl1
        · exact Or.inr (strings.Less_trans _ _ _ hl1 hl2)

theorem graphResource.notAfter_antisymm (a b : graphResource) (h1 : a.NotAfter b)
    (h2 : b.NotAfter a) : a = b := by
  unfold graphResource.NotAfter at *
  cases a with | mk la da =>
  cases b with | mk lb db =>
  simp only at h1 h2
  rcases h1 with h1 | ⟨hd1, hl1⟩
  · rcases h2 with h2 | ⟨hd2, _⟩ <;> omega
  · rcases h2 with h2 | ⟨_, hl2⟩
    · omega
    · subst hd1
      rcases hl1 with hl1 | hl1
      · rw [hl1]
      · rcases hl2 with hl2 | hl2
        · rw [hl2]
        · rw [strings.Less_asymm _ _ hl1] at hl2
          cases hl2

theorem ConvertResources.closer_some (chosen : graphResource) (resource : graphResource) :
    ∃ r, ConvertResources.closer (some chosen) resource = some r
      ∧ (r = chosen ∨ r = resource) ∧ r.NotAfter chosen ∧ r.NotAfter resource := by
  unfold ConvertResources.closer
  simp only
  by_cases h1 : resource.Depth < chosen.Depth
  · rw [if_pos h1]
    exact ⟨resource, rfl, Or.inr rfl, Or.inl h1, graphResource.notAfter_refl _⟩
  · rw [if_neg h1]
    by_cases h2 : resource.Depth = chosen.Depth
        ∧ strings.Less resource.Label chosen.Label = true
    · rw [if_pos h2]
      exact ⟨resource, rfl, Or.inr rfl, Or.inr ⟨h2.1, Or.inr h2.2⟩,
        graphResource.notAfter_refl _⟩
    · rw [if_neg h2]
      refine ⟨chosen, rfl, Or.inl rfl, graphResource.notAfter_refl _, ?_⟩
      unfold graphResource.NotAfter
      by_cases hd : chosen.Depth < resource.Depth
      · exact Or.inl hd
      · have hde : chosen.Depth = resource.Depth := by omega
        refine Or.inr ⟨hde, ?_⟩
        have hl : strings.Less resource.Label chosen.Label = false := by
          cases h : strings.Less resource.Label chosen.Label
          · rfl
          · exact absurd ⟨hde.symm, h⟩ h2
        cases h : strings.Less chosen.Label resource.Label
        · exact Or.inl (strings.Less_total _ _ h hl)
        · exact Or.inr rfl

theorem ConvertResources.closer_fold (found : List graphResource) :
    ∀ chosen : graphResource, ∃ r, found.foldl ConvertResources.closer (some chosen) = some r
      ∧ (r = chosen ∨ r ∈ found) ∧ r.NotAfter chosen ∧ ∀ c ∈ found, r.NotAfter c := by
  induction found with
  | nil =>
    intro chosen
    exact ⟨chosen, rfl, Or.inl rfl, graphResource.notAfter_refl _, by simp⟩
  | cons x rest ih =>
    intro chosen
    obtain ⟨m, hm, hmem, hmc, hmx⟩ := ConvertResources.closer_some chosen x
    obtain ⟨r, hr, hrmem, hrm, hrall⟩ := ih m
    refine ⟨r, ?_, ?_, graphResource.notAfter_trans _ _ _ hrm hmc, ?_⟩
    · rw [List.foldl_cons, hm, hr]
    · rcases hrmem with h | h
      · rcases hmem with h2 | h2
        · exact Or.inl (h.trans h2)
        · exact Or.inr (by rw [h, h2]; exact List.mem_cons_self _ _)
      · exact Or.inr (List.mem_cons_of_mem _ h)
    · intro c hc
      rcases List.mem_cons.mp hc with h | h
      · rw [h]; exact graphResource.notAfter_trans _ _ _ hrm hmx
      · exact hrall c h

/-- The choice among candidates is the least one in the order of the choice. -/
theorem ConvertResources.closer_least (found : List graphResource) (h : found ≠ []) :
    ∃ r, found.foldl ConvertResources.closer none = some r ∧ r ∈ found
      ∧ ∀ c ∈ found, r.NotAfter c := by
  cases found with
  | nil => exact absurd rfl h
  | cons x rest =>
    obtain ⟨r, hr, hmem, hrx, hall⟩ := ConvertResources.closer_fold rest x
    refine ⟨r, hr, ?_, ?_⟩
    · rcases hmem with h | h
      · rw [h]; exact List.mem_cons_self _ _
      · exact List.mem_cons_of_mem _ h
    · intro c hc
      rcases List.mem_cons.mp hc with h | h
      · rw [h]; exact hrx
      · exact hall c h

theorem ConvertResources.closer_none_iff (found : List graphResource) :
    found.foldl ConvertResources.closer none = none ↔ found = [] := by
  constructor
  · intro h
    by_contra hne
    obtain ⟨r, hr, _⟩ := ConvertResources.closer_least found hne
    rw [hr] at h
    cases h
  · intro h
    rw [h]
    rfl

/-- The choice does not depend on the order of the candidates. -/
theorem ConvertResources.closer_perm (found found2 : List graphResource)
    (h : found2.Perm found) :
    found2.foldl ConvertResources.closer none = found.foldl ConvertResources.closer none := by
  by_cases hne : found = []
  · subst hne
    rw [List.Perm.eq_nil h]
  · have hne2 : found2 ≠ [] := fun h2 => hne (List.Perm.eq_nil (h2 ▸ h.symm))
    obtain ⟨r, hr, hmem, hall⟩ := ConvertResources.closer_least found hne
    obtain ⟨r2, hr2, hmem2, hall2⟩ := ConvertResources.closer_least found2 hne2
    rw [hr, hr2, graphResource.notAfter_antisymm r2 r (hall2 r (h.mem_iff.mpr hmem))
      (hall r2 (h.mem_iff.mp hmem2))]

end terraform
namespace gomap

theorem lookup_cons_eq {β : Type} (m : List (String × β)) (k : String) (v : β) :
    ((k, v) :: m).lookup k = some v := by
  simp [List.lookup]

theorem lookup_cons_ne {β : Type} (m : List (String × β)) (k k2 : String) (v : β)
    (hne : k2 ≠ k) : ((k, v) :: m).lookup k2 = m.lookup k2 := by
  have hb : (k2 == k) = false := by simpa using hne
  simp [List.lookup, hb]

theorem lookup_set_self {β : Type} (m : List (String × β)) (k : String) (v : β) :
    (gomap.set m k v).lookup k = some v := by
  unfold gomap.set
  induction m with
  | nil => exact lookup_cons_eq _ _ _
  | cons e rest ih =>
    obtain ⟨ek, ev⟩ := e
    by_cases h : ek = k
    · rw [List.filter_cons_of_neg (by simp [h])]
      exact ih
    · rw [List.filter_cons_of_pos (by simp [h]), List.cons_append,
        lookup_cons_ne _ _ _ _ (fun h2 => h h2.symm)]
      exact ih

theorem lookup_set_ne {β : Type} (m : List (String × β)) (k k2 : String) (v : β)
    (hne : k2 ≠ k) : (gomap.set m k v).lookup k2 = m.lookup k2 := by
  unfold gomap.set
  induction m with
  | nil => exact lookup_cons_ne _ _ _ _ hne
  | cons e rest ih =>
    obtain ⟨ek, ev⟩ := e
    by_cases h : ek = k
    · rw [List.filter_cons_of_neg (by simp [h]), h, lookup_cons_ne _ _ _ _ hne]
      exact ih
    · rw [List.filter_cons_of_pos (by simp [h]), List.cons_append]
      by_cases hk : k2 = ek
      · rw [hk, lookup_cons_eq, lookup_cons_eq]
      · rw [lookup_cons_ne _ _ _ _ hk, lookup_cons_ne _ _ _ _ hk]
        exact ih

theorem mem_of_lookup {β : Type} (m : List (String × β)) (k : String) (v : β)
    (h : m.lookup k = some v) : (k, v) ∈ m := by
  induction m with
  | nil => simp at h
  | cons e rest ih =>
    obtain ⟨ek, ev⟩ := e
    by_cases hk : k = ek
    · subst hk
      simp [List.lookup] at h
      simp [h]
    · have hb : (k == ek) = false := by simpa using hk
      simp only [List.lookup, hb] at h
      exact List.mem_cons_of_mem _ (ih h)

theorem lookup_map {β δ : Type} (m : List (String × β)) (f : β → δ) (k : String) :
    (m.map (fun e => (e.1, f e.2))).lookup k = (m.lookup k).map f := by
  induction m with
  | nil => rfl
  | cons e rest ih =>
    obtain ⟨ek, ev⟩ := e
    by_cases hk : k = ek
    · subst hk
      simp [List.lookup]
    · have hb : (k == ek) = false := by simpa using hk
      simpa [List.lookup, hb] using ih

theorem mem_set {β : Type} (m : List (String × β)) (k : String) (v : β) (e : String × β)
    (h : e ∈ gomap.set m k v) : e ∈ m ∨ e = (k, v) := by
  unfold gomap.set at h
  rcases List.mem_append.mp h with h | h
  · exact Or.inl (List.mem_filter.mp h).1
  · exact Or.inr (by simpa using h)

end gomap
namespace terraform

theorem agentsOf_set (resourceAgents : List (String × List sdkproto.Agent)) (k label : String)
    (v : List sdkproto.Agent) :
    agentsOf (gomap.set resourceAgents k v) label
      = if label = k then v else agentsOf resourceAgents label := by
  unfold agentsOf
  by_cases h : label = k
  · rw [if_pos h, h, gomap.lookup_set_self]
    rfl
  · rw [if_neg h, gomap.lookup_set_ne _ _ _ _ h]

theorem agentsOf_map (resourceAgents : List (String × List sdkproto.Agent))
    (f : List sdkproto.Agent → List sdkproto.Agent) (hf : f [] = []) (label : String) :
    agentsOf (resourceAgents.map (fun e => (e.1, f e.2))) label
      = f (agentsOf resourceAgents label) := by
  unfold agentsOf
  rw [gomap.lookup_map]
  cases List.lookup label resourceAgents with
  | none => exact hf.symm
  | some v => rfl

theorem findResourcesInGraph.visit_hosts (graph : gographviz.Graph)
    (tfResourceByLabel : List (String × tfjson.StateResource))
    (recurse : String → Except Error (List graphResource)) (currentDepth : Nat)
    (hrec : ∀ name out, recurse name = .ok out →
      ∀ r ∈ out, ∃ resource, IsHost tfResourceByLabel r resource)
    (destinations : List String) :
    ∀ (graphResources out : List graphResource),
      (∀ r ∈ graphResources, ∃ resource, IsHost tfResourceByLabel r resource) →
      findResourcesInGraph.visit graph tfResourceByLabel recurse currentDepth destinations
        graphResources = .ok out →
      ∀ r ∈ out, ∃ resource, IsHost tfResourceByLabel r resource := by
  induction destinations with
  | nil =>
    intro graphResources out hacc h
    unfold findResourcesInGraph.visit at h
    cases h
    exact hacc
  | cons destination rest ih =>
    intro graphResources out hacc h
    unfold findResourcesInGraph.visit at h
    split at h
    · cases h
    · split at h
      · cases h
      · rename_i found hfound
        have hacc2 : ∀ r ∈ graphResources ++ found,
            ∃ resource, IsHost tfResourceByLabel r resource := by
          intro r hr
          rcases List.mem_append.mp hr with h1 | h1
          · exact hacc r h1
          · exact hrec _ _ hfound r h1
        simp only at h
        split at h
        · exact ih _ _ hacc2 h
        · split at h
          · exact ih _ _ hacc2 h
          · rename_i resource hres
            split at h
            · exact ih _ _ hacc2 h
            · rename_i hmode
              split at h
              · exact ih _ _ hacc2 h
              · rename_i hpre
                refine ih _ _ ?_ h
                intro r hr
                rcases List.mem_append.mp hr with h1 | h1
                · exact hacc2 r h1
                · rw [List.mem_singleton.mp h1]
                  exact ⟨resource, hres, by simpa using hmode, by simpa using hpre⟩

/-- Every candidate of a traversal is a host. -/
theorem findResourcesInGraph.hosts {γ : Type} (env : Env γ) (graph : gographviz.Graph)
    (tfResourceByLabel : List (String × tfjson.StateResource)) (fuel : Nat) :
    ∀ (nodeName : String) (currentDepth : Nat) (up : Bool) (out : List graphResource),
      findResourcesInGraph env graph tfResourceByLabel fuel nodeName currentDepth up = .ok out →
      ∀ r ∈ out, ∃ resource, IsHost tfResourceByLabel r resource := by
  induction fuel with
  | zero =>
    intro nodeName currentDepth up out h
    unfold findResourcesInGraph at h
    cases h
  | succ fuel ih =>
    intro nodeName currentDepth up out h
    unfold findResourcesInGraph at h
    exact findResourcesInGraph.visit_hosts graph tfResourceByLabel _ currentDepth
      (fun name out2 h2 => ih name _ up out2 h2) _ [] out (by simp) h

/-- One round of the loop "Find all agents!". -/
theorem ConvertResources.agents_cons {γ : Type} (env : Env γ) (fuel : Nat)
    (graph : gographviz.Graph) (tfResourceByLabel : List (String × tfjson.StateResource))
    (e : String × tfjson.StateResource) (rest : List (String × tfjson.StateResource))
    (resourceAgents out : List (String × List sdkproto.Agent))
    (h : ConvertResources.agents env fuel graph tfResourceByLabel (e :: rest) resourceAgents
      = .ok out) :
    (e.2.Type_ ≠ "coder_agent"
      ∧ ConvertResources.agents env fuel graph tfResourceByLabel rest resourceAgents = .ok out)
    ∨ (e.2.Type_ = "coder_agent" ∧ ∃ attrs agentNode found,
        env.DecodeAgent e.2.AttributeValues = .ok attrs
        ∧ ConvertResources.findNode env graph (convertAddressToLabel e.2.Address)
          = some agentNode
        ∧ findResourcesInGraph env graph tfResourceByLabel fuel agentNode.Name 0 true
          = .ok found
        ∧ ((found.foldl ConvertResources.closer none = none
            ∧ ConvertResources.agents env fuel graph tfResourceByLabel rest resourceAgents
              = .ok out)
          ∨ ∃ agentResource, found.foldl ConvertResources.closer none = some agentResource
            ∧ ConvertResources.agents env fuel graph tfResourceByLabel rest
              (gomap.set resourceAgents agentResource.Label
                (agentsOf resourceAgents agentResource.Label
                  ++ [ConvertResources.agent e.2 attrs])) = .ok out)) := by
  obtain ⟨k, tfResource⟩ := e
  unfold ConvertResources.agents at h
  split at h
  · rename_i hty
    exact Or.inl ⟨hty, h⟩
  · rename_i hty
    refine Or.inr ⟨by simpa using hty, ?_⟩
    split at h
    · cases h
    · rename_i attrs hattrs
      simp only at h
      split at h
      · cases h
      · rename_i agentNode hnode
        split at h
        · cases h
        · rename_i found hfound
          refine ⟨attrs, agentNode, found, hattrs, hnode, hfound, ?_⟩
          split at h
          · rename_i hsel
            exact Or.inl ⟨hsel, h⟩
          · rename_i agentResource hsel
            exact Or.inr ⟨agentResource, hsel, h⟩

end terraform

namespace terraform

theorem ConvertResources.agents_grow {γ : Type} (env : Env γ) (fuel : Nat)
    (graph : gographviz.Graph) (tfResourceByLabel : List (String × tfjson.StateResource))
    (entries : List (String × tfjson.StateResource)) :
    ∀ (resourceAgents out : List (String × List sdkproto.Agent)),
      ConvertResources.agents env fuel graph tfResourceByLabel entries resourceAgents = .ok out →
      ∀ label a, a ∈ agentsOf resourceAgents label → a ∈ agentsOf out label := by
  induction entries with
  | nil =>
    intro resourceAgents out h label a ha
    unfold ConvertResources.agents at h
    cases h
    exact ha
  | cons e rest ih =>
    intro resourceAgents out h label a ha
    rcases ConvertResources.agents_cons env fuel graph tfResourceByLabel e rest _ _ h with
      ⟨_, h2⟩ | ⟨_, attrs, agentNode, found, _, _, _, ⟨_, h2⟩ | ⟨r, _, h2⟩⟩
    · exact ih _ _ h2 label a ha
    · exact ih _ _ h2 label a ha
    · refine ih _ _ h2 label a ?_
      rw [agentsOf_set]
      by_cases hl : label = r.Label
      · rw [if_pos hl, ← hl]
        exact List.mem_append_left _ ha
      · rw [if_neg hl]
        exact ha

/-- Every "coder_agent" the loop visits is appended to the agents of the host
chosen among its candidates. -/
theorem ConvertResources.agents_attach {γ : Type} (env : Env γ) (fuel : Nat)
    (graph : gographviz.Graph) (tfResourceByLabel : List (String × tfjson.StateResource))
    (entries : List (String × tfjson.StateResource)) :
    ∀ (resourceAgents out : List (String × List sdkproto.Agent)),
      ConvertResources.agents env fuel graph tfResourceByLabel entries resourceAgents = .ok out →
      ∀ e ∈ entries, e.2.Type_ = "coder_agent" →
        ∃ attrs agentNode found,
          env.DecodeAgent e.2.AttributeValues = .ok attrs
          ∧ ConvertResources.findNode env graph (convertAddressToLabel e.2.Address)
            = some agentNode
          ∧ findResourcesInGraph env graph tfResourceByLabel fuel agentNode.Name 0 true
            = .ok found
          ∧ ∀ r, found.foldl ConvertResources.closer none = some r →
            ConvertResources.agent e.2 attrs ∈ agentsOf out r.Label := by
  induction entries with
  | nil =>
    intro resourceAgents out _ e he
    cases he
  | cons e0 rest ih =>
    intro resourceAgents out h e he hty
    rcases List.mem_cons.mp he with heq | hmem
    · subst heq
      rcases ConvertResources.agents_cons env fuel graph tfResourceByLabel e rest _ _ h with
        ⟨hne, _⟩ | ⟨_, attrs, agentNode, found, hd, hn, hf, ⟨hsel, _⟩ | ⟨r, hsel, h2⟩⟩
      · exact absurd hty hne
      · refine ⟨attrs, agentNode, found, hd, hn, hf, ?_⟩
        intro r hr
        rw [hsel] at hr
        cases hr
      · refine ⟨attrs, agentNode, found, hd, hn, hf, ?_⟩
        intro r2 hr
        rw [hsel] at hr
        cases hr
        refine ConvertResources.agents_grow env fuel graph tfResourceByLabel rest _ _ h2 _ _ ?_
        rw [agentsOf_set, if_pos rfl]
        exact List.mem_append_right _ (List.mem_singleton.mpr rfl)
    · rcases ConvertResources.agents_cons env fuel graph tfResourceByLabel e0 rest _ _ h with
        ⟨_, h2⟩ | ⟨_, attrs, agentNode, found, _, _, _, ⟨_, h2⟩ | ⟨r, _, h2⟩⟩
      · exact ih _ _ h2 e hmem hty
      · exact ih _ _ h2 e hmem hty
      · exact ih _ _ h2 e hmem hty

/-- A property of the agents built from the "coder_agent" entries holds of
every agent the loop leaves. -/
theorem ConvertResources.agents_all {γ : Type} (env : Env γ) (fuel : Nat)
    (graph : gographviz.Graph) (tfResourceByLabel : List (String × tfjson.StateResource))
    (P : sdkproto.Agent → Prop) (hP : ∀ tfResource attrs, P (ConvertResources.agent tfResource attrs))
    (entries : List (String × tfjson.StateResource)) :
    ∀ (resourceAgents out : List (String × List sdkproto.Agent)),
      ConvertResources.agents env fuel graph tfResourceByLabel entries resourceAgents = .ok out →
      (∀ label, ∀ a ∈ agentsOf resourceAgents label, P a) →
      ∀ label, ∀ a ∈ agentsOf out label, P a := by
  induction entries with
  | nil =>
    intro resourceAgents out h hall
    unfold ConvertResources.agents at h
    cases h
    exact hall
  | cons e rest ih =>
    intro resourceAgents out h hall
    rcases ConvertResources.agents_cons env fuel graph tfResourceByLabel e rest _ _ h with
      ⟨_, h2⟩ | ⟨_, attrs, agentNode, found, _, _, _, ⟨_, h2⟩ | ⟨r, _, h2⟩⟩
    · exact ih _ _ h2 hall
    · exact ih _ _ h2 hall
    · refine ih _ _ h2 ?_
      intro label a ha
      rw [agentsOf_set] at ha
      by_cases hl : label = r.Label
      · rw [if_pos hl] at ha
        rcases List.mem_append.mp ha with h3 | h3
        · exact hall _ a h3
        · rw [List.mem_singleton.mp h3]
          exact hP _ _
      · rw [if_neg hl] at ha
        exact hall _ a ha

theorem ConvertResources.associate_all (P : sdkproto.Agent → Prop)
    (hP : ∀ a instanceID, P a → P { a with Auth := some (.InstanceId instanceID) })
    (agentID instanceID : String) (agents : List sdkproto.Agent) (h : ∀ a ∈ agents, P a) :
    ∀ a ∈ ConvertResources.associate agentID instanceID agents, P a := by
  induction agents with
  | nil =>
    intro a ha
    unfold ConvertResources.associate at ha
    cases ha
  | cons x rest ih =>
    intro a ha
    unfold ConvertResources.associate at ha
    split at ha
    · rcases List.mem_cons.mp ha with h1 | h1
      · rw [h1]; exact h x (List.mem_cons_self _ _)
      · exact ih (fun b hb => h b (List.mem_cons_of_mem _ hb)) a h1
    · rcases List.mem_cons.mp ha with h1 | h1
      · rw [h1]; exact hP _ _ (h x (List.mem_cons_self _ _))
      · exact h a (List.mem_cons_of_mem _ h1)

theorem ConvertResources.associate_map {δ : Type} (f : sdkproto.Agent → δ)
    (hf : ∀ a auth, f { a with Auth := auth } = f a)
    (agentID instanceID : String) (agents : List sdkproto.Agent) :
    (ConvertResources.associate agentID instanceID agents).map f = agents.map f := by
  induction agents with
  | nil => rfl
  | cons x rest ih =>
    unfold ConvertResources.associate
    split
    · rw [List.map_cons, List.map_cons, ih]
    · rw [List.map_cons, List.map_cons, hf]

theorem ConvertResources.associate_nil (agentID instanceID : String) :
    ConvertResources.associate agentID instanceID [] = [] := rfl

/-- The manual association keeps a property that a change of the auth keeps. -/
theorem ConvertResources.instances_all (P : sdkproto.Agent → Prop)
    (hP : ∀ a instanceID, P a → P { a with Auth := some (.InstanceId instanceID) })
    (entries : List (String × tfjson.StateResource)) :
    ∀ (resourceAgents : List (String × List sdkproto.Agent)),
      (∀ label, ∀ a ∈ agentsOf resourceAgents label, P a) →
      ∀ label, ∀ a ∈ agentsOf (ConvertResources.instances entries resourceAgents) label, P a := by
  induction entries with
  | nil =>
    intro resourceAgents hall
    exact hall
  | cons e rest ih =>
    intro resourceAgents hall
    obtain ⟨k, resource⟩ := e
    unfold ConvertResources.instances
    split
    · exact ih _ hall
    · split
      · split
        · rename_i agentID _ instanceID _
          refine ih _ ?_
          intro label a ha
          rw [agentsOf_map _ _ (ConvertResources.associate_nil _ _)] at ha
          exact ConvertResources.associate_all P hP _ _ _ (hall label) a ha
        · exact ih _ hall
      · exact ih _ hall

/-- The manual association keeps what does not depend on the auth. -/
theorem ConvertResources.instances_map {δ : Type} (f : sdkproto.Agent → δ)
    (hf : ∀ a auth, f { a with Auth := auth } = f a)
    (entries : List (String × tfjson.StateResource)) :
    ∀ (resourceAgents : List (String × List sdkproto.Agent)) (label : String),
      (agentsOf (ConvertResources.instances entries resourceAgents) label).map f
        = (agentsOf resourceAgents label).map f := by
  induction entries with
  | nil =>
    intro resourceAgents label
    rfl
  | cons e rest ih =>
    intro resourceAgents label
    obtain ⟨k, resource⟩ := e
    unfold ConvertResources.instances
    split
    · exact ih _ _
    · split
      · split
        · rw [ih, agentsOf_map _ _ (ConvertResources.associate_nil _ _),
            ConvertResources.associate_map f hf]
        · exact ih _ _
      · exact ih _ _

end terraform

namespace terraform

/-- One round of the loop "Associate Apps with agents". -/
theorem ConvertResources.apps_cons {γ : Type} (env : Env γ)
    (e : String × tfjson.StateResource) (rest : List (String × tfjson.StateResource))
    (appSlugs : List String) (resourceAgents : List (String × List sdkproto.Agent)) :
    (e.2.Type_ ≠ "coder_app"
      ∧ ConvertResources.apps env (e :: rest) appSlugs resourceAgents
        = ConvertResources.apps env rest appSlugs resourceAgents)
    ∨ (e.2.Type_ = "coder_app" ∧ ∃ err, env.DecodeApp e.2.AttributeValues = .error err
      ∧ ConvertResources.apps env (e :: rest) appSlugs resourceAgents
        = .error (.wrap "decode app attributes" err))
    ∨ (e.2.Type_ = "coder_app" ∧ ∃ attrs, env.DecodeApp e.2.AttributeValues = .ok attrs
      ∧ ((env.AppSlugRegexMatch (ConvertResources.appDefaults e.2 attrs).Slug = false
          ∧ ConvertResources.apps env (e :: rest) appSlugs resourceAgents
            = .error (ConvertResources.invalidSlug env (ConvertResources.appDefaults e.2 attrs).Slug))
        ∨ (env.AppSlugRegexMatch (ConvertResources.appDefaults e.2 attrs).Slug = true
          ∧ (ConvertResources.appDefaults e.2 attrs).Slug ∈ appSlugs
          ∧ ConvertResources.apps env (e :: rest) appSlugs resourceAgents
            = .error
              (ConvertResources.duplicateSlug env (ConvertResources.appDefaults e.2 attrs).Slug))
        ∨ (env.AppSlugRegexMatch (ConvertResources.appDefaults e.2 attrs).Slug = true
          ∧ (ConvertResources.appDefaults e.2 attrs).Slug ∉ appSlugs
          ∧ ConvertResources.apps env (e :: rest) appSlugs resourceAgents
            = ConvertResources.apps env rest
              ((ConvertResources.appDefaults e.2 attrs).Slug :: appSlugs)
              (ConvertResources.attach (ConvertResources.appDefaults e.2 attrs).AgentID
                (ConvertResources.app env (ConvertResources.appDefaults e.2 attrs))
                resourceAgents)))) := by
  obtain ⟨k, resource⟩ := e
  by_cases hty : resource.Type_ = "coder_app"
  · refine Or.inr ?_
    cases hd : env.DecodeApp resource.AttributeValues with
    | error err =>
      refine Or.inl ⟨hty, err, rfl, ?_⟩
      rw [ConvertResources.apps]
      simp only [hty, ne_eq, not_true_eq_false, if_false, hd]
    | ok attrs =>
      refine Or.inr ⟨hty, attrs, rfl, ?_⟩
      cases hv : env.AppSlugRegexMatch (ConvertResources.appDefaults resource attrs).Slug with
      | false =>
        refine Or.inl ⟨rfl, ?_⟩
        rw [ConvertResources.apps]
        simp only [hty, ne_eq, not_true_eq_false, if_false, hd, hv, Bool.not_false, if_true]
        rfl
      | true =>
        by_cases hs : (ConvertResources.appDefaults resource attrs).Slug ∈ appSlugs
        · refine Or.inr (Or.inl ⟨rfl, hs, ?_⟩)
          rw [ConvertResources.apps]
          simp only [hty, ne_eq, not_true_eq_false, if_false, hd, hv, Bool.not_true, hs,
            if_true]
          rfl
        · refine Or.inr (Or.inr ⟨rfl, hs, ?_⟩)
          rw [ConvertResources.apps]
          simp only [hty, ne_eq, not_true_eq_false, if_false, hd, hv, Bool.not_true, hs]
          rfl
  · refine Or.inl ⟨hty, ?_⟩
    rw [ConvertResources.apps]
    simp only [ne_eq, hty, not_false_eq_true, if_true]

theorem ConvertResources.agentsOf_attach (agentID : String) (app : sdkproto.App)
    (resourceAgents : List (String × List sdkproto.Agent)) (label : String) :
    agentsOf (ConvertResources.attach agentID app resourceAgents) label
      = (agentsOf resourceAgents label).map (fun agent =>
          if agent.Id ≠ agentID then agent else { agent with Apps := agent.Apps ++ [app] }) := by
  unfold ConvertResources.attach
  exact agentsOf_map resourceAgents (fun l => l.map _) rfl label

/-- The apps loop keeps a property of the agents that is kept when an app of
a "coder_app" entry is appended. -/
theorem ConvertResources.apps_all {γ : Type} (env : Env γ) (P : sdkproto.Agent → Prop)
    (entries : List (String × tfjson.StateResource))
    (hP : ∀ a, P a → ∀ e ∈ entries, e.2.Type_ = "coder_app" →
      ∀ attrs, env.DecodeApp e.2.AttributeValues = .ok attrs →
        P { a with Apps := a.Apps
          ++ [ConvertResources.app env (ConvertResources.appDefaults e.2 attrs)] }) :
    ∀ (appSlugs : List String) (resourceAgents out : List (String × List sdkproto.Agent)),
      ConvertResources.apps env entries appSlugs resourceAgents = .ok out →
      (∀ label, ∀ a ∈ agentsOf resourceAgents label, P a) →
      ∀ label, ∀ a ∈ agentsOf out label, P a := by
  induction entries with
  | nil =>
    intro appSlugs resourceAgents out h hall
    unfold ConvertResources.apps at h
    cases h
    exact hall
  | cons e rest ih =>
    intro appSlugs resourceAgents out h hall
    have hP2 : ∀ a, P a → ∀ e2 ∈ rest, e2.2.Type_ = "coder_app" →
        ∀ attrs, env.DecodeApp e2.2.AttributeValues = .ok attrs →
          P { a with Apps := a.Apps
            ++ [ConvertResources.app env (ConvertResources.appDefaults e2.2 attrs)] } :=
      fun a ha e2 he2 => hP a ha e2 (List.mem_cons_of_mem _ he2)
    rcases ConvertResources.apps_cons env e rest appSlugs resourceAgents with
      ⟨_, h2⟩ | ⟨_, err, _, h2⟩ | ⟨hty, attrs, hd, ⟨_, h2⟩ | ⟨_, _, h2⟩ | ⟨_, _, h2⟩⟩
    · rw [h2] at h
      exact ih hP2 _ _ _ h hall
    · rw [h2] at h
      cases h
    · rw [h2] at h
      cases h
    · rw [h2] at h
      cases h
    · rw [h2] at h
      refine ih hP2 _ _ _ h ?_
      intro label a ha
      rw [ConvertResources.agentsOf_attach] at ha
      obtain ⟨b, hb, hba⟩ := List.mem_map.mp ha
      split at hba
      · rw [← hba]
        exact hall label b hb
      · rw [← hba]
        exact hP b (hall label b hb) e (List.mem_cons_self _ _) hty attrs hd

/-- The apps loop keeps what does not depend on the apps of an agent. -/
theorem ConvertResources.apps_map {γ : Type} (env : Env γ) {δ : Type}
    (f : sdkproto.Agent → δ) (hf : ∀ a apps, f { a with Apps := apps } = f a)
    (entries : List (String × tfjson.StateResource)) :
    ∀ (appSlugs : List String) (resourceAgents out : List (String × List sdkproto.Agent)),
      ConvertResources.apps env entries appSlugs resourceAgents = .ok out →
      ∀ label, (agentsOf out label).map f = (agentsOf resourceAgents label).map f := by
  induction entries with
  | nil =>
    intro appSlugs resourceAgents out h label
    unfold ConvertResources.apps at h
    cases h
    rfl
  | cons e rest ih =>
    intro appSlugs resourceAgents out h label
    rcases ConvertResources.apps_cons env e rest appSlugs resourceAgents with
      ⟨_, h2⟩ | ⟨_, err, _, h2⟩ | ⟨hty, attrs, hd, ⟨_, h2⟩ | ⟨_, _, h2⟩ | ⟨_, _, h2⟩⟩
    · rw [h2] at h
      exact ih _ _ _ h label
    · rw [h2] at h
      cases h
    · rw [h2] at h
      cases h
    · rw [h2] at h
      cases h
    · rw [h2] at h
      rw [ih _ _ _ h label, ConvertResources.agentsOf_attach, List.map_map]
      refine List.map_congr_left ?_
      intro a _
      simp only [Function.comp]
      split
      · rfl
      · exact hf _ _

/-- What the apps loop returns: on success every effective slug is valid
and the slugs are distinct and new; otherwise the error of the first entry
that stops the loop. -/
theorem ConvertResources.apps_result {γ : Type} (env : Env γ)
    (entries : List (String × tfjson.StateResource))
    (hdec : ∀ e ∈ entries, e.2.Type_ = "coder_app" →
      ∃ attrs, env.DecodeApp e.2.AttributeValues = .ok attrs) :
    ∀ (appSlugs : List String) (resourceAgents : List (String × List sdkproto.Agent)),
      (∃ out, ConvertResources.apps env entries appSlugs resourceAgents = .ok out
        ∧ (∀ s ∈ ConvertResources.slugs env entries, env.AppSlugRegexMatch s = true)
        ∧ (ConvertResources.slugs env entries).Nodup
        ∧ ∀ s ∈ ConvertResources.slugs env entries, s ∉ appSlugs)
      ∨ (∃ s ∈ ConvertResources.slugs env entries, env.AppSlugRegexMatch s = false
        ∧ ConvertResources.apps env entries appSlugs resourceAgents
          = .error (ConvertResources.invalidSlug env s))
      ∨ (∃ s ∈ ConvertResources.slugs env entries,
        (s ∈ appSlugs ∨ ¬ (ConvertResources.slugs env entries).Nodup)
        ∧ ConvertResources.apps env entries appSlugs resourceAgents
          = .error (ConvertResources.duplicateSlug env s)) := by
  induction entries with
  | nil =>
    intro appSlugs resourceAgents
    refine Or.inl ⟨resourceAgents, ?_, ?_, ?_, ?_⟩
    · unfold ConvertResources.apps
      rfl
    · intro s hs
      cases hs
    · exact List.nodup_nil
    · intro s hs
      cases hs
  | cons e rest ih =>
    intro appSlugs resourceAgents
    have ih2 := ih (fun e2 he2 => hdec e2 (List.mem_cons_of_mem _ he2))
    rcases ConvertResources.apps_cons env e rest appSlugs resourceAgents with
      ⟨hty, h2⟩ | ⟨hty, err, hd, _⟩ | ⟨hty, attrs, hd, hcase⟩
    · have hs : ConvertResources.slugs env (e :: rest) = ConvertResources.slugs env rest := by
        rw [ConvertResources.slugs]
        simp only [hty, ne_eq, not_false_eq_true, if_true]
      rw [h2, hs]
      exact ih2 appSlugs resourceAgents
    · obtain ⟨attrs, hattrs⟩ := hdec e (List.mem_cons_self _ _) hty
      rw [hattrs] at hd
      cases hd
    · have hs : ConvertResources.slugs env (e :: rest)
          = (ConvertResources.appDefaults e.2 attrs).Slug :: ConvertResources.slugs env rest := by
        rw [ConvertResources.slugs]
        simp only [hty, ne_eq, not_true_eq_false, if_false, hd]
      rw [hs]
      rcases hcase with ⟨hv, h2⟩ | ⟨hv, hmem, h2⟩ | ⟨hv, hnew, h2⟩
      · exact Or.inr (Or.inl ⟨_, List.mem_cons_self _ _, hv, h2⟩)
      · exact Or.inr (Or.inr ⟨_, List.mem_cons_self _ _, Or.inl hmem, h2⟩)
      · rw [h2]
        rcases ih2 ((ConvertResources.appDefaults e.2 attrs).Slug :: appSlugs)
            (ConvertResources.attach (ConvertResources.appDefaults e.2 attrs).AgentID
              (ConvertResources.app env (ConvertResources.appDefaults e.2 attrs))
              resourceAgents) with
          ⟨out, hout, hvalid, hnodup, hfresh⟩ | ⟨s, hs1, hs2, hs3⟩ | ⟨s, hs1, hs2, hs3⟩
        · refine Or.inl ⟨out, hout, ?_, ?_, ?_⟩
          · intro s hs1
            rcases List.mem_cons.mp hs1 with h3 | h3
            · rw [h3]; exact hv
            · exact hvalid s h3
          · refine List.nodup_cons.mpr ⟨?_, hnodup⟩
            intro hin
            exact hfresh _ hin (List.mem_cons_self _ _)
          · intro s hs1
            rcases List.mem_cons.mp hs1 with h3 | h3
            · rw [h3]; exact hnew
            · exact fun h4 => hfresh s h3 (List.mem_cons_of_mem _ h4)
        · exact Or.inr (Or.inl ⟨s, List.mem_cons_of_mem _ hs1, hs2, hs3⟩)
        · refine Or.inr (Or.inr ⟨s, List.mem_cons_of_mem _ hs1, ?_, hs3⟩)
          rcases hs2 with h3 | h3
          · rcases List.mem_cons.mp h3 with h4 | h4
            · refine Or.inr ?_
              intro hnd
              exact (List.nodup_cons.mp hnd).1 (h4 ▸ hs1)
            · exact Or.inl h4
          · exact Or.inr (fun hnd => h3 (List.nodup_cons.mp hnd).2)

end terraform

namespace terraform

/-- The last loop appends the resource of each entry it does not skip. -/
theorem ConvertResources.emit_eq (resourceAgents : List (String × List sdkproto.Agent))
    (maps : ConvertResources.Metadata) (entries : List (String × tfjson.StateResource)) :
    ∀ resources : List sdkproto.Resource,
      ConvertResources.emit resourceAgents maps entries resources
        = resources ++ (entries.filter (fun e => ConvertResources.emits e.2)).map
            (fun e => ConvertResources.resource resourceAgents maps e.2) := by
  induction entries with
  | nil =>
    intro resources
    simp [ConvertResources.emit]
  | cons e rest ih =>
    intro resources
    obtain ⟨k, resource⟩ := e
    unfold ConvertResources.emit
    split
    · rename_i hmode
      rw [ih, List.filter_cons_of_neg (by simp [ConvertResources.emits, hmode])]
    · rename_i hmode
      split
      · rename_i hty
        rw [ih, List.filter_cons_of_neg (by simp [ConvertResources.emits, hty])]
      · rename_i hty
        rw [ih, List.filter_cons_of_pos (by simp [ConvertResources.emits, hmode, hty]),
          List.map_cons, List.append_assoc, List.singleton_append]

/-- The steps of a successful conversion. -/
theorem ConvertResources.ok_cases {γ : Type} (env : Env γ) (fuel : Nat)
    (module : tfjson.StateModule) (rawGraph : String) (output : List sdkproto.Resource)
    (h : ConvertResources env fuel module rawGraph = .ok output) :
    ∃ parsedGraph graph found associated maps,
      env.ParseString rawGraph = .ok parsedGraph
      ∧ env.NewAnalysedGraph parsedGraph = .ok graph
      ∧ ConvertResources.agents env fuel graph
          (findTerraformResources module {}).tfResourceByLabel
          (env.rangeResources 0 (findTerraformResources module {}).tfResourceByLabel) []
        = .ok found
      ∧ ConvertResources.apps env
          (env.rangeResources 2 (findTerraformResources module {}).tfResourceByLabel) []
          (ConvertResources.instances
            (env.rangeResources 1 (findTerraformResources module {}).tfResourceByLabel) found)
        = .ok associated
      ∧ ConvertResources.metadata env fuel graph (findTerraformResources module {})
          (env.rangeResources 3 (findTerraformResources module {}).tfResourceByLabel) {}
        = .ok maps
      ∧ output = (((env.rangeResources 4
            (findTerraformResources module {}).tfResourceByLabel).filter
              (fun e => ConvertResources.emits e.2)).map
            (fun e => ConvertResources.resource associated maps e.2)) := by
  unfold ConvertResources at h
  split at h
  · cases h
  · rename_i parsedGraph hparse
    split at h
    · cases h
    · rename_i graph hgraph
      simp only at h
      split at h
      · cases h
      · rename_i found hfound
        split at h
        · cases h
        · rename_i associated hassoc
          split at h
          · cases h
          · rename_i maps hmaps
            refine ⟨parsedGraph, graph, found, associated, maps, hparse, hgraph, hfound,
              hassoc, hmaps, ?_⟩
            rw [ConvertResources.emit_eq] at h
            simpa using (Except.ok.inj h).symm

theorem applyAutomaticInstanceID.agent_all (P : sdkproto.Agent → Prop)
    (hP : ∀ a instanceID, P a → P { a with Auth := some (.InstanceId instanceID) })
    (instanceID : String) (a : sdkproto.Agent) (h : P a) :
    P (applyAutomaticInstanceID.agent instanceID a) := by
  unfold applyAutomaticInstanceID.agent
  split
  · exact h
  · split
    · exact h
    · exact hP _ _ h

/-- The automatic association keeps a property that a change of the auth
keeps. -/
theorem applyAutomaticInstanceID_all (P : sdkproto.Agent → Prop)
    (hP : ∀ a instanceID, P a → P { a with Auth := some (.InstanceId instanceID) })
    (resource : tfjson.StateResource) (agents : List sdkproto.Agent) (h : ∀ a ∈ agents, P a) :
    ∀ a ∈ applyAutomaticInstanceID resource agents, P a := by
  unfold applyAutomaticInstanceID
  split
  · exact h
  · split
    · intro a ha
      obtain ⟨b, hb, hba⟩ := List.mem_map.mp ha
      rw [← hba]
      exact applyAutomaticInstanceID.agent_all P hP _ b (h b hb)
    · exact h

/-- The automatic association keeps what does not depend on the auth. -/
theorem applyAutomaticInstanceID_map {δ : Type} (f : sdkproto.Agent → δ)
    (hf : ∀ a auth, f { a with Auth := auth } = f a)
    (resource : tfjson.StateResource) (agents : List sdkproto.Agent) :
    (applyAutomaticInstanceID resource agents).map f = agents.map f := by
  unfold applyAutomaticInstanceID
  split
  · rfl
  · split
    · rw [List.map_map]
      refine List.map_congr_left ?_
      intro a _
      simp only [Function.comp, applyAutomaticInstanceID.agent]
      split
      · rfl
      · split
        · rfl
        · exact hf _ _
    · rfl

/-- The agents of an emitted resource are those `resourceAgents` holds for
its label, after the automatic association. -/
theorem ConvertResources.resource_Agents (resourceAgents : List (String × List sdkproto.Agent))
    (maps : ConvertResources.Metadata) (resource : tfjson.StateResource) :
    (ConvertResources.resource resourceAgents maps resource).Agents
      = applyAutomaticInstanceID resource
          (agentsOf resourceAgents (convertAddressToLabel resource.Address)) := by
  unfold ConvertResources.resource agentsOf
  simp only
  cases List.lookup (convertAddressToLabel resource.Address) resourceAgents with
  | some agents => rfl
  | none =>
    simp only [Option.getD]
    unfold applyAutomaticInstanceID
    split
    · rfl
    · split <;> rfl

/-- A property of the agents built from the "coder_agent" entries that a
change of the auth keeps and that is kept when an app of a "coder_app" entry
is appended holds of every agent of the output. -/
theorem ConvertResources.output_agents {γ : Type} (env : Env γ) (fuel : Nat)
    (module : tfjson.StateModule) (rawGraph : String) (output : List sdkproto.Resource)
    (P : sdkproto.Agent → Prop)
    (hnew : ∀ tfResource attrs, P (ConvertResources.agent tfResource attrs))
    (hauth : ∀ a instanceID, P a → P { a with Auth := some (.InstanceId instanceID) })
    (happ : ∀ a, P a →
      ∀ e ∈ env.rangeResources 2 (findTerraformResources module {}).tfResourceByLabel,
      e.2.Type_ = "coder_app" →
      ∀ attrs, env.DecodeApp e.2.AttributeValues = .ok attrs →
        P { a with Apps := a.Apps
          ++ [ConvertResources.app env (ConvertResources.appDefaults e.2 attrs)] })
    (h : ConvertResources env fuel module rawGraph = .ok output) :
    ∀ resource ∈ output, ∀ a ∈ resource.Agents, P a := by
  obtain ⟨parsedGraph, graph, found, associated, maps, _, _, hfound, hassoc, _, hout⟩ :=
    ConvertResources.ok_cases env fuel module rawGraph output h
  have h1 : ∀ label, ∀ a ∈ agentsOf found label, P a :=
    ConvertResources.agents_all env fuel graph _ P hnew _ _ _ hfound
      (fun label a ha => by simp [agentsOf, List.lookup] at ha)
  have h2 := ConvertResources.instances_all P hauth
    (env.rangeResources 1 (findTerraformResources module {}).tfResourceByLabel) found h1
  have h3 := ConvertResources.apps_all env P _ happ _ _ _ hassoc h2
  intro resource hres a ha
  rw [hout] at hres
  obtain ⟨e, _, he⟩ := List.mem_map.mp hres
  rw [← he, ConvertResources.resource_Agents] at ha
  exact applyAutomaticInstanceID_all P hauth _ _ (h3 _) a ha

end terraform

namespace terraform

theorem findTerraformResources.resource_labels (index : Index) (resource : tfjson.StateResource)
    (h : ∀ e ∈ index.tfResourceByLabel, e.1 = convertAddressToLabel e.2.Address) :
    ∀ e ∈ (findTerraformResources.resource index resource).tfResourceByLabel,
      e.1 = convertAddressToLabel e.2.Address := by
  have hset : ∀ e ∈ gomap.set index.tfResourceByLabel (convertAddressToLabel resource.Address)
      resource, e.1 = convertAddressToLabel e.2.Address := by
    intro e he
    rcases gomap.mem_set _ _ _ _ he with h1 | h1
    · exact h e h1
    · rw [h1]
  unfold findTerraformResources.resource
  simp only
  split <;> exact hset

theorem findTerraformResources.resources_labels (resources : List tfjson.StateResource) :
    ∀ index : Index,
      (∀ e ∈ index.tfResourceByLabel, e.1 = convertAddressToLabel e.2.Address) →
      ∀ e ∈ (resources.foldl findTerraformResources.resource index).tfResourceByLabel,
        e.1 = convertAddressToLabel e.2.Address := by
  induction resources with
  | nil =>
    intro index h
    exact h
  | cons r rest ih =>
    intro index h
    rw [List.foldl_cons]
    exact ih _ (findTerraformResources.resource_labels index r h)

mutual
/-- Every entry of the index has the label of its address as key. -/
theorem findTerraformResources.labels : ∀ (module : tfjson.StateModule) (index : Index),
    (∀ e ∈ index.tfResourceByLabel, e.1 = convertAddressToLabel e.2.Address) →
    ∀ e ∈ (findTerraformResources module index).tfResourceByLabel,
      e.1 = convertAddressToLabel e.2.Address
  | .mk resources childModules, index, h => by
    rw [findTerraformResources]
    exact findTerraformResources.resources_labels resources _
      (findTerraformResources.modules_labels childModules index h)
theorem findTerraformResources.modules_labels : ∀ (modules : List tfjson.StateModule)
    (index : Index),
    (∀ e ∈ index.tfResourceByLabel, e.1 = convertAddressToLabel e.2.Address) →
    ∀ e ∈ (findTerraformResources.modules modules index).tfResourceByLabel,
      e.1 = convertAddressToLabel e.2.Address
  | [], index, h => by
    rw [findTerraformResources.modules]
    exact h
  | module :: rest, index, h => by
    rw [findTerraformResources.modules]
    exact findTerraformResources.modules_labels rest _
      (findTerraformResources.labels module index h)
end

end terraform

namespace terraform

theorem strings.hasPrefix_of_coder (type : String)
    (h : type = "coder_agent" ∨ type = "coder_agent_instance" ∨ type = "coder_app"
      ∨ type = "coder_metadata") : strings.HasPrefix type "coder_" = true := by
  rcases h with h | h | h | h <;> subst h <;> decide

/-- A host is emitted, with the agents `resourceAgents` holds for its label
after the automatic association. -/
theorem ConvertResources.output_host {γ : Type} (env : Env γ) (module : tfjson.StateModule)
    (hemit : ∀ entries, (env.rangeResources 4 entries).Perm entries)
    (associated : List (String × List sdkproto.Agent)) (maps : ConvertResources.Metadata)
    (r : graphResource) (host : tfjson.StateResource)
    (hhost : IsHost (findTerraformResources module {}).tfResourceByLabel r host) :
    ConvertResources.resource associated maps host
        ∈ ((env.rangeResources 4 (findTerraformResources module {}).tfResourceByLabel).filter
            (fun e => ConvertResources.emits e.2)).map
          (fun e => ConvertResources.resource associated maps e.2)
      ∧ (ConvertResources.resource associated maps host).Agents
        = applyAutomaticInstanceID host (agentsOf associated r.Label) := by
  obtain ⟨hlook, hmode, hpre⟩ := hhost
  have hmem := gomap.mem_of_lookup _ _ _ hlook
  have hlabel := findTerraformResources.labels module {} (by intro e he; cases he) _ hmem
  simp only at hlabel
  constructor
  · refine List.mem_map.mpr ⟨(r.Label, host), List.mem_filter.mpr ⟨(hemit _).mem_iff.mpr hmem, ?_⟩,
      rfl⟩
    have hty : ¬ (host.Type_ = "coder_agent" ∨ host.Type_ = "coder_agent_instance"
        ∨ host.Type_ = "coder_app" ∨ host.Type_ = "coder_metadata") := by
      intro h
      rw [strings.hasPrefix_of_coder _ h] at hpre
      cases hpre
    simp [ConvertResources.emits, hmode, hty]
  · rw [ConvertResources.resource_Agents, ← hlabel]

end terraform

namespace terraform

/-- C24: on success, for every indexed "coder_agent" whose upward traversal
yields at least one candidate host, the agent is attached to the candidate
with the smallest depth and, among the candidates at that depth, the least
label: that candidate is the choice whatever the order of the candidates,
its resource is emitted, and an agent with the name and the id of the
"coder_agent" is among the agents of that resource.  With two managed
resources `aws_instance.a` and `aws_instance.b` at equal depth the agent is
attached to `aws_instance.a`, in both orders of the visits. -/
theorem convertResources_agent_host {γ : Type} (env : Env γ) (fuel : Nat)
    (module : tfjson.StateModule) (rawGraph : String) (output : List sdkproto.Resource)
    (hvisit : ∀ entries, (env.rangeResources 0 entries).Perm entries)
    (hemit : ∀ entries, (env.rangeResources 4 entries).Perm entries)
    (h : ConvertResources env fuel module rawGraph = .ok output)
    (e : String × tfjson.StateResource)
    (he : e ∈ (findTerraformResources module {}).tfResourceByLabel)
    (hty : e.2.Type_ = "coder_agent") :
    (∃ parsedGraph graph attrs agentNode found,
      env.ParseString rawGraph = .ok parsedGraph
      ∧ env.NewAnalysedGraph parsedGraph = .ok graph
      ∧ env.DecodeAgent e.2.AttributeValues = .ok attrs
      ∧ ConvertResources.findNode env graph (convertAddressToLabel e.2.Address) = some agentNode
      ∧ findResourcesInGraph env graph (findTerraformResources module {}).tfResourceByLabel
          fuel agentNode.Name 0 true = .ok found
      ∧ (found ≠ [] → ∃ r ∈ found,
          (∀ c ∈ found, r.Depth < c.Depth
            ∨ (r.Depth = c.Depth
              ∧ (r.Label = c.Label ∨ strings.Less r.Label c.Label = true)))
          ∧ (∀ found2 : List graphResource, found2.Perm found →
              found2.foldl ConvertResources.closer none = some r)
          ∧ ∃ host associated maps,
              (findTerraformResources module {}).tfResourceByLabel.lookup r.Label = some host
              ∧ ConvertResources.resource associated maps host ∈ output
              ∧ ∃ a ∈ (ConvertResources.resource associated maps host).Agents,
                  a.Name = e.2.Name ∧ a.Id = attrs.ID))
    ∧ (ConvertResources (graphEnv twoHostsGraph false) 2 twoHostsModule "").map
        (fun out => out.map (fun resource =>
          (resource.Type_, resource.Name, resource.Agents.map (fun a => a.Name))))
      = .ok [("aws_instance", "b", []), ("aws_instance", "a", ["main"])]
    ∧ (ConvertResources (graphEnv twoHostsGraph true) 2 twoHostsModule "").map
        (fun out => out.map (fun resource =>
          (resource.Type_, resource.Name, resource.Agents.map (fun a => a.Name))))
      = .ok [("aws_instance", "a", ["main"]), ("aws_instance", "b", [])] := by
  refine ⟨?_, by decide, by decide⟩
  obtain ⟨parsedGraph, graph, found0, associated, maps, hparse, hgraph, hfound, hassoc, _,
    hout⟩ := ConvertResources.ok_cases env fuel module rawGraph output h
  obtain ⟨attrs, agentNode, found, hd, hn, hf, hattach⟩ :=
    ConvertResources.agents_attach env fuel graph _ _ _ _ hfound e
      ((hvisit _).mem_iff.mpr he) hty
  refine ⟨parsedGraph, graph, attrs, agentNode, found, hparse, hgraph, hd, hn, hf, ?_⟩
  intro hne
  obtain ⟨r, hr, hmem, hall⟩ := ConvertResources.closer_least found hne
  refine ⟨r, hmem, hall, ?_, ?_⟩
  · intro found2 hperm
    rw [ConvertResources.closer_perm found found2 hperm, hr]
  · obtain ⟨host, hhost⟩ := findResourcesInGraph.hosts env graph _ fuel _ _ _ _ hf r hmem
    obtain ⟨hin, hagents⟩ :=
      ConvertResources.output_host env module hemit associated maps r host hhost
    refine ⟨host, associated, maps, hhost.1, by rw [hout]; exact hin, ?_⟩
    have hkeys : (agentsOf associated r.Label).map (fun a => (a.Name, a.Id))
        = (agentsOf found0 r.Label).map (fun a => (a.Name, a.Id)) := by
      rw [ConvertResources.apps_map env (fun a => (a.Name, a.Id)) (fun _ _ => rfl) _ _ _ _
        hassoc r.Label, ConvertResources.instances_map (fun a => (a.Name, a.Id))
        (fun _ _ => rfl)]
    have hkey : (e.2.Name, attrs.ID) ∈ (applyAutomaticInstanceID host
        (agentsOf associated r.Label)).map (fun a => (a.Name, a.Id)) := by
      rw [applyAutomaticInstanceID_map (fun a => (a.Name, a.Id)) (fun _ _ => rfl), hkeys]
      exact List.mem_map.mpr ⟨_, hattach r hr, rfl⟩
    obtain ⟨a, ha, hka⟩ := List.mem_map.mp hkey
    refine ⟨a, by rw [hagents]; exact ha, ?_, ?_⟩
    · exact congrArg Prod.fst hka
    · exact congrArg Prod.snd hka

/-- C24 at the agent of two instances at equal depth: its host is the
instance `aws_instance.a`. -/
theorem convertResources_agent_host_witness :
    ∃ parsedGraph graph attrs agentNode found,
      (graphEnv twoHostsGraph true).ParseString "" = .ok parsedGraph
      ∧ (graphEnv twoHostsGraph true).NewAnalysedGraph parsedGraph = .ok graph
      ∧ (graphEnv twoHostsGraph true).DecodeAgent
          [("id", .string "agent1"), ("auth", .string "token"), ("token", .string "secret")]
        = .ok attrs
      ∧ ConvertResources.findNode (graphEnv twoHostsGraph true) graph "coder_agent.main"
        = some agentNode
      ∧ findResourcesInGraph (graphEnv twoHostsGraph true) graph
          (findTerraformResources twoHostsModule {}).tfResourceByLabel 2 agentNode.Name 0 true
        = .ok found
      ∧ (found ≠ [] → ∃ r ∈ found,
          (∀ c ∈ found, r.Depth < c.Depth
            ∨ (r.Depth = c.Depth
              ∧ (r.Label = c.Label ∨ strings.Less r.Label c.Label = true)))
          ∧ (∀ found2 : List graphResource, found2.Perm found →
              found2.foldl ConvertResources.closer none = some r)
          ∧ ∃ host associated maps,
              (findTerraformResources twoHostsModule {}).tfResourceByLabel.lookup r.Label
                = some host
              ∧ ConvertResources.resource associated maps host
                ∈ [sdkproto.Resource.mk "a" "aws_instance"
                    [{ Id := "agent1", Name := "main", Auth := some (.Token "secret") }]
                    [] false "" "" 0,
                   { Name := "b", Type_ := "aws_instance" }]
              ∧ ∃ a ∈ (ConvertResources.resource associated maps host).Agents,
                  a.Name = "main" ∧ a.Id = attrs.ID) :=
  (convertResources_agent_host (graphEnv twoHostsGraph true) 2 twoHostsModule ""
    [sdkproto.Resource.mk "a" "aws_instance"
      [{ Id := "agent1", Name := "main", Auth := some (.Token "secret") }] [] false "" "" 0,
     { Name := "b", Type_ := "aws_instance" }]
    (fun entries => List.reverse_perm entries) (fun entries => List.reverse_perm entries)
    (by decide)
    ("coder_agent.main", tfjson.StateResource.mk "coder_agent.main" .ManagedResourceMode
      "coder_agent" "main"
      [("id", .string "agent1"), ("auth", .string "token"), ("token", .string "secret")])
    (List.Mem.tail _ (List.Mem.head _)) rfl).1

end terraform

namespace terraform

/-- C26: for a host whose type is in the instance-binding table and whose
listed attribute is a string, `applyAutomaticInstanceID` sets the auth of
each attached agent that has neither a non-empty token nor a non-empty
instance id to that attribute value and leaves every other agent unchanged;
the agents of a host outside the table are unchanged. -/
theorem applyAutomaticInstanceID_host_binding (resource : tfjson.StateResource)
    (agents : List sdkproto.Agent) (key instanceID : String)
    (hkey : (resource.Type_, key) ∈
      [("google_compute_instance", "instance_id"),
       ("aws_instance", "id"),
       ("aws_spot_instance_request", "spot_instance_id"),
       ("azurerm_linux_virtual_machine", "virtual_machine_id"),
       ("azurerm_windows_virtual_machine", "virtual_machine_id")])
    (hattr : resource.AttributeValues.lookup key = some (.string instanceID)) :
    applyAutomaticInstanceID resource agents
        = agents.map (fun agent =>
            if agent.GetToken = "" ∧ agent.GetInstanceId = "" then
              { agent with Auth := some (.InstanceId instanceID) }
            else agent)
      ∧ ∀ (other : tfjson.StateResource) (attached : List sdkproto.Agent),
          (∀ k, (other.Type_, k) ∉
            [("google_compute_instance", "instance_id"),
             ("aws_instance", "id"),
             ("aws_spot_instance_request", "spot_instance_id"),
             ("azurerm_linux_virtual_machine", "virtual_machine_id"),
             ("azurerm_windows_virtual_machine", "virtual_machine_id")]) →
          applyAutomaticInstanceID other attached = attached := by
  constructor
  · have hk : applyAutomaticInstanceID.key resource.Type_ = some key := by
      simp only [List.mem_cons, Prod.mk.injEq, List.mem_singleton, List.not_mem_nil,
        or_false] at hkey
      rcases hkey with ⟨h1, h2⟩ | ⟨h1, h2⟩ | ⟨h1, h2⟩ | ⟨h1, h2⟩ | ⟨h1, h2⟩ <;>
        rw [h1, h2] <;> decide
    unfold applyAutomaticInstanceID
    rw [hk]
    simp only [hattr]
    refine List.map_congr_left ?_
    intro a _
    unfold applyAutomaticInstanceID.agent
    by_cases ht : a.GetToken = ""
    · by_cases hi : a.GetInstanceId = ""
      · simp [ht, hi]
      · simp [ht, hi]
    · simp [ht]
  · intro other attached hnot
    unfold applyAutomaticInstanceID
    cases hk : applyAutomaticInstanceID.key other.Type_ with
    | none => rfl
    | some k =>
      unfold applyAutomaticInstanceID.key at hk
      exact absurd (gomap.mem_of_lookup _ _ _ hk) (hnot k)

/-- C26 at an instance with the id `i-a`: the agent with a token keeps it,
the agent without auth gets the id. -/
theorem applyAutomaticInstanceID_host_binding_witness :
    applyAutomaticInstanceID
        (tfjson.StateResource.mk "aws_instance.a" .ManagedResourceMode "aws_instance" "a"
          [("id", .string "i-a")])
        [{ Name := "main", Auth := some (.Token "secret") },
         { Name := "other", Auth := some (.InstanceId "") }]
      = [{ Name := "main", Auth := some (.Token "secret") },
         { Name := "other", Auth := some (.InstanceId "i-a") }] :=
  (applyAutomaticInstanceID_host_binding
    (tfjson.StateResource.mk "aws_instance.a" .ManagedResourceMode "aws_instance" "a"
      [("id", .string "i-a")])
    [{ Name := "main", Auth := some (.Token "secret") },
     { Name := "other", Auth := some (.InstanceId "") }]
    "id" "i-a" (by decide) rfl).1

end terraform

namespace terraform

theorem ConvertResources.associate_keep (agentID instanceID : String)
    (agents : List sdkproto.Agent) (a : sdkproto.Agent) (ha : a ∈ agents)
    (hid : a.Id ≠ agentID) : a ∈ ConvertResources.associate agentID instanceID agents := by
  induction agents with
  | nil => cases ha
  | cons x rest ih =>
    unfold ConvertResources.associate
    split
    · rcases List.mem_cons.mp ha with h1 | h1
      · rw [h1]; exact List.mem_cons_self _ _
      · exact List.mem_cons_of_mem _ (ih h1)
    · rename_i hx
      rcases List.mem_cons.mp ha with h1 | h1
      · rw [h1] at hid
        exact absurd hid hx
      · exact List.mem_cons_of_mem _ h1

/-- The manual association keeps an agent whose id no "coder_agent_instance"
entry names. -/
theorem ConvertResources.instances_keep (a : sdkproto.Agent)
    (entries : List (String × tfjson.StateResource))
    (hno : ∀ e ∈ entries, e.2.Type_ = "coder_agent_instance" →
      e.2.AttributeValues.lookup "agent_id" ≠ some (.string a.Id)) :
    ∀ (resourceAgents : List (String × List sdkproto.Agent)) (label : String),
      a ∈ agentsOf resourceAgents label →
      a ∈ agentsOf (ConvertResources.instances entries resourceAgents) label := by
  induction entries with
  | nil =>
    intro resourceAgents label ha
    exact ha
  | cons e rest ih =>
    intro resourceAgents label ha
    have ih2 := ih (fun e2 he2 => hno e2 (List.mem_cons_of_mem _ he2))
    have hhead := hno e (List.mem_cons_self _ _)
    obtain ⟨k, resource⟩ := e
    unfold ConvertResources.instances
    split
    · exact ih2 _ _ ha
    · rename_i hty
      split
      · rename_i agentID hagent
        split
        · refine ih2 _ _ ?_
          rw [agentsOf_map _ _ (ConvertResources.associate_nil _ _)]
          refine ConvertResources.associate_keep _ _ _ a ha ?_
          intro hid
          refine hhead (by simpa using hty) ?_
          rw [hid]
          exact hagent
        · exact ih2 _ _ ha
      · exact ih2 _ _ ha

/-- The automatic association keeps an agent with a token. -/
theorem applyAutomaticInstanceID_keep (resource : tfjson.StateResource)
    (agents : List sdkproto.Agent) (a : sdkproto.Agent) (ha : a ∈ agents)
    (htoken : a.GetToken ≠ "") : a ∈ applyAutomaticInstanceID resource agents := by
  unfold applyAutomaticInstanceID
  split
  · exact ha
  · split
    · refine List.mem_map.mpr ⟨a, ha, ?_⟩
      unfold applyAutomaticInstanceID.agent
      rw [if_pos htoken]
    · exact ha

end terraform

namespace terraform

/-- C25, as the code has it: every emitted agent carries one auth form, a
token or an instance id.  An indexed "coder_agent" declared with auth
"token" and a token that is not empty, whose id no indexed
"coder_agent_instance" names and whose traversal yields a candidate host, is
emitted with its token, whatever the attributes of the host. -/
theorem convertResources_agent_auth {γ : Type} (env : Env γ) (fuel : Nat)
    (module : tfjson.StateModule) (rawGraph : String) (output : List sdkproto.Resource)
    (hvisit : ∀ entries, (env.rangeResources 0 entries).Perm entries)
    (hmanual : ∀ entries, (env.rangeResources 1 entries).Perm entries)
    (hemit : ∀ entries, (env.rangeResources 4 entries).Perm entries)
    (h : ConvertResources env fuel module rawGraph = .ok output) :
    (∀ resource ∈ output, ∀ a ∈ resource.Agents, ∃ auth, a.Auth = some auth)
    ∧ ∀ e ∈ (findTerraformResources module {}).tfResourceByLabel,
        e.2.Type_ = "coder_agent" →
        ∀ attrs, env.DecodeAgent e.2.AttributeValues = .ok attrs →
          attrs.Auth = "token" → attrs.Token ≠ "" →
          (∀ i ∈ (findTerraformResources module {}).tfResourceByLabel,
            i.2.Type_ = "coder_agent_instance" →
            i.2.AttributeValues.lookup "agent_id" ≠ some (.string attrs.ID)) →
          ∃ parsedGraph graph agentNode found,
            env.ParseString rawGraph = .ok parsedGraph
            ∧ env.NewAnalysedGraph parsedGraph = .ok graph
            ∧ ConvertResources.findNode env graph (convertAddressToLabel e.2.Address)
              = some agentNode
            ∧ findResourcesInGraph env graph
                (findTerraformResources module {}).tfResourceByLabel fuel agentNode.Name 0 true
              = .ok found
            ∧ (found ≠ [] → ∃ resource ∈ output, ∃ a ∈ resource.Agents,
                a.Name = e.2.Name ∧ a.Id = attrs.ID
                  ∧ a.Auth = some (.Token attrs.Token)) := by
  constructor
  · refine ConvertResources.output_agents env fuel module rawGraph output
      (fun a => ∃ auth, a.Auth = some auth) ?_ ?_ ?_ h
    · intro tfResource attrs
      unfold ConvertResources.agent
      simp only
      split
      · exact ⟨_, rfl⟩
      · exact ⟨_, rfl⟩
    · intro a instanceID _
      exact ⟨_, rfl⟩
    · intro a ha _ _ _ _ _
      exact ha
  · intro e he hty attrs hattrs hauth htoken hno
    obtain ⟨parsedGraph, graph, found0, associated, maps, hparse, hgraph, hfound, hassoc, _,
      hout⟩ := ConvertResources.ok_cases env fuel module rawGraph output h
    obtain ⟨attrs2, agentNode, found, hd, hn, hf, hattach⟩ :=
      ConvertResources.agents_attach env fuel graph _ _ _ _ hfound e
        ((hvisit _).mem_iff.mpr he) hty
    rw [hattrs] at hd
    cases hd
    refine ⟨parsedGraph, graph, agentNode, found, hparse, hgraph, hn, hf, ?_⟩
    intro hne
    obtain ⟨r, hr, hmem, _⟩ := ConvertResources.closer_least found hne
    obtain ⟨host, hhost⟩ := findResourcesInGraph.hosts env graph _ fuel _ _ _ _ hf r hmem
    obtain ⟨hin, hagents⟩ :=
      ConvertResources.output_host env module hemit associated maps r host hhost
    have h1 := hattach r hr
    have h2 := ConvertResources.instances_keep (ConvertResources.agent e.2 attrs)
      (env.rangeResources 1 (findTerraformResources module {}).tfResourceByLabel)
      (fun i hi hity => hno i ((hmanual _).mem_iff.mp hi) hity) found0 r.Label h1
    have h3 : (ConvertResources.agent e.2 attrs).Name = e.2.Name
        ∧ (ConvertResources.agent e.2 attrs).Id = attrs.ID
        ∧ (ConvertResources.agent e.2 attrs).Auth = some (.Token attrs.Token) := by
      unfold ConvertResources.agent
      simp only [hauth, if_true, and_self]
    have hkey : ((ConvertResources.agent e.2 attrs).Name, (ConvertResources.agent e.2 attrs).Id,
        (ConvertResources.agent e.2 attrs).Auth)
        ∈ (agentsOf associated r.Label).map (fun a => (a.Name, a.Id, a.Auth)) := by
      rw [ConvertResources.apps_map env (fun a => (a.Name, a.Id, a.Auth)) (fun _ _ => rfl)
        _ _ _ _ hassoc r.Label]
      exact List.mem_map.mpr ⟨_, h2, rfl⟩
    obtain ⟨a, ha, hka⟩ := List.mem_map.mp hkey
    simp only [Prod.mk.injEq] at hka
    obtain ⟨hk1, hk2, hk3⟩ := hka
    have hauth2 : a.Auth = some (.Token attrs.Token) := hk3.trans h3.2.2
    have htok : a.GetToken ≠ "" := by
      unfold sdkproto.Agent.GetToken
      rw [hauth2]
      exact htoken
    refine ⟨ConvertResources.resource associated maps host, by rw [hout]; exact hin, a, ?_,
      hk1.trans h3.1, hk2.trans h3.2.1, hauth2⟩
    rw [hagents]
    exact applyAutomaticInstanceID_keep host _ a ha htok

/-- C25 at the agent of two instances that have an id: every emitted agent
has an auth, and the agent is emitted with its token. -/
theorem convertResources_agent_auth_witness :
    (∀ resource ∈ [sdkproto.Resource.mk "b" "aws_instance" [] [] false "" "" 0,
        sdkproto.Resource.mk "a" "aws_instance"
          [{ Id := "agent1", Name := "main", Auth := some (.Token "secret") }]
          [] false "" "" 0],
      ∀ a ∈ resource.Agents, ∃ auth, a.Auth = some auth)
    ∧ ∃ parsedGraph graph agentNode found,
        (graphEnv twoHostsGraph false).ParseString "" = .ok parsedGraph
        ∧ (graphEnv twoHostsGraph false).NewAnalysedGraph parsedGraph = .ok graph
        ∧ ConvertResources.findNode (graphEnv twoHostsGraph false) graph "coder_agent.main"
          = some agentNode
        ∧ findResourcesInGraph (graphEnv twoHostsGraph false) graph
            (findTerraformResources twoHostsModule {}).tfResourceByLabel 2 agentNode.Name 0
            true = .ok found
        ∧ (found ≠ [] → ∃ resource ∈
            [sdkproto.Resource.mk "b" "aws_instance" [] [] false "" "" 0,
             sdkproto.Resource.mk "a" "aws_instance"
              [{ Id := "agent1", Name := "main", Auth := some (.Token "secret") }]
              [] false "" "" 0],
            ∃ a ∈ resource.Agents,
              a.Name = "main" ∧ a.Id = "agent1" ∧ a.Auth = some (.Token "secret")) :=
  ⟨(convertResources_agent_auth (graphEnv twoHostsGraph false) 2 twoHostsModule "" _
      (fun _ => List.Perm.refl _) (fun _ => List.Perm.refl _) (fun _ => List.Perm.refl _)
      (by decide)).1,
    (convertResources_agent_auth (graphEnv twoHostsGraph false) 2 twoHostsModule "" _
      (fun _ => List.Perm.refl _) (fun _ => List.Perm.refl _) (fun _ => List.Perm.refl _)
      (by decide)).2
      ("coder_agent.main", tfjson.StateResource.mk "coder_agent.main" .ManagedResourceMode
        "coder_agent" "main"
        [("id", .string "agent1"), ("auth", .string "token"), ("token", .string "secret")])
      (List.Mem.tail _ (List.Mem.head _)) rfl _ rfl rfl (by decide)
      (by
        intro i hi hty
        have hi2 : i ∈ [("aws_instance.b", tfjson.StateResource.mk "aws_instance.b"
              .ManagedResourceMode "aws_instance" "b" [("id", .string "i-b")]),
            ("coder_agent.main", tfjson.StateResource.mk "coder_agent.main"
              .ManagedResourceMode "coder_agent" "main"
              [("id", .string "agent1"), ("auth", .string "token"),
                ("token", .string "secret")]),
            ("aws_instance.a", tfjson.StateResource.mk "aws_instance.a"
              .ManagedResourceMode "aws_instance" "a" [("id", .string "i-a")])] := hi
        simp only [List.mem_cons, List.mem_singleton, List.not_mem_nil, or_false] at hi2
        rcases hi2 with h1 | h1 | h1 <;> rw [h1] at hty <;> exact absurd hty (by decide))⟩

/-- C25 fails as stated: an agent declared with auth "token" and the token
`secret`, whose id a "coder_agent_instance" names, is emitted with the
instance id of that resource and without its token. -/
theorem token_agent_bound_to_instance :
    ConvertResources (graphEnv twoHostsGraph false) 2 manualInstanceModule ""
      = .ok [sdkproto.Resource.mk "b" "aws_instance" [] [] false "" "" 0,
          sdkproto.Resource.mk "a" "aws_instance"
            [{ Id := "agent1", Name := "main", Auth := some (.InstanceId "i-999") }]
            [] false "" "" 0] := by
  decide

end terraform

namespace terraform

/-- An error of the apps loop is the error of the conversion. -/
theorem ConvertResources.apps_error {γ : Type} (env : Env γ) (fuel : Nat)
    (module : tfjson.StateModule) (rawGraph : String) (parsedGraph : γ)
    (graph : gographviz.Graph) (found : List (String × List sdkproto.Agent)) (err : Error)
    (hparse : env.ParseString rawGraph = .ok parsedGraph)
    (hgraph : env.NewAnalysedGraph parsedGraph = .ok graph)
    (hagents : ConvertResources.agents env fuel graph
        (findTerraformResources module {}).tfResourceByLabel
        (env.rangeResources 0 (findTerraformResources module {}).tfResourceByLabel) []
      = .ok found)
    (happs : ConvertResources.apps env
        (env.rangeResources 2 (findTerraformResources module {}).tfResourceByLabel) []
        (ConvertResources.instances
          (env.rangeResources 1 (findTerraformResources module {}).tfResourceByLabel) found)
      = .error err) :
    ConvertResources env fuel module rawGraph = .error err := by
  unfold ConvertResources
  simp only [hparse, hgraph, hagents, happs]

/-- A successful apps loop has decoded every "coder_app" entry. -/
theorem ConvertResources.apps_decodes {γ : Type} (env : Env γ)
    (entries : List (String × tfjson.StateResource)) :
    ∀ (appSlugs : List String) (resourceAgents out : List (String × List sdkproto.Agent)),
      ConvertResources.apps env entries appSlugs resourceAgents = .ok out →
      ∀ e ∈ entries, e.2.Type_ = "coder_app" →
        ∃ attrs, env.DecodeApp e.2.AttributeValues = .ok attrs := by
  induction entries with
  | nil =>
    intro _ _ _ _ e he
    cases he
  | cons e0 rest ih =>
    intro appSlugs resourceAgents out h e he hty
    rcases ConvertResources.apps_cons env e0 rest appSlugs resourceAgents with
      ⟨hne, h2⟩ | ⟨_, err, _, h2⟩ | ⟨_, attrs, hd, ⟨_, h2⟩ | ⟨_, _, h2⟩ | ⟨_, _, h2⟩⟩
    · rw [h2] at h
      rcases List.mem_cons.mp he with h3 | h3
      · rw [h3] at hty
        exact absurd hty hne
      · exact ih _ _ _ h e h3 hty
    · rw [h2] at h
      cases h
    · rw [h2] at h
      cases h
    · rw [h2] at h
      cases h
    · rw [h2] at h
      rcases List.mem_cons.mp he with h3 | h3
      · rw [h3]
        exact ⟨attrs, hd⟩
      · exact ih _ _ _ h e h3 hty

theorem ConvertResources.slugs_eq {γ : Type} (env : Env γ)
    (entries : List (String × tfjson.StateResource)) :
    ConvertResources.slugs env entries
      = entries.filterMap (fun e =>
          if e.2.Type_ ≠ "coder_app" then none
          else
            match env.DecodeApp e.2.AttributeValues with
            | .error _ => none
            | .ok attrs => some (ConvertResources.appDefaults e.2 attrs).Slug) := by
  induction entries with
  | nil => rfl
  | cons e rest ih =>
    obtain ⟨k, resource⟩ := e
    rw [ConvertResources.slugs, List.filterMap_cons]
    by_cases hty : resource.Type_ = "coder_app"
    · simp only [hty, ne_eq, not_true_eq_false, if_false]
      cases hd : env.DecodeApp resource.AttributeValues with
      | error err => exact ih
      | ok attrs => rw [ih]
    · simp only [hty, ne_eq, not_false_eq_true, if_true]
      exact ih

/-- The effective slugs of two visits of the same entries are the same, up to
their order. -/
theorem ConvertResources.slugs_perm {γ : Type} (env : Env γ)
    (entries visit : List (String × tfjson.StateResource)) (h : visit.Perm entries) :
    (ConvertResources.slugs env visit).Perm (ConvertResources.slugs env entries) := by
  rw [ConvertResources.slugs_eq, ConvertResources.slugs_eq]
  exact h.filterMap _

end terraform

namespace terraform

/-- C27, as the code has it, for the indexed "coder_app" resources (one for
each label).  When the graph is parsed and analysed, the agents loop
succeeds and every indexed "coder_app" decodes: if the effective slugs are
distinct and one is invalid the conversion fails with the invalid-slug
error of an invalid slug; if all are valid and two are equal it fails with
the duplicate-slug error; if one is invalid or two are equal it fails with
one of these two errors; each error carries the slug as Go's `%q` prints
it.  Whenever the conversion succeeds every indexed "coder_app" decodes and
the effective slugs are valid and distinct. -/
theorem convertResources_app_slugs {γ : Type} (env : Env γ) (fuel : Nat)
    (module : tfjson.StateModule) (rawGraph : String)
    (happs : ∀ entries, (env.rangeResources 2 entries).Perm entries) :
    (∀ parsedGraph graph found,
      env.ParseString rawGraph = .ok parsedGraph →
      env.NewAnalysedGraph parsedGraph = .ok graph →
      ConvertResources.agents env fuel graph
          (findTerraformResources module {}).tfResourceByLabel
          (env.rangeResources 0 (findTerraformResources module {}).tfResourceByLabel) []
        = .ok found →
      (∀ e ∈ (findTerraformResources module {}).tfResourceByLabel, e.2.Type_ = "coder_app" →
        ∃ attrs, env.DecodeApp e.2.AttributeValues = .ok attrs) →
      ((ConvertResources.slugs env (findTerraformResources module {}).tfResourceByLabel).Nodup →
        (∃ s ∈ ConvertResources.slugs env (findTerraformResources module {}).tfResourceByLabel,
          env.AppSlugRegexMatch s = false) →
        ∃ s ∈ ConvertResources.slugs env (findTerraformResources module {}).tfResourceByLabel,
          env.AppSlugRegexMatch s = false
          ∧ ConvertResources env fuel module rawGraph
            = .error (ConvertResources.invalidSlug env s))
      ∧ ((∀ s ∈ ConvertResources.slugs env (findTerraformResources module {}).tfResourceByLabel,
          env.AppSlugRegexMatch s = true) →
        ¬ (ConvertResources.slugs env
          (findTerraformResources module {}).tfResourceByLabel).Nodup →
        ∃ s ∈ ConvertResources.slugs env (findTerraformResources module {}).tfResourceByLabel,
          ConvertResources env fuel module rawGraph
            = .error (ConvertResources.duplicateSlug env s))
      ∧ (((∃ s ∈ ConvertResources.slugs env
            (findTerraformResources module {}).tfResourceByLabel,
          env.AppSlugRegexMatch s = false)
          ∨ ¬ (ConvertResources.slugs env
            (findTerraformResources module {}).tfResourceByLabel).Nodup) →
        ∃ s ∈ ConvertResources.slugs env (findTerraformResources module {}).tfResourceByLabel,
          ConvertResources env fuel module rawGraph = .error (ConvertResources.invalidSlug env s)
          ∨ ConvertResources env fuel module rawGraph
            = .error (ConvertResources.duplicateSlug env s)))
    ∧ ∀ output, ConvertResources env fuel module rawGraph = .ok output →
        (∀ e ∈ (findTerraformResources module {}).tfResourceByLabel, e.2.Type_ = "coder_app" →
          ∃ attrs, env.DecodeApp e.2.AttributeValues = .ok attrs)
        ∧ (∀ s ∈ ConvertResources.slugs env (findTerraformResources module {}).tfResourceByLabel,
          env.AppSlugRegexMatch s = true)
        ∧ (ConvertResources.slugs env
          (findTerraformResources module {}).tfResourceByLabel).Nodup := by
  have hperm := ConvertResources.slugs_perm env
    (findTerraformResources module {}).tfResourceByLabel _ (happs _)
  constructor
  · intro parsedGraph graph found hparse hgraph hagents hdec
    have hdec2 : ∀ e ∈ env.rangeResources 2 (findTerraformResources module {}).tfResourceByLabel,
        e.2.Type_ = "coder_app" → ∃ attrs, env.DecodeApp e.2.AttributeValues = .ok attrs :=
      fun e he => hdec e ((happs _).mem_iff.mp he)
    rcases ConvertResources.apps_result env _ hdec2 []
        (ConvertResources.instances
          (env.rangeResources 1 (findTerraformResources module {}).tfResourceByLabel) found) with
      ⟨out, _, hvalid, hnodup, _⟩ | ⟨s, hs, hbad, herr⟩ | ⟨s, hs, hdup, herr⟩
    · have hnd := hperm.nodup_iff.mp hnodup
      refine ⟨?_, ?_, ?_⟩
      · rintro _ ⟨s, hs, hbad⟩
        rw [hvalid s (hperm.mem_iff.mpr hs)] at hbad
        cases hbad
      · intro _ hnot
        exact absurd hnd hnot
      · rintro (⟨s, hs, hbad⟩ | hnot)
        · rw [hvalid s (hperm.mem_iff.mpr hs)] at hbad
          cases hbad
        · exact absurd hnd hnot
    · have hfail := ConvertResources.apps_error env fuel module rawGraph parsedGraph graph found
        _ hparse hgraph hagents herr
      have hs2 := hperm.mem_iff.mp hs
      refine ⟨?_, ?_, ?_⟩
      · intro _ _
        exact ⟨s, hs2, hbad, hfail⟩
      · intro hall _
        rw [hall s hs2] at hbad
        cases hbad
      · intro _
        exact ⟨s, hs2, Or.inl hfail⟩
    · have hfail := ConvertResources.apps_error env fuel module rawGraph parsedGraph graph found
        _ hparse hgraph hagents herr
      have hs2 := hperm.mem_iff.mp hs
      have hnot : ¬ (ConvertResources.slugs env
          (findTerraformResources module {}).tfResourceByLabel).Nodup := by
        intro hnd
        rcases hdup with h1 | h1
        · cases h1
        · exact h1 (hperm.nodup_iff.mpr hnd)
      refine ⟨?_, ?_, ?_⟩
      · intro hnd _
        exact absurd hnd hnot
      · intro _ _
        exact ⟨s, hs2, hfail⟩
      · intro _
        exact ⟨s, hs2, Or.inr hfail⟩
  · intro output h
    obtain ⟨parsedGraph, graph, found, associated, maps, _, _, _, hassoc, _, _⟩ :=
      ConvertResources.ok_cases env fuel module rawGraph output h
    have hdec2 := ConvertResources.apps_decodes env _ _ _ _ hassoc
    refine ⟨fun e he => hdec2 e ((happs _).mem_iff.mpr he), ?_⟩
    rcases ConvertResources.apps_result env _ hdec2 []
        (ConvertResources.instances
          (env.rangeResources 1 (findTerraformResources module {}).tfResourceByLabel) found) with
      ⟨out, _, hvalid, hnodup, _⟩ | ⟨s, _, _, herr⟩ | ⟨s, _, _, herr⟩
    · exact ⟨fun s hs => hvalid s (hperm.mem_iff.mpr hs), hperm.nodup_iff.mp hnodup⟩
    · rw [herr] at hassoc
      cases hassoc
    · rw [herr] at hassoc
      cases hassoc

/-- C27 at two apps with the slug `ide`: the conversion fails with the
duplicate-slug error; and at the two apps of an agent, which it converts:
their slugs are valid and distinct. -/
theorem convertResources_app_slugs_witness :
    (∃ s ∈ ConvertResources.slugs (graphEnv {} false)
        (findTerraformResources duplicateAppsModule {}).tfResourceByLabel,
      ConvertResources (graphEnv {} false) 1 duplicateAppsModule ""
        = .error (ConvertResources.duplicateSlug (graphEnv {} false) s))
    ∧ (∀ s ∈ ConvertResources.slugs (graphEnv twoHostsGraph false)
          (findTerraformResources appsModule {}).tfResourceByLabel,
        (graphEnv twoHostsGraph false).AppSlugRegexMatch s = true)
    ∧ (ConvertResources.slugs (graphEnv twoHostsGraph false)
        (findTerraformResources appsModule {}).tfResourceByLabel).Nodup :=
  ⟨((convertResources_app_slugs (graphEnv {} false) 1 duplicateAppsModule ""
      (fun _ => List.Perm.refl _)).1 {} {} [] rfl rfl rfl
      (fun _ _ _ => ⟨_, rfl⟩)).2.1 (by decide) (by decide),
    ((convertResources_app_slugs (graphEnv twoHostsGraph false) 2 appsModule ""
      (fun _ => List.Perm.refl _)).2
      [sdkproto.Resource.mk "b" "aws_instance" [] [] false "" "" 0,
       sdkproto.Resource.mk "a" "aws_instance"
        [{ Id := "agent1", Name := "main",
           Apps := [{ Slug := "code", DisplayName := "code" },
             { Slug := "sh", DisplayName := "Shell" }],
           Auth := some (.Token "secret") }]
        [] false "" "" 0] (by decide)).2⟩

/-- C27 fails as stated: with two apps of the slug `ide` visited before an
app with an invalid slug the conversion fails with the duplicate-slug error,
not the invalid-slug error, and with the invalid-slug error when the visit
is in the reverse order; and two instances of a counted "coder_app" with the
same slug are converted without an error. -/
theorem convertResources_slug_errors_by_visit :
    ConvertResources (graphEnv {} false) 1 mixedAppsModule ""
      = .error (.new "duplicate app slug, they must be unique per template: \"ide\"")
    ∧ ConvertResources.duplicateSlug (graphEnv {} false) "ide"
      = .new "duplicate app slug, they must be unique per template: \"ide\""
    ∧ (graphEnv {} false).AppSlugRegexMatch "Bad Slug" = false
    ∧ ConvertResources (graphEnv {} true) 1 mixedAppsModule ""
      = .error (.new ("invalid app slug \"Bad Slug\""
          ++ ", please update your coder/coder provider to the latest version and specify the slug property on each coder_app"))
    ∧ ConvertResources (graphEnv {} false) 1 countedAppsModule "" = .ok [] :=
  ⟨by decide, by decide, by decide, by decide, by decide⟩

end terraform

namespace terraform

/-- C28: on success every emitted app is the app of an indexed "coder_app"
that decodes: its slug is the slug attribute if that is not empty and
otherwise the resource name, and its display name is the display_name
attribute if that is not empty, otherwise the deprecated name attribute if
that is not empty, otherwise the effective slug. -/
theorem convertResources_app_defaults {γ : Type} (env : Env γ) (fuel : Nat)
    (module : tfjson.StateModule) (rawGraph : String) (output : List sdkproto.Resource)
    (happs : ∀ entries, (env.rangeResources 2 entries).Perm entries)
    (h : ConvertResources env fuel module rawGraph = .ok output) :
    ∀ resource ∈ output, ∀ a ∈ resource.Agents, ∀ app ∈ a.Apps,
      ∃ e ∈ (findTerraformResources module {}).tfResourceByLabel, e.2.Type_ = "coder_app"
        ∧ ∃ attrs, env.DecodeApp e.2.AttributeValues = .ok attrs
          ∧ app.Slug = (if attrs.Slug ≠ "" then attrs.Slug else e.2.Name)
          ∧ app.DisplayName
            = (if attrs.DisplayName ≠ "" then attrs.DisplayName
              else if attrs.Name ≠ "" then attrs.Name
              else app.Slug) := by
  refine ConvertResources.output_agents env fuel module rawGraph output
    (fun a => ∀ app ∈ a.Apps,
      ∃ e ∈ (findTerraformResources module {}).tfResourceByLabel, e.2.Type_ = "coder_app"
        ∧ ∃ attrs, env.DecodeApp e.2.AttributeValues = .ok attrs
          ∧ app.Slug = (if attrs.Slug ≠ "" then attrs.Slug else e.2.Name)
          ∧ app.DisplayName
            = (if attrs.DisplayName ≠ "" then attrs.DisplayName
              else if attrs.Name ≠ "" then attrs.Name
              else app.Slug)) ?_ ?_ ?_ h
  · intro tfResource attrs app happ
    cases happ
  · intro a instanceID ha
    exact ha
  · intro a ha e he hty attrs hd app happ
    rcases List.mem_append.mp happ with h1 | h1
    · exact ha app h1
    · rw [List.mem_singleton.mp h1]
      refine ⟨e, (happs _).mem_iff.mp he, hty, attrs, hd, ?_, ?_⟩
      · unfold ConvertResources.app ConvertResources.appDefaults
        by_cases hs : attrs.Slug = ""
        · by_cases hdn : attrs.DisplayName = ""
          · by_cases hn : attrs.Name = "" <;> simp [hs, hdn, hn]
          · simp [hs, hdn]
        · by_cases hdn : attrs.DisplayName = ""
          · by_cases hn : attrs.Name = "" <;> simp [hs, hdn, hn]
          · simp [hs, hdn]
      · unfold ConvertResources.app ConvertResources.appDefaults
        by_cases hs : attrs.Slug = ""
        · by_cases hdn : attrs.DisplayName = ""
          · by_cases hn : attrs.Name = "" <;> simp [hs, hdn, hn]
          · simp [hs, hdn]
        · by_cases hdn : attrs.DisplayName = ""
          · by_cases hn : attrs.Name = "" <;> simp [hs, hdn, hn]
          · simp [hs, hdn]

/-- C28 at an agent with an app without slug and display name and an app
with a slug and the deprecated name: the emitted apps are `code`, shown as
`code`, and `sh`, shown as `Shell`. -/
theorem convertResources_app_defaults_witness :
    ConvertResources (graphEnv twoHostsGraph false) 2 appsModule ""
      = .ok [sdkproto.Resource.mk "b" "aws_instance" [] [] false "" "" 0,
          sdkproto.Resource.mk "a" "aws_instance"
            [{ Id := "agent1", Name := "main",
               Apps := [{ Slug := "code", DisplayName := "code" },
                 { Slug := "sh", DisplayName := "Shell" }],
               Auth := some (.Token "secret") }]
            [] false "" "" 0]
    ∧ ∀ resource ∈ [sdkproto.Resource.mk "b" "aws_instance" [] [] false "" "" 0,
          sdkproto.Resource.mk "a" "aws_instance"
            [{ Id := "agent1", Name := "main",
               Apps := [{ Slug := "code", DisplayName := "code" },
                 { Slug := "sh", DisplayName := "Shell" }],
               Auth := some (.Token "secret") }]
            [] false "" "" 0],
        ∀ a ∈ resource.Agents, ∀ app ∈ a.Apps,
          ∃ e ∈ (findTerraformResources appsModule {}).tfResourceByLabel,
            e.2.Type_ = "coder_app"
            ∧ ∃ attrs, (graphEnv twoHostsGraph false).DecodeApp e.2.AttributeValues = .ok attrs
              ∧ app.Slug = (if attrs.Slug ≠ "" then attrs.Slug else e.2.Name)
              ∧ app.DisplayName
                = (if attrs.DisplayName ≠ "" then attrs.DisplayName
                  else if attrs.Name ≠ "" then attrs.Name
                  else app.Slug) :=
  ⟨by decide,
    convertResources_app_defaults (graphEnv twoHostsGraph false) 2 appsModule "" _
      (fun _ => List.Perm.refl _) (by decide)⟩

end terraform

namespace terraform

/-- C29, as the code has it: on success the output holds, in the order of
the visit of the last loop, exactly one resource for each indexed resource
that is not data-mode and whose type is none of "coder_agent",
"coder_agent_instance", "coder_app" and "coder_metadata", with its name and
type, and nothing for a data-mode resource or a resource of these four
types. -/
theorem convertResources_emitted {γ : Type} (env : Env γ) (fuel : Nat)
    (module : tfjson.StateModule) (rawGraph : String) (output : List sdkproto.Resource)
    (hemit : ∀ entries, (env.rangeResources 4 entries).Perm entries)
    (h : ConvertResources env fuel module rawGraph = .ok output) :
    ∃ (visit : List (String × tfjson.StateResource))
      (associated : List (String × List sdkproto.Agent)) (maps : ConvertResources.Metadata),
      visit.Perm (findTerraformResources module {}).tfResourceByLabel
      ∧ output = (visit.filter (fun e => ConvertResources.emits e.2)).map
          (fun e => ConvertResources.resource associated maps e.2)
      ∧ (∀ resource : tfjson.StateResource,
          ConvertResources.emits resource = true
            ↔ resource.Mode ≠ .DataResourceMode
              ∧ resource.Type_ ∉
                ["coder_agent", "coder_agent_instance", "coder_app", "coder_metadata"])
      ∧ ∀ resource : tfjson.StateResource,
          (ConvertResources.resource associated maps resource).Name = resource.Name
          ∧ (ConvertResources.resource associated maps resource).Type_ = resource.Type_ := by
  obtain ⟨parsedGraph, graph, found, associated, maps, _, _, _, _, _, hout⟩ :=
    ConvertResources.ok_cases env fuel module rawGraph output h
  refine ⟨_, associated, maps, hemit _, hout, ?_, fun _ => ⟨rfl, rfl⟩⟩
  intro resource
  simp [ConvertResources.emits]

/-- C29 at a module with a resource of another Coder type, a data resource
and an instance: the data resource is not emitted, the two others are. -/
theorem convertResources_emitted_witness :
    ∃ (visit : List (String × tfjson.StateResource))
      (associated : List (String × List sdkproto.Agent)) (maps : ConvertResources.Metadata),
      visit.Perm (findTerraformResources otherCoderModule {}).tfResourceByLabel
      ∧ [sdkproto.Resource.mk "setup" "coder_script" [] [] false "" "" 0,
          sdkproto.Resource.mk "a" "aws_instance" [] [] false "" "" 0]
        = (visit.filter (fun e => ConvertResources.emits e.2)).map
          (fun e => ConvertResources.resource associated maps e.2)
      ∧ (∀ resource : tfjson.StateResource,
          ConvertResources.emits resource = true
            ↔ resource.Mode ≠ .DataResourceMode
              ∧ resource.Type_ ∉
                ["coder_agent", "coder_agent_instance", "coder_app", "coder_metadata"])
      ∧ ∀ resource : tfjson.StateResource,
          (ConvertResources.resource associated maps resource).Name = resource.Name
          ∧ (ConvertResources.resource associated maps resource).Type_ = resource.Type_ :=
  convertResources_emitted (graphEnv {} false) 1 otherCoderModule "" _
    (fun _ => List.Perm.refl _) (by decide)

/-- C29 fails as stated: a managed resource whose type begins with "coder_"
and is none of the four types of the converter is emitted. -/
theorem convertResources_emits_other_coder_type :
    ConvertResources (graphEnv {} false) 1 otherCoderModule ""
      = .ok [sdkproto.Resource.mk "setup" "coder_script" [] [] false "" "" 0,
          sdkproto.Resource.mk "a" "aws_instance" [] [] false "" "" 0]
    ∧ strings.HasPrefix "coder_script" "coder_" = true :=
  ⟨by decide, by decide⟩

end terraform

/-- C31: each enumeration converter succeeds exactly on the declared values
of its domain, with the value listed, is injective on them, and returns an
error for every other input; the workspace transition converter maps start
to START, stop to STOP and delete to DESTROY. -/
theorem convert_enums_exact :
    (convertLogLevel .TRACE = .ok .Trace ∧ convertLogLevel .DEBUG = .ok .Debug
      ∧ convertLogLevel .INFO = .ok .Info ∧ convertLogLevel .WARN = .ok .Warn
      ∧ convertLogLevel .ERROR = .ok .Error
      ∧ (∀ n, ∃ err, convertLogLevel (.other n) = .error err)
      ∧ ∀ a b x, convertLogLevel a = .ok x → convertLogLevel b = .ok x → a = b)
    ∧ (convertLogSource .PROVISIONER_DAEMON = .ok .ProvisionerDaemon
      ∧ convertLogSource .PROVISIONER = .ok .Provisioner
      ∧ (∀ n, ∃ err, convertLogSource (.other n) = .error err)
      ∧ ∀ a b x, convertLogSource a = .ok x → convertLogSource b = .ok x → a = b)
    ∧ (convertParameterSourceScheme .DATA = .ok .Data
      ∧ (∀ n, ∃ err, convertParameterSourceScheme (.other n) = .error err)
      ∧ ∀ a b x, convertParameterSourceScheme a = .ok x →
          convertParameterSourceScheme b = .ok x → a = b)
    ∧ (convertParameterDestinationScheme .ENVIRONMENT_VARIABLE = .ok .EnvironmentVariable
      ∧ convertParameterDestinationScheme .PROVISIONER_VARIABLE = .ok .ProvisionerVariable
      ∧ (∀ n, ∃ err, convertParameterDestinationScheme (.other n) = .error err)
      ∧ ∀ a b x, convertParameterDestinationScheme a = .ok x →
          convertParameterDestinationScheme b = .ok x → a = b)
    ∧ (convertValidationTypeSystem .None = .ok .None
      ∧ convertValidationTypeSystem .HCL = .ok .HCL
      ∧ (∀ n, ∃ err, convertValidationTypeSystem (.other n) = .error err)
      ∧ ∀ a b x, convertValidationTypeSystem a = .ok x →
          convertValidationTypeSystem b = .ok x → a = b)
    ∧ (convertWorkspaceTransition .Start = .ok .START
      ∧ convertWorkspaceTransition .Stop = .ok .STOP
      ∧ convertWorkspaceTransition .Delete = .ok .DESTROY
      ∧ (∀ s, ∃ err, convertWorkspaceTransition (.other s) = .error err)
      ∧ ∀ a b x, convertWorkspaceTransition a = .ok x →
          convertWorkspaceTransition b = .ok x → a = b) := by
  refine ⟨⟨rfl, rfl, rfl, rfl, rfl, fun n => ⟨_, rfl⟩, ?_⟩, ⟨rfl, rfl, fun n => ⟨_, rfl⟩, ?_⟩,
    ⟨rfl, fun n => ⟨_, rfl⟩, ?_⟩, ⟨rfl, rfl, fun n => ⟨_, rfl⟩, ?_⟩,
    ⟨rfl, rfl, fun n => ⟨_, rfl⟩, ?_⟩, ⟨rfl, rfl, rfl, fun s => ⟨_, rfl⟩, ?_⟩⟩
  · intro a b x ha hb
    cases a <;> cases b <;> simp [convertLogLevel] at ha hb ⊢ <;> rw [← ha] at hb <;> cases hb
  · intro a b x ha hb
    cases a <;> cases b <;> simp [convertLogSource] at ha hb ⊢ <;> rw [← ha] at hb <;> cases hb
  · intro a b x ha hb
    cases a <;> cases b <;> simp [convertParameterSourceScheme] at ha hb ⊢
  · intro a b x ha hb
    cases a <;> cases b <;> simp [convertParameterDestinationScheme] at ha hb ⊢ <;>
      rw [← ha] at hb <;> cases hb
  · intro a b x ha hb
    cases a <;> cases b <;> simp [convertValidationTypeSystem] at ha hb ⊢ <;>
      rw [← ha] at hb <;> cases hb
  · intro a b x ha hb
    cases a <;> cases b <;> simp [convertWorkspaceTransition] at ha hb ⊢ <;>
      rw [← ha] at hb <;> cases hb

section InsertedRows

variable {σ π : Type}

theorem InsertWorkspaceResource.freshSlugs_nil (env : Env σ) (seen : List String) :
    InsertWorkspaceResource.FreshSlugs env seen [] :=
  ⟨fun _ h => (by cases h), List.nodup_nil⟩

/-- Slugs accepted after the slugs seen and the first ones are accepted, after
the first ones, as a whole. -/
theorem InsertWorkspaceResource.freshSlugs_append (env : Env σ)
    (seen seen2 first next : List String)
    (hfirst : InsertWorkspaceResource.FreshSlugs env seen first)
    (hnext : InsertWorkspaceResource.FreshSlugs env seen2 next)
    (hseen : ∀ s, s ∈ seen ∨ s ∈ first → s ∈ seen2) :
    InsertWorkspaceResource.FreshSlugs env seen (first ++ next) := by
  obtain ⟨h1, n1⟩ := hfirst
  obtain ⟨h2, n2⟩ := hnext
  constructor
  · intro s hs
    rcases List.mem_append.mp hs with h | h
    · exact h1 s h
    · exact ⟨(h2 s h).1, (h2 s h).2.1, fun hin => (h2 s h).2.2 (hseen s (Or.inl hin))⟩
  · refine List.nodup_append.mpr ⟨n1, n2, ?_⟩
    intro s hs1 hs2
    exact (h2 s hs2).2.2 (hseen s (Or.inr hs1))

/-- The calls of the app loop: an app row for the apps of a first part of the
list, whose slugs are accepted; for all of them when the loop succeeds. -/
theorem InsertWorkspaceResource.apps_rows (env : Env σ) (db : database.Store σ)
    (dbAgent : database.WorkspaceAgent) (apps : List sdkproto.App) :
    ∀ (appSlugs : List String) (w : World σ π),
      ∃ l ins,
        (InsertWorkspaceResource.apps env db dbAgent apps appSlugs w).2.trace = w.trace ++ l
        ∧ l.filterMap Event.inserted = ins.map InsertedRow.app
        ∧ ins <+: apps.map (fun app => app.Slug)
        ∧ InsertWorkspaceResource.FreshSlugs env appSlugs ins
        ∧ ∀ out, (InsertWorkspaceResource.apps env db dbAgent apps appSlugs w).1 = .ok out →
            ins = apps.map (fun app => app.Slug)
            ∧ ∀ s, s ∈ out ↔ s ∈ appSlugs ∨ s ∈ ins := by
  induction apps with
  | nil =>
    intro appSlugs w
    refine ⟨[], [], by simp [InsertWorkspaceResource.apps], rfl, List.nil_prefix,
      InsertWorkspaceResource.freshSlugs_nil env _, ?_⟩
    intro out h
    simp only [InsertWorkspaceResource.apps] at h
    cases h
    exact ⟨rfl, fun s => by simp⟩
  | cons app rest ih =>
    intro appSlugs w
    have hstop : ∀ err : Error,
        InsertWorkspaceResource.apps env db dbAgent (app :: rest) appSlugs w = (.error err, w) →
        ∃ l ins,
          (InsertWorkspaceResource.apps env db dbAgent (app :: rest) appSlugs w).2.trace
            = w.trace ++ l
          ∧ l.filterMap Event.inserted = ins.map InsertedRow.app
          ∧ ins <+: (app :: rest).map (fun app => app.Slug)
          ∧ InsertWorkspaceResource.FreshSlugs env appSlugs ins
          ∧ ∀ out,
              (InsertWorkspaceResource.apps env db dbAgent (app :: rest) appSlugs w).1 = .ok out →
              ins = (app :: rest).map (fun app => app.Slug)
              ∧ ∀ s, s ∈ out ↔ s ∈ appSlugs ∨ s ∈ ins := by
      intro err h
      rw [h]
      exact ⟨[], [], by simp, rfl, List.nil_prefix,
        InsertWorkspaceResource.freshSlugs_nil env _, fun out hout => by cases hout⟩
    by_cases hempty : app.Slug = ""
    · refine hstop (.new "app must have a slug or name set") ?_
      rw [InsertWorkspaceResource.apps]
      simp only [hempty, if_true]
    by_cases hvalid : env.AppSlugRegexMatch app.Slug = true
    swap
    · refine hstop (.new ("app slug " ++ app.Slug.quote ++ " does not match regex "
        ++ env.AppSlugRegexString.quote)) ?_
      rw [InsertWorkspaceResource.apps]
      simp [hempty, hvalid]
    by_cases hseen : app.Slug ∈ appSlugs
    · refine hstop (.new ("duplicate app slug, must be unique per template: "
        ++ app.Slug.quote)) ?_
      rw [InsertWorkspaceResource.apps]
      simp only [hempty, if_false, hvalid, Bool.not_true, Bool.false_eq_true, hseen, if_true]
    rw [InsertWorkspaceResource.apps]
    simp only [hempty, if_false, hvalid, Bool.not_true, Bool.false_eq_true, hseen, World.write]
    split
    · rename_i err w2 heq
      obtain ⟨-, hw⟩ := Prod.mk.inj heq
      obtain ⟨e, he, hrow⟩ : ∃ e, w2.trace = w.trace ++ [e]
          ∧ Event.inserted e = some (.app app.Slug) :=
        ⟨_, by rw [← hw]; rfl, by rfl⟩
      refine ⟨[e], [app.Slug], he, by simp [hrow], ?_, ?_, fun out hout => by cases hout⟩
      · rw [List.map_cons]
        exact List.prefix_append [app.Slug] _
      · exact ⟨fun s hs => by
          rw [List.mem_singleton.mp hs]; exact ⟨hempty, hvalid, hseen⟩, List.nodup_singleton _⟩
    · rename_i row w2 heq
      obtain ⟨-, hw⟩ := Prod.mk.inj heq
      obtain ⟨e, he, hrow⟩ : ∃ e, w2.trace = w.trace ++ [e]
          ∧ Event.inserted e = some (.app app.Slug) :=
        ⟨_, by rw [← hw]; rfl, by rfl⟩
      obtain ⟨l, ins, htrace, hrows, hpre, hfresh, hok⟩ := ih (app.Slug :: appSlugs) w2
      refine ⟨e :: l, app.Slug :: ins, ?_, ?_, ?_, ?_, ?_⟩
      · rw [htrace, he]
        exact List.append_assoc _ _ _
      · rw [List.filterMap_cons, hrow, List.map_cons, hrows]
      · rw [List.map_cons]
        exact (List.prefix_cons_inj _).mpr hpre
      · constructor
        · intro s hs
          rcases List.mem_cons.mp hs with h | h
          · rw [h]; exact ⟨hempty, hvalid, hseen⟩
          · exact ⟨(hfresh.1 s h).1, (hfresh.1 s h).2.1,
              fun hin => (hfresh.1 s h).2.2 (List.mem_cons_of_mem _ hin)⟩
        · refine List.nodup_cons.mpr ⟨?_, hfresh.2⟩
          intro hin
          exact (hfresh.1 _ hin).2.2 (List.mem_cons_self _ _)
      · intro out hout
        obtain ⟨hall, hmem⟩ := hok out hout
        refine ⟨by rw [List.map_cons, hall], ?_⟩
        intro s
        rw [hmem s]
        simp only [List.mem_cons]
        tauto

end InsertedRows

section InsertedRows2

variable {σ π : Type}

/-- The calls of the agent loop: the rows of a first part of the agents and
their apps, where the slugs of the app rows are accepted; all the rows when
the loop succeeds. -/
theorem InsertWorkspaceResource.agents_rows (env : Env σ) (db : database.Store σ)
    (resource : database.WorkspaceResource) (agents : List sdkproto.Agent) :
    ∀ (appSlugs : List String) (w : World σ π),
      ∃ l rows,
        (InsertWorkspaceResource.agents env db resource agents appSlugs w).2.trace
          = w.trace ++ l
        ∧ l.filterMap Event.inserted = rows
        ∧ rows <+: InsertWorkspaceResource.agentRows agents
        ∧ InsertWorkspaceResource.FreshSlugs env appSlugs (rows.filterMap InsertedRow.slug)
        ∧ ((InsertWorkspaceResource.agents env db resource agents appSlugs w).1 = none →
            rows = InsertWorkspaceResource.agentRows agents) := by
  induction agents with
  | nil =>
    intro appSlugs w
    exact ⟨[], [], by simp [InsertWorkspaceResource.agents], rfl, List.nil_prefix,
      InsertWorkspaceResource.freshSlugs_nil env _, fun _ => rfl⟩
  | cons prAgent rest ih =>
    intro appSlugs w
    have hstop : ∀ (err : Error) (w2 : World σ π), w2.trace = w.trace →
        ∃ l rows,
          ((some err, w2) : Option Error × World σ π).2.trace = w.trace ++ l
          ∧ l.filterMap Event.inserted = rows
          ∧ rows <+: InsertWorkspaceResource.agentRows (prAgent :: rest)
          ∧ InsertWorkspaceResource.FreshSlugs env appSlugs (rows.filterMap InsertedRow.slug)
          ∧ (((some err, w2) : Option Error × World σ π).1 = none →
              rows = InsertWorkspaceResource.agentRows (prAgent :: rest)) := by
      intro err w2 htr
      exact ⟨[], [], by simp [htr], rfl, List.nil_prefix,
        InsertWorkspaceResource.freshSlugs_nil env _, fun hnone => by cases hnone⟩
    have hrows : InsertWorkspaceResource.agentRows (prAgent :: rest)
        = InsertedRow.agent :: (prAgent.Apps.map (fun app => app.Slug)).map InsertedRow.app
          ++ InsertWorkspaceResource.agentRows rest := by
      unfold InsertWorkspaceResource.agentRows
      rw [List.flatMap_cons, List.map_map]
      rfl
    rw [InsertWorkspaceResource.agents]
    simp only
    split
    · rename_i err herr
      exact hstop err w rfl
    rename_i envVars henv
    split
    · rename_i err herr
      exact hstop err w.mint rfl
    rename_i authToken htoken
    simp only [World.write]
    split
    · rename_i err w2 heq
      obtain ⟨-, hw⟩ := Prod.mk.inj heq
      obtain ⟨e, he, hrow⟩ : ∃ e, w2.trace = w.trace ++ [e]
          ∧ Event.inserted e = some .agent :=
        ⟨_, by rw [← hw]; rfl, by rfl⟩
      refine ⟨[e], [.agent], he, by simp [hrow], ?_,
        InsertWorkspaceResource.freshSlugs_nil env _, fun hnone => by cases hnone⟩
      rw [hrows]
      exact List.prefix_append [InsertedRow.agent] _
    rename_i dbAgent w2 heq
    obtain ⟨-, hw⟩ := Prod.mk.inj heq
    obtain ⟨e, he, hrow⟩ : ∃ e, w2.trace = w.trace ++ [e]
        ∧ Event.inserted e = some .agent :=
      ⟨_, by rw [← hw]; rfl, by rfl⟩
    obtain ⟨l1, ins, htrace1, hrows1, hpre1, hfresh1, hok1⟩ :=
      InsertWorkspaceResource.apps_rows env db dbAgent prAgent.Apps appSlugs w2
    have hslugs : ∀ (ins : List String) (more : List InsertedRow),
        (InsertedRow.agent :: ins.map InsertedRow.app ++ more).filterMap InsertedRow.slug
          = ins ++ more.filterMap InsertedRow.slug := by
      intro ins more
      rw [List.cons_append, List.filterMap_cons]
      simp only [InsertedRow.slug, List.filterMap_append, List.filterMap_map]
      congr 1
      induction ins with
      | nil => rfl
      | cons s t iht => simp [InsertedRow.slug, iht]
    split
    · rename_i err w3 heq2
      have h1 := congrArg Prod.fst heq2
      have h2 := congrArg Prod.snd heq2
      simp only at h1 h2
      refine ⟨e :: l1, .agent :: ins.map InsertedRow.app, ?_, ?_, ?_, ?_,
        fun hnone => by cases hnone⟩
      · rw [← h2, htrace1, he]
        exact List.append_assoc _ _ _
      · rw [List.filterMap_cons, hrow, hrows1]
      · rw [hrows]
        obtain ⟨t, ht⟩ := hpre1
        refine ⟨t.map InsertedRow.app ++ InsertWorkspaceResource.agentRows rest, ?_⟩
        rw [← ht]
        simp
      · have := hslugs ins []
        simp only [List.append_nil, List.filterMap_nil] at this
        rw [this]
        exact hfresh1
    · rename_i out w3 heq2
      have h1 := congrArg Prod.fst heq2
      have h2 := congrArg Prod.snd heq2
      simp only at h1 h2
      obtain ⟨hall, hmem⟩ := hok1 out h1
      obtain ⟨l2, rows2, htrace2, hrows2, hpre2, hfresh2, hok2⟩ := ih out w3
      refine ⟨e :: l1 ++ l2, .agent :: ins.map InsertedRow.app ++ rows2, ?_, ?_, ?_, ?_, ?_⟩
      · rw [htrace2, ← h2, htrace1, he]
        simp
      · rw [List.cons_append, List.filterMap_cons, hrow, List.filterMap_append, hrows1, hrows2]
        rfl
      · rw [hrows, hall]
        exact (List.prefix_append_right_inj _).mpr hpre2
      · rw [hslugs]
        exact InsertWorkspaceResource.freshSlugs_append env appSlugs out ins _ hfresh1 hfresh2
          (fun s hs => (hmem s).mpr hs)
      · intro hnone
        rw [hrows, hall, hok2 hnone]

end InsertedRows2

section InsertedRows3

variable {σ π : Type}

/-- The calls of the metadata loop: a metadata row for a first part of the
items; for all of them when the loop succeeds. -/
theorem InsertWorkspaceResource.metadata_rows (db : database.Store σ)
    (resource : database.WorkspaceResource) (items : List sdkproto.Resource_Metadata) :
    ∀ w : World σ π,
      ∃ l rows,
        (InsertWorkspaceResource.metadata db resource items w).2.trace = w.trace ++ l
        ∧ l.filterMap Event.inserted = rows
        ∧ rows <+: items.map (fun _ => InsertedRow.metadata)
        ∧ rows.filterMap InsertedRow.slug = []
        ∧ ((InsertWorkspaceResource.metadata db resource items w).1 = none →
            rows = items.map (fun _ => InsertedRow.metadata)) := by
  induction items with
  | nil =>
    intro w
    exact ⟨[], [], by simp [InsertWorkspaceResource.metadata], rfl, List.nil_prefix, rfl,
      fun _ => rfl⟩
  | cons metadatum rest ih =>
    intro w
    rw [InsertWorkspaceResource.metadata]
    simp only [World.write]
    split
    · rename_i err w2 heq
      obtain ⟨-, hw⟩ := Prod.mk.inj heq
      obtain ⟨e, he, hrow⟩ : ∃ e, w2.trace = w.trace ++ [e]
          ∧ Event.inserted e = some .metadata :=
        ⟨_, by rw [← hw], by rfl⟩
      refine ⟨[e], [.metadata], he, by simp [hrow], ?_, rfl, fun hnone => by cases hnone⟩
      rw [List.map_cons]
      exact List.prefix_append [InsertedRow.metadata] _
    · rename_i row w2 heq
      obtain ⟨-, hw⟩ := Prod.mk.inj heq
      obtain ⟨e, he, hrow⟩ : ∃ e, w2.trace = w.trace ++ [e]
          ∧ Event.inserted e = some .metadata :=
        ⟨_, by rw [← hw], by rfl⟩
      obtain ⟨l, rows, htrace, hrows, hpre, hslugs, hok⟩ := ih w2
      refine ⟨e :: l, .metadata :: rows, ?_, ?_, ?_, ?_, ?_⟩
      · rw [htrace, he]
        exact List.append_assoc _ _ _
      · rw [List.filterMap_cons, hrow, hrows]
      · rw [List.map_cons]
        exact (List.prefix_cons_inj _).mpr hpre
      · rw [List.filterMap_cons]
        simpa [InsertedRow.slug] using hslugs
      · intro hnone
        rw [List.map_cons, hok hnone]

theorem InsertWorkspaceResource.agentRows_slugs (agents : List sdkproto.Agent) :
    (InsertWorkspaceResource.agentRows agents).filterMap InsertedRow.slug
      = (agents.flatMap (fun prAgent => prAgent.Apps)).map (fun app => app.Slug) := by
  induction agents with
  | nil => rfl
  | cons prAgent rest ih =>
    unfold InsertWorkspaceResource.agentRows at ih ⊢
    rw [List.flatMap_cons, List.flatMap_cons, List.filterMap_append, ih, List.map_append,
      List.filterMap_cons]
    simp only [InsertedRow.slug, List.filterMap_map]
    congr 1
    induction prAgent.Apps with
    | nil => rfl
    | cons app t iht => simp [InsertedRow.slug, iht]

theorem InsertWorkspaceResource.agentRows_count (agents : List sdkproto.Agent) :
    (InsertWorkspaceResource.agentRows agents).count .agent = agents.length
    ∧ (InsertWorkspaceResource.agentRows agents).count .resource = 0
    ∧ (InsertWorkspaceResource.agentRows agents).count .metadata = 0 := by
  induction agents with
  | nil => exact ⟨rfl, rfl, rfl⟩
  | cons prAgent rest ih =>
    unfold InsertWorkspaceResource.agentRows at ih ⊢
    have happs : ∀ (apps : List sdkproto.App) (row : InsertedRow), row.slug = none →
        (apps.map (fun app => InsertedRow.app app.Slug)).count row = 0 := by
      intro apps row hrow
      refine List.count_eq_zero.mpr ?_
      intro hin
      obtain ⟨app, _, happ⟩ := List.mem_map.mp hin
      rw [← happ] at hrow
      cases hrow
    rw [List.flatMap_cons]
    simp only [List.count_append, List.count_cons, ih.1, ih.2.1, ih.2.2,
      happs prAgent.Apps .agent rfl, happs prAgent.Apps .resource rfl,
      happs prAgent.Apps .metadata rfl]
    simp
    omega

theorem InsertWorkspaceResource.rows_slugs (protoResource : sdkproto.Resource) :
    (InsertWorkspaceResource.rows protoResource).filterMap InsertedRow.slug
      = (protoResource.Agents.flatMap (fun prAgent => prAgent.Apps)).map
          (fun app => app.Slug) := by
  unfold InsertWorkspaceResource.rows
  rw [List.cons_append, List.filterMap_cons, List.filterMap_append,
    InsertWorkspaceResource.agentRows_slugs]
  simp [InsertedRow.slug, List.filterMap_map, Function.comp]

theorem InsertWorkspaceResource.rows_count (protoResource : sdkproto.Resource) :
    (InsertWorkspaceResource.rows protoResource).count .resource = 1
    ∧ (InsertWorkspaceResource.rows protoResource).count .agent = protoResource.Agents.length
    ∧ (InsertWorkspaceResource.rows protoResource).count .metadata
      = protoResource.Metadata.length := by
  obtain ⟨h1, h2, h3⟩ := InsertWorkspaceResource.agentRows_count protoResource.Agents
  unfold InsertWorkspaceResource.rows
  simp only [List.cons_append, List.count_cons, List.count_append, h1, h2, h3]
  have hm : ∀ (n : List sdkproto.Resource_Metadata),
      (n.map (fun _ => InsertedRow.metadata)).count .metadata = n.length
      ∧ (n.map (fun _ => InsertedRow.metadata)).count .resource = 0
      ∧ (n.map (fun _ => InsertedRow.metadata)).count .agent = 0 := by
    intro n
    induction n with
    | nil => exact ⟨rfl, rfl, rfl⟩
    | cons x t iht =>
      simp only [List.map_cons, List.count_cons, iht.1, iht.2.1, iht.2.2]
      simp
  rw [(hm _).1, (hm _).2.1, (hm _).2.2]
  simp

end InsertedRows3

section InsertedRows4

variable {σ π : Type}

/-- The calls of `InsertWorkspaceResource`: the rows of a first part of the
rows of the resource, where the slugs of the app rows are accepted; all the
rows when it succeeds. -/
theorem InsertWorkspaceResource.resource_rows (env : Env σ) (db : database.Store σ)
    (jobID : uuid.UUID) (transition : database.WorkspaceTransition)
    (protoResource : sdkproto.Resource) (w : World σ π) :
    ∃ l rows,
      (InsertWorkspaceResource env db jobID transition protoResource w).2.trace = w.trace ++ l
      ∧ l.filterMap Event.inserted = rows
      ∧ rows <+: InsertWorkspaceResource.rows protoResource
      ∧ InsertWorkspaceResource.FreshSlugs env [] (rows.filterMap InsertedRow.slug)
      ∧ ((InsertWorkspaceResource env db jobID transition protoResource w).1 = none →
          rows = InsertWorkspaceResource.rows protoResource) := by
  unfold InsertWorkspaceResource
  simp only [World.write]
  split
  · rename_i err w2 heq
    obtain ⟨-, hw⟩ := Prod.mk.inj heq
    obtain ⟨e, he, hrow⟩ : ∃ e, w2.trace = w.trace ++ [e]
        ∧ Event.inserted e = some .resource :=
      ⟨_, by rw [← hw]; rfl, by rfl⟩
    refine ⟨[e], [.resource], he, by simp [hrow], ?_,
      InsertWorkspaceResource.freshSlugs_nil env _, fun hnone => by cases hnone⟩
    unfold InsertWorkspaceResource.rows
    exact List.prefix_append [InsertedRow.resource] _
  rename_i resource w2 heq
  obtain ⟨-, hw⟩ := Prod.mk.inj heq
  obtain ⟨e, he, hrow⟩ : ∃ e, w2.trace = w.trace ++ [e]
      ∧ Event.inserted e = some .resource :=
    ⟨_, by rw [← hw]; rfl, by rfl⟩
  obtain ⟨l1, rows1, htrace1, hrows1, hpre1, hfresh1, hok1⟩ :=
    InsertWorkspaceResource.agents_rows env db resource protoResource.Agents [] w2
  split
  · rename_i err w3 heq2
    have h2 := congrArg Prod.snd heq2
    simp only at h2
    refine ⟨e :: l1, .resource :: rows1, ?_, ?_, ?_, ?_, fun hnone => by cases hnone⟩
    · rw [← h2, htrace1, he]
      exact List.append_assoc _ _ _
    · rw [List.filterMap_cons, hrow, hrows1]
    · unfold InsertWorkspaceResource.rows
      rw [List.cons_append]
      exact (List.prefix_cons_inj _).mpr (hpre1.trans (List.prefix_append _ _))
    · rw [List.filterMap_cons]
      exact hfresh1
  · rename_i w3 heq2
    have h1 := congrArg Prod.fst heq2
    have h2 := congrArg Prod.snd heq2
    simp only at h1 h2
    have hall := hok1 h1
    obtain ⟨l2, rows2, htrace2, hrows2, hpre2, hslugs2, hok2⟩ :=
      InsertWorkspaceResource.metadata_rows db resource protoResource.Metadata w3
    refine ⟨e :: l1 ++ l2, .resource :: rows1 ++ rows2, ?_, ?_, ?_, ?_, ?_⟩
    · rw [htrace2, ← h2, htrace1, he]
      simp
    · rw [List.cons_append, List.filterMap_cons, hrow, List.filterMap_append, hrows1, hrows2]
      rfl
    · unfold InsertWorkspaceResource.rows
      rw [hall]
      exact (List.prefix_append_right_inj _).mpr hpre2
    · rw [List.cons_append, List.filterMap_cons, List.filterMap_append, hslugs2,
        List.append_nil]
      exact hfresh1
    · intro hnone
      unfold InsertWorkspaceResource.rows
      rw [hall, hok2 hnone]

/-- A first part of a list of slugs that is accepted stops before a slug that
is empty, invalid or the slug of an app before it. -/
theorem InsertWorkspaceResource.freshSlugs_stop (env : Env σ) (done before after : List String)
    (slug : String) (hpre : done <+: before ++ slug :: after)
    (hfresh : InsertWorkspaceResource.FreshSlugs env [] done)
    (hbad : slug = "" ∨ env.AppSlugRegexMatch slug = false ∨ slug ∈ before) :
    done <+: before := by
  by_cases hlen : done.length ≤ before.length
  · exact List.prefix_of_prefix_length_le hpre (List.prefix_append _ _) hlen
  · exfalso
    have h1 : before ++ [slug] <+: before ++ slug :: after :=
      ⟨after, by simp⟩
    have h2 : before ++ [slug] <+: done :=
      List.prefix_of_prefix_length_le h1 hpre (by simp; omega)
    have hin : slug ∈ done := h2.subset (by simp)
    obtain ⟨hne, hvalid, _⟩ := hfresh.1 slug hin
    rcases hbad with h | h | h
    · exact hne h
    · rw [hvalid] at h
      cases h
    · have hnd : (before ++ [slug]).Nodup := hfresh.2.sublist h2.sublist
      exact (List.nodup_append.mp hnd).2.2 h (List.mem_singleton.mpr rfl)

end InsertedRows4

/-- C32: the insert calls of `InsertWorkspaceResource` are the calls for a
first part of the rows of the resource, in order.  If an app has an empty
slug, a slug the regex rejects, or the slug of an app before it in the
resource, the call returns an error and the app rows it has inserted are
rows of apps before that app.  Whenever it succeeds, the slugs of the app
rows are those of all the apps, none empty, all valid and no two the same,
and it has made exactly one call for the resource row, one for each agent,
one for each app and one for each metadata item. -/
theorem insertWorkspaceResource_rows {σ π : Type} (env : Env σ) (db : database.Store σ)
    (jobID : uuid.UUID) (transition : database.WorkspaceTransition)
    (protoResource : sdkproto.Resource) (w : World σ π) :
    ∃ l rows,
      (InsertWorkspaceResource env db jobID transition protoResource w).2.trace = w.trace ++ l
      ∧ l.filterMap Event.inserted = rows
      ∧ rows <+: InsertWorkspaceResource.rows protoResource
      ∧ (∀ (before after : List sdkproto.App) (app : sdkproto.App),
          protoResource.Agents.flatMap (fun prAgent => prAgent.Apps)
            = before ++ app :: after →
          (app.Slug = "" ∨ env.AppSlugRegexMatch app.Slug = false
            ∨ app.Slug ∈ before.map (fun earlier => earlier.Slug)) →
          (∃ err, (InsertWorkspaceResource env db jobID transition protoResource w).1
            = some err)
          ∧ rows.filterMap InsertedRow.slug <+: before.map (fun earlier => earlier.Slug))
      ∧ ((InsertWorkspaceResource env db jobID transition protoResource w).1 = none →
          rows = InsertWorkspaceResource.rows protoResource
          ∧ rows.filterMap InsertedRow.slug
            = (protoResource.Agents.flatMap (fun prAgent => prAgent.Apps)).map
                (fun app => app.Slug)
          ∧ (∀ s ∈ rows.filterMap InsertedRow.slug,
              s ≠ "" ∧ env.AppSlugRegexMatch s = true)
          ∧ (rows.filterMap InsertedRow.slug).Nodup
          ∧ rows.count .resource = 1
          ∧ rows.count .agent = protoResource.Agents.length
          ∧ (rows.filterMap InsertedRow.slug).length
            = (protoResource.Agents.flatMap (fun prAgent => prAgent.Apps)).length
          ∧ rows.count .metadata = protoResource.Metadata.length) := by
  obtain ⟨l, rows, htrace, hrows, hpre, hfresh, hok⟩ :=
    InsertWorkspaceResource.resource_rows env db jobID transition protoResource w
  have hstop : ∀ (before after : List sdkproto.App) (app : sdkproto.App),
      protoResource.Agents.flatMap (fun prAgent => prAgent.Apps) = before ++ app :: after →
      (app.Slug = "" ∨ env.AppSlugRegexMatch app.Slug = false
        ∨ app.Slug ∈ before.map (fun earlier => earlier.Slug)) →
      rows.filterMap InsertedRow.slug <+: before.map (fun earlier => earlier.Slug) := by
    intro before after app hsplit hbad
    have h1 : rows.filterMap InsertedRow.slug
        <+: before.map (fun earlier => earlier.Slug)
          ++ app.Slug :: after.map (fun later => later.Slug) := by
      have h2 := hpre.filterMap InsertedRow.slug
      rw [InsertWorkspaceResource.rows_slugs, hsplit, List.map_append, List.map_cons] at h2
      exact h2
    exact InsertWorkspaceResource.freshSlugs_stop env _ _ _ _ h1 hfresh hbad
  refine ⟨l, rows, htrace, hrows, hpre, ?_, ?_⟩
  · intro before after app hsplit hbad
    refine ⟨?_, hstop before after app hsplit hbad⟩
    cases hres : (InsertWorkspaceResource env db jobID transition protoResource w).1 with
    | some err => exact ⟨err, rfl⟩
    | none =>
      exfalso
      have hall := hok hres
      have h1 := hstop before after app hsplit hbad
      rw [hall, InsertWorkspaceResource.rows_slugs, hsplit, List.map_append,
        List.map_cons] at h1
      have h2 := h1.length_le
      simp at h2
  · intro hnone
    have hall := hok hnone
    obtain ⟨c1, c2, c3⟩ := InsertWorkspaceResource.rows_count protoResource
    have hslugs := InsertWorkspaceResource.rows_slugs protoResource
    rw [← hall] at c1 c2 c3 hslugs
    refine ⟨hall, hslugs, fun s hs => ⟨(hfresh.1 s hs).1, (hfresh.1 s hs).2.1⟩, hfresh.2,
      c1, c2, ?_, c3⟩
    rw [hslugs, List.length_map]

namespace terraform

/-- C33, on the code: `convertAddressToLabel` returns the text before the
first `[` of the address.  It returns p for an address p[i] when p has no
`[`, and an address without `[` unchanged; the address
`module.ec2_dev.ec2_instance.dev[0]` becomes `module.ec2_dev.ec2_instance.dev`.
When p has an indexed module segment the result is not p: the addresses
`module.m[0].aws_instance.dev[1]` and `module.m[0].aws_instance.dev` both
become `module.m`. -/
theorem convertAddressToLabel_first_bracket :
    (∀ p i : String, '[' ∉ p.toList →
      convertAddressToLabel (p ++ "[" ++ i ++ "]") = p)
    ∧ (∀ address : String, '[' ∉ address.toList → convertAddressToLabel address = address)
    ∧ (∀ before after : String, '[' ∉ before.toList →
      convertAddressToLabel (before ++ "[" ++ after) = before)
    ∧ convertAddressToLabel "module.ec2_dev.ec2_instance.dev[0]"
      = "module.ec2_dev.ec2_instance.dev"
    ∧ convertAddressToLabel "module.m[0].aws_instance.dev[1]" = "module.m"
    ∧ convertAddressToLabel "module.m[0].aws_instance.dev" = "module.m" := by
  have htake : ∀ (l r : List Char), '[' ∉ l →
      (l ++ '[' :: r).takeWhile (fun c => c != '[') = l := by
    intro l r hl
    induction l with
    | nil => simp [List.takeWhile]
    | cons c t ih =>
      have hc : c ≠ '[' := fun h => hl (h ▸ List.mem_cons_self _ _)
      have ht : '[' ∉ t := fun h => hl (List.mem_cons_of_mem _ h)
      have hb : (c != '[') = true := by simpa using hc
      rw [List.cons_append, List.takeWhile_cons, hb, if_pos rfl, ih ht]
  have hall : ∀ l : List Char, '[' ∉ l → l.takeWhile (fun c => c != '[') = l := by
    intro l hl
    induction l with
    | nil => rfl
    | cons c t ih =>
      have hc : c ≠ '[' := fun h => hl (h ▸ List.mem_cons_self _ _)
      have ht : '[' ∉ t := fun h => hl (List.mem_cons_of_mem _ h)
      have hb : (c != '[') = true := by simpa using hc
      rw [List.takeWhile_cons, hb, if_pos rfl, ih ht]
  have hcut : ∀ before after : String, '[' ∉ before.toList →
      convertAddressToLabel (before ++ "[" ++ after) = before := by
    intro before after hb
    unfold convertAddressToLabel
    have : (before ++ "[" ++ after).toList = before.toList ++ '[' :: after.toList := by
      simp [String.toList, String.data_append]
    rw [this, htake _ _ hb]
    rfl
  refine ⟨?_, ?_, hcut, by decide, by decide, by decide⟩
  · intro p i hp
    have := hcut p (i ++ "]") hp
    rw [← String.append_assoc] at this
    exact this
  · intro address ha
    unfold convertAddressToLabel
    rw [hall _ ha]
    rfl

end terraform

namespace terraform

theorem ConvertResources.Metadata.put_items (label : String)
    (items : List metadataItem) :
    ∀ resourceMetadata : List (String × List sdkproto.Resource_Metadata),
      ((items.foldl (fun resourceMetadata item =>
          gomap.set resourceMetadata label
            ((resourceMetadata.lookup label).getD [] ++ [ConvertResources.item item]))
          resourceMetadata).lookup label).getD []
        = (resourceMetadata.lookup label).getD [] ++ items.map ConvertResources.item
      ∧ ∀ other, other ≠ label →
          (items.foldl (fun resourceMetadata item =>
            gomap.set resourceMetadata label
              ((resourceMetadata.lookup label).getD [] ++ [ConvertResources.item item]))
            resourceMetadata).lookup other
          = resourceMetadata.lookup other := by
  induction items with
  | nil =>
    intro resourceMetadata
    exact ⟨by simp, fun _ _ => rfl⟩
  | cons item rest ih =>
    intro resourceMetadata
    rw [List.foldl_cons]
    obtain ⟨h1, h2⟩ := ih (gomap.set resourceMetadata label
      ((resourceMetadata.lookup label).getD [] ++ [ConvertResources.item item]))
    constructor
    · rw [h1, gomap.lookup_set_self]
      simp
    · intro other hne
      rw [h2 other hne, gomap.lookup_set_ne _ _ _ _ hne]

/-- What one "coder_metadata" writes: the hide, icon and cost of its target,
and its items after the metadata the target has; no other label changes. -/
theorem ConvertResources.Metadata.put_spec (maps : ConvertResources.Metadata)
    (targetLabel : String) (attrs : metadataAttributes) :
    (maps.put targetLabel attrs).resourceHidden.lookup targetLabel = some attrs.Hide
    ∧ (maps.put targetLabel attrs).resourceIcon.lookup targetLabel = some attrs.Icon
    ∧ (maps.put targetLabel attrs).resourceCost.lookup targetLabel = some attrs.DailyCost
    ∧ ((maps.put targetLabel attrs).resourceMetadata.lookup targetLabel).getD []
      = (maps.resourceMetadata.lookup targetLabel).getD []
        ++ attrs.Items.map ConvertResources.item
    ∧ ∀ other, other ≠ targetLabel →
        (maps.put targetLabel attrs).resourceHidden.lookup other
          = maps.resourceHidden.lookup other
        ∧ (maps.put targetLabel attrs).resourceIcon.lookup other
          = maps.resourceIcon.lookup other
        ∧ (maps.put targetLabel attrs).resourceCost.lookup other
          = maps.resourceCost.lookup other
        ∧ (maps.put targetLabel attrs).resourceMetadata.lookup other
          = maps.resourceMetadata.lookup other := by
  unfold ConvertResources.Metadata.put
  obtain ⟨h1, h2⟩ := ConvertResources.Metadata.put_items targetLabel attrs.Items
    maps.resourceMetadata
  refine ⟨gomap.lookup_set_self _ _ _, gomap.lookup_set_self _ _ _,
    gomap.lookup_set_self _ _ _, h1, ?_⟩
  intro other hne
  exact ⟨gomap.lookup_set_ne _ _ _ _ hne, gomap.lookup_set_ne _ _ _ _ hne,
    gomap.lookup_set_ne _ _ _ _ hne, h2 other hne⟩

/-- One round of the metadata loop on a "coder_metadata" with a resource
id: the id index alone gives the target. -/
theorem ConvertResources.metadata_by_id {γ : Type} (env : Env γ) (fuel : Nat)
    (graph : gographviz.Graph) (index : Index) (e : String × tfjson.StateResource)
    (rest : List (String × tfjson.StateResource)) (maps : ConvertResources.Metadata)
    (attrs : metadataAttributes) (hty : e.2.Type_ = "coder_metadata")
    (hd : env.DecodeMetadata e.2.AttributeValues = .ok attrs) (hid : attrs.ResourceID ≠ "") :
    ConvertResources.metadata env fuel graph index (e :: rest) maps
      = if (index.resourceLabelByID.lookup attrs.ResourceID).getD "" = "" then
          ConvertResources.metadata env fuel graph index rest maps
        else
          ConvertResources.metadata env fuel graph index rest
            (maps.put ((index.resourceLabelByID.lookup attrs.ResourceID).getD "") attrs) := by
  obtain ⟨k, resource⟩ := e
  rw [ConvertResources.metadata]
  simp only at hty hd
  simp only [hty, ne_eq, not_true_eq_false, if_false, hd, hid]

/-- One round of the metadata loop stops with an error, leaves the maps, or
writes one "coder_metadata" to its target, whatever the entries that follow. -/
theorem ConvertResources.metadata_step {γ : Type} (env : Env γ) (fuel : Nat)
    (graph : gographviz.Graph) (index : Index) (e : String × tfjson.StateResource)
    (maps : ConvertResources.Metadata) :
    (∃ err, ∀ rest, ConvertResources.metadata env fuel graph index (e :: rest) maps
      = .error err)
    ∨ ∃ next, (next = maps ∨ ∃ targetLabel attrs, next = maps.put targetLabel attrs)
      ∧ ∀ rest, ConvertResources.metadata env fuel graph index (e :: rest) maps
        = ConvertResources.metadata env fuel graph index rest next := by
  obtain ⟨k, resource⟩ := e
  by_cases hty : resource.Type_ = "coder_metadata"
  swap
  · refine Or.inr ⟨maps, Or.inl rfl, fun rest => ?_⟩
    rw [ConvertResources.metadata]
    simp only [ne_eq, hty, not_false_eq_true, if_true]
  cases hd : env.DecodeMetadata resource.AttributeValues with
  | error err =>
    refine Or.inl ⟨.wrap "decode metadata attributes" err, fun rest => ?_⟩
    rw [ConvertResources.metadata]
    simp only [hty, ne_eq, not_true_eq_false, if_false, hd]
  | ok attrs =>
    by_cases hid : attrs.ResourceID = ""
    swap
    · by_cases hempty : (index.resourceLabelByID.lookup attrs.ResourceID).getD "" = ""
      · refine Or.inr ⟨maps, Or.inl rfl, fun rest => ?_⟩
        rw [ConvertResources.metadata]
        simp only [hty, ne_eq, not_true_eq_false, if_false, hd, hid, hempty, if_true]
      · refine Or.inr ⟨maps.put ((index.resourceLabelByID.lookup attrs.ResourceID).getD "")
          attrs, Or.inr ⟨_, _, rfl⟩, fun rest => ?_⟩
        rw [ConvertResources.metadata]
        simp only [hty, ne_eq, not_true_eq_false, if_false, hd, hid, hempty]
    cases hnode : ConvertResources.findNode env graph (convertAddressToLabel resource.Address) with
    | none =>
      refine Or.inr ⟨maps, Or.inl rfl, fun rest => ?_⟩
      rw [ConvertResources.metadata]
      simp only [hty, ne_eq, not_true_eq_false, if_false, hd, hid, if_true, hnode]
    | some attachedNode =>
      cases hfound : findResourcesInGraph env graph index.tfResourceByLabel fuel
          attachedNode.Name 0 false with
      | error err =>
        refine Or.inl ⟨err, fun rest => ?_⟩
        rw [ConvertResources.metadata]
        simp only [hty, ne_eq, not_true_eq_false, if_false, hd, hid, if_true, hnode, hfound]
      | ok found =>
        cases hsel : found.foldl ConvertResources.closer none with
        | none =>
          refine Or.inr ⟨maps, Or.inl rfl, fun rest => ?_⟩
          rw [ConvertResources.metadata]
          simp only [hty, ne_eq, not_true_eq_false, if_false, hd, hid, if_true, hnode, hfound,
            hsel]
        | some attachedResource =>
          by_cases hempty : (if attachedResource.Label = "" then
              (index.resourceLabelByID.lookup "").getD ""
            else attachedResource.Label) = ""
          · refine Or.inr ⟨maps, Or.inl rfl, fun rest => ?_⟩
            rw [ConvertResources.metadata]
            simp only [hty, ne_eq, not_true_eq_false, if_false, hd, hid, if_true, hnode,
              hfound, hsel, hempty]
          · refine Or.inr ⟨maps.put (if attachedResource.Label = "" then
                (index.resourceLabelByID.lookup "").getD ""
              else attachedResource.Label) attrs, Or.inr ⟨_, _, rfl⟩, fun rest => ?_⟩
            rw [ConvertResources.metadata]
            simp only [hty, ne_eq, not_true_eq_false, if_false, hd, hid, if_true, hnode,
              hfound, hsel, hempty]

/-- The metadata loop only appends to the metadata of a label. -/
theorem ConvertResources.metadata_grows {γ : Type} (env : Env γ) (fuel : Nat)
    (graph : gographviz.Graph) (index : Index)
    (entries : List (String × tfjson.StateResource)) :
    ∀ (maps out : ConvertResources.Metadata),
      ConvertResources.metadata env fuel graph index entries maps = .ok out →
      ∀ label, ∃ more, (out.resourceMetadata.lookup label).getD []
        = (maps.resourceMetadata.lookup label).getD [] ++ more := by
  induction entries with
  | nil =>
    intro maps out h label
    rw [ConvertResources.metadata] at h
    cases h
    exact ⟨[], by simp⟩
  | cons e rest ih =>
    intro maps out h label
    rcases ConvertResources.metadata_step env fuel graph index e maps with
      ⟨err, herr⟩ | ⟨next, hnext, hstep⟩
    · rw [herr rest] at h
      cases h
    · rw [hstep rest] at h
      obtain ⟨more, hmore⟩ := ih _ _ h label
      rcases hnext with hsame | ⟨targetLabel, attrs, hput⟩
      · rw [hsame] at hmore
        exact ⟨more, hmore⟩
      · obtain ⟨_, _, _, hitems, hother⟩ :=
          ConvertResources.Metadata.put_spec maps targetLabel attrs
        rw [hput] at hmore
        by_cases hl : label = targetLabel
        · rw [hl] at hmore ⊢
          rw [hitems] at hmore
          exact ⟨attrs.Items.map ConvertResources.item ++ more, by
            rw [hmore, List.append_assoc]⟩
        · rw [(hother label hl).2.2.2] at hmore
          exact ⟨more, hmore⟩

/-- The metadata loop over two lists is the loop over the first, then over
the second. -/
theorem ConvertResources.metadata_append {γ : Type} (env : Env γ) (fuel : Nat)
    (graph : gographviz.Graph) (index : Index)
    (first second : List (String × tfjson.StateResource)) :
    ∀ (maps out : ConvertResources.Metadata),
      ConvertResources.metadata env fuel graph index (first ++ second) maps = .ok out →
      ∃ mid, ConvertResources.metadata env fuel graph index first maps = .ok mid
        ∧ ConvertResources.metadata env fuel graph index second mid = .ok out := by
  induction first with
  | nil =>
    intro maps out h
    exact ⟨maps, by rw [ConvertResources.metadata], h⟩
  | cons e rest ih =>
    intro maps out h
    rw [List.cons_append] at h
    rcases ConvertResources.metadata_step env fuel graph index e maps with
      ⟨err, herr⟩ | ⟨next, _, hstep⟩
    · rw [herr] at h
      cases h
    · rw [hstep] at h
      rw [hstep]
      exact ih _ _ h

end terraform

namespace terraform

/-- C34: a "coder_metadata" with a resource id that is not empty takes its
target from the id index alone, for every graph.  If the index gives a label
for the id, the loop records the hide, icon and daily cost on that label
and appends the items, in order, to the metadata of that label, which stay in
the metadata the loop returns; the maps of the other labels do not change.
If the id is not in the index the loop goes on with the maps as they were,
without an error.  On a successful conversion the items are, in order, in
the metadata of the label. -/
theorem convertResources_metadata_by_id {γ : Type} (env : Env γ) (fuel : Nat)
    (e : String × tfjson.StateResource) (attrs : metadataAttributes)
    (hty : e.2.Type_ = "coder_metadata")
    (hd : env.DecodeMetadata e.2.AttributeValues = .ok attrs)
    (hid : attrs.ResourceID ≠ "") :
    (∀ (graph : gographviz.Graph) (index : Index)
        (rest : List (String × tfjson.StateResource)) (maps : ConvertResources.Metadata),
      (∀ label, index.resourceLabelByID.lookup attrs.ResourceID = some label → label ≠ "" →
        ConvertResources.metadata env fuel graph index (e :: rest) maps
          = ConvertResources.metadata env fuel graph index rest (maps.put label attrs)
        ∧ (maps.put label attrs).resourceHidden.lookup label = some attrs.Hide
        ∧ (maps.put label attrs).resourceIcon.lookup label = some attrs.Icon
        ∧ (maps.put label attrs).resourceCost.lookup label = some attrs.DailyCost
        ∧ ((maps.put label attrs).resourceMetadata.lookup label).getD []
          = (maps.resourceMetadata.lookup label).getD []
            ++ attrs.Items.map ConvertResources.item
        ∧ (∀ other, other ≠ label →
            (maps.put label attrs).resourceHidden.lookup other
              = maps.resourceHidden.lookup other
            ∧ (maps.put label attrs).resourceIcon.lookup other
              = maps.resourceIcon.lookup other
            ∧ (maps.put label attrs).resourceCost.lookup other
              = maps.resourceCost.lookup other
            ∧ (maps.put label attrs).resourceMetadata.lookup other
              = maps.resourceMetadata.lookup other)
        ∧ ∀ out, ConvertResources.metadata env fuel graph index (e :: rest) maps = .ok out →
            ∃ more, (out.resourceMetadata.lookup label).getD []
              = (maps.resourceMetadata.lookup label).getD []
                ++ attrs.Items.map ConvertResources.item ++ more)
      ∧ (index.resourceLabelByID.lookup attrs.ResourceID = none →
        ConvertResources.metadata env fuel graph index (e :: rest) maps
          = ConvertResources.metadata env fuel graph index rest maps))
    ∧ ∀ (module : tfjson.StateModule) (rawGraph : String) (output : List sdkproto.Resource)
        (label : String),
        (∀ entries, (env.rangeResources 3 entries).Perm entries) →
        ConvertResources env fuel module rawGraph = .ok output →
        e ∈ (findTerraformResources module {}).tfResourceByLabel →
        (findTerraformResources module {}).resourceLabelByID.lookup attrs.ResourceID
          = some label →
        label ≠ "" →
        ∃ associated maps before after,
          output = (((env.rangeResources 4
              (findTerraformResources module {}).tfResourceByLabel).filter
                (fun entry => ConvertResources.emits entry.2)).map
              (fun entry => ConvertResources.resource associated maps entry.2))
          ∧ (maps.resourceMetadata.lookup label).getD []
            = before ++ attrs.Items.map ConvertResources.item ++ after := by
  have hstep : ∀ (graph : gographviz.Graph) (index : Index)
      (rest : List (String × tfjson.StateResource)) (maps : ConvertResources.Metadata)
      (label : String), index.resourceLabelByID.lookup attrs.ResourceID = some label →
      label ≠ "" →
      ConvertResources.metadata env fuel graph index (e :: rest) maps
        = ConvertResources.metadata env fuel graph index rest (maps.put label attrs) := by
    intro graph index rest maps label hlook hne
    rw [ConvertResources.metadata_by_id env fuel graph index e rest maps attrs hty hd hid,
      hlook]
    simp only [Option.getD_some, hne, if_false]
  have hkept : ∀ (graph : gographviz.Graph) (index : Index)
      (rest : List (String × tfjson.StateResource)) (maps out : ConvertResources.Metadata)
      (label : String), index.resourceLabelByID.lookup attrs.ResourceID = some label →
      label ≠ "" →
      ConvertResources.metadata env fuel graph index (e :: rest) maps = .ok out →
      ∃ more, (out.resourceMetadata.lookup label).getD []
        = (maps.resourceMetadata.lookup label).getD []
          ++ attrs.Items.map ConvertResources.item ++ more := by
    intro graph index rest maps out label hlook hne hout
    rw [hstep graph index rest maps label hlook hne] at hout
    obtain ⟨more, hmore⟩ := ConvertResources.metadata_grows env fuel graph index rest _ _ hout
      label
    rw [(ConvertResources.Metadata.put_spec maps label attrs).2.2.2.1] at hmore
    exact ⟨more, hmore⟩
  constructor
  · intro graph index rest maps
    constructor
    · intro label hlook hne
      obtain ⟨p1, p2, p3, p4, p5⟩ := ConvertResources.Metadata.put_spec maps label attrs
      exact ⟨hstep graph index rest maps label hlook hne, p1, p2, p3, p4, p5,
        fun out hout => hkept graph index rest maps out label hlook hne hout⟩
    · intro hlook
      rw [ConvertResources.metadata_by_id env fuel graph index e rest maps attrs hty hd hid,
        hlook]
      simp only [Option.getD_none, if_true]
  · intro module rawGraph output label hvisit h he hlook hne
    obtain ⟨parsedGraph, graph, found, associated, maps, _, _, _, _, hmaps, hout⟩ :=
      ConvertResources.ok_cases env fuel module rawGraph output h
    obtain ⟨first, second, hsplit⟩ := List.append_of_mem ((hvisit _).mem_iff.mpr he)
    rw [hsplit] at hmaps
    obtain ⟨mid, _, hsecond⟩ :=
      ConvertResources.metadata_append env fuel graph _ first (e :: second) _ _ hmaps
    obtain ⟨more, hmore⟩ := hkept graph _ second mid maps label hlook hne hsecond
    exact ⟨associated, maps, (mid.resourceMetadata.lookup label).getD [], more, hout, hmore⟩

end terraform

namespace terraform

/-- C34 at a "coder_metadata" for the id of an instance, with an icon, a
cost and two items, next to a "coder_metadata" for an id no resource has:
the instance is emitted hidden, with the icon, the cost and the two items,
and the other block leaves no trace and no error. -/
theorem convertResources_metadata_by_id_witness :
    ConvertResources (metadataEnv {} false) 1 metadataModule ""
      = .ok [sdkproto.Resource.mk "a" "aws_instance" []
          [{ Key := "region", Value := "eu" }, { Key := "zone", Value := "b" }]
          true "/icon.svg" "" 7]
    ∧ ∃ (associated : List (String × List sdkproto.Agent)) (maps : ConvertResources.Metadata)
        (before after : List sdkproto.Resource_Metadata),
        [sdkproto.Resource.mk "a" "aws_instance" []
          [{ Key := "region", Value := "eu" }, { Key := "zone", Value := "b" }]
          true "/icon.svg" "" 7]
          = ((((metadataEnv {} false).rangeResources 4
              (findTerraformResources metadataModule {}).tfResourceByLabel).filter
                (fun entry => ConvertResources.emits entry.2)).map
              (fun entry => ConvertResources.resource associated maps entry.2))
        ∧ (maps.resourceMetadata.lookup "aws_instance.a").getD []
          = before ++ [{ Key := "region", Value := "eu" }, { Key := "zone", Value := "b" }]
            ++ after :=
  ⟨by decide,
    (convertResources_metadata_by_id (metadataEnv {} false) 1
      ("coder_metadata.info", tfjson.StateResource.mk "coder_metadata.info"
        .ManagedResourceMode "coder_metadata" "info"
        [("resource_id", .string "i-a"), ("icon", .string "/icon.svg"),
          ("hide", .bool true), ("daily_cost", .number 7),
          ("item", .list [.object [("key", .string "region"), ("value", .string "eu")],
            .object [("key", .string "zone"), ("value", .string "b")]])])
      (decodeMetadataSample
        [("resource_id", .string "i-a"), ("icon", .string "/icon.svg"),
          ("hide", .bool true), ("daily_cost", .number 7),
          ("item", .list [.object [("key", .string "region"), ("value", .string "eu")],
            .object [("key", .string "zone"), ("value", .string "b")]])])
      rfl rfl (by decide)).2 metadataModule "" _ "aws_instance.a"
      (fun _ => List.Perm.refl _) (by decide)
      (List.Mem.tail _ (List.Mem.head _)) (by decide) (by decide)⟩

end terraform

namespace terraform

/-- The manual association of an id binds the first agent with that id. -/
theorem ConvertResources.associate_bound (agentID instanceID : String)
    (agents : List sdkproto.Agent) (h : ∃ a ∈ agents, a.Id = agentID) :
    BoundFirst agentID instanceID (ConvertResources.associate agentID instanceID agents) := by
  induction agents with
  | nil =>
    obtain ⟨a, ha, _⟩ := h
    cases ha
  | cons x rest ih =>
    unfold ConvertResources.associate
    by_cases hx : x.Id = agentID
    · rw [if_neg (by simpa using hx)]
      exact ⟨[], _, rest, rfl, fun b hb => (by cases hb), hx, rfl⟩
    · rw [if_pos hx]
      obtain ⟨a, ha, hid⟩ := h
      have hrest : ∃ a ∈ rest, a.Id = agentID := by
        rcases List.mem_cons.mp ha with h1 | h1
        · rw [h1] at hid
          exact absurd hid hx
        · exact ⟨a, h1, hid⟩
      obtain ⟨before, a2, after, hsplit, hbefore, hid2, hauth⟩ := ih hrest
      refine ⟨x :: before, a2, after, by rw [hsplit, List.cons_append], ?_, hid2, hauth⟩
      intro b hb
      rcases List.mem_cons.mp hb with h1 | h1
      · rw [h1]; exact hx
      · exact hbefore b h1

/-- The manual association of another id keeps the binding of an id. -/
theorem ConvertResources.associate_other (agentID instanceID other otherID : String)
    (hne : other ≠ agentID) (agents : List sdkproto.Agent)
    (h : BoundFirst agentID instanceID agents) :
    BoundFirst agentID instanceID (ConvertResources.associate other otherID agents) := by
  obtain ⟨before, a, after, hsplit, hbefore, hid, hauth⟩ := h
  subst hsplit
  induction before with
  | nil =>
    rw [List.nil_append, ConvertResources.associate,
      if_pos (by rw [hid]; exact fun h2 => hne h2.symm)]
    exact ⟨[], a, _, rfl, fun b hb => (by cases hb), hid, hauth⟩
  | cons x rest ih =>
    rw [List.cons_append, ConvertResources.associate]
    have hx : x.Id ≠ agentID := hbefore x (List.mem_cons_self _ _)
    by_cases hxo : x.Id = other
    · rw [if_neg (by simpa using hxo)]
      refine ⟨_ :: rest, a, after, rfl, ?_, hid, hauth⟩
      intro b hb
      rcases List.mem_cons.mp hb with h1 | h1
      · rw [h1]; exact hx
      · exact hbefore b (List.mem_cons_of_mem _ h1)
    · rw [if_pos hxo]
      obtain ⟨before2, a2, after2, hsplit2, hbefore2, hid2, hauth2⟩ :=
        ih (fun b hb => hbefore b (List.mem_cons_of_mem _ hb))
      refine ⟨x :: before2, a2, after2, by rw [hsplit2, List.cons_append], ?_, hid2, hauth2⟩
      intro b hb
      rcases List.mem_cons.mp hb with h1 | h1
      · rw [h1]; exact hx
      · exact hbefore2 b h1

/-- A change of the agents that keeps their ids, and the auth of an agent
with the instance id, keeps the binding. -/
theorem BoundFirst.bound_map (agentID instanceID : String) (g : sdkproto.Agent → sdkproto.Agent)
    (hg : ∀ a, (g a).Id = a.Id
      ∧ (a.Auth = some (.InstanceId instanceID) → (g a).Auth = a.Auth))
    (agents : List sdkproto.Agent) (h : BoundFirst agentID instanceID agents) :
    BoundFirst agentID instanceID (agents.map g) := by
  obtain ⟨before, a, after, hsplit, hbefore, hid, hauth⟩ := h
  refine ⟨before.map g, g a, after.map g, by rw [hsplit, List.map_append, List.map_cons], ?_,
    (hg a).1.trans hid, ((hg a).2 hauth).trans hauth⟩
  intro b hb
  obtain ⟨c, hc, hcb⟩ := List.mem_map.mp hb
  rw [← hcb, (hg c).1]
  exact hbefore c hc

/-- The manual association binds the first agent with an id when some
"coder_agent_instance" the loop visits names the id and all that name it
carry the same instance id. -/
theorem ConvertResources.instances_bound (agentID instanceID label : String)
    (entries : List (String × tfjson.StateResource))
    (hsame : ∀ e ∈ entries, e.2.Type_ = "coder_agent_instance" →
      e.2.AttributeValues.lookup "agent_id" = some (.string agentID) →
      ∀ other, e.2.AttributeValues.lookup "instance_id" = some (.string other) →
        other = instanceID) :
    ∀ resourceAgents : List (String × List sdkproto.Agent),
      (∃ a ∈ agentsOf resourceAgents label, a.Id = agentID) →
      (BoundFirst agentID instanceID (agentsOf resourceAgents label)
        ∨ ∃ e ∈ entries, e.2.Type_ = "coder_agent_instance"
          ∧ e.2.AttributeValues.lookup "agent_id" = some (.string agentID)
          ∧ e.2.AttributeValues.lookup "instance_id" = some (.string instanceID)) →
      BoundFirst agentID instanceID
        (agentsOf (ConvertResources.instances entries resourceAgents) label) := by
  induction entries with
  | nil =>
    intro resourceAgents _ h
    rcases h with h | ⟨e, he, _⟩
    · exact h
    · cases he
  | cons e0 rest ih =>
    intro resourceAgents hhas h
    have ih2 := ih (fun e he => hsame e (List.mem_cons_of_mem _ he))
    have hskip : ConvertResources.instances (e0 :: rest) resourceAgents
        = ConvertResources.instances rest resourceAgents →
        ¬ (e0.2.Type_ = "coder_agent_instance"
          ∧ e0.2.AttributeValues.lookup "agent_id" = some (.string agentID)
          ∧ e0.2.AttributeValues.lookup "instance_id" = some (.string instanceID)) →
        BoundFirst agentID instanceID
          (agentsOf (ConvertResources.instances (e0 :: rest) resourceAgents) label) := by
      intro heq hnot
      rw [heq]
      refine ih2 resourceAgents hhas ?_
      rcases h with h | ⟨e, he, h1, h2, h3⟩
      · exact Or.inl h
      · rcases List.mem_cons.mp he with h4 | h4
        · rw [h4] at h1 h2 h3
          exact absurd ⟨h1, h2, h3⟩ hnot
        · exact Or.inr ⟨e, h4, h1, h2, h3⟩
    have hhead := hsame e0 (List.mem_cons_self _ _)
    obtain ⟨k, resource⟩ := e0
    simp only at hskip hhead
    by_cases hty : resource.Type_ = "coder_agent_instance"
    swap
    · refine hskip ?_ (fun hc => hty hc.1)
      rw [ConvertResources.instances]
      simp only [ne_eq, hty, not_false_eq_true, if_true]
    cases hagent : resource.AttributeValues.lookup "agent_id" with
    | none =>
      refine hskip ?_ (fun hc => by rw [hagent] at hc; cases hc.2.1)
      rw [ConvertResources.instances]
      simp only [hty, ne_eq, not_true_eq_false, if_false, hagent]
    | some agentValue =>
      cases agentValue with
      | string other =>
        cases hinst : resource.AttributeValues.lookup "instance_id" with
        | none =>
          refine hskip ?_ (fun hc => by rw [hinst] at hc; cases hc.2.2)
          rw [ConvertResources.instances]
          simp only [hty, ne_eq, not_true_eq_false, if_false, hagent, hinst]
        | some instValue =>
          cases instValue with
          | string otherID =>
            have hrun : ConvertResources.instances ((k, resource) :: rest) resourceAgents
                = ConvertResources.instances rest (resourceAgents.map
                    (fun e => (e.1, ConvertResources.associate other otherID e.2))) := by
              rw [ConvertResources.instances]
              simp only [hty, ne_eq, not_true_eq_false, if_false, hagent, hinst]
            rw [hrun]
            have hslice := agentsOf_map resourceAgents
              (ConvertResources.associate other otherID)
              (ConvertResources.associate_nil _ _) label
            have hids := ConvertResources.associate_map (fun a => a.Id) (fun _ _ => rfl)
              other otherID (agentsOf resourceAgents label)
            have hhas2 : ∃ a ∈ agentsOf (resourceAgents.map
                (fun e => (e.1, ConvertResources.associate other otherID e.2))) label,
                a.Id = agentID := by
              obtain ⟨a, ha, hid⟩ := hhas
              have hin : agentID ∈ (ConvertResources.associate other otherID
                  (agentsOf resourceAgents label)).map (fun a => a.Id) := by
                rw [hids]
                exact List.mem_map.mpr ⟨a, ha, hid⟩
              obtain ⟨a2, ha2, hid2⟩ := List.mem_map.mp hin
              exact ⟨a2, by rw [hslice]; exact ha2, hid2⟩
            refine ih2 _ hhas2 ?_
            by_cases hother : other = agentID
            · refine Or.inl ?_
              rw [hslice]
              have hi : otherID = instanceID := hhead hty (by rw [hagent, hother]) otherID hinst
              rw [hother, hi]
              exact ConvertResources.associate_bound agentID instanceID _ hhas
            · rcases h with h | ⟨e, he, h1, h2, h3⟩
              · refine Or.inl ?_
                rw [hslice]
                exact ConvertResources.associate_other agentID instanceID other otherID
                  hother _ h
              · rcases List.mem_cons.mp he with h4 | h4
                · rw [h4] at h2
                  simp only at h2
                  rw [hagent] at h2
                  cases h2
                  exact absurd rfl hother
                · exact Or.inr ⟨e, h4, h1, h2, h3⟩
          | number n =>
            refine hskip ?_ (fun hc => by rw [hinst] at hc; cases hc.2.2)
            rw [ConvertResources.instances]
            simp only [hty, ne_eq, not_true_eq_false, if_false, hagent, hinst]
          | bool b =>
            refine hskip ?_ (fun hc => by rw [hinst] at hc; cases hc.2.2)
            rw [ConvertResources.instances]
            simp only [hty, ne_eq, not_true_eq_false, if_false, hagent, hinst]
          | null =>
            refine hskip ?_ (fun hc => by rw [hinst] at hc; cases hc.2.2)
            rw [ConvertResources.instances]
            simp only [hty, ne_eq, not_true_eq_false, if_false, hagent, hinst]
          | list items =>
            refine hskip ?_ (fun hc => by rw [hinst] at hc; cases hc.2.2)
            rw [ConvertResources.instances]
            simp only [hty, ne_eq, not_true_eq_false, if_false, hagent, hinst]
          | object fields =>
            refine hskip ?_ (fun hc => by rw [hinst] at hc; cases hc.2.2)
            rw [ConvertResources.instances]
            simp only [hty, ne_eq, not_true_eq_false, if_false, hagent, hinst]
      | number n =>
        refine hskip ?_ (fun hc => by rw [hagent] at hc; cases hc.2.1)
        rw [ConvertResources.instances]
        simp only [hty, ne_eq, not_true_eq_false, if_false, hagent]
      | bool b =>
        refine hskip ?_ (fun hc => by rw [hagent] at hc; cases hc.2.1)
        rw [ConvertResources.instances]
        simp only [hty, ne_eq, not_true_eq_false, if_false, hagent]
      | null =>
        refine hskip ?_ (fun hc => by rw [hagent] at hc; cases hc.2.1)
        rw [ConvertResources.instances]
        simp only [hty, ne_eq, not_true_eq_false, if_false, hagent]
      | list items =>
        refine hskip ?_ (fun hc => by rw [hagent] at hc; cases hc.2.1)
        rw [ConvertResources.instances]
        simp only [hty, ne_eq, not_true_eq_false, if_false, hagent]
      | object fields =>
        refine hskip ?_ (fun hc => by rw [hagent] at hc; cases hc.2.1)
        rw [ConvertResources.instances]
        simp only [hty, ne_eq, not_true_eq_false, if_false, hagent]

end terraform

namespace terraform

/-- The apps loop changes the agents of a label one by one, and keeps the id
and the auth of each. -/
theorem ConvertResources.apps_shape {γ : Type} (env : Env γ)
    (entries : List (String × tfjson.StateResource)) :
    ∀ (appSlugs : List String) (resourceAgents out : List (String × List sdkproto.Agent)),
      ConvertResources.apps env entries appSlugs resourceAgents = .ok out →
      ∃ g : sdkproto.Agent → sdkproto.Agent,
        (∀ a, (g a).Id = a.Id ∧ (g a).Auth = a.Auth)
        ∧ ∀ label, agentsOf out label = (agentsOf resourceAgents label).map g := by
  induction entries with
  | nil =>
    intro appSlugs resourceAgents out h
    unfold ConvertResources.apps at h
    cases h
    exact ⟨id, fun a => ⟨rfl, rfl⟩, fun label => by simp⟩
  | cons e rest ih =>
    intro appSlugs resourceAgents out h
    rcases ConvertResources.apps_cons env e rest appSlugs resourceAgents with
      ⟨_, h2⟩ | ⟨_, err, _, h2⟩ | ⟨hty, attrs, hd, ⟨_, h2⟩ | ⟨_, _, h2⟩ | ⟨_, _, h2⟩⟩
    · rw [h2] at h
      exact ih _ _ _ h
    · rw [h2] at h
      cases h
    · rw [h2] at h
      cases h
    · rw [h2] at h
      cases h
    · rw [h2] at h
      obtain ⟨g, hg, hmap⟩ := ih _ _ _ h
      refine ⟨fun a => g (if a.Id ≠ (ConvertResources.appDefaults e.2 attrs).AgentID then a
        else { a with Apps := a.Apps
          ++ [ConvertResources.app env (ConvertResources.appDefaults e.2 attrs)] }), ?_, ?_⟩
      · intro a
        refine ⟨(hg _).1.trans ?_, (hg _).2.trans ?_⟩
        · split <;> rfl
        · split <;> rfl
      · intro label
        rw [hmap label, ConvertResources.agentsOf_attach, List.map_map]
        rfl

/-- The automatic association keeps the binding to an instance id that is
not empty. -/
theorem applyAutomaticInstanceID_bound (agentID instanceID : String) (hne : instanceID ≠ "")
    (resource : tfjson.StateResource) (agents : List sdkproto.Agent)
    (h : BoundFirst agentID instanceID agents) :
    BoundFirst agentID instanceID (applyAutomaticInstanceID resource agents) := by
  unfold applyAutomaticInstanceID
  split
  · exact h
  · split
    · rename_i hostID _
      refine BoundFirst.bound_map agentID instanceID _ ?_ agents h
      intro a
      unfold applyAutomaticInstanceID.agent
      constructor
      · split
        · rfl
        · split <;> rfl
      · intro hauth
        have hi : a.GetInstanceId ≠ "" := by
          unfold sdkproto.Agent.GetInstanceId
          rw [hauth]
          exact hne
        split
        · rfl
        · rfl
    · exact h

end terraform

namespace terraform

/-- C35: on success, for an indexed "coder_agent" whose id an indexed
"coder_agent_instance" names with a string instance id that is not empty,
where every such resource for the id carries that instance id: if the
traversal of the agent yields a candidate, the resource of its host is
emitted, and the first of its agents with the id has the instance id of the
"coder_agent_instance" as its auth, whatever the host and its attributes
and whatever the order of each visit. -/
theorem convertResources_manual_instance_first {γ : Type} (env : Env γ) (fuel : Nat)
    (module : tfjson.StateModule) (rawGraph : String) (output : List sdkproto.Resource)
    (hvisit : ∀ entries, (env.rangeResources 0 entries).Perm entries)
    (hmanual : ∀ entries, (env.rangeResources 1 entries).Perm entries)
    (hemit : ∀ entries, (env.rangeResources 4 entries).Perm entries)
    (h : ConvertResources env fuel module rawGraph = .ok output)
    (e : String × tfjson.StateResource)
    (he : e ∈ (findTerraformResources module {}).tfResourceByLabel)
    (hty : e.2.Type_ = "coder_agent") (attrs : agentAttributes)
    (hd : env.DecodeAgent e.2.AttributeValues = .ok attrs)
    (m : String × tfjson.StateResource)
    (hm : m ∈ (findTerraformResources module {}).tfResourceByLabel)
    (hmty : m.2.Type_ = "coder_agent_instance")
    (hmagent : m.2.AttributeValues.lookup "agent_id" = some (.string attrs.ID))
    (instanceID : String)
    (hminst : m.2.AttributeValues.lookup "instance_id" = some (.string instanceID))
    (hne : instanceID ≠ "")
    (hsame : ∀ other ∈ (findTerraformResources module {}).tfResourceByLabel,
      other.2.Type_ = "coder_agent_instance" →
      other.2.AttributeValues.lookup "agent_id" = some (.string attrs.ID) →
      ∀ i, other.2.AttributeValues.lookup "instance_id" = some (.string i) →
        i = instanceID) :
    ∃ parsedGraph graph agentNode found,
      env.ParseString rawGraph = .ok parsedGraph
      ∧ env.NewAnalysedGraph parsedGraph = .ok graph
      ∧ ConvertResources.findNode env graph (convertAddressToLabel e.2.Address) = some agentNode
      ∧ findResourcesInGraph env graph (findTerraformResources module {}).tfResourceByLabel
          fuel agentNode.Name 0 true = .ok found
      ∧ (found ≠ [] → ∃ r host associated maps,
          found.foldl ConvertResources.closer none = some r
          ∧ (findTerraformResources module {}).tfResourceByLabel.lookup r.Label = some host
          ∧ ConvertResources.resource associated maps host ∈ output
          ∧ ∃ before a after,
              (ConvertResources.resource associated maps host).Agents = before ++ a :: after
              ∧ (∀ b ∈ before, b.Id ≠ attrs.ID)
              ∧ a.Id = attrs.ID
              ∧ a.Auth = some (.InstanceId instanceID)) := by
  obtain ⟨parsedGraph, graph, found0, associated, maps, hparse, hgraph, hfound, hassoc, _,
    hout⟩ := ConvertResources.ok_cases env fuel module rawGraph output h
  obtain ⟨attrs2, agentNode, found, hd2, hn, hf, hattach⟩ :=
    ConvertResources.agents_attach env fuel graph _ _ _ _ hfound e
      ((hvisit _).mem_iff.mpr he) hty
  rw [hd] at hd2
  cases hd2
  refine ⟨parsedGraph, graph, agentNode, found, hparse, hgraph, hn, hf, ?_⟩
  intro hnonempty
  obtain ⟨r, hr, hmem, _⟩ := ConvertResources.closer_least found hnonempty
  obtain ⟨host, hhost⟩ := findResourcesInGraph.hosts env graph _ fuel _ _ _ _ hf r hmem
  obtain ⟨hin, hagents⟩ :=
    ConvertResources.output_host env module hemit associated maps r host hhost
  have h1 : ∃ a ∈ agentsOf found0 r.Label, a.Id = attrs.ID :=
    ⟨_, hattach r hr, rfl⟩
  have h2 := ConvertResources.instances_bound attrs.ID instanceID r.Label
    (env.rangeResources 1 (findTerraformResources module {}).tfResourceByLabel)
    (fun other hother => hsame other ((hmanual _).mem_iff.mp hother)) found0 h1
    (Or.inr ⟨m, (hmanual _).mem_iff.mpr hm, hmty, hmagent, hminst⟩)
  obtain ⟨g, hg, hmap⟩ := ConvertResources.apps_shape env _ _ _ _ hassoc
  have h3 : BoundFirst attrs.ID instanceID (agentsOf associated r.Label) := by
    rw [hmap r.Label]
    exact BoundFirst.bound_map attrs.ID instanceID g
      (fun a => ⟨(hg a).1, fun _ => (hg a).2⟩) _ h2
  have h4 := applyAutomaticInstanceID_bound attrs.ID instanceID hne host _ h3
  rw [← hagents] at h4
  exact ⟨r, host, associated, maps, hr, hhost.1, by rw [hout]; exact hin, h4⟩

/-- C35 at an agent with instance auth on an instance with the id `i-a`, and
a "coder_agent_instance" with the id `i-999` for it: the agent is emitted
with `i-999`, in both orders of the visits. -/
theorem convertResources_manual_instance_first_witness :
    ConvertResources (graphEnv twoHostsGraph false) 2 boundAgentModule ""
      = .ok [sdkproto.Resource.mk "b" "aws_instance" [] [] false "" "" 0,
          sdkproto.Resource.mk "a" "aws_instance"
            [{ Id := "agent1", Name := "main", Auth := some (.InstanceId "i-999") }]
            [] false "" "" 0]
    ∧ ConvertResources (graphEnv twoHostsGraph true) 2 boundAgentModule ""
      = .ok [sdkproto.Resource.mk "a" "aws_instance"
            [{ Id := "agent1", Name := "main", Auth := some (.InstanceId "i-999") }]
            [] false "" "" 0,
          sdkproto.Resource.mk "b" "aws_instance" [] [] false "" "" 0]
    ∧ ∃ parsedGraph graph agentNode found,
        (graphEnv twoHostsGraph true).ParseString "" = .ok parsedGraph
        ∧ (graphEnv twoHostsGraph true).NewAnalysedGraph parsedGraph = .ok graph
        ∧ ConvertResources.findNode (graphEnv twoHostsGraph true) graph "coder_agent.main"
          = some agentNode
        ∧ findResourcesInGraph (graphEnv twoHostsGraph true) graph
            (findTerraformResources boundAgentModule {}).tfResourceByLabel 2 agentNode.Name 0
            true = .ok found
        ∧ (found ≠ [] → ∃ r host associated maps,
            found.foldl ConvertResources.closer none = some r
            ∧ (findTerraformResources boundAgentModule {}).tfResourceByLabel.lookup r.Label
              = some host
            ∧ ConvertResources.resource associated maps host
              ∈ [sdkproto.Resource.mk "a" "aws_instance"
                  [{ Id := "agent1", Name := "main", Auth := some (.InstanceId "i-999") }]
                  [] false "" "" 0,
                 sdkproto.Resource.mk "b" "aws_instance" [] [] false "" "" 0]
            ∧ ∃ before a after,
                (ConvertResources.resource associated maps host).Agents
                  = before ++ a :: after
                ∧ (∀ b ∈ before, b.Id ≠ "agent1")
                ∧ a.Id = "agent1"
                ∧ a.Auth = some (.InstanceId "i-999")) :=
  ⟨by decide, by decide,
    convertResources_manual_instance_first (graphEnv twoHostsGraph true) 2 boundAgentModule ""
      _ (fun entries => List.reverse_perm entries) (fun entries => List.reverse_perm entries)
      (fun entries => List.reverse_perm entries) (by decide)
      ("coder_agent.main", tfjson.StateResource.mk "coder_agent.main" .ManagedResourceMode
        "coder_agent" "main"
        [("id", .string "agent1"), ("auth", .string "aws-instance-identity")])
      (List.Mem.tail _ (List.Mem.tail _ (List.Mem.head _))) rfl
      { Auth := "aws-instance-identity", ID := "agent1" } rfl
      ("coder_agent_instance.main", tfjson.StateResource.mk "coder_agent_instance.main"
        .ManagedResourceMode "coder_agent_instance" "main"
        [("agent_id", .string "agent1"), ("instance_id", .string "i-999")])
      (List.Mem.tail _ (List.Mem.head _)) rfl rfl "i-999" rfl (by decide)
      (by
        intro other hother hoty hoagent i hoinst
        have hother2 : other ∈
            [("aws_instance.b", tfjson.StateResource.mk "aws_instance.b"
                .ManagedResourceMode "aws_instance" "b" [("id", .string "i-b")]),
             ("coder_agent_instance.main", tfjson.StateResource.mk "coder_agent_instance.main"
                .ManagedResourceMode "coder_agent_instance" "main"
                [("agent_id", .string "agent1"), ("instance_id", .string "i-999")]),
             ("coder_agent.main", tfjson.StateResource.mk "coder_agent.main"
                .ManagedResourceMode "coder_agent" "main"
                [("id", .string "agent1"), ("auth", .string "aws-instance-identity")]),
             ("aws_instance.a", tfjson.StateResource.mk "aws_instance.a"
                .ManagedResourceMode "aws_instance" "a" [("id", .string "i-a")])] := hother
        simp only [List.mem_cons, List.mem_singleton, List.not_mem_nil, or_false] at hother2
        rcases hother2 with h1 | h1 | h1 | h1
        · rw [h1] at hoty
          exact absurd hoty (by decide)
        · rw [h1] at hoinst
          cases hoinst
          rfl
        · rw [h1] at hoty
          exact absurd hoty (by decide)
        · rw [h1] at hoty
          exact absurd hoty (by decide))⟩

end terraform

namespace terraform

/-- The loop over the edges of a node returns when every edge ends at a node
of the lookup for which the recursion returns. -/
theorem findResourcesInGraph.visit_returns (graph : gographviz.Graph)
    (tfResourceByLabel : List (String × tfjson.StateResource))
    (recurse : String → Except Error (List graphResource)) (currentDepth : Nat)
    (destinations : List String)
    (h : ∀ d ∈ destinations, ∃ node, graph.Nodes.Lookup.lookup d = some node
      ∧ ∃ found, recurse node.Name = .ok found) :
    ∀ graphResources : List graphResource,
      ∃ out, findResourcesInGraph.visit graph tfResourceByLabel recurse currentDepth
        destinations graphResources = .ok out := by
  induction destinations with
  | nil =>
    intro graphResources
    exact ⟨graphResources, by rw [findResourcesInGraph.visit]⟩
  | cons d rest ih =>
    intro graphResources
    have ih2 := ih (fun d2 hd2 => h d2 (List.mem_cons_of_mem _ hd2))
    obtain ⟨node, hnode, found, hfound⟩ := h d (List.mem_cons_self _ _)
    rw [findResourcesInGraph.visit]
    simp only [hnode, hfound]
    split
    · exact ih2 _
    · split
      · exact ih2 _
      · split
        · exact ih2 _
        · split
          · exact ih2 _
          · exact ih2 _

/-- The loop over the edges of a node returns the same with a recursion
that returns whenever the first one does. -/
theorem findResourcesInGraph.visit_mono (graph : gographviz.Graph)
    (tfResourceByLabel : List (String × tfjson.StateResource))
    (recurse recurse2 : String → Except Error (List graphResource)) (currentDepth : Nat)
    (hrec : ∀ name found, recurse name = .ok found → recurse2 name = .ok found)
    (destinations : List String) :
    ∀ graphResources out : List graphResource,
      findResourcesInGraph.visit graph tfResourceByLabel recurse currentDepth destinations
        graphResources = .ok out →
      findResourcesInGraph.visit graph tfResourceByLabel recurse2 currentDepth destinations
        graphResources = .ok out := by
  induction destinations with
  | nil =>
    intro graphResources out h
    rw [findResourcesInGraph.visit] at h ⊢
    exact h
  | cons d rest ih =>
    intro graphResources out h
    rw [findResourcesInGraph.visit] at h ⊢
    cases hnode : graph.Nodes.Lookup.lookup d with
    | none =>
      rw [hnode] at h
      cases h
    | some node =>
      rw [hnode] at h
      simp only at h ⊢
      cases hfound : recurse node.Name with
      | error err =>
        rw [hfound] at h
        cases h
      | ok found =>
        rw [hfound] at h
        rw [hrec _ _ hfound]
        simp only at h ⊢
        cases hl : node.Attrs.lookup "label" with
        | none =>
          simp only [hl] at h ⊢
          exact ih _ _ h
        | some label =>
          simp only [hl] at h ⊢
          cases hres : tfResourceByLabel.lookup (strings.Trim label "\"") with
          | none =>
            simp only [hres] at h ⊢
            exact ih _ _ h
          | some resource =>
            simp only [hres] at h ⊢
            by_cases hmode : resource.Mode ≠ .ManagedResourceMode
            · rw [if_pos hmode] at h ⊢
              exact ih _ _ h
            · rw [if_neg hmode] at h ⊢
              by_cases hpre : strings.HasPrefix resource.Type_ "coder_" = true
              · rw [if_pos hpre] at h ⊢
                exact ih _ _ h
              · rw [if_neg hpre] at h ⊢
                exact ih _ _ h

/-- More fuel does not change the result of a traversal that returns. -/
theorem findResourcesInGraph.fuel_succ {γ : Type} (env : Env γ) (graph : gographviz.Graph)
    (tfResourceByLabel : List (String × tfjson.StateResource)) (fuel : Nat) :
    ∀ (nodeName : String) (currentDepth : Nat) (up : Bool) (out : List graphResource),
      findResourcesInGraph env graph tfResourceByLabel fuel nodeName currentDepth up = .ok out →
      findResourcesInGraph env graph tfResourceByLabel (fuel + 1) nodeName currentDepth up
        = .ok out := by
  induction fuel with
  | zero =>
    intro nodeName currentDepth up out h
    rw [findResourcesInGraph] at h
    cases h
  | succ fuel ih =>
    intro nodeName currentDepth up out h
    rw [findResourcesInGraph] at h ⊢
    exact findResourcesInGraph.visit_mono graph tfResourceByLabel _ _ currentDepth
      (fun name found hf => ih name _ up found hf) _ _ _ h

theorem findResourcesInGraph.fuel_le {γ : Type} (env : Env γ) (graph : gographviz.Graph)
    (tfResourceByLabel : List (String × tfjson.StateResource)) (fuel more : Nat)
    (nodeName : String) (currentDepth : Nat) (up : Bool) (out : List graphResource)
    (hle : fuel ≤ more)
    (h : findResourcesInGraph env graph tfResourceByLabel fuel nodeName currentDepth up
      = .ok out) :
    findResourcesInGraph env graph tfResourceByLabel more nodeName currentDepth up = .ok out := by
  induction more with
  | zero =>
    have : fuel = 0 := by omega
    rw [this] at h
    exact h
  | succ more ih =>
    by_cases heq : fuel = more + 1
    · rw [heq] at h
      exact h
    · exact findResourcesInGraph.fuel_succ env graph tfResourceByLabel more _ _ _ _
        (ih (by omega))

/-- The nodes of a trail are the origin and names of nodes of the lookup. -/
theorem Trail.names (graph : gographviz.Graph) (up : Bool) (origin : String)
    (t : List String) (h : Trail graph up origin t) :
    t ⊆ origin :: graph.Nodes.Lookup.map (fun entry => entry.2.Name) := by
  induction h with
  | start =>
    intro x hx
    rw [List.mem_singleton.mp hx]
    exact List.mem_cons_self _ _
  | step nodeName next earlier _ hnext ih =>
    intro x hx
    rcases List.mem_cons.mp hx with h1 | h1
    · rw [h1]
      unfold findResourcesInGraph.next at hnext
      obtain ⟨d, _, hd⟩ := List.mem_filterMap.mp hnext
      cases hlook : graph.Nodes.Lookup.lookup d with
      | none =>
        rw [hlook] at hd
        cases hd
      | some node =>
        rw [hlook] at hd
        simp only [Option.map_some', Option.some.injEq] at hd
        rw [← hd]
        exact List.mem_cons_of_mem _
          (List.mem_map.mpr ⟨(d, node), gomap.mem_of_lookup _ _ _ hlook, rfl⟩)
    · exact ih h1

end terraform

namespace terraform

/-- A property of what the recursion returns and of each candidate the loop
appends holds of all the loop returns. -/
theorem findResourcesInGraph.visit_all (graph : gographviz.Graph)
    (tfResourceByLabel : List (String × tfjson.StateResource))
    (recurse : String → Except Error (List graphResource)) (currentDepth : Nat)
    (P : graphResource → Prop) (destinations : List String)
    (hrec : ∀ d ∈ destinations, ∀ node, graph.Nodes.Lookup.lookup d = some node →
      ∀ found, recurse node.Name = .ok found → ∀ r ∈ found, P r)
    (hnew : ∀ d ∈ destinations, ∀ node, graph.Nodes.Lookup.lookup d = some node →
      ∀ label, node.Attrs.lookup "label" = some label →
        P { Label := strings.Trim label "\"", Depth := currentDepth }) :
    ∀ (graphResources out : List graphResource),
      (∀ r ∈ graphResources, P r) →
      findResourcesInGraph.visit graph tfResourceByLabel recurse currentDepth destinations
        graphResources = .ok out →
      ∀ r ∈ out, P r := by
  induction destinations with
  | nil =>
    intro graphResources out hacc h
    rw [findResourcesInGraph.visit] at h
    cases h
    exact hacc
  | cons d rest ih =>
    intro graphResources out hacc h
    have ih2 := ih (fun d2 hd2 => hrec d2 (List.mem_cons_of_mem _ hd2))
      (fun d2 hd2 => hnew d2 (List.mem_cons_of_mem _ hd2))
    rw [findResourcesInGraph.visit] at h
    cases hnode : graph.Nodes.Lookup.lookup d with
    | none =>
      rw [hnode] at h
      cases h
    | some node =>
      rw [hnode] at h
      simp only at h
      cases hfound : recurse node.Name with
      | error err =>
        rw [hfound] at h
        cases h
      | ok found =>
        rw [hfound] at h
        simp only at h
        have hacc2 : ∀ r ∈ graphResources ++ found, P r := by
          intro r hr
          rcases List.mem_append.mp hr with h1 | h1
          · exact hacc r h1
          · exact hrec d (List.mem_cons_self _ _) node hnode found hfound r h1
        cases hl : node.Attrs.lookup "label" with
        | none =>
          simp only [hl] at h
          exact ih2 _ _ hacc2 h
        | some label =>
          simp only [hl] at h
          cases hres : tfResourceByLabel.lookup (strings.Trim label "\"") with
          | none =>
            simp only [hres] at h
            exact ih2 _ _ hacc2 h
          | some resource =>
            simp only [hres] at h
            by_cases hmode : resource.Mode ≠ .ManagedResourceMode
            · rw [if_pos hmode] at h
              exact ih2 _ _ hacc2 h
            · rw [if_neg hmode] at h
              by_cases hpre : strings.HasPrefix resource.Type_ "coder_" = true
              · rw [if_pos hpre] at h
                exact ih2 _ _ hacc2 h
              · rw [if_neg hpre] at h
                refine ih2 _ _ ?_ h
                intro r hr
                rcases List.mem_append.mp hr with h1 | h1
                · exact hacc2 r h1
                · rw [List.mem_singleton.mp h1]
                  exact hnew d (List.mem_cons_self _ _) node hnode label hl

/-- The traversal returns from the node a trail has reached when the fuel
covers the nodes the trail has not visited. -/
theorem findResourcesInGraph.returns {γ : Type} (env : Env γ) (graph : gographviz.Graph)
    (tfResourceByLabel : List (String × tfjson.StateResource)) (origin : String) (up : Bool)
    (hrange : ∀ nodeName depth names, ∀ d ∈ env.rangeEdges nodeName depth names, d ∈ names)
    (hends : ∀ nodeName, ∀ d ∈ ((if !up then graph.Edges.SrcToDsts
        else graph.Edges.DstToSrcs).lookup nodeName).getD [],
      ∃ node, graph.Nodes.Lookup.lookup d = some node)
    (hacyclic : ∀ t, Trail graph up origin t → t.Nodup) (fuel : Nat) :
    ∀ (nodeName : String) (earlier : List String) (currentDepth : Nat),
      Trail graph up origin (nodeName :: earlier) →
      graph.Nodes.Lookup.length + 1 ≤ fuel + earlier.length →
      ∃ out, findResourcesInGraph env graph tfResourceByLabel fuel nodeName currentDepth up
        = .ok out := by
  induction fuel with
  | zero =>
    intro nodeName earlier currentDepth htrail hfuel
    exfalso
    have hlen := (List.subperm_of_subset (hacyclic _ htrail)
      (Trail.names graph up origin _ htrail)).length_le
    simp only [List.length_cons, List.length_map] at hlen
    omega
  | succ fuel ih =>
    intro nodeName earlier currentDepth htrail hfuel
    rw [findResourcesInGraph]
    refine findResourcesInGraph.visit_returns graph tfResourceByLabel _ currentDepth _ ?_ []
    intro d hd
    have hd2 := hrange _ _ _ d hd
    obtain ⟨node, hnode⟩ := hends nodeName d hd2
    refine ⟨node, hnode, ?_⟩
    have hnext : node.Name ∈ findResourcesInGraph.next graph up nodeName := by
      unfold findResourcesInGraph.next
      exact List.mem_filterMap.mpr ⟨d, hd2, by rw [hnode]; rfl⟩
    exact ih node.Name (nodeName :: earlier) (currentDepth + 1)
      (Trail.step nodeName node.Name earlier htrail hnext)
      (by simp only [List.length_cons]; omega)

/-- Each candidate of a traversal from the node a trail has reached is the
label of a node one edge further on a trail, found at the depth of the
trail. -/
theorem findResourcesInGraph.depths {γ : Type} (env : Env γ) (graph : gographviz.Graph)
    (tfResourceByLabel : List (String × tfjson.StateResource)) (origin : String) (up : Bool)
    (hrange : ∀ nodeName depth names, ∀ d ∈ env.rangeEdges nodeName depth names, d ∈ names)
    (fuel : Nat) :
    ∀ (nodeName : String) (earlier : List String) (out : List graphResource),
      Trail graph up origin (nodeName :: earlier) →
      findResourcesInGraph env graph tfResourceByLabel fuel nodeName earlier.length up
        = .ok out →
      ∀ r ∈ out, ∃ (node : gographviz.Node) (label : String) (t : List String),
        Trail graph up origin (node.Name :: t)
        ∧ node ∈ graph.Nodes.Lookup.map (fun entry => entry.2)
        ∧ node.Attrs.lookup "label" = some label
        ∧ r.Label = strings.Trim label "\""
        ∧ t.length = r.Depth + 1 := by
  induction fuel with
  | zero =>
    intro nodeName earlier out _ h
    rw [findResourcesInGraph] at h
    cases h
  | succ fuel ih =>
    intro nodeName earlier out htrail h
    rw [findResourcesInGraph] at h
    have hnext : ∀ d ∈ env.rangeEdges nodeName earlier.length
        (((if !up then graph.Edges.SrcToDsts else graph.Edges.DstToSrcs).lookup nodeName).getD
          []),
        ∀ node, graph.Nodes.Lookup.lookup d = some node →
        Trail graph up origin (node.Name :: nodeName :: earlier) := by
      intro d hd node hnode
      refine Trail.step nodeName node.Name earlier htrail ?_
      unfold findResourcesInGraph.next
      exact List.mem_filterMap.mpr ⟨d, hrange _ _ _ d hd, by rw [hnode]; rfl⟩
    refine findResourcesInGraph.visit_all graph tfResourceByLabel _ earlier.length _ _ ?_ ?_
      [] out (fun r hr => by cases hr) h
    · intro d hd node hnode found hfound r hr
      exact ih node.Name (nodeName :: earlier) found (hnext d hd node hnode) hfound r hr
    · intro d hd node hnode label hl
      exact ⟨node, label, nodeName :: earlier, hnext d hd node hnode,
        List.mem_map.mpr ⟨(d, node), gomap.mem_of_lookup _ _ _ hnode, rfl⟩, hl, rfl, rfl⟩

end terraform
namespace terraform

/-- C36: when every edge in the direction of the traversal ends at a node of
the lookup and no trail from the origin visits a node twice (the edges
followed from the origin contain no cycle), `findResourcesInGraph` returns,
with the same candidates for every fuel above the number of nodes.  Each
candidate is the label of an indexed managed resource whose type does not
begin with "coder_", and its depth is the number of edges of a trail from
the origin to its node, minus one. -/
theorem findResourcesInGraph_terminates {γ : Type} (env : Env γ) (graph : gographviz.Graph)
    (tfResourceByLabel : List (String × tfjson.StateResource)) (origin : String) (up : Bool)
    (hrange : ∀ nodeName depth names, ∀ d ∈ env.rangeEdges nodeName depth names, d ∈ names)
    (hends : ∀ nodeName, ∀ d ∈ ((if !up then graph.Edges.SrcToDsts
        else graph.Edges.DstToSrcs).lookup nodeName).getD [],
      ∃ node, graph.Nodes.Lookup.lookup d = some node)
    (hacyclic : ∀ t, Trail graph up origin t → t.Nodup) :
    ∃ out,
      (∀ fuel, graph.Nodes.Lookup.length + 1 ≤ fuel →
        findResourcesInGraph env graph tfResourceByLabel fuel origin 0 up = .ok out)
      ∧ ∀ r ∈ out,
          (∃ resource, tfResourceByLabel.lookup r.Label = some resource
            ∧ resource.Mode = .ManagedResourceMode
            ∧ strings.HasPrefix resource.Type_ "coder_" = false)
          ∧ ∃ (node : gographviz.Node) (label : String) (t : List String),
              Trail graph up origin (node.Name :: t)
              ∧ node ∈ graph.Nodes.Lookup.map (fun entry => entry.2)
              ∧ node.Attrs.lookup "label" = some label
              ∧ r.Label = strings.Trim label "\""
              ∧ t.length = r.Depth + 1 := by
  obtain ⟨out, hout⟩ := findResourcesInGraph.returns env graph tfResourceByLabel origin up
    hrange hends hacyclic (graph.Nodes.Lookup.length + 1) origin [] 0 Trail.start
    (by simp)
  refine ⟨out, ?_, ?_⟩
  · intro fuel hfuel
    exact findResourcesInGraph.fuel_le env graph tfResourceByLabel _ fuel _ _ _ _ hfuel hout
  · intro r hr
    exact ⟨findResourcesInGraph.hosts env graph tfResourceByLabel _ _ _ _ _ hout r hr,
      findResourcesInGraph.depths env graph tfResourceByLabel origin up hrange _ origin [] out
        Trail.start hout r hr⟩

/-- C36 at the graph of an agent and two instances that depend on it: the
traversal up from the agent returns the two instances at depth 0. -/
theorem findResourcesInGraph_terminates_witness :
    ∃ out,
      (∀ fuel, twoHostsGraph.Nodes.Lookup.length + 1 ≤ fuel →
        findResourcesInGraph (graphEnv twoHostsGraph false) twoHostsGraph
          (findTerraformResources twoHostsModule {}).tfResourceByLabel fuel
          "coder_agent.main" 0 true = .ok out)
      ∧ ∀ r ∈ out,
          (∃ resource,
            (findTerraformResources twoHostsModule {}).tfResourceByLabel.lookup r.Label
              = some resource
            ∧ resource.Mode = .ManagedResourceMode
            ∧ strings.HasPrefix resource.Type_ "coder_" = false)
          ∧ ∃ (node : gographviz.Node) (label : String) (t : List String),
              Trail twoHostsGraph true "coder_agent.main" (node.Name :: t)
              ∧ node ∈ twoHostsGraph.Nodes.Lookup.map (fun entry => entry.2)
              ∧ node.Attrs.lookup "label" = some label
              ∧ r.Label = strings.Trim label "\""
              ∧ t.length = r.Depth + 1 :=
  findResourcesInGraph_terminates (graphEnv twoHostsGraph false) twoHostsGraph
    (findTerraformResources twoHostsModule {}).tfResourceByLabel "coder_agent.main" true
    (fun _ _ _ _ hd => hd)
    (by
      intro nodeName d hd
      by_cases hn : nodeName = "coder_agent.main"
      · subst hn
        have hd2 : d ∈ ["aws_instance.b", "aws_instance.a"] := hd
        simp only [List.mem_cons, List.mem_singleton, List.not_mem_nil, or_false] at hd2
        rcases hd2 with h1 | h1 <;> subst h1 <;> exact ⟨_, rfl⟩
      · exfalso
        have hb : ("coder_agent.main" == nodeName) = false := by
          simpa using fun h => hn h.symm
        have hb2 : (nodeName == "coder_agent.main") = false := by simpa using hn
        simp [twoHostsGraph, List.lookup, hb2] at hd)
    (by
      have hshape : ∀ t, Trail twoHostsGraph true "coder_agent.main" t →
          t = ["coder_agent.main"] ∨ t = ["aws_instance.b", "coder_agent.main"]
            ∨ t = ["aws_instance.a", "coder_agent.main"] := by
        intro t ht
        induction ht with
        | start => exact Or.inl rfl
        | step nodeName next earlier _ hnext ih =>
          rcases ih with h1 | h1 | h1
          · obtain ⟨h2, h3⟩ := List.cons.inj h1
            subst h2 h3
            have hnext2 : next ∈ ["aws_instance.b", "aws_instance.a"] := hnext
            simp only [List.mem_cons, List.mem_singleton, List.not_mem_nil, or_false] at hnext2
            rcases hnext2 with h4 | h4 <;> subst h4
            · exact Or.inr (Or.inl rfl)
            · exact Or.inr (Or.inr rfl)
          · obtain ⟨h2, h3⟩ := List.cons.inj h1
            subst h2 h3
            have hnext2 : next ∈ ([] : List String) := hnext
            cases hnext2
          · obtain ⟨h2, h3⟩ := List.cons.inj h1
            subst h2 h3
            have hnext2 : next ∈ ([] : List String) := hnext
            cases hnext2
      intro t ht
      rcases hshape t ht with h1 | h1 | h1 <;> subst h1 <;> decide)

end terraform

namespace terraform

/-- The loop over the agents fails when it is to visit a "coder_agent" whose
label no node carries, and the error is a returned one whenever the
traversals return. -/
theorem ConvertResources.agents_missing_node {γ : Type} (env : Env γ) (fuel : Nat)
    (graph : gographviz.Graph) (tfResourceByLabel : List (String × tfjson.StateResource))
    (e : String × tfjson.StateResource) (hty : e.2.Type_ = "coder_agent")
    (hnone : ConvertResources.findNode env graph (convertAddressToLabel e.2.Address) = none)
    (entries : List (String × tfjson.StateResource)) :
    ∀ (resourceAgents : List (String × List sdkproto.Agent)), e ∈ entries →
      ∃ err, ConvertResources.agents env fuel graph tfResourceByLabel entries resourceAgents
          = .error err
        ∧ ((∀ nodeName, ∃ out,
              findResourcesInGraph env graph tfResourceByLabel fuel nodeName 0 true = .ok out) →
            ∀ msg, err ≠ .panic msg) := by
  induction entries with
  | nil =>
    intro _ he
    cases he
  | cons e0 rest ih =>
    intro resourceAgents he
    obtain ⟨k0, tfResource⟩ := e0
    rw [ConvertResources.agents]
    by_cases hty0 : tfResource.Type_ = "coder_agent"
    · simp only [hty0, ne_eq, not_true_eq_false, if_false]
      cases hd : env.DecodeAgent tfResource.AttributeValues with
      | error err =>
        exact ⟨_, rfl, fun _ msg h => by cases h⟩
      | ok attrs =>
        simp only []
        cases hn : ConvertResources.findNode env graph
            (convertAddressToLabel tfResource.Address) with
        | none =>
          exact ⟨_, rfl, fun _ msg h => by cases h⟩
        | some agentNode =>
          have hrest : e ∈ rest := by
            rcases List.mem_cons.mp he with heq | hmem
            · subst heq
              rw [hn] at hnone
              cases hnone
            · exact hmem
          simp only []
          cases hf : findResourcesInGraph env graph tfResourceByLabel fuel agentNode.Name 0
              true with
          | error err =>
            refine ⟨_, rfl, fun htotal => ?_⟩
            obtain ⟨out, hout⟩ := htotal agentNode.Name
            rw [hf] at hout
            cases hout
          | ok found =>
            simp only []
            cases hc : found.foldl ConvertResources.closer none with
            | none => exact ih _ hrest
            | some agentResource => exact ih _ hrest
    · have hrest : e ∈ rest := by
        rcases List.mem_cons.mp he with heq | hmem
        · subst heq
          exact absurd hty hty0
        · exact hmem
      simp only [ne_eq, hty0, not_false_eq_true, if_true]
      exact ih _ hrest

/-- C37: when the graph text parses to a graph none of whose nodes carries
the label of some "coder_agent" resource of the module, `ConvertResources`
returns an error, hence no resources, whatever the other resources are.  The
error is a returned one, not a crash, whenever the traversals of the graph
return. -/
theorem convertResources_agent_without_node {γ : Type} (env : Env γ) (fuel : Nat)
    (module : tfjson.StateModule) (rawGraph : String) (parsedGraph : γ)
    (graph : gographviz.Graph)
    (hparse : env.ParseString rawGraph = .ok parsedGraph)
    (hgraph : env.NewAnalysedGraph parsedGraph = .ok graph)
    (hnodes : ∀ label, ∀ n ∈ env.rangeNodes label graph.Nodes.Lookup, n ∈ graph.Nodes.Lookup)
    (hvisit : (env.rangeResources 0 (findTerraformResources module {}).tfResourceByLabel).Perm
      (findTerraformResources module {}).tfResourceByLabel)
    (e : String × tfjson.StateResource)
    (he : e ∈ (findTerraformResources module {}).tfResourceByLabel)
    (hty : e.2.Type_ = "coder_agent")
    (hno : ∀ n ∈ graph.Nodes.Lookup,
      strings.Trim ((n.2.Attrs.lookup "label").getD "") "\""
        ≠ convertAddressToLabel e.2.Address) :
    ∃ err, ConvertResources env fuel module rawGraph = .error err
      ∧ ((∀ nodeName, ∃ out,
            findResourcesInGraph env graph (findTerraformResources module {}).tfResourceByLabel
              fuel nodeName 0 true = .ok out) →
          ∀ msg, err ≠ .panic msg) := by
  have hnone : ConvertResources.findNode env graph (convertAddressToLabel e.2.Address)
      = none := by
    unfold ConvertResources.findNode
    rw [Option.map_eq_none', List.find?_eq_none]
    intro n hn
    simpa using hno n (hnodes _ n hn)
  obtain ⟨err, herr, hreturned⟩ := ConvertResources.agents_missing_node env fuel graph
    (findTerraformResources module {}).tfResourceByLabel e hty hnone
    (env.rangeResources 0 (findTerraformResources module {}).tfResourceByLabel) []
    (hvisit.mem_iff.mpr he)
  refine ⟨err, ?_, hreturned⟩
  unfold ConvertResources
  simp only [hparse, hgraph, herr]

/-- C37 at the agent and two instances of `twoHostsModule` with a graph of
the two instances alone: the conversion fails on the agent, though the two
instances convert when the agent is not declared. -/
theorem convertResources_agent_without_node_witness :
    (∃ err, ConvertResources
        (graphEnv { Nodes := { Lookup := [labelNode "aws_instance.b",
          labelNode "aws_instance.a"] } } false) 2 twoHostsModule "" = .error err
      ∧ ((∀ nodeName, ∃ out,
            findResourcesInGraph
              (graphEnv { Nodes := { Lookup := [labelNode "aws_instance.b",
                labelNode "aws_instance.a"] } } false)
              { Nodes := { Lookup := [labelNode "aws_instance.b",
                labelNode "aws_instance.a"] } }
              (findTerraformResources twoHostsModule {}).tfResourceByLabel
              2 nodeName 0 true = .ok out) →
          ∀ msg, err ≠ .panic msg))
    ∧ ConvertResources
        (graphEnv { Nodes := { Lookup := [labelNode "aws_instance.b",
          labelNode "aws_instance.a"] } } false) 2 twoHostsModule ""
      = .error (.new "couldn't find node on graph: \"coder_agent.main\"")
    ∧ ConvertResources
        (graphEnv { Nodes := { Lookup := [labelNode "aws_instance.b",
          labelNode "aws_instance.a"] } } false) 2
        (.mk [{ Address := "aws_instance.b", Type_ := "aws_instance", Name := "b",
                AttributeValues := [("id", .string "i-b")] },
              { Address := "aws_instance.a", Type_ := "aws_instance", Name := "a",
                AttributeValues := [("id", .string "i-a")] }] []) ""
      = .ok [sdkproto.Resource.mk "b" "aws_instance" [] [] false "" "" 0,
          sdkproto.Resource.mk "a" "aws_instance" [] [] false "" "" 0] :=
  ⟨convertResources_agent_without_node _ 2 twoHostsModule "" _ _ rfl rfl
      (fun _ _ hn => hn) (List.Perm.refl _)
      ("coder_agent.main", tfjson.StateResource.mk "coder_agent.main" .ManagedResourceMode
        "coder_agent" "main"
        [("id", .string "agent1"), ("auth", .string "token"), ("token", .string "secret")])
      (List.mem_cons_of_mem _ (List.mem_cons_self _ _)) rfl (by decide),
    by rfl, by rfl⟩

end terraform

section UpdateJobLogs3

variable {σ π : Type}

/-- The arrays the loop over the logs returns: the given ones followed by one
entry per log, in the order of the logs. -/
theorem UpdateJob.logParams_arrays (logs : List proto.Log) :
    ∀ (insertParams result : database.InsertProvisionerJobLogsParams),
      UpdateJob.logParams insertParams logs = .ok result →
      result.CreatedAt
          = insertParams.CreatedAt ++ logs.map (fun log => time.FromUnixMilli log.CreatedAt)
        ∧ result.Stage = insertParams.Stage ++ logs.map (fun log => log.Stage)
        ∧ result.Output = insertParams.Output ++ logs.map (fun log => log.Output)
        ∧ ∃ levels sources,
            result.Level = insertParams.Level ++ levels
            ∧ result.Source = insertParams.Source ++ sources
            ∧ List.Forall₂ (fun log level => convertLogLevel log.Level = .ok level) logs levels
            ∧ List.Forall₂ (fun log source => convertLogSource log.Source = .ok source)
                logs sources := by
  induction logs with
  | nil =>
    intro insertParams result h
    simp only [UpdateJob.logParams] at h
    cases h
    exact ⟨by simp, by simp, by simp, [], [], by simp, by simp, List.Forall₂.nil,
      List.Forall₂.nil⟩
  | cons log rest ih =>
    intro insertParams result h
    rw [UpdateJob.logParams] at h
    cases hl : convertLogLevel log.Level with
    | error err =>
      simp only [hl] at h
      cases h
    | ok logLevel =>
      cases hs : convertLogSource log.Source with
      | error err =>
        simp only [hl, hs] at h
        cases h
      | ok logSource =>
        simp only [hl, hs] at h
        obtain ⟨h1, h2, h3, levels, sources, h4, h5, h6, h7⟩ := ih _ result h
        refine ⟨?_, ?_, ?_, logLevel :: levels, logSource :: sources, ?_, ?_,
          List.Forall₂.cons hl h6, List.Forall₂.cons hs h7⟩
        · rw [h1]; simp
        · rw [h2]; simp
        · rw [h3]; simp
        · rw [h4]; simp
        · rw [h5]; simp

/-- The loop over the logs fails when a log has an unknown level or source. -/
theorem UpdateJob.logParams_unknown (logs : List proto.Log) (log : proto.Log)
    (hlog : log ∈ logs)
    (hunknown : (∃ n, log.Level = .other n) ∨ (∃ n, log.Source = .other n)) :
    ∀ (insertParams : database.InsertProvisionerJobLogsParams),
      ∃ err, UpdateJob.logParams insertParams logs = .error err := by
  induction logs with
  | nil => cases hlog
  | cons log0 rest ih =>
    intro insertParams
    rw [UpdateJob.logParams]
    cases hl : convertLogLevel log0.Level with
    | error err => exact ⟨_, rfl⟩
    | ok logLevel =>
      cases hs : convertLogSource log0.Source with
      | error err => exact ⟨_, rfl⟩
      | ok logSource =>
        simp only []
        rcases List.mem_cons.mp hlog with heq | hmem
        · subst heq
          rcases hunknown with ⟨n, hn⟩ | ⟨n, hn⟩
          · rw [hn] at hl
            cases hl
          · rw [hn] at hs
            cases hs
        · exact ih hmem _

/-- The errors of the loop over the logs are returned errors. -/
theorem UpdateJob.logParams_error (logs : List proto.Log) :
    ∀ (insertParams : database.InsertProvisionerJobLogsParams) (err : Error),
      UpdateJob.logParams insertParams logs = .error err → ∀ msg, err ≠ .panic msg := by
  induction logs with
  | nil =>
    intro insertParams err h
    simp only [UpdateJob.logParams] at h
    cases h
  | cons log rest ih =>
    intro insertParams err h
    rw [UpdateJob.logParams] at h
    cases hl : convertLogLevel log.Level with
    | error e =>
      simp only [hl] at h
      cases h
      intro msg hm
      cases hm
    | ok logLevel =>
      cases hs : convertLogSource log.Source with
      | error e =>
        simp only [hl, hs] at h
        cases h
        intro msg hm
        cases hm
      | ok logSource =>
        simp only [hl, hs] at h
        exact ih _ err h

/-- What the log block of `UpdateJob` does on a non-empty list of logs when
the store returns a row for every successful insert of parallel arrays that
are not empty: it never reads past the rows returned, the one insert it may
make carries the arrays of the loop, and it makes no call at all when the loop
fails. -/
theorem UpdateJob.logs_cases (server : Server σ π) (parsedID : uuid.UUID)
    (request : proto.UpdateJobRequest) (w : World σ π) (hlogs : request.Logs ≠ [])
    (hpre : ∀ (insertParams : database.InsertProvisionerJobLogsParams) (db : σ)
        (rows : List database.ProvisionerJobLog),
      insertParams.CreatedAt.length = request.Logs.length →
      insertParams.Level.length = request.Logs.length →
      insertParams.Stage.length = request.Logs.length →
      insertParams.Source.length = request.Logs.length →
      insertParams.Output.length = request.Logs.length →
      (server.Database.InsertProvisionerJobLogs insertParams db).1 = .ok rows → rows ≠ []) :
    (∀ msg, (UpdateJob.logs server parsedID request w).1 ≠ some (.panic msg))
    ∧ ∃ l, (UpdateJob.logs server parsedID request w).2.trace = w.trace ++ l
      ∧ (∀ arg, Event.InsertProvisionerJobLogs arg ∈ l →
          UpdateJob.logParams { JobID := parsedID } request.Logs = .ok arg)
      ∧ ((∃ err, UpdateJob.logParams { JobID := parsedID } request.Logs = .error err) →
          l = [] ∧ ∃ err, (UpdateJob.logs server parsedID request w).1 = some err) := by
  have hlen : request.Logs.length > 0 := List.length_pos.2 hlogs
  rw [UpdateJob.logs, if_pos hlen]
  cases hp : UpdateJob.logParams { JobID := parsedID } request.Logs with
  | error err =>
    simp only []
    refine ⟨fun msg hm => ?_, [], (by simp), (fun arg harg => by cases harg),
      fun _ => ⟨rfl, err, rfl⟩⟩
    exact UpdateJob.logParams_error _ _ _ hp msg (Option.some.inj hm)
  | ok insertParams =>
    simp only [World.write, World.publish]
    obtain ⟨h1, h2, h3, levels, sources, h4, h5, h6, h7⟩ :=
      UpdateJob.logParams_arrays _ _ _ hp
    have hne : ∀ rows, (server.Database.InsertProvisionerJobLogs insertParams w.db).1 = .ok rows →
        rows ≠ [] := by
      intro rows hrows
      refine hpre insertParams w.db rows ?_ ?_ ?_ ?_ ?_ hrows
      · rw [h1]; simp
      · rw [h4]; simpa using h6.length_eq.symm
      · rw [h2]; simp
      · rw [h5]; simpa using h7.length_eq.symm
      · rw [h3]; simp
    have hone : ∀ (l : List Event) (arg : database.InsertProvisionerJobLogsParams),
        (∀ e ∈ l, e = Event.InsertProvisionerJobLogs insertParams ∨ e.isPublish = true) →
        Event.InsertProvisionerJobLogs arg ∈ l →
          (Except.ok insertParams : Except Error database.InsertProvisionerJobLogsParams)
            = .ok arg := by
      intro l arg hl harg
      rcases hl _ harg with heq | hpub
      · cases heq
        rfl
      · cases hpub
    have hnot : ¬ ∃ err, (Except.ok insertParams :
        Except Error database.InsertProvisionerJobLogsParams) = .error err := by
      rintro ⟨err, herr⟩
      cases herr
    cases hins : (server.Database.InsertProvisionerJobLogs insertParams w.db).1 with
    | error err =>
      simp only []
      refine ⟨(fun msg hm => by cases hm), [_], rfl, fun arg harg => ?_,
        fun h => absurd h hnot⟩
      exact hone _ arg (by simp) harg
    | ok logs =>
      simp only []
      cases hrows : logs with
      | nil => exact absurd hrows (hne logs hins)
      | cons first rest =>
        simp only []
        split
        · rename_i heq
          obtain ⟨-, rfl⟩ := Prod.mk.inj heq
          refine ⟨(fun msg hm => by cases hm),
            [Event.InsertProvisionerJobLogs insertParams,
              Event.Publish (ProvisionerJobLogsNotifyChannel parsedID)
                (ProvisionerJobLogsNotifyMessage.Marshal
                  { CreatedAfter := int64.wrap (first.ID - 1) })],
            (by simp [World.record]),
            fun arg harg => ?_, fun h => absurd h hnot⟩
          exact hone _ arg (by simp [Event.isPublish]) harg
        · rename_i heq
          obtain ⟨-, rfl⟩ := Prod.mk.inj heq
          refine ⟨(fun msg hm => by cases hm),
            [Event.InsertProvisionerJobLogs insertParams,
              Event.Publish (ProvisionerJobLogsNotifyChannel parsedID)
                (ProvisionerJobLogsNotifyMessage.Marshal
                  { CreatedAfter := int64.wrap (first.ID - 1) })],
            (by simp [World.record]),
            fun arg harg => ?_, fun h => absurd h hnot⟩
          exact hone _ arg (by simp [Event.isPublish]) harg

end UpdateJobLogs3
section UpdateJobLogs4

variable {σ π : Type}

/-- The readme block of `UpdateJob` makes store calls other than the insert
of logs, and its errors are returned errors. -/
theorem UpdateJob.readme_apart (env : Env σ) (server : Server σ π)
    (job : database.ProvisionerJob) (request : proto.UpdateJobRequest) (w : World σ π) :
    World.Via (fun e => e.isStoreCall = true ∧ ∀ arg, e ≠ Event.InsertProvisionerJobLogs arg)
        w (UpdateJob.readme env server job request w).2
      ∧ ∀ msg, (UpdateJob.readme env server job request w).1 ≠ some (.panic msg) := by
  unfold UpdateJob.readme
  simp only [World.write]
  split
  swap
  · exact ⟨World.Via.via_refl _ w, fun msg hm => by cases hm⟩
  split
  · rename_i heq; obtain ⟨-, rfl⟩ := Prod.mk.inj heq
    exact ⟨World.Via.via_step _ _ _ _ rfl rfl rfl ⟨rfl, fun arg h => by cases h⟩,
      fun msg hm => by cases hm⟩
  · rename_i heq; obtain ⟨-, rfl⟩ := Prod.mk.inj heq
    exact ⟨World.Via.via_step _ _ _ _ rfl rfl rfl ⟨rfl, fun arg h => by cases h⟩,
      fun msg hm => by cases hm⟩

/-- The schema loop of `UpdateJob` makes store calls other than the insert of
logs, and its errors are returned errors. -/
theorem UpdateJob.insertSchemas_apart (env : Env σ) (server : Server σ π)
    (job : database.ProvisionerJob) (schemas : List sdkproto.ParameterSchema) :
    ∀ (index : Nat) (w : World σ π),
      World.Via (fun e => e.isStoreCall = true ∧ ∀ arg, e ≠ Event.InsertProvisionerJobLogs arg)
          w (UpdateJob.insertSchemas env server job index schemas w).2
        ∧ ∀ msg, (UpdateJob.insertSchemas env server job index schemas w).1
            ≠ some (.panic msg) := by
  induction schemas with
  | nil => intro index w; exact ⟨World.Via.via_refl _ w, fun msg hm => by cases hm⟩
  | cons protoParameter rest ih =>
    intro index w
    unfold UpdateJob.insertSchemas
    simp only [World.write]
    split
    · exact ⟨World.Via.via_refl _ w, fun msg hm => by cases hm⟩
    split
    · rename_i err heq
      refine ⟨World.Via.via_same _ _ _ rfl rfl rfl, fun msg hm => ?_⟩
      obtain rfl := Option.some.inj hm
      split at heq
      · cases heq
      · split at heq
        · cases heq
        · cases heq
    split
    · rename_i err heq
      refine ⟨World.Via.via_same _ _ _ rfl rfl rfl, fun msg hm => ?_⟩
      obtain rfl := Option.some.inj hm
      split at heq
      · cases heq
      · split at heq
        · cases heq
        · cases heq
    split
    · rename_i heq; obtain ⟨-, rfl⟩ := Prod.mk.inj heq
      exact ⟨World.Via.via_step _ _ _ _ rfl rfl rfl ⟨rfl, fun arg h => by cases h⟩,
        fun msg hm => by cases hm⟩
    rename_i heq; obtain ⟨-, rfl⟩ := Prod.mk.inj heq
    refine ⟨World.Via.via_trans ?_ (ih _ _).1, (ih _ _).2⟩
    exact World.Via.via_step _ _ _ _ rfl rfl rfl ⟨rfl, fun arg h => by cases h⟩

/-- The lookup of the template id in `UpdateJob` makes store calls other than
the insert of logs, and its errors are returned errors. -/
theorem UpdateJob.templateID_apart (server : Server σ π) (job : database.ProvisionerJob)
    (w : World σ π) :
    World.Via (fun e => e.isStoreCall = true ∧ ∀ arg, e ≠ Event.InsertProvisionerJobLogs arg)
        w (UpdateJob.templateID server job w).2
      ∧ ∀ msg, (UpdateJob.templateID server job w).1 ≠ .error (.panic msg) := by
  unfold UpdateJob.templateID
  simp only [World.read]
  split
  swap
  · exact ⟨World.Via.via_refl _ w, fun msg hm => by cases hm⟩
  split
  · rename_i heq; obtain ⟨-, rfl⟩ := Prod.mk.inj heq
    exact ⟨World.Via.via_step _ _ _ _ rfl rfl rfl ⟨rfl, fun arg h => by cases h⟩,
      fun msg hm => by cases hm⟩
  · rename_i heq; obtain ⟨-, rfl⟩ := Prod.mk.inj heq
    exact ⟨World.Via.via_step _ _ _ _ rfl rfl rfl ⟨rfl, fun arg h => by cases h⟩,
      fun msg hm => by cases hm⟩

/-- The errors of the conversion of the computed parameters are returned
errors. -/
theorem UpdateJob.convertParameters_error (parameters : List parameter.ComputedValue) :
    ∀ err, UpdateJob.convertParameters parameters = .error err → ∀ msg, err ≠ .panic msg := by
  induction parameters with
  | nil =>
    intro err h
    simp only [UpdateJob.convertParameters] at h
    cases h
  | cons computedParameter rest ih =>
    intro err h
    rw [UpdateJob.convertParameters] at h
    split at h
    · cases h
      intro msg hm
      cases hm
    · split at h
      · rename_i e he
        cases h
        exact ih _ he
      · cases h

/-- The schema block of `UpdateJob` makes store calls other than the insert
of logs, and its errors are returned errors. -/
theorem UpdateJob.parameterSchemas_apart (env : Env σ) (server : Server σ π)
    (job : database.ProvisionerJob) (request : proto.UpdateJobRequest) (w : World σ π) :
    World.Via (fun e => e.isStoreCall = true ∧ ∀ arg, e ≠ Event.InsertProvisionerJobLogs arg)
        w (UpdateJob.parameterSchemas env server job request w).2
      ∧ ∀ msg, (UpdateJob.parameterSchemas env server job request w).1
          ≠ .error (.panic msg) := by
  unfold UpdateJob.parameterSchemas
  obtain ⟨h1, n1⟩ := UpdateJob.insertSchemas_apart env server job request.ParameterSchemas 0 w
  split
  · rename_i err w1 heq
    rw [heq] at h1 n1
    exact ⟨h1, fun msg hm => n1 msg (by cases hm; rfl)⟩
  rename_i w1 heq
  rw [heq] at h1
  obtain ⟨h2, n2⟩ := UpdateJob.templateID_apart server job w1
  split
  · rename_i err w2 heq
    rw [heq] at h2 n2
    exact ⟨h1.via_trans h2, fun msg hm => n2 msg (by cases hm; rfl)⟩
  rename_i w2 heq
  rw [heq] at h2
  have h12 := h1.via_trans h2
  simp only [World.read]
  split
  · rename_i heq; obtain ⟨-, rfl⟩ := Prod.mk.inj heq
    exact ⟨h12.via_record _ ⟨rfl, fun arg h => by cases h⟩, fun msg hm => by cases hm⟩
  rename_i heq; obtain ⟨-, rfl⟩ := Prod.mk.inj heq
  split
  · rename_i err herr
    exact ⟨h12.via_record _ ⟨rfl, fun arg h => by cases h⟩,
      fun msg hm => UpdateJob.convertParameters_error _ _ herr msg (by cases hm; rfl)⟩
  · exact ⟨h12.via_record _ ⟨rfl, fun arg h => by cases h⟩, fun msg hm => by cases hm⟩

end UpdateJobLogs4
section UpdateJobLogs5

variable {σ π : Type}

/-- C38: `UpdateJob` with a non-empty list of logs, over a store that returns
at least one row for every successful insert of n parallel arrays of logs,
n being the number of logs of the request.  It never reads past the rows the
store returned: no run ends in the index panic.  Every insert of logs it makes
carries five arrays of length n whose i-th entries are the time, the
converted level, the stage, the converted source and the output of the i-th
log of the request.  When some log has an unknown level or source the call
returns an error, inserts no logs and publishes nothing. -/
theorem updateJob_logs_in_range (env : Env σ) (server : Server σ π)
    (request : proto.UpdateJobRequest) (w : World σ π) (hlogs : request.Logs ≠ [])
    (hpre : ∀ (insertParams : database.InsertProvisionerJobLogsParams) (db : σ)
        (rows : List database.ProvisionerJobLog),
      insertParams.CreatedAt.length = request.Logs.length →
      insertParams.Level.length = request.Logs.length →
      insertParams.Stage.length = request.Logs.length →
      insertParams.Source.length = request.Logs.length →
      insertParams.Output.length = request.Logs.length →
      (server.Database.InsertProvisionerJobLogs insertParams db).1 = .ok rows → rows ≠ []) :
    (∀ msg, (UpdateJob env server request w).1 ≠ .error (.panic msg))
    ∧ ∃ l, (UpdateJob env server request w).2.trace = w.trace ++ l
      ∧ (∀ arg, Event.InsertProvisionerJobLogs arg ∈ l →
          arg.CreatedAt = request.Logs.map (fun log => time.FromUnixMilli log.CreatedAt)
          ∧ arg.Stage = request.Logs.map (fun log => log.Stage)
          ∧ arg.Output = request.Logs.map (fun log => log.Output)
          ∧ arg.Level.length = request.Logs.length
          ∧ arg.Source.length = request.Logs.length
          ∧ List.Forall₂ (fun log level => convertLogLevel log.Level = .ok level)
              request.Logs arg.Level
          ∧ List.Forall₂ (fun log source => convertLogSource log.Source = .ok source)
              request.Logs arg.Source)
      ∧ ((∃ log ∈ request.Logs, (∃ n, log.Level = .other n) ∨ (∃ n, log.Source = .other n)) →
          (∃ err, (UpdateJob env server request w).1 = .error err)
          ∧ ∀ e ∈ l, e.isPublish = false ∧ ∀ arg, e ≠ Event.InsertProvisionerJobLogs arg) := by
  -- a run that stops before the log block
  have hearly : ∀ (r : Except Error proto.UpdateJobResponse × World σ π) (l : List Event),
      (∃ err, r.1 = .error err ∧ ∀ msg, err ≠ .panic msg) →
      r.2.trace = w.trace ++ l →
      (∀ e ∈ l, e.isStoreCall = true ∧ ∀ arg, e ≠ Event.InsertProvisionerJobLogs arg) →
      (∀ msg, r.1 ≠ .error (.panic msg))
      ∧ ∃ l, r.2.trace = w.trace ++ l
        ∧ (∀ arg, Event.InsertProvisionerJobLogs arg ∈ l →
            arg.CreatedAt = request.Logs.map (fun log => time.FromUnixMilli log.CreatedAt)
            ∧ arg.Stage = request.Logs.map (fun log => log.Stage)
            ∧ arg.Output = request.Logs.map (fun log => log.Output)
            ∧ arg.Level.length = request.Logs.length
            ∧ arg.Source.length = request.Logs.length
            ∧ List.Forall₂ (fun log level => convertLogLevel log.Level = .ok level)
                request.Logs arg.Level
            ∧ List.Forall₂ (fun log source => convertLogSource log.Source = .ok source)
                request.Logs arg.Source)
        ∧ ((∃ log ∈ request.Logs,
              (∃ n, log.Level = .other n) ∨ (∃ n, log.Source = .other n)) →
            (∃ err, r.1 = .error err)
            ∧ ∀ e ∈ l, e.isPublish = false ∧ ∀ arg, e ≠ Event.InsertProvisionerJobLogs arg) := by
    rintro r l ⟨err, herr, hret⟩ htrace hl
    refine ⟨fun msg hm => ?_, l, htrace, fun arg harg => ?_, fun _ => ⟨⟨err, herr⟩, ?_⟩⟩
    · rw [herr] at hm
      exact hret msg (Except.error.inj hm)
    · exact absurd rfl ((hl _ harg).2 arg)
    · intro e he
      exact ⟨Event.isPublish_of_isStoreCall e (hl e he).1, (hl e he).2⟩
  -- the arrays of the loop
  have harrays : ∀ (jobID : uuid.UUID) (arg : database.InsertProvisionerJobLogsParams),
      UpdateJob.logParams { JobID := jobID } request.Logs = .ok arg →
      arg.CreatedAt = request.Logs.map (fun log => time.FromUnixMilli log.CreatedAt)
      ∧ arg.Stage = request.Logs.map (fun log => log.Stage)
      ∧ arg.Output = request.Logs.map (fun log => log.Output)
      ∧ arg.Level.length = request.Logs.length
      ∧ arg.Source.length = request.Logs.length
      ∧ List.Forall₂ (fun log level => convertLogLevel log.Level = .ok level)
          request.Logs arg.Level
      ∧ List.Forall₂ (fun log source => convertLogSource log.Source = .ok source)
          request.Logs arg.Source := by
    intro jobID arg harg
    obtain ⟨h1, h2, h3, levels, sources, h4, h5, h6, h7⟩ :=
      UpdateJob.logParams_arrays _ _ _ harg
    have h4' : arg.Level = levels := by rw [h4]; rfl
    have h5' : arg.Source = sources := by rw [h5]; rfl
    refine ⟨by rw [h1]; rfl, by rw [h2]; rfl, by rw [h3]; rfl, ?_, ?_, ?_, ?_⟩
    · rw [h4']; exact h6.length_eq.symm
    · rw [h5']; exact h7.length_eq.symm
    · rw [h4']; exact h6
    · rw [h5']; exact h7
  generalize hr : UpdateJob env server request w = r
  unfold UpdateJob at hr
  cases hid : env.uuidParse request.JobId with
  | error err =>
    simp only [hid] at hr
    subst hr
    exact hearly _ [] ⟨_, rfl, fun msg hm => by cases hm⟩ (by simp) (fun e he => by cases he)
  | ok jobID =>
  simp only [hid, World.read] at hr
  split at hr
  · rename_i heq
    obtain ⟨-, rfl⟩ := Prod.mk.inj heq
    subst hr
    exact hearly _ [Event.GetProvisionerJobByID jobID] ⟨_, rfl, fun msg hm => by cases hm⟩ rfl
      (by intro e he; simp only [List.mem_singleton] at he; subst he
          exact ⟨rfl, fun arg h => by cases h⟩)
  rename_i job w1 heq
  obtain ⟨-, rfl⟩ := Prod.mk.inj heq
  split at hr
  · subst hr
    exact hearly _ [Event.GetProvisionerJobByID jobID] ⟨_, rfl, fun msg hm => by cases hm⟩ rfl
      (by intro e he; simp only [List.mem_singleton] at he; subst he
          exact ⟨rfl, fun arg h => by cases h⟩)
  split at hr
  · subst hr
    exact hearly _ [Event.GetProvisionerJobByID jobID] ⟨_, rfl, fun msg hm => by cases hm⟩ rfl
      (by intro e he; simp only [List.mem_singleton] at he; subst he
          exact ⟨rfl, fun arg h => by cases h⟩)
  simp only [World.write] at hr
  have hpre2 : ∀ e ∈ [Event.GetProvisionerJobByID jobID,
      Event.UpdateProvisionerJobByID
        { ID := jobID, UpdatedAt := databaseNow env (w.record (.GetProvisionerJobByID jobID)) }],
      e.isStoreCall = true ∧ ∀ arg, e ≠ Event.InsertProvisionerJobLogs arg := by
    intro e he
    simp only [List.mem_cons, List.mem_singleton, List.not_mem_nil, or_false] at he
    rcases he with he | he <;> subst he <;> exact ⟨rfl, fun arg h => by cases h⟩
  split at hr
  · rename_i heq
    obtain ⟨-, rfl⟩ := Prod.mk.inj heq
    subst hr
    exact hearly _ _ ⟨_, rfl, fun msg hm => by cases hm⟩
      (by simp [World.record, World.tick]) hpre2
  rename_i u w2 heq
  obtain ⟨-, rfl⟩ := Prod.mk.inj heq
  obtain ⟨hnopanic, llogs, htrace, hargs, hfail⟩ :=
    UpdateJob.logs_cases server jobID request
      { db := (server.Database.UpdateProvisionerJobByID
            { ID := jobID, UpdatedAt := databaseNow env (w.record (.GetProvisionerJobByID jobID)) }
            (w.record (.GetProvisionerJobByID jobID)).tick.db).2,
        ps := (w.record (.GetProvisionerJobByID jobID)).tick.ps,
        lastAcquire := (w.record (.GetProvisionerJobByID jobID)).tick.lastAcquire,
        ticks := (w.record (.GetProvisionerJobByID jobID)).tick.ticks,
        minted := (w.record (.GetProvisionerJobByID jobID)).tick.minted,
        trace := (w.record (.GetProvisionerJobByID jobID)).tick.trace ++
          [Event.UpdateProvisionerJobByID
            { ID := jobID,
              UpdatedAt := databaseNow env (w.record (.GetProvisionerJobByID jobID)) }] }
      hlogs hpre
  generalize hL : UpdateJob.logs server jobID request _ = L at hr hnopanic htrace hfail
  simp only [World.record, World.tick] at htrace
  have hlate : ∀ (r : Except Error proto.UpdateJobResponse × World σ π) (lpost : List Event),
      r.2.trace = L.2.trace ++ lpost →
      (∀ e ∈ lpost, e.isStoreCall = true ∧ ∀ arg, e ≠ Event.InsertProvisionerJobLogs arg) →
      (∀ msg, r.1 ≠ .error (.panic msg)) →
      ((∃ log ∈ request.Logs, (∃ n, log.Level = .other n) ∨ (∃ n, log.Source = .other n)) →
        ∃ err, r.1 = .error err) →
      (∀ msg, r.1 ≠ .error (.panic msg))
      ∧ ∃ l, r.2.trace = w.trace ++ l
        ∧ (∀ arg, Event.InsertProvisionerJobLogs arg ∈ l →
            arg.CreatedAt = request.Logs.map (fun log => time.FromUnixMilli log.CreatedAt)
            ∧ arg.Stage = request.Logs.map (fun log => log.Stage)
            ∧ arg.Output = request.Logs.map (fun log => log.Output)
            ∧ arg.Level.length = request.Logs.length
            ∧ arg.Source.length = request.Logs.length
            ∧ List.Forall₂ (fun log level => convertLogLevel log.Level = .ok level)
                request.Logs arg.Level
            ∧ List.Forall₂ (fun log source => convertLogSource log.Source = .ok source)
                request.Logs arg.Source)
        ∧ ((∃ log ∈ request.Logs,
              (∃ n, log.Level = .other n) ∨ (∃ n, log.Source = .other n)) →
            (∃ err, r.1 = .error err)
            ∧ ∀ e ∈ l, e.isPublish = false ∧ ∀ arg, e ≠ Event.InsertProvisionerJobLogs arg) := by
    intro r lpost hrt hpost hnp hunk
    refine ⟨hnp, [Event.GetProvisionerJobByID jobID,
      Event.UpdateProvisionerJobByID
        { ID := jobID, UpdatedAt := databaseNow env (w.record (.GetProvisionerJobByID jobID)) }]
      ++ (llogs ++ lpost), ?_, ?_, ?_⟩
    · rw [hrt, htrace]
      simp only [List.append_assoc, List.singleton_append, List.cons_append, List.nil_append]
      rfl
    · intro arg harg
      rcases List.mem_append.mp harg with h | h
      · exact absurd rfl ((hpre2 _ h).2 arg)
      · rcases List.mem_append.mp h with h | h
        · exact harrays jobID arg (hargs arg h)
        · exact absurd rfl ((hpost _ h).2 arg)
    · intro hunknown
      refine ⟨hunk hunknown, ?_⟩
      obtain ⟨log, hlog, hbad⟩ := hunknown
      obtain ⟨hnil, -⟩ := hfail (UpdateJob.logParams_unknown _ log hlog hbad _)
      intro e he
      rw [hnil, List.nil_append] at he
      rcases List.mem_append.mp he with h | h
      · exact ⟨Event.isPublish_of_isStoreCall e (hpre2 e h).1, (hpre2 e h).2⟩
      · exact ⟨Event.isPublish_of_isStoreCall e (hpost e h).1, (hpost e h).2⟩
  obtain ⟨res, w3⟩ := L
  cases res with
  | some err =>
    simp only [] at hr
    subst hr
    exact hlate _ [] (by simp) (fun e he => by cases he)
      (fun msg hm => hnopanic msg (by cases hm; rfl)) (fun _ => ⟨err, rfl⟩)
  | none =>
    simp only [] at hr
    have hknown : ¬ ∃ log ∈ request.Logs,
        (∃ n, log.Level = .other n) ∨ (∃ n, log.Source = .other n) := by
      rintro ⟨log, hlog, hbad⟩
      obtain ⟨-, err, herr⟩ := hfail (UpdateJob.logParams_unknown _ log hlog hbad _)
      cases herr
    obtain ⟨hv4, n4⟩ := UpdateJob.readme_apart env server job request w3
    split at hr
    · rename_i err w4 hreadme
      rw [hreadme] at hv4 n4
      subst hr
      obtain ⟨l4, hl4, hP4⟩ := hv4.trace
      exact hlate _ l4 hl4 hP4 (fun msg hm => n4 msg (by cases hm; rfl))
        (fun h => absurd h hknown)
    rename_i w4 hreadme
    rw [hreadme] at hv4
    split at hr
    · obtain ⟨hv5, n5⟩ := UpdateJob.parameterSchemas_apart env server job request w4
      rw [hr] at hv5 n5
      obtain ⟨l5, hl5, hP5⟩ := (hv4.via_trans hv5).trace
      exact hlate _ l5 hl5 hP5 n5 (fun h => absurd h hknown)
    · subst hr
      obtain ⟨l4, hl4, hP4⟩ := hv4.trace
      exact hlate _ l4 hl4 hP4 (fun msg hm => by cases hm) (fun h => absurd h hknown)

end UpdateJobLogs5
/-- C38 at a request with two logs over the in-memory store, which returns
one row per log: the call by the owner of job j.  With a log of unknown level
the call fails, and no log row and no publication is left. -/
theorem updateJob_logs_in_range_witness :
    ((∀ msg, (UpdateJob (sampleEnv fun n => 100 + n) (sampleServer ⟨"a"⟩ 10)
        { JobId := "j",
          Logs := [{ Output := "x" },
            { Source := .PROVISIONER, Level := .INFO, CreatedAt := 5, Stage := "s",
              Output := "y" }] }
        (sampleWorld [runningJob])).1 ≠ .error (.panic msg))
    ∧ ∃ l, (UpdateJob (sampleEnv fun n => 100 + n) (sampleServer ⟨"a"⟩ 10)
        { JobId := "j",
          Logs := [{ Output := "x" },
            { Source := .PROVISIONER, Level := .INFO, CreatedAt := 5, Stage := "s",
              Output := "y" }] }
        (sampleWorld [runningJob])).2.trace = (sampleWorld [runningJob]).trace ++ l
      ∧ (∀ arg, Event.InsertProvisionerJobLogs arg ∈ l →
          arg.CreatedAt
            = ([{ Output := "x" },
                { Source := .PROVISIONER, Level := .INFO, CreatedAt := 5, Stage := "s",
                  Output := "y" }] : List proto.Log).map
                (fun log => time.FromUnixMilli log.CreatedAt)
          ∧ arg.Stage
            = ([{ Output := "x" },
                { Source := .PROVISIONER, Level := .INFO, CreatedAt := 5, Stage := "s",
                  Output := "y" }] : List proto.Log).map (fun log => log.Stage)
          ∧ arg.Output
            = ([{ Output := "x" },
                { Source := .PROVISIONER, Level := .INFO, CreatedAt := 5, Stage := "s",
                  Output := "y" }] : List proto.Log).map (fun log => log.Output)
          ∧ arg.Level.length = 2
          ∧ arg.Source.length = 2
          ∧ List.Forall₂ (fun log level => convertLogLevel log.Level = .ok level)
              ([{ Output := "x" },
                { Source := .PROVISIONER, Level := .INFO, CreatedAt := 5, Stage := "s",
                  Output := "y" }] : List proto.Log) arg.Level
          ∧ List.Forall₂ (fun log source => convertLogSource log.Source = .ok source)
              ([{ Output := "x" },
                { Source := .PROVISIONER, Level := .INFO, CreatedAt := 5, Stage := "s",
                  Output := "y" }] : List proto.Log) arg.Source)
      ∧ ((∃ log ∈ ([{ Output := "x" },
                { Source := .PROVISIONER, Level := .INFO, CreatedAt := 5, Stage := "s",
                  Output := "y" }] : List proto.Log),
            (∃ n, log.Level = .other n) ∨ (∃ n, log.Source = .other n)) →
          (∃ err, (UpdateJob (sampleEnv fun n => 100 + n) (sampleServer ⟨"a"⟩ 10)
            { JobId := "j",
              Logs := [{ Output := "x" },
                { Source := .PROVISIONER, Level := .INFO, CreatedAt := 5, Stage := "s",
                  Output := "y" }] }
            (sampleWorld [runningJob])).1 = .error err)
          ∧ ∀ e ∈ l, e.isPublish = false ∧ ∀ arg, e ≠ Event.InsertProvisionerJobLogs arg))
    ∧ (UpdateJob (sampleEnv fun n => 100 + n) (sampleServer ⟨"a"⟩ 10)
        { JobId := "j", Logs := [{ Output := "x" }, { Level := .other 9, Output := "y" }] }
        (sampleWorld [runningJob])).1
      = .error (.wrap "convert log level" (.new "unknown log level: 9"))
    ∧ (UpdateJob (sampleEnv fun n => 100 + n) (sampleServer ⟨"a"⟩ 10)
        { JobId := "j", Logs := [{ Output := "x" }, { Level := .other 9, Output := "y" }] }
        (sampleWorld [runningJob])).2.db.provisionerJobLogs = []
    ∧ (UpdateJob (sampleEnv fun n => 100 + n) (sampleServer ⟨"a"⟩ 10)
        { JobId := "j", Logs := [{ Output := "x" }, { Level := .other 9, Output := "y" }] }
        (sampleWorld [runningJob])).2.ps = [] :=
  ⟨updateJob_logs_in_range (sampleEnv fun n => 100 + n) (sampleServer ⟨"a"⟩ 10)
    { JobId := "j",
      Logs := [{ Output := "x" },
        { Source := .PROVISIONER, Level := .INFO, CreatedAt := 5, Stage := "s",
          Output := "y" }] }
    (sampleWorld [runningJob]) (by decide)
    (by
      intro insertParams db rows h1 h2 h3 h4 h5 hrows
      obtain ⟨jobID, createdAt, source, level, stage, output⟩ := insertParams
      cases createdAt with
      | nil => cases h1
      | cons c cs =>
      cases source with
      | nil => cases h4
      | cons s ss =>
      cases level with
      | nil => cases h2
      | cons v vs =>
      cases stage with
      | nil => cases h3
      | cons g gs =>
      cases output with
      | nil => cases h5
      | cons o os =>
      have hrows2 : (Except.ok (MemDB.logRows jobID (MemDB.nextLogID db) (c :: cs) (s :: ss)
          (v :: vs) (g :: gs) (o :: os)) : Except Error (List database.ProvisionerJobLog))
          = .ok rows := hrows
      cases hrows2
      simp [MemDB.logRows]), by decide⟩

section DebounceCannotApply

variable {σ π : Type}

/-- C39: when no empty acquire has been recorded (the recorded instant is the
zero time), or when `AcquireJobDebounce` is zero or negative and the clock
does not read before the recorded instant, a call of `AcquireJob` is not
debounced: it calls the store's `AcquireProvisionerJob` first, whatever the
clock reads.  And whenever the store hands out a job, the call leaves the
recorded instant as it found it. -/
theorem acquireJob_queries_when_debounce_cannot_apply (env : Env σ) (server : Server σ π)
    (w : World σ π)
    (hcannot : time.IsZero w.lastAcquire = true
      ∨ (server.AcquireJobDebounce ≤ 0 ∧ w.lastAcquire ≤ timeNow env w)) :
    AcquireJob.debounced env server w = false
    ∧ (∃ l, (AcquireJob env server w).2.trace
        = w.trace ++ Event.AcquireProvisionerJob (AcquireJob.arg env server w)
            (server.Database.AcquireProvisionerJob (AcquireJob.arg env server w) w.db).1.toOption
            :: l)
    ∧ ∀ (w0 : World σ π) (job : database.ProvisionerJob),
        (server.Database.AcquireProvisionerJob (AcquireJob.arg env server w0) w0.db).1 = .ok job →
        (AcquireJob env server w0).2.lastAcquire = w0.lastAcquire := by
  have hquery : AcquireJob.debounced env server w = false := by
    unfold AcquireJob.debounced
    rcases hcannot with hzero | ⟨hd, hafter⟩
    · simp [hzero]
    · have hsub : 0 ≤ time.Sub (timeNow env w) w.lastAcquire := by
        unfold time.Sub time.maxDuration time.minDuration
        have h0 : (0 : Int) ≤ timeNow env w - w.lastAcquire := sub_nonneg.mpr hafter
        split_ifs with h1 h2
        · norm_num
        · have h3 : (-(2 : Int) ^ 63) < 0 := by norm_num
          linarith
        · exact h0
      have hnot : ¬ time.Sub (timeNow env w) w.lastAcquire < server.AcquireJobDebounce :=
        not_lt.mpr (le_trans hd hsub)
      simp [hnot]
  refine ⟨hquery, AcquireJob.trace_of_query env server w hquery, ?_⟩
  intro w0 job hstore
  cases hq0 : AcquireJob.debounced env server w0 with
  | true =>
    rw [AcquireJob.of_debounced env server w0 hq0]
    exact AcquireJob.afterTest_lastAcquire w0
  | false =>
    rw [AcquireJob.of_acquired env server w0 job hq0 hstore]
    obtain ⟨-, -, hla, -⟩ := AcquireJob.afterAcquire_spec env server w0
    rcases AcquireJob.hydrate_cases env server job (AcquireJob.afterAcquire env server w0)
      with ⟨protoJob, w', hr, hq, -⟩ | ⟨msg, w', hr, hq⟩
    · rw [hr]
      exact hq.lastAcquire.trans hla
    · obtain ⟨-, -, fla, -⟩ :=
        AcquireJob.fail_spec (α := proto.AcquiredJob) env server job msg w'
      rw [hr, fla]
      exact hq.lastAcquire.trans hla

end DebounceCannotApply

/-- C39 at a server whose debounce interval is zero, in a world where an
empty acquire was recorded at instant 100 and the clock reads 109: the call
queries the store.  So does a call with a debounce interval of 10 in a world
with no empty acquire recorded, and the job it acquires leaves the recorded
instant at the zero time. -/
theorem acquireJob_queries_when_debounce_cannot_apply_witness :
    (AcquireJob.debounced (sampleEnv slowClock) (sampleServer ⟨"a"⟩ 0) recordedWorld = false
      ∧ (∃ l, (AcquireJob (sampleEnv slowClock) (sampleServer ⟨"a"⟩ 0) recordedWorld).2.trace
          = recordedWorld.trace ++ Event.AcquireProvisionerJob
              (AcquireJob.arg (sampleEnv slowClock) (sampleServer ⟨"a"⟩ 0) recordedWorld)
              ((sampleServer ⟨"a"⟩ 0).Database.AcquireProvisionerJob
                (AcquireJob.arg (sampleEnv slowClock) (sampleServer ⟨"a"⟩ 0) recordedWorld)
                recordedWorld.db).1.toOption
              :: l)
      ∧ ∀ (w0 : World MemDB (List (String × String))) (job : database.ProvisionerJob),
          ((sampleServer ⟨"a"⟩ 0).Database.AcquireProvisionerJob
            (AcquireJob.arg (sampleEnv slowClock) (sampleServer ⟨"a"⟩ 0) w0) w0.db).1 = .ok job →
          (AcquireJob (sampleEnv slowClock) (sampleServer ⟨"a"⟩ 0) w0).2.lastAcquire
            = w0.lastAcquire)
    ∧ (AcquireJob (sampleEnv slowClock) (sampleServer ⟨"a"⟩ 0) recordedWorld).2.trace.map
        Event.isAcquire = [true]
    ∧ (AcquireJob (sampleEnv slowClock) (sampleServer ⟨"a"⟩ 10)
        (sampleWorld [queuedJob])).2.trace.head?.map Event.isAcquire = some true
    ∧ (AcquireJob (sampleEnv slowClock) (sampleServer ⟨"a"⟩ 10)
        (sampleWorld [queuedJob])).2.lastAcquire = 0 :=
  ⟨acquireJob_queries_when_debounce_cannot_apply (sampleEnv slowClock) (sampleServer ⟨"a"⟩ 0)
      recordedWorld (Or.inr ⟨by decide, by decide⟩),
    by decide, by decide, by decide⟩

section OwnershipGuards

variable {σ π : Type}

/-- C7.  `FailJob` and `CompleteJob` called by a server that does not own the
job, on a server whose id is not the nil UUID: when the worker-id of the job
is null (it reads as the nil UUID, not valid) or is the id of another server,
both return the error "you don't own this job" and make no store write and no
publication: the world they leave is the world they found with the one query
of the job recorded. -/
theorem failJob_completeJob_not_owner (env : Env σ) (server : Server σ π)
    (failJob : proto.FailedJob) (completed : proto.CompletedJob) (w : World σ π)
    (jobID : uuid.UUID) (job : database.ProvisionerJob)
    (hid : server.ID ≠ uuid.Nil)
    (hget : server.Database.GetProvisionerJobByID jobID w.db = .ok job)
    (hown : job.WorkerID = { UUID := uuid.Nil, Valid := false }
      ∨ job.WorkerID.UUID ≠ server.ID) :
    (env.uuidParse failJob.JobId = .ok jobID →
      FailJob env server failJob w
        = (.error (.new "you don't own this job"), w.record (.GetProvisionerJobByID jobID)))
    ∧ (env.uuidParse completed.JobId = .ok jobID →
      CompleteJob env server completed w
        = (.error (.new "you don't own this job"), w.record (.GetProvisionerJobByID jobID)))
    ∧ (w.record (.GetProvisionerJobByID jobID)).db = w.db
    ∧ (w.record (.GetProvisionerJobByID jobID)).ps = w.ps
    ∧ (w.record (.GetProvisionerJobByID jobID)).trace
      = w.trace ++ [Event.GetProvisionerJobByID jobID] := by
  have hne : job.WorkerID.UUID ≠ server.ID := by
    rcases hown with h | h
    · rw [h]
      exact fun heq => hid heq.symm
    · exact h
  have hs : job.WorkerID.UUID.String ≠ server.ID.String := by
    intro h
    apply hne
    cases hu : job.WorkerID.UUID
    cases hi : server.ID
    simp_all
  refine ⟨?_, ?_, rfl, rfl, rfl⟩
  · intro hparse
    unfold FailJob
    simp [hparse, World.read, hget, hs]
  · intro hparse
    unfold CompleteJob
    simp [hparse, World.read, hget, hs]

end OwnershipGuards

/-- Witness for C7: server a calls `FailJob` and `CompleteJob` for the queued
job j, whose worker-id is null; and server b calls them for the job j that
server a runs. -/
theorem failJob_completeJob_not_owner_witness :
    (((sampleEnv fun n => 100 + n).uuidParse "j" = .ok ⟨"j"⟩ →
        FailJob (sampleEnv fun n => 100 + n) (sampleServer ⟨"a"⟩ 10)
            { JobId := "j", Error := "boom" } (sampleWorld [queuedJob])
          = (.error (.new "you don't own this job"),
              (sampleWorld [queuedJob]).record (.GetProvisionerJobByID ⟨"j"⟩)))
      ∧ ((sampleEnv fun n => 100 + n).uuidParse "j" = .ok ⟨"j"⟩ →
        CompleteJob (sampleEnv fun n => 100 + n) (sampleServer ⟨"a"⟩ 10)
            { JobId := "j", Type_ := some (.TemplateImport_ {}) } (sampleWorld [queuedJob])
          = (.error (.new "you don't own this job"),
              (sampleWorld [queuedJob]).record (.GetProvisionerJobByID ⟨"j"⟩)))
      ∧ ((sampleWorld [queuedJob]).record (.GetProvisionerJobByID ⟨"j"⟩)).db
        = (sampleWorld [queuedJob]).db
      ∧ ((sampleWorld [queuedJob]).record (.GetProvisionerJobByID ⟨"j"⟩)).ps
        = (sampleWorld [queuedJob]).ps
      ∧ ((sampleWorld [queuedJob]).record (.GetProvisionerJobByID ⟨"j"⟩)).trace
        = (sampleWorld [queuedJob]).trace ++ [Event.GetProvisionerJobByID ⟨"j"⟩])
    ∧ FailJob (sampleEnv fun n => 100 + n) (sampleServer ⟨"a"⟩ 10)
        { JobId := "j", Error := "boom" } (sampleWorld [queuedJob])
      = (.error (.new "you don't own this job"),
          { sampleWorld [queuedJob] with trace := [Event.GetProvisionerJobByID ⟨"j"⟩] })
    ∧ CompleteJob (sampleEnv fun n => 100 + n) (sampleServer ⟨"a"⟩ 10)
        { JobId := "j", Type_ := some (.TemplateImport_ {}) } (sampleWorld [queuedJob])
      = (.error (.new "you don't own this job"),
          { sampleWorld [queuedJob] with trace := [Event.GetProvisionerJobByID ⟨"j"⟩] })
    ∧ FailJob (sampleEnv fun n => 100 + n) (sampleServer ⟨"b"⟩ 10)
        { JobId := "j", Error := "boom" } (sampleWorld [runningJob])
      = (.error (.new "you don't own this job"),
          { sampleWorld [runningJob] with trace := [Event.GetProvisionerJobByID ⟨"j"⟩] })
    ∧ CompleteJob (sampleEnv fun n => 100 + n) (sampleServer ⟨"b"⟩ 10)
        { JobId := "j", Type_ := some (.TemplateImport_ {}) } (sampleWorld [runningJob])
      = (.error (.new "you don't own this job"),
          { sampleWorld [runningJob] with trace := [Event.GetProvisionerJobByID ⟨"j"⟩] }) :=
  ⟨failJob_completeJob_not_owner (sampleEnv fun n => 100 + n) (sampleServer ⟨"a"⟩ 10)
      { JobId := "j", Error := "boom" } { JobId := "j", Type_ := some (.TemplateImport_ {}) }
      (sampleWorld [queuedJob]) ⟨"j"⟩ queuedJob (by decide) (by decide) (Or.inl (by decide)),
    by decide, by decide, by decide, by decide⟩
